import Mathlib

/-!
# RMDB storage engine: B+tree index, heap file, lock manager, recovery

A shallow embedding of the C++ sources of the repository.  Stateful code is
written as explicit state passing.  A call that would fail an `assert`, read
outside a node's live entries or fetch a page that does not exist yields
`none`.
-/

namespace RMDB

/-! ## Common definitions -/

/-- The invalid page number, `INVALID_PAGE_ID`. -/
def INVALID_PAGE_ID : Int := -1

/-- Record identifier `Rid { page_no, slot_no }`. -/
structure Rid where
  page_no : Int
  slot_no : Int
  deriving DecidableEq, Repr

/-- Position inside the leaf level, `Iid { page_no, slot_no }`. -/
structure Iid where
  page_no : Int
  slot_no : Int
  deriving DecidableEq, Repr

/-! ## B+tree index (`src/index/ix_index_handle.{h,cpp}`)

Keys are the values of a single `TYPE_INT` column, for which `ix_compare`
is the three-way comparison of integers. -/

/-- Three-way comparison `ix_compare` of `ix_index_handle.h` on an INT key. -/
def ix_compare (a b : Int) : Int :=
  if a < b then -1 else if a > b then 1 else 0

/-- Root page of a newly created index, `IX_INIT_ROOT_PAGE`
(page 0 is the file header and page 1 the leaf header, see the comment on
`file_hdr_` in `ix_index_handle.h`). -/
def IX_INIT_ROOT_PAGE : Int := 2

/-- One node page: the header fields `is_leaf`, `next_leaf`, `prev_leaf` and
the first `num_key` entries of the parallel arrays `keys` and `rids`. -/
structure IxNode where
  is_leaf : Bool
  next_leaf : Int
  prev_leaf : Int
  ents : List (Int × Rid)
  deriving DecidableEq, Repr

/-- The fields of `IxFileHdr` used by the index handle. -/
structure IxFileHdr where
  root_page : Int
  first_leaf : Int
  last_leaf : Int
  num_pages : Int
  btree_order : Nat
  deriving DecidableEq, Repr

/-- The index handle together with the pages of its file.  `pages` is the
content reachable through the buffer pool, `next_page_no` the next page
number handed out by the disk manager. -/
structure IxIndexHandle where
  file_hdr : IxFileHdr
  pages : List (Int × IxNode)
  next_page_no : Int
  deriving DecidableEq, Repr

/-- The three kinds of traversal, `enum class Operation`. -/
inductive Operation where
  | FIND
  | INSERT
  | DELETE
  deriving DecidableEq, Repr

/-- Traversal context `Ctx`.  `write_` holds the page numbers of the pinned
nodes, the back of the deque first. -/
structure Ctx where
  opt : Operation
  root_page_id_ : Int
  write_ : List Int
  deriving DecidableEq, Repr

namespace IxNode

/-- Number of keys, `get_size`. -/
def get_size (n : IxNode) : Nat := n.ents.length

/-- Minimum size, `get_min_size`. -/
def get_min_size (order : Nat) (n : IxNode) : Nat :=
  if !n.is_leaf then (order + 1) / 2 else order / 2

/-- Key at an index inside the node, `get_key`. -/
def get_key (n : IxNode) (i : Int) : Option Int :=
  if i < 0 then none else (n.ents.get? i.toNat).map Prod.fst

/-- Rid at an index inside the node, `get_rid`. -/
def get_rid (n : IxNode) (i : Int) : Option Rid :=
  if i < 0 then none else (n.ents.get? i.toNat).map Prod.snd

/-- Child page number at an index, `value_at`. -/
def value_at (n : IxNode) (i : Int) : Option Int :=
  (n.get_rid i).map Rid.page_no

/-- The binary-search loop of `IxNodeHandle::lower_bound`. -/
def lower_bound_loop (n : IxNode) (target : Int) : Nat → Nat → Nat → Nat
  | 0, _, r => r
  | fuel + 1, l, r =>
    if l < r then
      let m := (l + r) / 2
      if ix_compare ((n.ents.getD m (0, ⟨0, 0⟩)).1) target ≥ 0 then
        lower_bound_loop n target fuel l m
      else
        lower_bound_loop n target fuel (m + 1) r
    else r

/-- First index whose key is at least `target`, `IxNodeHandle::lower_bound`;
the search starts at 0 in a leaf and at 1 in an internal node. -/
def lower_bound (n : IxNode) (target : Int) : Nat :=
  lower_bound_loop n target (n.get_size + 1) (if n.is_leaf then 0 else 1) n.get_size

/-- Lookup in a leaf, `IxNodeHandle::leaf_lookup`. -/
def leaf_lookup (n : IxNode) (key : Int) : Option Rid :=
  let b := n.lower_bound key
  match n.ents.get? b with
  | some (k, r) => if b ≠ n.get_size ∧ ix_compare k key = 0 then some r else none
  | none => none

/-- Child to descend into, `IxNodeHandle::internal_lookup`. -/
def internal_lookup (n : IxNode) (key : Int) : Option Int := do
  let r0 : Int := n.lower_bound key
  let r1 : Int := if r0 = n.get_size then r0 - 1 else r0
  let key_at_r ← n.get_key r1
  let r2 : Int := if ix_compare key key_at_r ≥ 0 then r1 else r1 - 1
  let rid ← n.get_rid r2
  pure rid.page_no

/-- Insertion of consecutive pairs at a position, `insert_pairs`
(and `internal_insert_pairs`, which differs only in how the rids are passed). -/
def insert_pairs (order : Nat) (n : IxNode) (pos : Nat) (ps : List (Int × Rid)) : IxNode :=
  if pos > n.get_size ∨ n.get_size + ps.length > order then n
  else { n with ents := n.ents.take pos ++ ps ++ n.ents.drop pos }

/-- Insertion of one pair, `insert_pair` and `internal_insert_pair`. -/
def insert_pair (order : Nat) (n : IxNode) (pos : Nat) (key : Int) (rid : Rid) : IxNode :=
  insert_pairs order n pos [(key, rid)]

/-- Removal of the pair at a position, `erase_pair`. -/
def erase_pair (n : IxNode) (pos : Nat) : IxNode :=
  { n with ents := n.ents.eraseIdx pos }

/-- Truncation to the first `size` entries, `set_size`. -/
def set_size (n : IxNode) (size : Nat) : IxNode :=
  { n with ents := n.ents.take size }

/-- Overwrite of the key at an index, `set_key`. -/
def set_key (n : IxNode) (i : Nat) (key : Int) : IxNode :=
  { n with ents := n.ents.modify (fun e => (key, e.2)) i }

/-- The loop of `find_child`: index of the first rid whose page is `child`. -/
def find_child_loop (child : Int) : List (Int × Rid) → Nat → Option Nat
  | [], _ => none
  | e :: es, i => if e.2.page_no = child then some i else find_child_loop child es (i + 1)

/-- Index of a child in its parent, `find_child`; the assertion fails when
the child is absent. -/
def find_child (n : IxNode) (child : Int) : Option Nat :=
  find_child_loop child n.ents 0

/-- Freshly initialised node, `Init`. -/
def Init (is_leaf : Bool) : IxNode :=
  { is_leaf := is_leaf, next_leaf := INVALID_PAGE_ID, prev_leaf := INVALID_PAGE_ID, ents := [] }

end IxNode

namespace IxIndexHandle

/-- Page lookup in the page table. -/
def lookup_page (p : Int) : List (Int × IxNode) → Option IxNode
  | [] => none
  | (q, n) :: rest => if q = p then some n else lookup_page p rest

/-- Replacement of the content of a page. -/
def store_page (p : Int) (n : IxNode) : List (Int × IxNode) → List (Int × IxNode)
  | [] => []
  | (q, m) :: rest => if q = p then (q, n) :: rest else (q, m) :: store_page p n rest

/-- Node handle for a page, `fetch_node`. -/
def fetch_node (ih : IxIndexHandle) (p : Int) : Option IxNode :=
  lookup_page p ih.pages

/-- Write through a node handle into the page it points to. -/
def put_node (ih : IxIndexHandle) (p : Int) (n : IxNode) : IxIndexHandle :=
  { ih with pages := store_page p n ih.pages }

/-- Allocation of a new node page followed by `Init`, `create_node`.  The
page receives the number `next_page_no` of the handle before the call. -/
def create_node (ih : IxIndexHandle) (is_leaf : Bool) : IxIndexHandle :=
  { file_hdr := { ih.file_hdr with num_pages := ih.file_hdr.num_pages + 1 },
    pages := ih.pages ++ [(ih.next_page_no, IxNode.Init is_leaf)],
    next_page_no := ih.next_page_no + 1 }

/-- Release of a page, `buffer_pool_manager_->delete_page` and
`--file_hdr_->num_pages_`. -/
def delete_page (ih : IxIndexHandle) (p : Int) : IxIndexHandle :=
  { ih with
    file_hdr := { ih.file_hdr with num_pages := ih.file_hdr.num_pages - 1 },
    pages := ih.pages.filter (fun e => e.1 ≠ p) }

/-- Setter `update_root_page_no`. -/
def update_root_page_no (ih : IxIndexHandle) (root : Int) : IxIndexHandle :=
  { ih with file_hdr := { ih.file_hdr with root_page := root } }

/-- Setter of `file_hdr_->last_leaf_`. -/
def set_last_leaf (ih : IxIndexHandle) (p : Int) : IxIndexHandle :=
  { ih with file_hdr := { ih.file_hdr with last_leaf := p } }

/-- Maximum size of a node, `get_max_size`. -/
def get_max_size (ih : IxIndexHandle) : Nat := ih.file_hdr.btree_order

end IxIndexHandle

namespace Ctx

/-- The lambda `release` of `Ctx::Release`: keep only the back. -/
def keep_back (c : Ctx) : Ctx :=
  { c with write_ := c.write_.take 1 }

/-- Release of the nodes that are no longer needed, `Ctx::Release`. -/
def Release (ih : IxIndexHandle) (c : Ctx) : Option Ctx :=
  match c.write_ with
  | [] => some c
  | p :: _ => do
    let back ← ih.fetch_node p
    match c.opt with
    | Operation.FIND => pure c.keep_back
    | Operation.INSERT =>
      if back.is_leaf then
        if back.get_size + 1 < ih.get_max_size then pure c.keep_back else pure c
      else
        if back.get_size + 1 ≤ ih.get_max_size then pure c.keep_back else pure c
    | Operation.DELETE =>
      if (back.get_size : Int) - 1 ≥ (back.get_min_size ih.get_max_size : Int) then
        pure c.keep_back
      else pure c

/-- Push at the back, `write_.emplace_back`. -/
def push (c : Ctx) (p : Int) : Ctx := { c with write_ := p :: c.write_ }

/-- Release of all nodes, `Ctx::Drop`. -/
def Drop (c : Ctx) : Ctx := { c with write_ := [] }

end Ctx

namespace IxIndexHandle

/-- The loop of `find_leaf_page`. -/
def find_leaf_page_loop (ih : IxIndexHandle) (key : Int) : Nat → Ctx → Option Ctx
  | 0, _ => none
  | fuel + 1, ctx =>
    match ctx.write_ with
    | [] => none
    | p :: _ => do
      let back ← ih.fetch_node p
      if back.is_leaf then pure ctx
      else do
        let next_page_id ← back.internal_lookup key
        let _ ← ih.fetch_node next_page_id
        let ctx1 ← (ctx.push next_page_id).Release ih
        find_leaf_page_loop ih key fuel ctx1

/-- Descent to the leaf responsible for a key, `find_leaf_page`.  The loop
is cut after as many steps as the file has pages. -/
def find_leaf_page (ih : IxIndexHandle) (key : Int) (ctx : Ctx) : Option Ctx := do
  let _ ← ih.fetch_node ctx.root_page_id_
  let ctx1 ← (ctx.push ctx.root_page_id_).Release ih
  find_leaf_page_loop ih key (ih.pages.length + 1) ctx1

/-- Point lookup, `get_value`: the rid stored under the key, if any. -/
def get_value (ih : IxIndexHandle) (key : Int) : Option (Option Rid) := do
  let ctx ← ih.find_leaf_page key ⟨Operation.FIND, ih.file_hdr.root_page, []⟩
  match ctx.write_ with
  | [] => none
  | p :: _ => do
    let leaf ← ih.fetch_node p
    pure (leaf.leaf_lookup key)

/-- The two halves of a full internal node in `split_internal_node`: the
entries from `left_size = get_min_size()` on move to the new node, then the
pending pair `(key, right_id)` goes into the left half when its position in
the full node is at most `left_size`, and into the new node otherwise. -/
def split_internal_halves (max_size : Nat) (node_to_update : IxNode) (key : Int)
    (right_id : Int) : IxNode × IxNode :=
  let pos_to_insert := node_to_update.lower_bound key
  let left_size := node_to_update.get_min_size max_size
  let new_node := (IxNode.Init false).insert_pairs max_size 0
    ((node_to_update.ents.drop left_size).take (max_size - left_size))
  let node_to_update := node_to_update.set_size left_size
  if pos_to_insert ≤ left_size then
    let pos := node_to_update.lower_bound key
    (node_to_update.insert_pair max_size pos key ⟨right_id, pos⟩, new_node)
  else
    let pos := new_node.lower_bound key
    (node_to_update, new_node.insert_pair max_size pos key ⟨right_id, pos⟩)

/-- The two halves of a full leaf in `split_leaf_node`: the left half keeps
`get_min_size()` pairs, one more when the order is odd; the right half
takes over the old `next_leaf` and the left half points to the right one. -/
def split_leaf_halves (max_size : Nat) (left_node : IxNode) (right_id : Int) :
    IxNode × IxNode :=
  let left_size := left_node.get_min_size max_size
  let left_size := if max_size % 2 = 0 then left_size else left_size + 1
  let right_node := (IxNode.Init true).insert_pairs max_size 0
    ((left_node.ents.drop left_size).take (max_size - left_size))
  let left_node := left_node.set_size left_size
  let right_node := { right_node with next_leaf := left_node.next_leaf }
  let left_node := { left_node with next_leaf := right_id }
  (left_node, right_node)

/-- The new root built over two nodes: `Init(false)` followed by
`internal_insert_pair(0, ...)` and `internal_insert_pair(1, ...)`. -/
def new_root_node (max_size : Nat) (k0 : Int) (left_id : Int) (k1 : Int) (right_id : Int) :
    IxNode :=
  ((IxNode.Init false).insert_pair max_size 0 k0 ⟨left_id, 0⟩).insert_pair max_size 1 k1
    ⟨right_id, 1⟩

/-- Split of an internal node, `split_internal_node`.  The back of the
context is the new right child, below it the full parent. -/
def split_internal_node : Nat → IxIndexHandle → Ctx → Option (IxIndexHandle × Ctx)
  | 0, _, _ => none
  | fuel + 1, ih, ctx =>
    match ctx.write_ with
    | right_id :: upd_id :: rest => do
      let ctx := { ctx with write_ := rest }
      let right_node ← ih.fetch_node right_id
      let node_to_update ← ih.fetch_node upd_id
      let key ← right_node.get_key 0
      let max_size := ih.get_max_size
      let new_page_id := ih.next_page_no
      let ih := ih.create_node false
      let halves := split_internal_halves max_size node_to_update key right_id
      let node_to_update := halves.1
      let new_node := halves.2
      let ih := (ih.put_node upd_id node_to_update).put_node new_page_id new_node
      if upd_id ≠ ctx.root_page_id_ then
        match ctx.write_ with
        | [] => none
        | parent_id :: _ => do
          let parent ← ih.fetch_node parent_id
          if parent.get_size = ih.get_max_size then
            let (ih, ctx) ← split_internal_node fuel ih (ctx.push new_page_id)
            pure (ih, ctx.Drop)
          else do
            let key ← new_node.get_key 0
            let pos := parent.lower_bound key
            let ih := ih.put_node parent_id (parent.insert_pair max_size pos key ⟨new_page_id, pos⟩)
            pure (ih, ctx.Drop)
      else do
        let parent_id := ih.next_page_no
        let ih := ih.create_node false
        let k0 ← node_to_update.get_key 0
        let key ← new_node.get_key 0
        let parent := new_root_node max_size k0 upd_id key new_page_id
        let ih := (ih.put_node parent_id parent).update_root_page_no parent_id
        pure (ih, { ctx with root_page_id_ := parent_id }.Drop)
    | _ => none

/-- Split of a full leaf, `split_leaf_node`.  The back of the context is the
leaf, below it (when the leaf is not the root) its parent. -/
def split_leaf_node (ih : IxIndexHandle) (ctx : Ctx) : Option (IxIndexHandle × Ctx) :=
  match ctx.write_ with
  | [] => none
  | left_id :: rest => do
    let ctx := { ctx with write_ := rest }
    let left_node ← ih.fetch_node left_id
    let max_size := ih.get_max_size
    let right_id := ih.next_page_no
    let ih := ih.create_node true
    let halves := split_leaf_halves max_size left_node right_id
    let left_node := halves.1
    let right_node := halves.2
    let ih := if ih.file_hdr.last_leaf = left_id then ih.set_last_leaf right_id else ih
    let ih := (ih.put_node left_id left_node).put_node right_id right_node
    if left_id = ctx.root_page_id_ then do
      let root_id := ih.next_page_no
      let ih := ih.create_node false
      let ih := ih.update_root_page_no root_id
      let ctx := { ctx with root_page_id_ := root_id }
      let lk ← left_node.get_key 0
      let rk ← right_node.get_key 0
      let root_node := new_root_node max_size lk left_id rk right_id
      pure (ih.put_node root_id root_node, ctx.Drop)
    else
      match ctx.write_ with
      | [] => none
      | parent_id :: _ => do
        let parent ← ih.fetch_node parent_id
        if parent.get_size = ih.get_max_size then
          split_internal_node (ctx.write_.length + 1) ih (ctx.push right_id)
        else do
          let key ← right_node.get_key 0
          let pos := parent.lower_bound key
          pure (ih.put_node parent_id (parent.insert_pair max_size pos key ⟨right_id, pos⟩), ctx)

/-- Insertion of a pair into the tree, `insert_entry`; the flag tells whether
the pair was inserted. -/
def insert_entry (ih : IxIndexHandle) (key : Int) (value : Rid) :
    Option (IxIndexHandle × Bool) := do
  let ctx ← ih.find_leaf_page key ⟨Operation.INSERT, ih.file_hdr.root_page, []⟩
  match ctx.write_ with
  | [] => none
  | p :: _ => do
    let leaf ← ih.fetch_node p
    if (leaf.leaf_lookup key).isSome then pure (ih, false)
    else do
      let pos := leaf.lower_bound key
      let leaf := leaf.insert_pair ih.get_max_size pos key value
      let ih := ih.put_node p leaf
      if leaf.get_size = ih.get_max_size then do
        let (ih, _) ← ih.split_leaf_node ctx
        pure (ih, true)
      else pure (ih, true)

/-- The sibling of a node at a position of its parent, fetched when it
exists: `value_at` followed by `fetch_node` under `if (left_exist)` or
`if (right_exist)` in `delete_entry` and `reduce_internal_node`. -/
def sibling (ih : IxIndexHandle) (exist : Bool) (parent : IxNode) (i : Int) :
    Option (Option (Int × IxNode)) :=
  if exist then
    match parent.value_at i with
    | none => none
    | some page_id =>
      match ih.fetch_node page_id with
      | none => none
      | some node => some (some (page_id, node))
  else some none

/-- Borrow of the first pair of the right sibling, `leaf_borrow_right`.
The context holds, back first: the node, its right sibling, the parent. -/
def leaf_borrow_right (ih : IxIndexHandle) (ctx : Ctx) : Option (IxIndexHandle × Ctx) :=
  match ctx.write_ with
  | node_id :: right_id :: parent_id :: rest => do
    let ctx := { ctx with write_ := rest }
    let node ← ih.fetch_node node_id
    let right_node ← ih.fetch_node right_id
    let old_key ← right_node.get_key 0
    let old_rid ← right_node.get_rid 0
    let node := node.insert_pair ih.get_max_size node.get_size old_key old_rid
    let right_node := right_node.erase_pair 0
    let ih := (ih.put_node node_id node).put_node right_id right_node
    let new_key ← right_node.get_key 0
    let node_new_key ← node.get_key 0
    let parent_node ← ih.fetch_node parent_id
    let index ← parent_node.find_child right_id
    let parent_node := parent_node.set_key index new_key
    let index ← parent_node.find_child node_id
    let parent_node := parent_node.set_key index node_new_key
    pure (ih.put_node parent_id parent_node, ctx.Drop)
  | _ => none

/-- Borrow of the last pair of the left sibling, `leaf_borrow_left`.
The context holds, back first: the node, its left sibling, the parent. -/
def leaf_borrow_left (ih : IxIndexHandle) (ctx : Ctx) : Option (IxIndexHandle × Ctx) :=
  match ctx.write_ with
  | node_id :: left_id :: parent_id :: rest => do
    let ctx := { ctx with write_ := rest }
    let node ← ih.fetch_node node_id
    let left_node ← ih.fetch_node left_id
    let last : Int := (left_node.get_size : Int) - 1
    let k ← left_node.get_key last
    let r ← left_node.get_rid last
    let node := node.insert_pair ih.get_max_size 0 k r
    let left_node := left_node.erase_pair last.toNat
    let ih := (ih.put_node node_id node).put_node left_id left_node
    let new_key ← node.get_key 0
    let parent_node ← ih.fetch_node parent_id
    let index ← parent_node.find_child node_id
    let parent_node := parent_node.set_key index new_key
    pure (ih.put_node parent_id parent_node, ctx.Drop)
  | _ => none

/-- Borrow between internal nodes from the right, `internal_borrow_right`. -/
def internal_borrow_right (ih : IxIndexHandle) (ctx : Ctx) : Option (IxIndexHandle × Ctx) :=
  match ctx.write_ with
  | node_id :: right_id :: parent_id :: rest => do
    let ctx := { ctx with write_ := rest }
    let node ← ih.fetch_node node_id
    let right_node ← ih.fetch_node right_id
    let parent_node ← ih.fetch_node parent_id
    let k ← right_node.get_key 0
    let r ← right_node.get_rid 0
    let node := node.insert_pair ih.get_max_size node.get_size k r
    let right_node := right_node.erase_pair 0
    let right_node_index ← parent_node.find_child right_id
    let pk ← parent_node.get_key right_node_index
    let node := node.set_key (node.get_size - 1) pk
    let rk ← right_node.get_key 0
    let parent_node := parent_node.set_key right_node_index rk
    let ih := ((ih.put_node node_id node).put_node right_id right_node).put_node
      parent_id parent_node
    pure (ih, ctx.Drop)
  | _ => none

/-- Borrow between internal nodes from the left, `internal_borrow_left`. -/
def internal_borrow_left (ih : IxIndexHandle) (ctx : Ctx) : Option (IxIndexHandle × Ctx) :=
  match ctx.write_ with
  | node_id :: left_id :: parent_id :: rest => do
    let ctx := { ctx with write_ := rest }
    let node ← ih.fetch_node node_id
    let left_node ← ih.fetch_node left_id
    let parent_node ← ih.fetch_node parent_id
    let last : Int := (left_node.get_size : Int) - 1
    let k ← left_node.get_key last
    let r ← left_node.get_rid last
    let node := node.insert_pair ih.get_max_size 0 k r
    let left_node := left_node.erase_pair last.toNat
    let node_index ← parent_node.find_child node_id
    let pk ← parent_node.get_key node_index
    let node := node.set_key 1 pk
    let nk ← node.get_key 0
    let parent_node := parent_node.set_key node_index nk
    let ih := ((ih.put_node node_id node).put_node left_id left_node).put_node
      parent_id parent_node
    pure (ih, ctx.Drop)
  | _ => none

/-- Merge of an internal node into its left sibling, `internal_merge_left`.
The context holds, back first: the node, its left sibling, the parent.
`reduce` stands for the call of `reduce_internal_node` at the end. -/
def internal_merge_left (reduce : IxIndexHandle → Ctx → Option (IxIndexHandle × Ctx))
    (ih : IxIndexHandle) (ctx : Ctx) : Option (IxIndexHandle × Ctx) :=
  match ctx.write_ with
  | node_id :: left_id :: parent_id :: rest => do
    let ctx := { ctx with write_ := parent_id :: rest }
    let node ← ih.fetch_node node_id
    let left_node ← ih.fetch_node left_id
    let left_size := left_node.get_size
    let left_node := left_node.insert_pairs ih.get_max_size left_size node.ents
    let ih := ih.put_node left_id left_node
    let child_id ← left_node.value_at ((left_size : Int) - 1)
    let child_node ← ih.fetch_node child_id
    let ih ← (if child_node.is_leaf then
        (left_node.value_at left_size).map
          (fun next_page_id => ih.put_node child_id { child_node with next_leaf := next_page_id })
      else some ih)
    let parent ← ih.fetch_node parent_id
    let node_index ← parent.find_child node_id
    let pk ← parent.get_key node_index
    let left_node := left_node.set_key left_size pk
    let parent := parent.erase_pair node_index
    let ih := (ih.put_node left_id left_node).put_node parent_id parent
    let ih := ih.delete_page node_id
    if parent.get_size < parent.get_min_size ih.get_max_size then reduce ih ctx
    else pure (ih, ctx)
  | _ => none

/-- Repair of an internal node that fell below its minimum,
`reduce_internal_node`.  The back of the context is the node, below it its
parent. -/
def reduce_internal_node : Nat → IxIndexHandle → Ctx → Option (IxIndexHandle × Ctx)
  | 0, _, _ => none
  | fuel + 1, ih, ctx =>
    match ctx.write_ with
    | [] => none
    | node_id :: rest => do
      let ctx := { ctx with write_ := rest }
      let node ← ih.fetch_node node_id
      if node_id = ctx.root_page_id_ then
        if node.get_size = 1 then do
          let root_page_id ← node.value_at 0
          let ih := ih.update_root_page_no root_page_id
          let ctx := { ctx with root_page_id_ := root_page_id }
          let ih := if root_page_id = IX_INIT_ROOT_PAGE then
              { ih with file_hdr := { ih.file_hdr with
                  first_leaf := root_page_id, last_leaf := root_page_id } }
            else ih
          pure (ih.delete_page node_id, ctx)
        else pure (ih, ctx)
      else
        match ctx.write_ with
        | [] => none
        | parent_id :: _ => do
          let parent ← ih.fetch_node parent_id
          let index ← parent.find_child node_id
          let left_exist := index ≠ 0
          let right_exist := index + 1 ≠ parent.get_size
          let left ← ih.sibling left_exist parent ((index : Int) - 1)
          let borrow_left := match left with
            | some (_, left_node) => decide (left_node.get_size > left_node.get_min_size ih.get_max_size)
            | none => false
          match left, borrow_left with
          | some (left_page_id, _), true =>
            ih.internal_borrow_left ((ctx.push left_page_id).push node_id)
          | _, _ => do
            let merge_to_left := match left with
              | some (_, left_node) => decide (left_node.get_size + node.get_size ≤ ih.get_max_size)
              | none => false
            let right ← ih.sibling right_exist parent ((index : Int) + 1)
            let borrow_right := match right with
              | some (_, right_node) =>
                decide (right_node.get_size > right_node.get_min_size ih.get_max_size)
              | none => false
            match right, borrow_right with
            | some (right_page_id, _), true =>
              ih.internal_borrow_right ((ctx.push right_page_id).push node_id)
            | _, _ =>
              let merge_to_right := match right with
                | some (_, right_node) =>
                  decide (right_node.get_size + node.get_size ≤ ih.get_max_size)
                | none => false
              match left, merge_to_left, right, merge_to_right with
              | some (left_page_id, _), true, _, _ =>
                internal_merge_left (reduce_internal_node fuel) ih
                  ((ctx.push left_page_id).push node_id)
              | _, _, some (right_page_id, _), true =>
                internal_merge_left (reduce_internal_node fuel) ih
                  ((ctx.push node_id).push right_page_id)
              | _, _, _, _ => pure (ih, ctx)

/-- Merge of a leaf into its left sibling, `leaf_merge_left`.  The context
holds, back first: the node, its left sibling, the parent. -/
def leaf_merge_left (ih : IxIndexHandle) (ctx : Ctx) : Option (IxIndexHandle × Ctx) :=
  match ctx.write_ with
  | node_id :: left_id :: parent_id :: rest => do
    let ctx := { ctx with write_ := parent_id :: rest }
    let node ← ih.fetch_node node_id
    let left_node ← ih.fetch_node left_id
    let parent ← ih.fetch_node parent_id
    let index ← parent.find_child node_id
    let parent := parent.erase_pair index
    let left_size := left_node.get_size
    let left_node := left_node.insert_pairs ih.get_max_size left_size node.ents
    let left_node := { left_node with next_leaf := node.next_leaf }
    let ih := (ih.put_node parent_id parent).put_node left_id left_node
    let ih := if ih.file_hdr.last_leaf = node_id then ih.set_last_leaf left_id else ih
    let ih := ih.delete_page node_id
    if parent.get_size < parent.get_min_size ih.get_max_size then
      reduce_internal_node (ctx.write_.length + 1) ih ctx
    else pure (ih, ctx)
  | _ => none

/-- Removal of the pair with the given key, `delete_entry`; the flag tells
whether a pair was removed. -/
def delete_entry (ih : IxIndexHandle) (key : Int) : Option (IxIndexHandle × Bool) := do
  let ctx ← ih.find_leaf_page key ⟨Operation.DELETE, ih.file_hdr.root_page, []⟩
  match ctx.write_ with
  | [] => none
  | node_id :: rest => do
    let ctx := { ctx with write_ := rest }
    let node ← ih.fetch_node node_id
    if (node.leaf_lookup key).isNone then pure (ih, false)
    else do
      let pos := node.lower_bound key
      let node := node.erase_pair pos
      let ih := ih.put_node node_id node
      if node_id = ctx.root_page_id_ then
        if node.get_size = 0 then
          pure ({ ih with file_hdr := { ih.file_hdr with
                    root_page := IX_INIT_ROOT_PAGE, first_leaf := IX_INIT_ROOT_PAGE,
                    last_leaf := IX_INIT_ROOT_PAGE } }, true)
        else pure (ih, true)
      else if node.get_size < node.get_min_size ih.get_max_size then
        match ctx.write_ with
        | [] => none
        | parent_id :: _ => do
          let parent ← ih.fetch_node parent_id
          let node_index ← parent.find_child node_id
          let right_exist := node_index + 1 < parent.get_size
          let left_exist := node_index ≠ 0
          let left ← ih.sibling left_exist parent ((node_index : Int) - 1)
          let borrow_left := match left with
            | some (_, left_node) => decide (left_node.get_size > left_node.get_min_size ih.get_max_size)
            | none => false
          match left, borrow_left with
          | some (left_page_id, _), true => do
            let (ih, _) ← ih.leaf_borrow_left ((ctx.push left_page_id).push node_id)
            pure (ih, true)
          | _, _ => do
            let merge_to_left := match left with
              | some (_, left_node) => decide (node.get_size + left_node.get_size < ih.get_max_size)
              | none => false
            let right ← ih.sibling right_exist parent ((node_index : Int) + 1)
            let borrow_right := match right with
              | some (_, right_node) =>
                decide (right_node.get_size > right_node.get_min_size ih.get_max_size)
              | none => false
            match right, borrow_right with
            | some (right_page_id, _), true => do
              let (ih, _) ← ih.leaf_borrow_right ((ctx.push right_page_id).push node_id)
              pure (ih, true)
            | _, _ =>
              let merge_to_right := match right with
                | some (_, right_node) =>
                  decide (node.get_size + right_node.get_size < ih.get_max_size)
                | none => false
              match left, merge_to_left, right, merge_to_right with
              | some (left_page_id, _), true, _, _ => do
                let (ih, _) ← ih.leaf_merge_left ((ctx.push left_page_id).push node_id)
                pure (ih, true)
              | _, _, some (right_page_id, _), true => do
                let (ih, _) ← ih.leaf_merge_left ((ctx.push node_id).push right_page_id)
                pure (ih, true)
              | _, _, _, _ => pure (ih, true)
      else pure (ih, true)

/-- End position of a scan, `leaf_end`. -/
def leaf_end (ih : IxIndexHandle) : Option Iid :=
  if ih.file_hdr.last_leaf = INVALID_PAGE_ID then some ⟨-1, 0⟩
  else do
    let node ← ih.fetch_node ih.file_hdr.last_leaf
    pure ⟨ih.file_hdr.last_leaf, node.get_size⟩

/-- Start position of a scan at a key, `leaf_begin(char* key)`. -/
def leaf_begin (ih : IxIndexHandle) (key : Int) : Option Iid := do
  let ctx ← ih.find_leaf_page key ⟨Operation.FIND, ih.file_hdr.root_page, []⟩
  match ctx.write_ with
  | [] => none
  | p :: _ => do
    let leaf ← ih.fetch_node p
    let pos := leaf.lower_bound key
    if pos = leaf.get_size then ih.leaf_end
    else pure ⟨p, pos⟩

/-- Modelled from the spec: an index right after its creation.  The file is
written by `IxManager::create_index`, which is not among the sources; the
header page described by the spec has `IX_INIT_ROOT_PAGE` as the root of an
empty index, and `is_empty` of `ix_index_handle.h` tests for that page as root
and first leaf.  The root is taken as an empty leaf with the link fields that
`Init` gives, and the leaf header page (page 1) named in the comment on
`file_hdr_` is left out: no function modelled here reads it. -/
def empty (order : Nat) : IxIndexHandle :=
  { file_hdr := { root_page := IX_INIT_ROOT_PAGE, first_leaf := IX_INIT_ROOT_PAGE,
                  last_leaf := IX_INIT_ROOT_PAGE, num_pages := 3, btree_order := order },
    pages := [(IX_INIT_ROOT_PAGE, IxNode.Init true)],
    next_page_no := 3 }

end IxIndexHandle

end RMDB

namespace RMDB

/-! ## Specification of the B+tree claims -/

/-- Child page numbers of a node. -/
def IxNode.children (n : IxNode) : List Int := n.ents.map (fun e => e.2.page_no)

/-- Existence of a path of a given length from a page down to a leaf. -/
inductive LeafPath (ih : IxIndexHandle) : Int → Nat → Prop
  | leaf (p : Int) (n : IxNode) : ih.fetch_node p = some n → n.is_leaf = true → LeafPath ih p 0
  | step (p : Int) (n : IxNode) (c : Int) (d : Nat) : ih.fetch_node p = some n →
      n.is_leaf = false → c ∈ n.children → LeafPath ih c d → LeafPath ih p (d + 1)

/-- Every root-to-leaf path has the same length. -/
def Balanced (ih : IxIndexHandle) : Prop :=
  ∀ d1 d2, LeafPath ih ih.file_hdr.root_page d1 → LeafPath ih ih.file_hdr.root_page d2 → d1 = d2

/-- Local consistency of a page with a height labelling. -/
def NodeOK (next : Int) (ht : Int → Nat) (p : Int) (n : IxNode) : Prop :=
  (n.is_leaf = true → ht p = 0) ∧
  (n.is_leaf = false → 0 < ht p ∧ ∀ c ∈ n.children, c < next ∧ ht p = ht c + 1)

/-- Consistency of all pages with a height labelling. -/
def PInv (pages : List (Int × IxNode)) (next : Int) (ht : Int → Nat) : Prop :=
  ∀ p n, (p, n) ∈ pages → p < next ∧ NodeOK next ht p n

/-- Consistency of the pages of an index with a height labelling. -/
def HInv (ih : IxIndexHandle) (ht : Int → Nat) : Prop := PInv ih.pages ih.next_page_no ht

/-- The relation between consecutive pages of a traversal context. -/
def ChainR (ht : Int → Nat) (c p : Int) : Prop := ht p = ht c + 1

/-- What the descent guarantees about a context. -/
def CtxOK (ih : IxIndexHandle) (ht : Int → Nat) (l : List Int) : Prop :=
  List.Chain' (ChainR ht) l ∧ ∀ p ∈ l, p < ih.next_page_no

/-- One call on the index: `insert_entry(key, rid)` or `delete_entry(key)`. -/
inductive IxOp where
  | insert (key : Int) (rid : Rid)
  | delete (key : Int)
  deriving DecidableEq, Repr

/-- Result of one call, with the flag it returns. -/
def apply_op (ih : IxIndexHandle) : IxOp → Option (IxIndexHandle × Bool)
  | IxOp.insert key rid => ih.insert_entry key rid
  | IxOp.delete key => ih.delete_entry key

/-- State after a sequence of calls, each of which returns. -/
def apply_ops : IxIndexHandle → List IxOp → Option IxIndexHandle
  | ih, [] => some ih
  | ih, op :: ops =>
    match apply_op ih op with
    | none => none
    | some (ih1, _) => apply_ops ih1 ops

end RMDB

namespace RMDB

/-! ## Index scan -/

/-- Modelled from the spec: the iterator `IxScan` of `index/ix_scan.h`,
which is not among the sources.  The spec says: "An `IxScan` iterator is
constructed from a starting `Iid` and an end `Iid`.  It yields the Rid at
the current position, advances within the leaf, and on exhaustion follows
`next_leaf`." -/
structure IxScan where
  iid_ : Iid
  end_ : Iid
  deriving DecidableEq, Repr

namespace IxScan

/-- Modelled from the spec: the scan is over when the current position is
the end position. -/
def is_end (s : IxScan) : Bool := s.iid_ = s.end_

/-- Modelled from the spec: the entry (key and Rid) at the current
position. -/
def entry (ih : IxIndexHandle) (s : IxScan) : Option (Int × Rid) := do
  let node ← ih.fetch_node s.iid_.page_no
  if s.iid_.slot_no < 0 then none else node.ents.get? s.iid_.slot_no.toNat

/-- Modelled from the spec: one advance.  The position moves one slot on
inside the leaf; when the leaf is exhausted and the position is not the end
position, it moves to slot 0 of `next_leaf`. -/
def next (ih : IxIndexHandle) (s : IxScan) : Option IxScan := do
  let node ← ih.fetch_node s.iid_.page_no
  let moved : Iid := ⟨s.iid_.page_no, s.iid_.slot_no + 1⟩
  if moved = s.end_ then pure ⟨moved, s.end_⟩
  else if moved.slot_no = (node.get_size : Int) then pure ⟨⟨node.next_leaf, 0⟩, s.end_⟩
  else pure ⟨moved, s.end_⟩

/-- The entries a scan yields until it is over, `none` when it is not over
after `fuel` advances or leaves the pages of the index. -/
def collect (ih : IxIndexHandle) : Nat → IxScan → Option (List (Int × Rid))
  | 0, _ => none
  | fuel + 1, s =>
    if s.is_end then some []
    else do
      let e ← s.entry ih
      let s1 ← s.next ih
      let rest ← collect ih fuel s1
      pure (e :: rest)

end IxScan

/-- The range scan of the index from `leaf_begin(key)` to `leaf_end()`. -/
def IxIndexHandle.scan_from (ih : IxIndexHandle) (key : Int) (fuel : Nat) :
    Option (List (Int × Rid)) := do
  let b ← ih.leaf_begin key
  let e ← ih.leaf_end
  IxScan.collect ih fuel ⟨b, e⟩

end RMDB

namespace RMDB

/-! ## Runs of insertions on an index -/

/-- The calls `insert_entry(k, (1, i))` for the keys of a list, where `i`
counts the keys from `i0` on: the rows of a table that holds the keys in
this order in its first heap page. -/
def insert_ops_from : Nat → List Int → List IxOp
  | _, [] => []
  | i, k :: ks => IxOp.insert k ⟨1, i⟩ :: insert_ops_from (i + 1) ks

/-- An index has only pages with at least `k` entries besides its root. -/
def IxIndexHandle.non_root_sizes_ge (ih : IxIndexHandle) (k : Nat) : Bool :=
  ih.pages.all (fun pn => decide (pn.1 = ih.file_hdr.root_page) || decide (k ≤ pn.2.get_size))

end RMDB

namespace RMDB

/-! ## Shape of the tree: separators, minimum sizes, leaf links -/

/-- The separator invariant of the specification: in every internal node
the key stored at a position is the first key of the child at that
position. -/
def SeparatorInvariant (ih : IxIndexHandle) : Prop :=
  ∀ p n, ih.fetch_node p = some n → n.is_leaf = false →
    ∀ i k r, n.ents.get? i = some (k, r) →
      ∃ c, ih.fetch_node r.page_no = some c ∧ c.get_key 0 = some k

/-- The calls that fill two leaves of a tree of order 4 and then delete the
first key of the second leaf. -/
def delete_first_key_run : List IxOp :=
  insert_ops_from 0 [10, 20, 30, 40, 50] ++ [IxOp.delete 30]

/-- The minimum size as the specification words it: the floor of `m / 2`
for a leaf and the ceiling of `(m + 1) / 2` for an internal node. -/
def spec_min_size (m : Nat) (is_leaf : Bool) : Nat :=
  if is_leaf then ⌊(m : ℚ) / 2⌋₊ else ⌈((m : ℚ) + 1) / 2⌉₊

/-- The leaves are doubly linked: one leaf is the next of another exactly
when the other is its previous one. -/
def DoublyLinked (ih : IxIndexHandle) : Prop :=
  ∀ p1 p2 L1 L2, ih.fetch_node p1 = some L1 → ih.fetch_node p2 = some L2 →
    L1.is_leaf = true → L2.is_leaf = true → (L1.next_leaf = p2 ↔ L2.prev_leaf = p1)

/-- Every node has the `prev_leaf` that `Init` gives, `INVALID_PAGE_ID`, or
one that `Q` allows for its page. -/
def PrevLeafKept (Q : Int → Int → Prop) (ih : IxIndexHandle) : Prop :=
  ∀ p n, (p, n) ∈ ih.pages → n.prev_leaf = INVALID_PAGE_ID ∨ Q p n.prev_leaf

/-- An index whose root, an empty leaf on page 2, is linked in both
directions with a leaf header on page 1. -/
def header_linked_root : IxIndexHandle :=
  { file_hdr := { root_page := 2, first_leaf := 2, last_leaf := 2, num_pages := 3,
                  btree_order := 4 },
    pages := [(2, ⟨true, 1, 1, []⟩)],
    next_page_no := 3 }

/-- The tree after the insertion of 10, 20, 30, 40 into `header_linked_root`:
the leaf on page 2 has split off the leaf on page 3. -/
def header_linked_tree : IxIndexHandle :=
  { file_hdr := { root_page := 4, first_leaf := 2, last_leaf := 3, num_pages := 5,
                  btree_order := 4 },
    pages := [(2, ⟨true, 3, 1, [(10, ⟨1, 0⟩), (20, ⟨1, 1⟩)]⟩),
              (3, ⟨true, 1, -1, [(30, ⟨1, 2⟩), (40, ⟨1, 3⟩)]⟩),
              (4, ⟨false, -1, -1, [(10, ⟨2, 0⟩), (30, ⟨3, 1⟩)]⟩)],
    next_page_no := 5 }

/-- The tree that `delete_first_key_run` leaves: two leaves on pages 2 and 3
under the root on page 4. -/
def stale_tree : IxIndexHandle :=
  { file_hdr := { root_page := 4, first_leaf := 2, last_leaf := 3, num_pages := 5,
                  btree_order := 4 },
    pages := [(2, ⟨true, 3, -1, [(10, ⟨1, 0⟩), (20, ⟨1, 1⟩)]⟩),
              (3, ⟨true, -1, -1, [(40, ⟨1, 3⟩), (50, ⟨1, 4⟩)]⟩),
              (4, ⟨false, -1, -1, [(10, ⟨2, 0⟩), (30, ⟨3, 1⟩)]⟩)],
    next_page_no := 5 }

/-- The tree after the insertion of 10, 20, 30, 40 into an index of order 4:
the leaf on page 2 has split off the leaf on page 3. -/
def two_leaf_tree : IxIndexHandle :=
  { file_hdr := { root_page := 4, first_leaf := 2, last_leaf := 3, num_pages := 5,
                  btree_order := 4 },
    pages := [(2, ⟨true, 3, -1, [(10, ⟨1, 0⟩), (20, ⟨1, 1⟩)]⟩),
              (3, ⟨true, -1, -1, [(30, ⟨1, 2⟩), (40, ⟨1, 3⟩)]⟩),
              (4, ⟨false, -1, -1, [(10, ⟨2, 0⟩), (30, ⟨3, 1⟩)]⟩)],
    next_page_no := 5 }

end RMDB
namespace RMDB

/-! ## Page guards of the B+tree nodes (`src/storage/page_guard.{h,cpp}`) -/

/-- A `PageGuard`: whether it holds a buffer pool (`bpm_ != nullptr`), the
number of its page, and the flag `is_dirty_`. -/
structure PageGuard where
  bpm_ : Bool
  page_ : Int
  is_dirty_ : Bool
  deriving DecidableEq, Repr

/-- One call `unpin_page(page_id, is_dirty)` of the buffer pool manager. -/
structure Unpin where
  page_no : Int
  is_dirty : Bool
  deriving DecidableEq, Repr

namespace PageGuard

/-- The constructor `PageGuard(bpm, page)`: `is_dirty_` starts as false. -/
def new (page_no : Int) : PageGuard := ⟨true, page_no, false⟩

/-- The call `get_data`, which sets `is_dirty_` before it returns the
bytes of the page. -/
def get_data (g : PageGuard) : PageGuard := { g with is_dirty_ := true }

/-- The call `set_dirty`, which forwards to `page_->set_dirty` and leaves
the guard as it is. -/
def set_dirty (g : PageGuard) (_ : Bool) : PageGuard := g

/-- The move constructor: the new guard takes over the three fields. -/
def move (that : PageGuard) : PageGuard := ⟨that.bpm_, that.page_, that.is_dirty_⟩

/-- The call `Drop`, also made by the destructor: the page is unpinned with
`is_dirty_` when the guard holds a buffer pool. -/
def Drop (g : PageGuard) : List Unpin :=
  if g.bpm_ then [⟨g.page_, g.is_dirty_⟩] else []

end PageGuard

/-- Modelled from the spec: `BufferPoolManager::FetchPageBasic`, which pins
the page and returns a guard built over it; the buffer pool manager is not
among the sources. -/
def FetchPageBasic (page_no : Int) : PageGuard := PageGuard.new page_no

/-- The guard inside a node handle after the constructor `IxNodeHandle`:
the guard is moved in and `get_data` is called for `page_hdr` and for
`keys`. -/
def IxNodeHandle.new (page_ : PageGuard) : PageGuard :=
  (PageGuard.move page_).get_data.get_data

namespace IxIndexHandle

/-- The guard of the node handle that `fetch_node` returns. -/
def fetch_node_guard (page_no : Int) : PageGuard :=
  IxNodeHandle.new (FetchPageBasic page_no)

/-- The calls of `unpin_page` when a context that held `guards` (the back
first) keeps its `keep` newest nodes: the erased handles are destroyed from
the front of the deque on. -/
def released (guards : List PageGuard) (keep : Nat) : List Unpin :=
  ((guards.drop keep).reverse.map PageGuard.Drop).flatten

/-- The loop of `find_leaf_page` with the guards of the pinned nodes and
the calls of `unpin_page` made so far. -/
def find_leaf_page_loop_traced (ih : IxIndexHandle) (key : Int) :
    Nat → Ctx → List PageGuard → List Unpin → Option (Ctx × List PageGuard × List Unpin)
  | 0, _, _, _ => none
  | fuel + 1, ctx, guards, unpins =>
    match ctx.write_ with
    | [] => none
    | p :: _ => do
      let back ← ih.fetch_node p
      if back.is_leaf then pure (ctx, guards, unpins)
      else do
        let next_page_id ← back.internal_lookup key
        let _ ← ih.fetch_node next_page_id
        let guards1 := fetch_node_guard next_page_id :: guards
        let ctx1 ← (ctx.push next_page_id).Release ih
        find_leaf_page_loop_traced ih key fuel ctx1 (guards1.take ctx1.write_.length)
          (unpins ++ released guards1 ctx1.write_.length)

/-- The call `find_leaf_page` with the guards and the calls of
`unpin_page`. -/
def find_leaf_page_traced (ih : IxIndexHandle) (key : Int) (ctx : Ctx) :
    Option (Ctx × List PageGuard × List Unpin) := do
  let _ ← ih.fetch_node ctx.root_page_id_
  let guards1 := [fetch_node_guard ctx.root_page_id_]
  let ctx1 ← (ctx.push ctx.root_page_id_).Release ih
  find_leaf_page_loop_traced ih key (ih.pages.length + 1) ctx1
    (guards1.take ctx1.write_.length) (released guards1 ctx1.write_.length)

/-- The call `get_value` with the calls of `unpin_page` it makes: those of
the descent, then those of the destructor of the context. -/
def get_value_traced (ih : IxIndexHandle) (key : Int) : Option (Option Rid × List Unpin) := do
  let s ← ih.find_leaf_page_traced key ⟨Operation.FIND, ih.file_hdr.root_page, []⟩
  match s.1.write_ with
  | [] => none
  | p :: _ => do
    let leaf ← ih.fetch_node p
    pure (leaf.leaf_lookup key, s.2.2 ++ released s.2.1 0)

/-- The call `leaf_begin(key)` with the calls of `unpin_page` it makes. -/
def leaf_begin_traced (ih : IxIndexHandle) (key : Int) : Option (Iid × List Unpin) := do
  let s ← ih.find_leaf_page_traced key ⟨Operation.FIND, ih.file_hdr.root_page, []⟩
  match s.1.write_ with
  | [] => none
  | p :: _ => do
    let leaf ← ih.fetch_node p
    let pos := leaf.lower_bound key
    if pos = leaf.get_size then do
      let e ← ih.leaf_end
      let last := if ih.file_hdr.last_leaf = INVALID_PAGE_ID then []
        else (fetch_node_guard ih.file_hdr.last_leaf).Drop
      pure (e, s.2.2 ++ last ++ released s.2.1 0)
    else pure (⟨p, pos⟩, s.2.2 ++ released s.2.1 0)

end IxIndexHandle

end RMDB
namespace RMDB

/-! ## Heap file (`src/record/rm_file_handle.cpp`, `src/record/rm_scan.cpp`) -/

/-- The sentinel `RM_NO_PAGE`. -/
def RM_NO_PAGE : Int := -1

/-- Number of the first data page, `RM_FIRST_RECORD_PAGE` (page 0 is the
file header). -/
def RM_FIRST_RECORD_PAGE : Int := 1

/-- Payload of a record: the values of its columns. -/
abbrev RmRecord := List Int

/-- How a call ends when it does not return: with a thrown `RMDBError`
(`PageNotExistError`, `RecordNotFoundError`), which a caller may catch, or
with a failed `assert` or an access outside the page, which ends the
process. -/
inductive Fault where
  | thrown
  | crashed
  deriving DecidableEq, Repr

/-- Modelled from the spec: the helper class `Bitmap` of `record/bitmap.h`,
which is not among the sources.  A bitmap is the list of its bits; a
position outside the list reads as clear and a write to it is lost. -/
def Bitmap.is_set (bm : List Bool) (pos : Int) : Bool :=
  if pos < 0 then false else bm.getD pos.toNat false

/-- Modelled from the spec: `Bitmap::set`. -/
def Bitmap.set (bm : List Bool) (pos : Int) : List Bool :=
  if pos < 0 then bm else bm.set pos.toNat true

/-- Modelled from the spec: `Bitmap::reset`. -/
def Bitmap.reset (bm : List Bool) (pos : Int) : List Bool :=
  if pos < 0 then bm else bm.set pos.toNat false

/-- Modelled from the spec: the loop of `Bitmap::next_bit`, which runs over
the positions `i, i + 1, ...` below `max_n` and stops at the first one whose
bit equals `bit`; `fuel` bounds the number of positions looked at. -/
def Bitmap.next_bit_loop (bit : Bool) (bm : List Bool) (max_n : Nat) : Nat → Nat → Nat
  | 0, _ => max_n
  | fuel + 1, i =>
    if i < max_n then
      if bm.getD i false = bit then i else Bitmap.next_bit_loop bit bm max_n fuel (i + 1)
    else max_n

/-- Modelled from the spec: `Bitmap::next_bit(bit, bm, max_n, curr)`, the
first position after `curr` and below `max_n` whose bit equals `bit`, and
`max_n` when there is none. -/
def Bitmap.next_bit (bit : Bool) (bm : List Bool) (max_n : Int) (curr : Int) : Int :=
  Bitmap.next_bit_loop bit bm max_n.toNat (max_n.toNat + 1) (curr + 1).toNat

/-- Modelled from the spec: `Bitmap::first_bit(bit, bm, max_n)`. -/
def Bitmap.first_bit (bit : Bool) (bm : List Bool) (max_n : Int) : Int :=
  Bitmap.next_bit bit bm max_n (-1)

/-- Number of set bits of a bitmap. -/
def Bitmap.popcount (bm : List Bool) : Nat := bm.count true

/-- File header of a heap file, `RmFileHdr`. -/
structure RmFileHdr where
  record_size : Nat
  num_pages : Int
  num_records_per_page : Nat
  bitmap_size : Nat
  first_free_page_no : Int
  deriving DecidableEq, Repr

/-- A data page: page header `{next_free_page_no, num_records}`, bitmap and
slots. -/
structure RmPage where
  next_free_page_no : Int
  num_records : Int
  bitmap : List Bool
  slots : List RmRecord
  deriving DecidableEq, Repr

/-- A heap file: header and data pages, each under its page number. -/
structure RmFileHandle where
  file_hdr : RmFileHdr
  pages : List (Int × RmPage)
  deriving DecidableEq, Repr

namespace RmFileHandle

/-- Page lookup in the page table. -/
def lookup_page (p : Int) : List (Int × RmPage) → Option RmPage
  | [] => none
  | (q, pg) :: rest => if q = p then some pg else lookup_page p rest

/-- Replacement of the content of a page. -/
def store_page (p : Int) (pg : RmPage) : List (Int × RmPage) → List (Int × RmPage)
  | [] => []
  | (q, old) :: rest => if q = p then (q, pg) :: rest else (q, old) :: store_page p pg rest

/-- Write through a page handle into its page. -/
def put_page (fh : RmFileHandle) (p : Int) (pg : RmPage) : RmFileHandle :=
  { fh with pages := store_page p pg fh.pages }

/-- Page handle of a page, `fetch_page_handle`: throws `PageNotExistError`
for `INVALID_PAGE_ID`, for a number above `num_pages` and for a page the
buffer pool does not deliver. -/
def fetch_page_handle (fh : RmFileHandle) (page_no : Int) : Except Fault RmPage :=
  if page_no = INVALID_PAGE_ID ∨ page_no > fh.file_hdr.num_pages then Except.error Fault.thrown
  else
    match lookup_page page_no fh.pages with
    | none => Except.error Fault.thrown
    | some pg => Except.ok pg

/-- A new empty page at the end of the file, `create_new_page_handle`; the
page gets the number `num_pages` and becomes the head of the free list. -/
def create_new_page_handle (fh : RmFileHandle) : RmFileHandle × Int :=
  let page_no := fh.file_hdr.num_pages
  ({ file_hdr := { fh.file_hdr with first_free_page_no := page_no,
                                    num_pages := fh.file_hdr.num_pages + 1 },
     pages := fh.pages ++ [(page_no,
       { next_free_page_no := RM_NO_PAGE, num_records := 0,
         bitmap := List.replicate (8 * fh.file_hdr.bitmap_size) false,
         slots := List.replicate fh.file_hdr.num_records_per_page [] })] }, page_no)

/-- A page with free space, `create_page_handle`: the head of the free list
or, when the list is empty, a new page. -/
def create_page_handle (fh : RmFileHandle) : Except Fault (RmFileHandle × Int) :=
  if fh.file_hdr.first_free_page_no = RM_NO_PAGE then Except.ok fh.create_new_page_handle
  else
    match lookup_page fh.file_hdr.first_free_page_no fh.pages with
    | none => Except.error Fault.crashed
    | some _ => Except.ok (fh, fh.file_hdr.first_free_page_no)

/-- Lookup of a record, `get_record`. -/
def get_record (fh : RmFileHandle) (rid : Rid) : Except Fault RmRecord :=
  match fh.fetch_page_handle rid.page_no with
  | Except.error e => Except.error e
  | Except.ok ph =>
    if !Bitmap.is_set ph.bitmap rid.slot_no then Except.error Fault.thrown
    else Except.ok (ph.slots.getD rid.slot_no.toNat [])

/-- The check `is_record` used by the transaction manager. -/
def is_record (fh : RmFileHandle) (rid : Rid) : Except Fault Bool :=
  match fh.fetch_page_handle rid.page_no with
  | Except.error e => Except.error e
  | Except.ok ph => Except.ok (Bitmap.is_set ph.bitmap rid.slot_no)

/-- Insertion at a position chosen by the file, `insert_record(buf)`. -/
def insert_record (fh : RmFileHandle) (buf : RmRecord) : Except Fault (RmFileHandle × Rid) :=
  match fh.create_page_handle with
  | Except.error e => Except.error e
  | Except.ok (fh1, page_no) =>
    match lookup_page page_no fh1.pages with
    | none => Except.error Fault.crashed
    | some ph =>
      let slot_no := Bitmap.first_bit false ph.bitmap fh1.file_hdr.num_records_per_page
      if ¬ slot_no < (fh1.file_hdr.num_records_per_page : Int) then Except.error Fault.crashed
      else
        let ph1 := { ph with bitmap := Bitmap.set ph.bitmap slot_no,
                             num_records := ph.num_records + 1 }
        let fh2 : RmFileHandle :=
          if ph1.num_records = (fh1.file_hdr.num_records_per_page : Int) then
            { fh1 with file_hdr := { fh1.file_hdr with
                first_free_page_no := ph1.next_free_page_no } }
          else fh1
        let ph2 := { ph1 with slots := ph1.slots.set slot_no.toNat buf }
        Except.ok (fh2.put_page page_no ph2, ⟨page_no, slot_no⟩)

/-- Insertion at a given position, `insert_record(rid, buf)`. -/
def insert_record_at (fh : RmFileHandle) (rid : Rid) (buf : RmRecord) :
    Except Fault RmFileHandle :=
  match fh.fetch_page_handle rid.page_no with
  | Except.error e => Except.error e
  | Except.ok ph =>
    if Bitmap.is_set ph.bitmap rid.slot_no then Except.error Fault.crashed
    else
      let ph1 := { ph with slots := ph.slots.set rid.slot_no.toNat buf }
      let ph2 := { ph1 with bitmap := Bitmap.set ph1.bitmap rid.slot_no,
                            num_records := ph1.num_records + 1 }
      let fh1 := fh.put_page rid.page_no ph2
      if ph2.num_records = (fh1.file_hdr.num_records_per_page : Int) then
        let fh2 := fh1.create_new_page_handle.1
        Except.ok { fh2 with file_hdr := { fh2.file_hdr with
          first_free_page_no := Bitmap.first_bit false ph2.bitmap fh2.file_hdr.num_pages } }
      else Except.ok fh1

/-- Update of the free list when a full page gets a free slot,
`release_page_handle`. -/
def release_page_handle (fh : RmFileHandle) (page_no : Int) (ph : RmPage) :
    RmFileHandle × RmPage :=
  if ph.num_records = (fh.file_hdr.num_records_per_page : Int) then
    ({ fh with file_hdr := { fh.file_hdr with first_free_page_no := page_no } },
     { ph with next_free_page_no := fh.file_hdr.first_free_page_no })
  else (fh, ph)

/-- Removal of a record, `delete_record`. -/
def delete_record (fh : RmFileHandle) (rid : Rid) : Except Fault RmFileHandle :=
  match fh.fetch_page_handle rid.page_no with
  | Except.error e => Except.error e
  | Except.ok ph =>
    if !Bitmap.is_set ph.bitmap rid.slot_no then Except.error Fault.crashed
    else
      let ph1 := { ph with bitmap := Bitmap.reset ph.bitmap rid.slot_no }
      let released :=
        if ph1.num_records = (fh.file_hdr.num_records_per_page : Int) then
          fh.release_page_handle rid.page_no ph1
        else (fh, ph1)
      let ph2 := { released.2 with num_records := released.2.num_records - 1 }
      Except.ok (released.1.put_page rid.page_no ph2)

/-- Overwrite of a record in place, `update_record`. -/
def update_record (fh : RmFileHandle) (rid : Rid) (buf : RmRecord) :
    Except Fault RmFileHandle :=
  match fh.fetch_page_handle rid.page_no with
  | Except.error e => Except.error e
  | Except.ok ph =>
    if !Bitmap.is_set ph.bitmap rid.slot_no then Except.error Fault.crashed
    else Except.ok (fh.put_page rid.page_no { ph with slots := ph.slots.set rid.slot_no.toNat buf })

/-- A newly created heap file: the header page only, an empty free list. -/
def create (record_size num_records_per_page bitmap_size : Nat) : RmFileHandle :=
  { file_hdr := { record_size := record_size, num_pages := 1,
                  num_records_per_page := num_records_per_page, bitmap_size := bitmap_size,
                  first_free_page_no := RM_NO_PAGE },
    pages := [] }

end RmFileHandle

/-- State of a scan, `RmScan`: the current position `rid_`. -/
structure RmScan where
  rid_ : Rid
  deriving DecidableEq, Repr

namespace RmScan

/-- Modelled from the spec: `RmScan::is_end` of `rm_scan.h`, which is not
among the sources; `next` sets `page_no` to `RM_NO_PAGE` at the end of the
file. -/
def is_end (s : RmScan) : Bool := s.rid_.page_no = RM_NO_PAGE

/-- The loop of `RmScan::next` over the pages from the current one on. -/
def next_loop (fh : RmFileHandle) : Nat → Rid → Except Fault Rid
  | 0, _ => Except.error Fault.crashed
  | fuel + 1, rid =>
    if rid.page_no < fh.file_hdr.num_pages then
      match fh.fetch_page_handle rid.page_no with
      | Except.error e => Except.error e
      | Except.ok ph =>
        let slot_no := Bitmap.next_bit true ph.bitmap fh.file_hdr.num_records_per_page rid.slot_no
        if slot_no < (fh.file_hdr.num_records_per_page : Int) then Except.ok ⟨rid.page_no, slot_no⟩
        else next_loop fh fuel ⟨rid.page_no + 1, -1⟩
    else Except.ok ⟨RM_NO_PAGE, -1⟩

/-- Advance to the next stored record, `RmScan::next`.  The loop visits
each page at most once, so `num_pages + 1` rounds are enough. -/
def next (fh : RmFileHandle) (s : RmScan) : Except Fault RmScan :=
  if s.is_end then Except.error Fault.crashed
  else
    match next_loop fh (fh.file_hdr.num_pages.toNat + 1) s.rid_ with
    | Except.error e => Except.error e
    | Except.ok rid => Except.ok ⟨rid⟩

/-- Constructor `RmScan::RmScan`: position before the first slot of the
first data page, followed by `next`. -/
def new (fh : RmFileHandle) : Except Fault RmScan :=
  next fh ⟨⟨RM_FIRST_RECORD_PAGE, -1⟩⟩

/-- The positions a scan visits from a state on until `is_end`, in the
order of the visits: the loop `for (...; !scan.is_end(); scan.next())`. -/
def visit (fh : RmFileHandle) : Nat → RmScan → Except Fault (List Rid)
  | 0, _ => Except.error Fault.crashed
  | fuel + 1, s =>
    if s.is_end then Except.ok []
    else
      match next fh s with
      | Except.error e => Except.error e
      | Except.ok s1 =>
        match visit fh fuel s1 with
        | Except.error e => Except.error e
        | Except.ok rest => Except.ok (s.rid_ :: rest)

/-- All positions visited by a scan from its construction on. -/
def visit_all (fh : RmFileHandle) (fuel : Nat) : Except Fault (List Rid) :=
  match new fh with
  | Except.error e => Except.error e
  | Except.ok s => visit fh fuel s

end RmScan

end RMDB
namespace RMDB

/-- Heap integrity of one page: the record counter of the page header equals
the number of set bits, and the bitmap has a bit for every slot. -/
def RmPage.Counted (n : Nat) (pg : RmPage) : Prop :=
  pg.num_records = (Bitmap.popcount pg.bitmap : Int) ∧ n ≤ pg.bitmap.length

/-- Heap integrity of a file: the bitmap of a page has room for every slot,
and every page is counted. -/
def RmFileHandle.Integrity (fh : RmFileHandle) : Prop :=
  fh.file_hdr.num_records_per_page ≤ 8 * fh.file_hdr.bitmap_size ∧
  ∀ p pg, (p, pg) ∈ fh.pages → RmPage.Counted fh.file_hdr.num_records_per_page pg

/-- The states of a heap file reachable from its creation through
`insert_record(buf)`, `insert_record(rid, buf)` at a slot of the page,
`delete_record` and `update_record`, each call returning normally. -/
inductive RmFileHandle.Reachable (rs n bs : Nat) : RmFileHandle → Prop
  | create : Reachable rs n bs (RmFileHandle.create rs n bs)
  | insert_record (fh fh1 : RmFileHandle) (buf : RmRecord) (rid : Rid) :
      Reachable rs n bs fh → fh.insert_record buf = Except.ok (fh1, rid) → Reachable rs n bs fh1
  | insert_record_at (fh fh1 : RmFileHandle) (rid : Rid) (buf : RmRecord) :
      Reachable rs n bs fh → 0 ≤ rid.slot_no →
      rid.slot_no < (fh.file_hdr.num_records_per_page : Int) →
      fh.insert_record_at rid buf = Except.ok fh1 → Reachable rs n bs fh1
  | delete_record (fh fh1 : RmFileHandle) (rid : Rid) :
      Reachable rs n bs fh → fh.delete_record rid = Except.ok fh1 → Reachable rs n bs fh1
  | update_record (fh fh1 : RmFileHandle) (rid : Rid) (buf : RmRecord) :
      Reachable rs n bs fh → fh.update_record rid buf = Except.ok fh1 → Reachable rs n bs fh1

/-- The set slots of a bitmap among the last `k` positions below `n`, in
increasing order. -/
def Bitmap.set_slots (bm : List Bool) (n : Nat) : Nat → List Nat
  | 0 => []
  | k + 1 => if bm.getD (n - (k + 1)) false = true then (n - (k + 1)) :: Bitmap.set_slots bm n k
             else Bitmap.set_slots bm n k

/-- The stored positions of a page after slot `cur`, in increasing order. -/
def RmFileHandle.page_after (fh : RmFileHandle) (p : Int) (cur : Int) : List Rid :=
  match RmFileHandle.lookup_page p fh.pages with
  | none => []
  | some pg =>
    List.map (fun s : Nat => Rid.mk p (s : Int))
      (Bitmap.set_slots pg.bitmap fh.file_hdr.num_records_per_page
        (fh.file_hdr.num_records_per_page - (cur + 1).toNat))

/-- The stored positions of `c` consecutive pages from page `p` on. -/
def RmFileHandle.live_from (fh : RmFileHandle) : Nat → Int → List Rid
  | 0, _ => []
  | c + 1, p => fh.page_after p (-1) ++ RmFileHandle.live_from fh c (p + 1)

/-- The stored positions after slot `cur` of page `p`, when `c` pages remain
from page `p` on, in scan order. -/
def RmFileHandle.after (fh : RmFileHandle) : Nat → Int → Int → List Rid
  | 0, _, _ => []
  | c + 1, p, cur => fh.page_after p cur ++ RmFileHandle.live_from fh c (p + 1)

/-- All stored positions of a file, in scan order. -/
def RmFileHandle.live_rids (fh : RmFileHandle) : List Rid :=
  fh.live_from (fh.file_hdr.num_pages - 1).toNat RM_FIRST_RECORD_PAGE

/-- A position holds a record: it lies on a data page of the file and its
bit is set. -/
def RmFileHandle.Live (fh : RmFileHandle) (r : Rid) : Prop :=
  RM_FIRST_RECORD_PAGE ≤ r.page_no ∧ r.page_no < fh.file_hdr.num_pages ∧
  0 ≤ r.slot_no ∧ r.slot_no < (fh.file_hdr.num_records_per_page : Int) ∧
  ∃ pg, RmFileHandle.lookup_page r.page_no fh.pages = some pg ∧
    Bitmap.is_set pg.bitmap r.slot_no = true

/-- Scan order: by page number, then by slot number. -/
def Rid.lt (a b : Rid) : Prop :=
  a.page_no < b.page_no ∨ (a.page_no = b.page_no ∧ a.slot_no < b.slot_no)

/-- Every data page below `num_pages` is present in the file. -/
def RmFileHandle.PagesPresent (fh : RmFileHandle) : Prop :=
  ∀ p, RM_FIRST_RECORD_PAGE ≤ p → p < fh.file_hdr.num_pages →
    ∃ pg, RmFileHandle.lookup_page p fh.pages = some pg

/-- The file a call returned, or `fh` when the call did not return. -/
def RmFileHandle.result_or (fh : RmFileHandle) : Except Fault RmFileHandle → RmFileHandle
  | Except.ok fh1 => fh1
  | Except.error _ => fh

/-- An example run, step 1: a record is inserted into a new file with two
slots per page. -/
def heap_step1 : RmFileHandle :=
  (RmFileHandle.create 1 2 1).result_or
    (((RmFileHandle.create 1 2 1).insert_record [5]).map Prod.fst)

/-- An example run, step 2: a second record fills the page. -/
def heap_step2 : RmFileHandle :=
  heap_step1.result_or ((heap_step1.insert_record [6]).map Prod.fst)

/-- An example run, step 3: a third record goes to a second page. -/
def heap_step3 : RmFileHandle :=
  heap_step2.result_or ((heap_step2.insert_record [7]).map Prod.fst)

/-- An example run, step 4: the first record is deleted. -/
def heap_step4 : RmFileHandle :=
  heap_step3.result_or (heap_step3.delete_record ⟨1, 0⟩)

/-- An example run, step 5: the second record is overwritten. -/
def heap_step5 : RmFileHandle :=
  heap_step4.result_or (heap_step4.update_record ⟨1, 1⟩ [8])

/-- An example run, step 6: a record is put back at the freed position. -/
def heap_step6 : RmFileHandle :=
  heap_step5.result_or (heap_step5.insert_record_at ⟨1, 0⟩ [9])

/-- An example run, step 7: the record of the second page is deleted. -/
def heap_step7 : RmFileHandle :=
  heap_step6.result_or (heap_step6.delete_record ⟨2, 0⟩)

end RMDB

namespace RMDB

/-! ## Heap file: shape of a file and an example page with one free slot -/

/-- Shape of a heap file: a page has at least one slot, the bitmap of a page
has room for every slot, the file has its header page, and every data page
has a number below `num_pages`, a bit and a slot for every slot number. -/
def RmFileHandle.Shaped (fh : RmFileHandle) : Prop :=
  0 < fh.file_hdr.num_records_per_page ∧
  fh.file_hdr.num_records_per_page ≤ 8 * fh.file_hdr.bitmap_size ∧
  1 ≤ fh.file_hdr.num_pages ∧
  ∀ p pg, (p, pg) ∈ fh.pages →
    p < fh.file_hdr.num_pages ∧ fh.file_hdr.num_records_per_page ≤ pg.bitmap.length ∧
    fh.file_hdr.num_records_per_page ≤ pg.slots.length

/-- An example file with four slots per page after one insertion. -/
def heap_four1 : RmFileHandle :=
  (RmFileHandle.create 1 4 1).result_or
    (((RmFileHandle.create 1 4 1).insert_record [5]).map Prod.fst)

/-- The example file with four slots per page after two insertions. -/
def heap_four2 : RmFileHandle :=
  heap_four1.result_or ((heap_four1.insert_record [6]).map Prod.fst)

/-- The example file with four slots per page after three insertions: page 1
is the head of the free list, its last slot is free. -/
def heap_four3 : RmFileHandle :=
  heap_four2.result_or ((heap_four2.insert_record [7]).map Prod.fst)

end RMDB

namespace RMDB

open RmFileHandle

/-! ## Heap file: validity of the free list -/

/-- A page that exists and has a clear bit among its `n` slots. -/
def has_clear_slot (n : Nat) : Option RmPage → Bool
  | none => false
  | some pg => (List.range n).any (fun i => !Bitmap.is_set pg.bitmap i)

/-- Free-list validity as the specification words it: `first_free_page_no`
is `RM_NO_PAGE`, or the number of an existing data page below `num_pages`
that has a clear slot. -/
def RmFileHandle.FreeListValid (fh : RmFileHandle) : Prop :=
  fh.file_hdr.first_free_page_no = RM_NO_PAGE ∨
  (1 ≤ fh.file_hdr.first_free_page_no ∧ fh.file_hdr.first_free_page_no < fh.file_hdr.num_pages ∧
    has_clear_slot fh.file_hdr.num_records_per_page
      (lookup_page fh.file_hdr.first_free_page_no fh.pages) = true)

instance (fh : RmFileHandle) : Decidable fh.FreeListValid := by
  unfold RmFileHandle.FreeListValid; infer_instance

/-- A file with two slots per page after one insertion. -/
def heap_two1 : RmFileHandle :=
  (RmFileHandle.create 1 2 1).result_or
    (((RmFileHandle.create 1 2 1).insert_record [1]).map Prod.fst)

/-- The file with two slots per page after two insertions: page 1 is full. -/
def heap_two2 : RmFileHandle :=
  heap_two1.result_or ((heap_two1.insert_record [2]).map Prod.fst)

/-- The file with two slots per page after three insertions. -/
def heap_two3 : RmFileHandle :=
  heap_two2.result_or ((heap_two2.insert_record [3]).map Prod.fst)

/-- The file with two slots per page after four insertions: the pages 1 and
2 are full and the free list is empty. -/
def heap_two4 : RmFileHandle :=
  heap_two3.result_or ((heap_two3.insert_record [4]).map Prod.fst)

/-- The file after the deletion of the record at (1, 0): page 1 is the head
of the free list. -/
def heap_two5 : RmFileHandle :=
  heap_two4.result_or (heap_two4.delete_record ⟨1, 0⟩)

/-- The file after `insert_record(rid, buf)` at the free slot (1, 0). -/
def heap_two6 : RmFileHandle :=
  heap_two5.result_or (heap_two5.insert_record_at ⟨1, 0⟩ [9])

end RMDB
/-! ## Lock manager: the request queue of one table -/

namespace RMDB

/-- Modelled from the spec: the lock modes S and X; the declaration of
`LockMode` is in a header that is not among the sources. -/
inductive LockMode
  | SHARED
  | EXCLUSIVE
  deriving DecidableEq, Repr

/-- Modelled from the spec: the transaction id that stands for no
transaction; its declaration is not among the sources. -/
def INVALID_TXN_ID : Int := -1

/-- A lock request, `LockRequest`. -/
structure LockRequest where
  txn_id_ : Int
  lock_mode_ : LockMode
  deriving DecidableEq, Repr

/-- The queue of one table, `LockRequestQueue`: the pending requests
`request_queue_`, the upgrading transaction `upgrading_`, and the granted
requests `locked_requests_` by transaction id. -/
structure LockRequestQueue where
  request_queue_ : List LockRequest
  upgrading_ : Int
  locked_requests_ : List (Int × LockRequest)
  deriving DecidableEq, Repr

/-- How a call of the lock manager ends: `granted` is `return true`,
`refused` is `return false`, `waiting` is a transaction blocked on the
condition variable, `thrown` is a `TransactionAbortException`. -/
inductive LockResult
  | granted
  | refused
  | waiting
  | thrown
  deriving DecidableEq, Repr

namespace LockRequestQueue

/-- A newly made queue, `std::make_shared<LockRequestQueue>()`. -/
def empty : LockRequestQueue :=
  { request_queue_ := [], upgrading_ := INVALID_TXN_ID, locked_requests_ := [] }

/-- The lookup `locked_requests_[txn_id]` of a present key. -/
def locked_lookup (q : LockRequestQueue) (txn_id : Int) : Option LockRequest :=
  (q.locked_requests_.find? (fun e => e.1 = txn_id)).map Prod.snd

/-- The call `locked_requests_.erase(txn_id)`. -/
def locked_erase (q : LockRequestQueue) (txn_id : Int) : List (Int × LockRequest) :=
  q.locked_requests_.filter (fun e => e.1 ≠ txn_id)

/-- The call `locked_requests_.insert({txn_id, request})`, which leaves the
map as it is when the key is present. -/
def locked_insert (q : LockRequestQueue) (txn_id : Int) (request : LockRequest) :
    List (Int × LockRequest) :=
  if q.locked_requests_.any (fun e => e.1 = txn_id) then q.locked_requests_
  else q.locked_requests_ ++ [(txn_id, request)]

/-- Removal of the request of a transaction from `request_queue_`
(`std::find` followed by `erase`); a request is identified by its
transaction. -/
def erase_request : List LockRequest → Int → List LockRequest
  | [], _ => []
  | r :: rest, txn_id => if r.txn_id_ = txn_id then rest else r :: erase_request rest txn_id

end LockRequestQueue

namespace LockManager

open LockRequestQueue

/-- The check `LockManager::IsCompatible`: every granted request, and every
pending request in front of `cur_req`, is SHARED, and so is `l1`. -/
def IsCompatible (l1 : LockMode) (q : LockRequestQueue) (cur_req : Int) : Bool :=
  q.locked_requests_.all
    (fun e => decide (l1 = LockMode.SHARED ∧ e.2.lock_mode_ = LockMode.SHARED)) &&
  (q.request_queue_.takeWhile (fun r => decide (r.txn_id_ ≠ cur_req))).all
    (fun r => decide (l1 = LockMode.SHARED ∧ r.lock_mode_ = LockMode.SHARED))

/-- The part of `lock_on_table` from the test of `locked_requests_.empty()`
to the wait: the request is granted at once or joins the pending
requests. -/
def grant_or_enqueue (q : LockRequestQueue) (txn_id : Int) (new_request : LockRequest) :
    LockRequestQueue × LockResult :=
  if q.locked_requests_.isEmpty ∧ (q.upgrading_ = txn_id ∨ q.request_queue_.isEmpty) then
    ({ q with upgrading_ := if q.upgrading_ = txn_id then INVALID_TXN_ID else q.upgrading_,
              locked_requests_ := q.locked_insert txn_id new_request }, LockResult.granted)
  else
    ({ q with request_queue_ :=
        if q.upgrading_ = txn_id then new_request :: q.request_queue_
        else q.request_queue_ ++ [new_request] }, LockResult.waiting)

/-- The first part of `lock_on_table`, up to the wait on the condition
variable.  `txn_aborted` is the state of the transaction at the call;
`none` is the use of a null request. -/
def lock_on_table_request (q : LockRequestQueue) (txn_id : Int) (lock_mode : LockMode)
    (txn_aborted : Bool) : Option (LockRequestQueue × LockResult) :=
  if txn_aborted then some (q, LockResult.refused)
  else
    match q.locked_lookup txn_id with
    | some request =>
      if request.lock_mode_ = lock_mode ∨ request.lock_mode_ = LockMode.EXCLUSIVE then
        some (q, LockResult.granted)
      else if q.upgrading_ ≠ INVALID_TXN_ID then some (q, LockResult.thrown)
      else
        some (grant_or_enqueue
          { q with upgrading_ := txn_id, locked_requests_ := q.locked_erase txn_id }
          txn_id { request with lock_mode_ := lock_mode })
    | none =>
      if q.upgrading_ = txn_id then none
      else some (grant_or_enqueue q txn_id ⟨txn_id, lock_mode⟩)

/-- The second part of `lock_on_table`: one evaluation of the predicate of
the wait by a transaction with a pending request, and what follows it.
`txn_aborted` is the state of the transaction, which the deadlock detection
sets; `none` is `front()` of an empty list. -/
def lock_on_table_wake (q : LockRequestQueue) (txn_id : Int) (lock_mode : LockMode)
    (txn_aborted : Bool) : Option (LockRequestQueue × LockResult) :=
  if txn_aborted then
    some ({ q with request_queue_ := erase_request q.request_queue_ txn_id,
                   upgrading_ := if q.upgrading_ = txn_id then INVALID_TXN_ID
                                 else q.upgrading_ }, LockResult.refused)
  else
    match q.request_queue_ with
    | [] => none
    | front :: _ =>
      if !IsCompatible front.lock_mode_ q front.txn_id_ then some (q, LockResult.waiting)
      else if !IsCompatible lock_mode q txn_id then some (q, LockResult.waiting)
      else
        some ({ q with
          upgrading_ := if q.upgrading_ = txn_id then INVALID_TXN_ID else q.upgrading_,
          request_queue_ := if q.upgrading_ = txn_id then q.request_queue_.tail
                            else erase_request q.request_queue_ txn_id,
          locked_requests_ := q.locked_insert txn_id ⟨txn_id, lock_mode⟩ },
          LockResult.granted)

/-- The call `LockManager::unlock` on the queue of the table;
`in_lock_set` tells whether the lock set of the transaction holds the
table. -/
def unlock (q : LockRequestQueue) (txn_id : Int) (in_lock_set : Bool) :
    LockRequestQueue × LockResult :=
  if !in_lock_set then (q, LockResult.thrown)
  else ({ q with locked_requests_ := q.locked_erase txn_id }, LockResult.granted)

end LockManager

/-- The states of the queue of a table reachable through `lock_on_table`
(its first part, and the wake-ups of waiting transactions, among them those
of a transaction aborted by the deadlock detection) and `unlock`. -/
inductive LockRequestQueue.Reachable : LockRequestQueue → Prop
  | init : Reachable LockRequestQueue.empty
  | request (q q1 : LockRequestQueue) (txn_id : Int) (lock_mode : LockMode) (ab : Bool)
      (res : LockResult) : Reachable q →
      LockManager.lock_on_table_request q txn_id lock_mode ab = some (q1, res) → Reachable q1
  | wake (q q1 : LockRequestQueue) (txn_id : Int) (lock_mode : LockMode) (ab : Bool)
      (res : LockResult) : Reachable q →
      LockManager.lock_on_table_wake q txn_id lock_mode ab = some (q1, res) → Reachable q1
  | unlock (q : LockRequestQueue) (txn_id : Int) (b : Bool) : Reachable q →
      Reachable (LockManager.unlock q txn_id b).1

/-- Granted locks are compatible: every one is SHARED, or there is at most
one. -/
def LockRequestQueue.Exclusion (q : LockRequestQueue) : Prop :=
  (∀ e ∈ q.locked_requests_, e.2.lock_mode_ = LockMode.SHARED) ∨ q.locked_requests_.length ≤ 1

/-- An example state: transaction 3 holds an EXCLUSIVE lock, transaction 4
waits for a SHARED lock. -/
def lock_example : LockRequestQueue :=
  { request_queue_ := [⟨4, LockMode.SHARED⟩], upgrading_ := INVALID_TXN_ID,
    locked_requests_ := [(3, ⟨3, LockMode.EXCLUSIVE⟩)] }

end RMDB

namespace RMDB

/-! ## Deadlock detection: the search for a cycle in the wait-for graph -/

namespace LockManager

/-- The wait-for graph `waits_for_`: the transactions a transaction waits
for; a transaction is looked up at its first entry. -/
abbrev WaitsFor := List (Int × List Int)

/-- The lookup `waits_for_[t]` after the test `waits_for_.count(t)`. -/
def waits_for_lookup (g : WaitsFor) (t : Int) : Option (List Int) :=
  (g.find? (fun e => e.1 = t)).map Prod.snd

/-- The loop of `FindCycle` over `to_txns`; `call` is the recursive call.
The result is the value returned and the set `on_path`, which is passed by
reference; `none` when the recursion is cut short. -/
def find_cycle_loop (call : Int → List Int → Option (Bool × List Int)) :
    List Int → List Int → Option (Bool × List Int)
  | [], on_path => some (false, on_path)
  | txn_id :: rest, on_path =>
    if txn_id ∈ on_path then some (true, on_path)
    else
      match call txn_id (txn_id :: on_path) with
      | none => none
      | some (true, p) => some (true, p)
      | some (false, p) => find_cycle_loop call rest (p.erase txn_id)

/-- The search `LockManager::FindCycle`; `fuel` bounds the depth of the
recursion. -/
def FindCycle (g : WaitsFor) : Nat → Int → List Int → Option (Bool × List Int)
  | 0, _, _ => none
  | fuel + 1, source_txn, on_path =>
    match waits_for_lookup g source_txn with
    | none => some (false, on_path)
    | some to_txns => find_cycle_loop (FindCycle g fuel) to_txns on_path

/-- The transactions with an entry in the graph in ascending order,
`source_txns` after `std::sort`. -/
def source_txns (g : WaitsFor) : List Int :=
  (g.map Prod.fst).insertionSort (fun a b => a ≤ b)

/-- The loop of `HasCycle` over the sources: `some none` is `return false`,
`some (some id)` is `return true` with `*txn_id = id`. -/
def has_cycle_loop (g : WaitsFor) (fuel : Nat) : List Int → Option (Option Int)
  | [] => some none
  | src_txn_id :: rest =>
    match FindCycle g fuel src_txn_id [src_txn_id] with
    | none => none
    | some (true, on_path) => some (some (on_path.foldl (fun m id => max id m) INVALID_TXN_ID))
    | some (false, _) => has_cycle_loop g fuel rest

/-- The check `LockManager::HasCycle`. -/
def HasCycle (g : WaitsFor) (fuel : Nat) : Option (Option Int) :=
  has_cycle_loop g fuel (source_txns g)

/-- An edge of the wait-for graph. -/
def Edge (g : WaitsFor) (a b : Int) : Prop :=
  ∃ l, waits_for_lookup g a = some l ∧ b ∈ l

/-- The graph contains a directed cycle: some transaction reaches itself
along one or more edges. -/
def HasDirectedCycle (g : WaitsFor) : Prop :=
  ∃ a, Relation.TransGen (Edge g) a a

/-- A transaction lies on a cycle of the graph. -/
def OnCycle (g : WaitsFor) (a : Int) : Prop := Relation.TransGen (Edge g) a a

/-- What the search from `v` with the path `P` looks for: a walk from `v`
that leaves the path and comes back to it or to itself. -/
inductive Hit (g : WaitsFor) : List Int → Int → Prop
  | back (P : List Int) (v w : Int) : Edge g v w → w ∈ P → Hit g P v
  | deeper (P : List Int) (v w : Int) : Edge g v w → Hit g (w :: P) w → Hit g P v

/-- The entries of the graph whose transaction is not on the path. -/
def off_path (g : WaitsFor) (P : List Int) : Nat :=
  (g.filter (fun e => decide (e.1 ∉ P))).length

/-- A wait-for graph in which transaction 3 waits for a cycle without being
on it. -/
def waits_tail : WaitsFor := [(0, [3]), (3, [1]), (1, [2]), (2, [1])]

/-- The wait-for graph of two transactions that wait for each other. -/
def waits_pair : WaitsFor := [(1, [2]), (2, [1])]

end LockManager

end RMDB
/-! ## Recovery manager: redo and undo over the log of one table and one index -/

namespace RMDB

/-- Modelled from the spec: the log sequence number that stands for no log
record; its declaration is not among the sources. -/
def INVALID_LSN : Int := -1

/-- The kinds of log records, `LogType`. -/
inductive LogType
  | INVALID
  | UPDATE
  | INSERT
  | DELETE
  | BEGIN
  | COMMIT
  | ABORT
  | INSERT_ENTRY
  | DELETE_ENTRY
  deriving DecidableEq, Repr

/-- A log record, `LogRecord`, after deserialization.  The log of the model
is the log of one table and one index of it, so the names of the table and
of the index are left out; the key of an index record is an `Int`. -/
structure LogRecord where
  log_type_ : LogType
  lsn_ : Int
  log_tid_ : Int
  prev_lsn_ : Int
  rid_ : Rid
  value_ : RmRecord
  old_value_ : RmRecord
  new_value_ : RmRecord
  key_ : Int
  deriving DecidableEq, Repr

namespace LogRecord

/-- The constructor of BEGIN, COMMIT and ABORT records. -/
def control (txn_id prev_lsn : Int) (t : LogType) : LogRecord :=
  { log_type_ := t, lsn_ := INVALID_LSN, log_tid_ := txn_id, prev_lsn_ := prev_lsn,
    rid_ := ⟨0, 0⟩, value_ := [], old_value_ := [], new_value_ := [], key_ := 0 }

/-- The constructor of INSERT and DELETE records. -/
def tuple (txn_id prev_lsn : Int) (t : LogType) (rid : Rid) (value : RmRecord) : LogRecord :=
  { log_type_ := t, lsn_ := INVALID_LSN, log_tid_ := txn_id, prev_lsn_ := prev_lsn,
    rid_ := rid, value_ := value, old_value_ := [], new_value_ := [], key_ := 0 }

/-- The constructor of UPDATE records. -/
def update (txn_id prev_lsn : Int) (rid : Rid) (old_value new_value : RmRecord) : LogRecord :=
  { log_type_ := LogType.UPDATE, lsn_ := INVALID_LSN, log_tid_ := txn_id, prev_lsn_ := prev_lsn,
    rid_ := rid, value_ := [], old_value_ := old_value, new_value_ := new_value, key_ := 0 }

/-- The constructor of INSERT_ENTRY and DELETE_ENTRY records. -/
def index (txn_id prev_lsn : Int) (t : LogType) (rid : Rid) (key : Int) : LogRecord :=
  { log_type_ := t, lsn_ := INVALID_LSN, log_tid_ := txn_id, prev_lsn_ := prev_lsn,
    rid_ := rid, value_ := [], old_value_ := [], new_value_ := [], key_ := key }

end LogRecord

/-- A value of the 32-bit type `lsn_t` after an increment. -/
def wrap_lsn (x : Int) : Int := (x + 2147483648) % 4294967296 - 2147483648

/-- The log manager: the counter `global_lsn_` and the log file, held as the
list of the records written so far. -/
structure LogManager where
  global_lsn_ : Int
  log : List LogRecord
  deriving DecidableEq, Repr

namespace LogManager

/-- A log manager at start-up: the counter is 0. -/
def new (log : List LogRecord) : LogManager := { global_lsn_ := 0, log := log }

/-- The call `LogManager::add_log_to_buffer`: the record gets the value of
the counter as its sequence number, the counter is advanced by one, the
record is written at the end of the log, and the sequence number is
returned. -/
def add_log_to_buffer (lm : LogManager) (r : LogRecord) : LogManager × Int :=
  ({ global_lsn_ := wrap_lsn (lm.global_lsn_ + 1),
     log := lm.log ++ [{ r with lsn_ := lm.global_lsn_ }] }, lm.global_lsn_)

/-- Successive calls of `add_log_to_buffer`, with the sequence numbers they
return. -/
def add_logs : LogManager → List LogRecord → LogManager × List Int
  | lm, [] => (lm, [])
  | lm, r :: rest =>
    let s := lm.add_log_to_buffer r
    let t := add_logs s.1 rest
    (t.1, s.2 :: t.2)

end LogManager

/-- Assignment `m[k] = v` of a map held as an association list. -/
def map_set {α : Type} (m : List (Int × α)) (k : Int) (v : α) : List (Int × α) :=
  if m.any (fun e => e.1 = k) then m.map (fun e => if e.1 = k then (k, v) else e)
  else m ++ [(k, v)]

/-- Read `m[k]` of a map held as an association list, `d` when absent. -/
def map_get {α : Type} (m : List (Int × α)) (k : Int) (d : α) : α :=
  ((m.find? (fun e => e.1 = k)).map Prod.snd).getD d

/-- The call `m.erase(k)`. -/
def map_erase {α : Type} (m : List (Int × α)) (k : Int) : List (Int × α) :=
  m.filter (fun e => e.1 ≠ k)

/-- The recovery manager with the table file and the index it works on:
`active_txn_` maps a transaction to its last sequence number,
`lsn_mapping_` maps a sequence number to the position of its record. -/
structure RecoveryManager where
  fh : RmFileHandle
  ih : IxIndexHandle
  active_txn_ : List (Int × Int)
  active_txn_list_ : List Int
  lsn_mapping_ : List (Int × Nat)

namespace RecoveryManager

/-- A recovery manager at start-up. -/
def new (fh : RmFileHandle) (ih : IxIndexHandle) : RecoveryManager :=
  { fh := fh, ih := ih, active_txn_ := [], active_txn_list_ := [], lsn_mapping_ := [] }

/-- The result of an index call: `none`, an assertion failure or a read
outside a node, ends the run. -/
def with_index (rm : RecoveryManager) (r : Option (IxIndexHandle × Bool)) :
    Except Fault RecoveryManager :=
  match r with
  | none => Except.error Fault.crashed
  | some (ih1, _) => Except.ok { rm with ih := ih1 }

/-- The result of a call on the table file. -/
def with_file (rm : RecoveryManager) (r : Except Fault RmFileHandle) :
    Except Fault RecoveryManager :=
  match r with
  | Except.error e => Except.error e
  | Except.ok fh1 => Except.ok { rm with fh := fh1 }

/-- The INSERT branch of `redo`: insertion at the logged position and, when
that throws an `RMDBError`, insertion at a position chosen by the file. -/
def redo_insert (rm : RecoveryManager) (log : LogRecord) : Except Fault RecoveryManager :=
  match rm.fh.insert_record_at log.rid_ log.value_ with
  | Except.ok fh1 => Except.ok { rm with fh := fh1 }
  | Except.error Fault.crashed => Except.error Fault.crashed
  | Except.error Fault.thrown =>
    match rm.fh.insert_record log.value_ with
    | Except.error e => Except.error e
    | Except.ok (fh1, _) => Except.ok { rm with fh := fh1 }

/-- The body of the inner loop of `redo` for the record at position
`offset`. -/
def redo_record (rm : RecoveryManager) (offset : Nat) (log : LogRecord) :
    Except Fault RecoveryManager :=
  let rm1 := { rm with lsn_mapping_ := map_set rm.lsn_mapping_ log.lsn_ offset }
  if log.log_type_ = LogType.COMMIT ∨ log.log_type_ = LogType.ABORT then
    Except.ok { rm1 with active_txn_ := map_erase rm1.active_txn_ log.log_tid_,
                         active_txn_list_ := rm1.active_txn_list_.erase log.log_tid_ }
  else
    let rm2 := { rm1 with
      active_txn_ := map_set rm1.active_txn_ log.log_tid_ log.lsn_,
      active_txn_list_ := if log.log_type_ = LogType.BEGIN
        then rm1.active_txn_list_ ++ [log.log_tid_] else rm1.active_txn_list_ }
    match log.log_type_ with
    | LogType.INSERT => rm2.redo_insert log
    | LogType.DELETE => rm2.with_file (rm2.fh.delete_record log.rid_)
    | LogType.UPDATE => rm2.with_file (rm2.fh.update_record log.rid_ log.new_value_)
    | LogType.INSERT_ENTRY => rm2.with_index (rm2.ih.insert_entry log.key_ log.rid_)
    | LogType.DELETE_ENTRY => rm2.with_index (rm2.ih.delete_entry log.key_)
    | _ => Except.ok rm2

/-- The test of the loops of `redo` and `undo` on a deserialized record. -/
def valid_record (log : LogRecord) : Bool :=
  log.lsn_ ≠ INVALID_LSN ∧ log.log_tid_ ≠ INVALID_TXN_ID

/-- The loop of `redo` over the records of the log from position `offset`
on; it ends at the first record that is not valid.  The log buffer is taken
to hold the whole log. -/
def redo_loop : RecoveryManager → Nat → List LogRecord → Except Fault RecoveryManager
  | rm, _, [] => Except.ok rm
  | rm, offset, log :: rest =>
    if valid_record log ∧ log.log_type_ ≠ LogType.INVALID then
      match rm.redo_record offset log with
      | Except.error e => Except.error e
      | Except.ok rm1 => redo_loop rm1 (offset + 1) rest
    else Except.ok rm

/-- Replay of the whole log, `RecoveryManager::redo`. -/
def redo (rm : RecoveryManager) (logs : List LogRecord) : Except Fault RecoveryManager :=
  redo_loop rm 0 logs

/-- The inverse operation `undo` applies for a record. -/
def undo_record (rm : RecoveryManager) (log : LogRecord) : Except Fault RecoveryManager :=
  match log.log_type_ with
  | LogType.INSERT => rm.with_file (rm.fh.delete_record log.rid_)
  | LogType.DELETE => rm.with_file (rm.fh.insert_record_at log.rid_ log.value_)
  | LogType.UPDATE => rm.with_file (rm.fh.update_record log.rid_ log.old_value_)
  | LogType.INSERT_ENTRY => rm.with_index (rm.ih.delete_entry log.key_)
  | LogType.DELETE_ENTRY => rm.with_index (rm.ih.insert_entry log.key_ log.rid_)
  | _ => Except.ok rm

/-- The inner loop of `undo`: the walk along `prev_lsn_` from the record at
position `offset` to the BEGIN record.  A read outside the log, and a walk
of more than `fuel` records, end the run. -/
def undo_chain (logs : List LogRecord) : Nat → RecoveryManager → Nat →
    Except Fault RecoveryManager
  | 0, _, _ => Except.error Fault.crashed
  | fuel + 1, rm, offset =>
    match logs.get? offset with
    | none => Except.error Fault.crashed
    | some log =>
      if !valid_record log then Except.ok rm
      else if log.log_type_ = LogType.BEGIN then Except.ok rm
      else
        match rm.undo_record log with
        | Except.error e => Except.error e
        | Except.ok rm1 =>
          if log.prev_lsn_ = INVALID_LSN then Except.ok rm1
          else undo_chain logs fuel rm1 (map_get rm1.lsn_mapping_ log.prev_lsn_ 0)

/-- The outer loop of `undo` over the transactions to roll back. -/
def undo_txns (logs : List LogRecord) : RecoveryManager → List Int →
    Except Fault RecoveryManager
  | rm, [] => Except.ok rm
  | rm, txn :: rest =>
    match undo_chain logs (logs.length + 1) rm
        (map_get rm.lsn_mapping_ (map_get rm.active_txn_ txn 0) 0) with
    | Except.error e => Except.error e
    | Except.ok rm1 => undo_txns logs rm1 rest

/-- Roll-back of the transactions without COMMIT or ABORT record,
`RecoveryManager::undo`, in decreasing order of their ids. -/
def undo (rm : RecoveryManager) (logs : List LogRecord) : Except Fault RecoveryManager :=
  let l1 := rm.active_txn_.foldl
    (fun l e => if e.1 ∈ l then l else l ++ [e.1]) rm.active_txn_list_
  let l2 := l1.insertionSort (fun a b => b ≤ a)
  match undo_txns logs rm l2 with
  | Except.error e => Except.error e
  | Except.ok rm1 =>
    Except.ok { rm1 with active_txn_ := [], active_txn_list_ := [], lsn_mapping_ := [] }

/-- Recovery at start-up: `redo` followed by `undo` over the log, on the
table file `fh` and the index `ih`. -/
def recover (fh : RmFileHandle) (ih : IxIndexHandle) (logs : List LogRecord) :
    Except Fault (RmFileHandle × IxIndexHandle) :=
  match (RecoveryManager.new fh ih).redo logs with
  | Except.error e => Except.error e
  | Except.ok rm1 =>
    match rm1.undo logs with
    | Except.error e => Except.error e
    | Except.ok rm2 => Except.ok (rm2.fh, rm2.ih)

end RecoveryManager

/-- The live records of a file in scan order, position and payload; `none`
when the scan does not return within `fuel` advances. -/
def RmFileHandle.live_records (fh : RmFileHandle) (fuel : Nat) : Option (List (Rid × RmRecord)) :=
  match RmScan.visit_all fh fuel with
  | Except.error _ => none
  | Except.ok l => l.mapM (fun r =>
      match fh.get_record r with
      | Except.error _ => none
      | Except.ok v => some (r, v))

end RMDB

/-! ## Log records as bytes: serialization and deserialization -/

namespace RMDB

namespace LogCodec

/-- A run of `char`s, each given by its value as an unsigned byte. -/
abbrev Bytes := List Nat

/-- The `k` bytes of the unsigned number `n`, lowest byte first. -/
def le_bytes : Nat → Nat → Bytes
  | 0, _ => []
  | k + 1, n => n % 256 :: le_bytes k (n / 256)

/-- The unsigned number held by a run of bytes, lowest byte first. -/
def le_value : Bytes → Nat
  | [] => 0
  | b :: bs => b + 256 * le_value bs

/-- The four bytes of an `int`. -/
def int32_bytes (x : Int) : Bytes := le_bytes 4 (x % 4294967296).toNat

/-- The `int` held by four bytes. -/
def int32_value (bs : Bytes) : Int :=
  if le_value bs < 2147483648 then (le_value bs : Int) else (le_value bs : Int) - 4294967296

/-- The four bytes of a `uint32_t`. -/
def uint32_bytes (n : Nat) : Bytes := le_bytes 4 (n % 4294967296)

/-- The eight bytes of a `size_t`. -/
def size_bytes (n : Nat) : Bytes := le_bytes 8 (n % 18446744073709551616)

/-- The eight bytes of a `Rid`: `page_no`, then `slot_no`. -/
def rid_bytes (rid : Rid) : Bytes := int32_bytes rid.page_no ++ int32_bytes rid.slot_no

/-- The `Rid` held by eight bytes. -/
def rid_value (bs : Bytes) : Rid := ⟨int32_value (bs.take 4), int32_value (bs.drop 4)⟩

/-- Modelled from the spec: the offsets of the fields of the header of a
log record, which is 20 bytes long (type, lsn, total length, transaction id,
previous lsn, four bytes each); `log_defs.h` is not among the sources. -/
def OFFSET_LOG_TYPE : Nat := 0

/-- Modelled from the spec: the offset of `lsn_`. -/
def OFFSET_LSN : Nat := 4

/-- Modelled from the spec: the offset of `log_tot_len_`. -/
def OFFSET_LOG_TOT_LEN : Nat := 8

/-- Modelled from the spec: the offset of `log_tid_`. -/
def OFFSET_LOG_TID : Nat := 12

/-- Modelled from the spec: the offset of `prev_lsn_`. -/
def OFFSET_PREV_LSN : Nat := 16

/-- Modelled from the spec: the offset of the payload. -/
def OFFSET_LOG_DATA : Nat := 20

/-- Modelled from the spec: the length of the header. -/
def LOG_HEADER_SIZE : Nat := 20

/-- The code of a kind of log record, the value of the `enum LogType`. -/
def type_code : LogType → Int
  | LogType.INVALID => 0
  | LogType.UPDATE => 1
  | LogType.INSERT => 2
  | LogType.DELETE => 3
  | LogType.BEGIN => 4
  | LogType.COMMIT => 5
  | LogType.ABORT => 6
  | LogType.INSERT_ENTRY => 7
  | LogType.DELETE_ENTRY => 8

/-- A log record, `LogRecord`, with the fields as they are written to the
log.  A value (`RmRecord`) is the run of its `size` bytes; the names of the
table and of the index and the key are runs of bytes whose lengths are
`table_name_size_` and `key_size_`. -/
structure LogRecord where
  log_type_ : Int
  lsn_ : Int
  log_tot_len_ : Nat
  log_tid_ : Int
  prev_lsn_ : Int
  rid_ : Rid
  value_ : Bytes
  old_value_ : Bytes
  new_value_ : Bytes
  table_name_ : Bytes
  key_ : Bytes
  deriving DecidableEq, Repr

namespace LogRecord

/-- A record none of whose fields has been set. -/
def blank : LogRecord :=
  { log_type_ := 0, lsn_ := 0, log_tot_len_ := 0, log_tid_ := 0, prev_lsn_ := 0, rid_ := ⟨0, 0⟩,
    value_ := [], old_value_ := [], new_value_ := [], table_name_ := [], key_ := [] }

/-- The constructor of BEGIN, COMMIT and ABORT records. -/
def control (txn_id prev_lsn : Int) (log_record_type : LogType) : LogRecord :=
  { blank with
    log_tot_len_ := LOG_HEADER_SIZE % 4294967296, lsn_ := INVALID_LSN, log_tid_ := txn_id,
    prev_lsn_ := prev_lsn, log_type_ := type_code log_record_type }

/-- The constructor of INSERT and DELETE records. -/
def tuple (txn_id prev_lsn : Int) (log_record_type : LogType) (rid : Rid) (value : Bytes)
    (table_name : Bytes) : LogRecord :=
  { blank with
    log_tot_len_ := (LOG_HEADER_SIZE + 4 + 8 + value.length + table_name.length + 8) % 4294967296,
    lsn_ := INVALID_LSN, log_tid_ := txn_id, prev_lsn_ := prev_lsn,
    log_type_ := type_code log_record_type, rid_ := rid, value_ := value,
    table_name_ := table_name }

/-- The constructor of UPDATE records. -/
def update (txn_id prev_lsn : Int) (log_record_type : LogType) (rid : Rid)
    (old_value new_value : Bytes) (table_name : Bytes) : LogRecord :=
  { blank with
    log_tot_len_ := (LOG_HEADER_SIZE + 4 * 2 + 8 + old_value.length + new_value.length +
      table_name.length + 8) % 4294967296,
    lsn_ := INVALID_LSN, log_tid_ := txn_id, prev_lsn_ := prev_lsn,
    log_type_ := type_code log_record_type, rid_ := rid, old_value_ := old_value,
    new_value_ := new_value, table_name_ := table_name }

/-- The constructor of INSERT_ENTRY and DELETE_ENTRY records. -/
def index (txn_id prev_lsn : Int) (log_record_type : LogType) (rid : Rid) (key : Bytes)
    (index_name : Bytes) : LogRecord :=
  { blank with
    log_tot_len_ := (LOG_HEADER_SIZE + 8 + 2 * 8 + key.length + index_name.length) % 4294967296,
    lsn_ := INVALID_LSN, log_tid_ := txn_id, prev_lsn_ := prev_lsn,
    log_type_ := type_code log_record_type, rid_ := rid, table_name_ := index_name,
    key_ := key }

end LogRecord

/-- The copy `memcpy(dest + offset, src, n)` of the run `src` into the
buffer `dest`; `offset` is an `int`, and `none` is an offset above the
largest `int` or a write past the end of the buffer. -/
def memcpy_at (dest : Bytes) (offset : Nat) (src : Bytes) : Option Bytes :=
  if offset ≤ 2147483647 ∧ offset + src.length ≤ dest.length then
    some (dest.take offset ++ src ++ dest.drop (offset + src.length))
  else none

/-- The read of `n` bytes at `src + offset`; `none` is an offset above the
largest `int` or a read past the end of the buffer. -/
def read_at (src : Bytes) (offset n : Nat) : Option Bytes :=
  if offset ≤ 2147483647 ∧ offset + n ≤ src.length then some ((src.drop offset).take n)
  else none

/-- The buffer `new char[n]`, whose content is not set: byte `i` has the
value `junk i`. -/
def new_buffer (n : Nat) (junk : Nat → Nat) : Bytes := (List.range n).map junk

namespace LogRecord

/-- The header part, `LogRecord::serialize`. -/
def serialize (r : LogRecord) (dest : Bytes) : Option Bytes :=
  (memcpy_at dest OFFSET_LOG_TYPE (int32_bytes r.log_type_)).bind fun d1 =>
  (memcpy_at d1 OFFSET_LSN (int32_bytes r.lsn_)).bind fun d2 =>
  (memcpy_at d2 OFFSET_LOG_TOT_LEN (uint32_bytes r.log_tot_len_)).bind fun d3 =>
  (memcpy_at d3 OFFSET_LOG_TID (int32_bytes r.log_tid_)).bind fun d4 =>
  memcpy_at d4 OFFSET_PREV_LSN (int32_bytes r.prev_lsn_)

/-- The payload of INSERT and DELETE records, `serialize_i_and_d`. -/
def serialize_i_and_d (r : LogRecord) (dest : Bytes) : Option Bytes :=
  (memcpy_at dest OFFSET_LOG_DATA (int32_bytes r.value_.length)).bind fun d1 =>
  (memcpy_at d1 (OFFSET_LOG_DATA + 4) r.value_).bind fun d2 =>
  (memcpy_at d2 (OFFSET_LOG_DATA + 4 + r.value_.length) (rid_bytes r.rid_)).bind fun d3 =>
  (memcpy_at d3 (OFFSET_LOG_DATA + 4 + r.value_.length + 8)
    (size_bytes r.table_name_.length)).bind fun d4 =>
  memcpy_at d4 (OFFSET_LOG_DATA + 4 + r.value_.length + 8 + 8) r.table_name_

/-- The payload of UPDATE records, `serialize_upd`. -/
def serialize_upd (r : LogRecord) (dest : Bytes) : Option Bytes :=
  (memcpy_at dest OFFSET_LOG_DATA (int32_bytes r.old_value_.length)).bind fun d1 =>
  (memcpy_at d1 (OFFSET_LOG_DATA + 4) r.old_value_).bind fun d2 =>
  (memcpy_at d2 (OFFSET_LOG_DATA + 4 + r.old_value_.length)
    (int32_bytes r.new_value_.length)).bind fun d3 =>
  (memcpy_at d3 (OFFSET_LOG_DATA + 4 + r.old_value_.length + 4) r.new_value_).bind fun d4 =>
  (memcpy_at d4 (OFFSET_LOG_DATA + 4 + r.old_value_.length + 4 + r.new_value_.length)
    (rid_bytes r.rid_)).bind fun d5 =>
  (memcpy_at d5 (OFFSET_LOG_DATA + 4 + r.old_value_.length + 4 + r.new_value_.length + 8)
    (size_bytes r.table_name_.length)).bind fun d6 =>
  memcpy_at d6 (OFFSET_LOG_DATA + 4 + r.old_value_.length + 4 + r.new_value_.length + 8 + 8)
    r.table_name_

/-- The payload of INSERT_ENTRY and DELETE_ENTRY records,
`serialize_index`. -/
def serialize_index (r : LogRecord) (dest : Bytes) : Option Bytes :=
  (memcpy_at dest OFFSET_LOG_DATA (rid_bytes r.rid_)).bind fun d1 =>
  (memcpy_at d1 (OFFSET_LOG_DATA + 8) (size_bytes r.table_name_.length)).bind fun d2 =>
  (memcpy_at d2 (OFFSET_LOG_DATA + 8 + 8) r.table_name_).bind fun d3 =>
  (memcpy_at d3 (OFFSET_LOG_DATA + 8 + 8 + r.table_name_.length)
    (size_bytes r.key_.length)).bind fun d4 =>
  memcpy_at d4 (OFFSET_LOG_DATA + 8 + 8 + r.table_name_.length + 8) r.key_

/-- The header part, `LogRecord::deserialize`. -/
def deserialize (r : LogRecord) (src : Bytes) : Option LogRecord :=
  (read_at src OFFSET_LOG_TYPE 4).bind fun b1 =>
  (read_at src OFFSET_LSN 4).bind fun b2 =>
  (read_at src OFFSET_LOG_TOT_LEN 4).bind fun b3 =>
  (read_at src OFFSET_LOG_TID 4).bind fun b4 =>
  (read_at src OFFSET_PREV_LSN 4).bind fun b5 =>
  some { r with log_type_ := int32_value b1, lsn_ := int32_value b2,
                log_tot_len_ := le_value b3, log_tid_ := int32_value b4,
                prev_lsn_ := int32_value b5 }

/-- Modelled from the spec: `RmRecord::Deserialize` at `src + offset`, which
reads the `int` size and then that many bytes; `rm_defs.h` is not among the
sources.  `none` is a negative size. -/
def Deserialize (src : Bytes) (offset : Nat) : Option Bytes :=
  (read_at src offset 4).bind fun b =>
  if int32_value b < 0 then none else read_at src (offset + 4) (int32_value b).toNat

/-- The payload of INSERT and DELETE records, `deserialize_i_and_d`. -/
def deserialize_i_and_d (r : LogRecord) (src : Bytes) : Option LogRecord :=
  (Deserialize src OFFSET_LOG_DATA).bind fun value =>
  (read_at src (OFFSET_LOG_DATA + value.length + 4) 8).bind fun b1 =>
  (read_at src (OFFSET_LOG_DATA + value.length + 4 + 8) 8).bind fun b2 =>
  (read_at src (OFFSET_LOG_DATA + value.length + 4 + 8 + 8) (le_value b2)).bind fun name =>
  some { r with value_ := value, rid_ := rid_value b1, table_name_ := name }

/-- The payload of UPDATE records, `deserialize_upd`. -/
def deserialize_upd (r : LogRecord) (src : Bytes) : Option LogRecord :=
  (Deserialize src OFFSET_LOG_DATA).bind fun old_value =>
  (Deserialize src (OFFSET_LOG_DATA + old_value.length + 4)).bind fun new_value =>
  (read_at src (OFFSET_LOG_DATA + old_value.length + 4 + (new_value.length + 4)) 8).bind
    fun b1 =>
  (read_at src (OFFSET_LOG_DATA + old_value.length + 4 + (new_value.length + 4) + 8) 8).bind
    fun b2 =>
  (read_at src (OFFSET_LOG_DATA + old_value.length + 4 + (new_value.length + 4) + 8 + 8)
    (le_value b2)).bind fun name =>
  some { r with old_value_ := old_value, new_value_ := new_value, rid_ := rid_value b1,
                table_name_ := name }

/-- The payload of INSERT_ENTRY and DELETE_ENTRY records,
`deserialize_index`. -/
def deserialize_index (r : LogRecord) (src : Bytes) : Option LogRecord :=
  (read_at src OFFSET_LOG_DATA 8).bind fun b1 =>
  (read_at src (OFFSET_LOG_DATA + 8) 8).bind fun b2 =>
  (read_at src (OFFSET_LOG_DATA + 8 + 8) (le_value b2)).bind fun name =>
  (read_at src (OFFSET_LOG_DATA + 8 + 8 + le_value b2) 8).bind fun b3 =>
  (read_at src (OFFSET_LOG_DATA + 8 + 8 + le_value b2 + 8) (le_value b3)).bind fun key =>
  some { r with rid_ := rid_value b1, table_name_ := name, key_ := key }

end LogRecord

/-- The bytes that `LogManager::add_log_to_buffer` makes of a record that
has its sequence number: a buffer of `log_tot_len_` bytes is made, and the
header and the payload of the kind are written into it. -/
def to_bytes (r : LogRecord) (junk : Nat → Nat) : Option Bytes :=
  (r.serialize (new_buffer r.log_tot_len_ junk)).bind fun buf =>
  if r.log_type_ = type_code LogType.UPDATE then r.serialize_upd buf
  else if r.log_type_ = type_code LogType.INSERT ∨ r.log_type_ = type_code LogType.DELETE then
    r.serialize_i_and_d buf
  else if r.log_type_ = type_code LogType.INSERT_ENTRY ∨
      r.log_type_ = type_code LogType.DELETE_ENTRY then r.serialize_index buf
  else some buf

/-- The call `LogManager::add_log_to_buffer` as far as the bytes go: the
record gets the sequence number `lsn`, its bytes are made and handed to
`write_log` with the size `log_tot_len_`.  The result is the record and the
bytes written. -/
def add_log_to_buffer (lsn : Int) (log_record : LogRecord) (junk : Nat → Nat) :
    Option (LogRecord × Bytes) :=
  (to_bytes { log_record with lsn_ := lsn } junk).map
    fun buf => ({ log_record with lsn_ := lsn }, buf)

/-- The reading of one record as in `LogManager::lastLsn`: the header
routine, then the payload routine of the kind; `none` also for a kind that
is none of the eight. -/
def read_record (src : Bytes) : Option LogRecord :=
  (LogRecord.blank.deserialize src).bind fun rec =>
  if rec.log_type_ = type_code LogType.BEGIN ∨ rec.log_type_ = type_code LogType.COMMIT ∨
      rec.log_type_ = type_code LogType.ABORT then some rec
  else if rec.log_type_ = type_code LogType.UPDATE then rec.deserialize_upd src
  else if rec.log_type_ = type_code LogType.INSERT ∨ rec.log_type_ = type_code LogType.DELETE then
    rec.deserialize_i_and_d src
  else if rec.log_type_ = type_code LogType.INSERT_ENTRY ∨
      rec.log_type_ = type_code LogType.DELETE_ENTRY then rec.deserialize_index src
  else none

/-- The header of a record as the specification lays it out: type, lsn,
total length, transaction id, previous lsn, four bytes each. -/
def header_bytes (r : LogRecord) : Bytes :=
  int32_bytes r.log_type_ ++ int32_bytes r.lsn_ ++ uint32_bytes r.log_tot_len_ ++
    int32_bytes r.log_tid_ ++ int32_bytes r.prev_lsn_

/-- The payload of an INSERT or DELETE record as the specification lays it
out: the size of the value, the value, the rid, the size of the table name,
the table name. -/
def tuple_payload (r : LogRecord) : Bytes :=
  int32_bytes r.value_.length ++ r.value_ ++ rid_bytes r.rid_ ++
    size_bytes r.table_name_.length ++ r.table_name_

/-- The payload of an UPDATE record as the specification lays it out: the
old value and the new value, each behind its size, the rid, the size of the
table name, the table name. -/
def update_payload (r : LogRecord) : Bytes :=
  int32_bytes r.old_value_.length ++ r.old_value_ ++ int32_bytes r.new_value_.length ++
    r.new_value_ ++ rid_bytes r.rid_ ++ size_bytes r.table_name_.length ++ r.table_name_

/-- The payload of an INSERT_ENTRY or DELETE_ENTRY record as the
specification lays it out: the rid, the size of the index name, the index
name, the size of the key, the key. -/
def index_payload (r : LogRecord) : Bytes :=
  rid_bytes r.rid_ ++ size_bytes r.table_name_.length ++ r.table_name_ ++
    size_bytes r.key_.length ++ r.key_

/-- A value of the type `int`. -/
def IsInt32 (x : Int) : Prop := -2147483648 ≤ x ∧ x ≤ 2147483647

/-- The log records the code makes: the results of the four constructors on
values of their types (an `int` for the ids, the sequence number and the
parts of the `Rid`), with a total length that an `int` holds. -/
inductive Built : LogRecord → Prop
  | control (txn_id prev_lsn : Int) (t : LogType) :
      t = LogType.BEGIN ∨ t = LogType.COMMIT ∨ t = LogType.ABORT →
      IsInt32 txn_id → IsInt32 prev_lsn → Built (LogRecord.control txn_id prev_lsn t)
  | tuple (txn_id prev_lsn : Int) (t : LogType) (rid : Rid) (value table_name : Bytes) :
      t = LogType.INSERT ∨ t = LogType.DELETE →
      IsInt32 txn_id → IsInt32 prev_lsn → IsInt32 rid.page_no → IsInt32 rid.slot_no →
      LOG_HEADER_SIZE + 4 + 8 + value.length + table_name.length + 8 ≤ 2147483647 →
      Built (LogRecord.tuple txn_id prev_lsn t rid value table_name)
  | update (txn_id prev_lsn : Int) (rid : Rid) (old_value new_value table_name : Bytes) :
      IsInt32 txn_id → IsInt32 prev_lsn → IsInt32 rid.page_no → IsInt32 rid.slot_no →
      LOG_HEADER_SIZE + 4 * 2 + 8 + old_value.length + new_value.length + table_name.length + 8
        ≤ 2147483647 →
      Built (LogRecord.update txn_id prev_lsn LogType.UPDATE rid old_value new_value table_name)
  | index (txn_id prev_lsn : Int) (t : LogType) (rid : Rid) (key index_name : Bytes) :
      t = LogType.INSERT_ENTRY ∨ t = LogType.DELETE_ENTRY →
      IsInt32 txn_id → IsInt32 prev_lsn → IsInt32 rid.page_no → IsInt32 rid.slot_no →
      LOG_HEADER_SIZE + 8 + 2 * 8 + key.length + index_name.length ≤ 2147483647 →
      Built (LogRecord.index txn_id prev_lsn t rid key index_name)

/-- The INSERT record of transaction 1 for the value of four bytes 7, 0, 0,
0 at page 1, slot 0 of the table `t`. -/
def insert_example : LogRecord :=
  LogRecord.tuple 1 0 LogType.INSERT ⟨1, 0⟩ [7, 0, 0, 0] [116]

end LogCodec

end RMDB
/-! ## Transactions and the executors of INSERT, DELETE and UPDATE -/

namespace RMDB

/-- The kinds of write records, `WType`. -/
inductive WType
  | INSERT_TUPLE
  | DELETE_TUPLE
  | UPDATE_TUPLE
  deriving DecidableEq, Repr

/-- An undo entry of the table file, `WriteRecord`. -/
structure WriteRecord where
  wtype_ : WType
  rid_ : Rid
  record_ : RmRecord
  new_rec_ : RmRecord
  deriving DecidableEq, Repr

/-- An undo entry of the index, `IndexWriteRecord`. -/
structure IndexWriteRecord where
  wtype_ : WType
  rid_ : Rid
  key_ : Int
  deriving DecidableEq, Repr

/-- The states of a transaction, `TransactionState`. -/
inductive TransactionState
  | DEFAULT
  | GROWING
  | SHRINKING
  | COMMITTED
  | ABORTED
  deriving DecidableEq, Repr

/-- Modelled from the spec: the fields of `Transaction` the executors, the
transaction manager and the lock manager use; `transaction.h` is not among
the sources.  The lock set holds the file descriptors of the locked tables;
locks are taken on tables only. -/
structure Transaction where
  txn_id_ : Int
  prev_lsn_ : Int
  txn_mode_ : Bool
  write_set_ : List WriteRecord
  index_write_set_ : List IndexWriteRecord
  state_ : TransactionState
  lock_set_ : List Int
  deriving DecidableEq, Repr

/-- One table with its file, at most one index, which is on the first
column, and the log manager. -/
structure Database where
  fh : RmFileHandle
  ih : Option IxIndexHandle
  log_mgr : LogManager

/-- The key of a record for the index: its first column. -/
def extract_key (rec : RmRecord) : Int := rec.headD 0

/-- A clause `col = rhs`, `col = col + rhs` or `col = col - rhs` of an
UPDATE statement, `SetClause`. -/
structure SetClause where
  col : Nat
  exp : Bool
  add : Bool
  rhs : Int
  deriving DecidableEq, Repr

/-- A value of type `int` after an addition or subtraction. -/
def wrap32 (x : Int) : Int := (x + 2147483648) % 4294967296 - 2147483648

/-- The effect of one clause on a record. -/
def SetClause.apply (c : SetClause) (rec : RmRecord) : RmRecord :=
  rec.modify (fun v => if c.exp then (if c.add then wrap32 (v + c.rhs) else wrap32 (v - c.rhs))
                       else c.rhs) c.col

/-- The record after all clauses of the statement. -/
def apply_set_clauses (cs : List SetClause) (rec : RmRecord) : RmRecord :=
  cs.foldl (fun r c => c.apply r) rec

namespace Transaction

/-- Modelled from the spec: `exists_in_write_set`, which compares kind,
table and position of the entries. -/
def exists_in_write_set (txn : Transaction) (w : WType) (rid : Rid) : Bool :=
  txn.write_set_.any (fun r => r.wtype_ = w ∧ r.rid_ = rid)

/-- The write set without its first entry of the kind and position. -/
def erase_write_record (w : WType) (rid : Rid) : List WriteRecord → List WriteRecord
  | [] => []
  | r :: rest =>
    if r.wtype_ = w ∧ r.rid_ = rid then rest else r :: erase_write_record w rid rest

/-- Modelled from the spec: `remove_from_write_set`. -/
def remove_from_write_set (txn : Transaction) (w : WType) (rid : Rid) : Transaction :=
  { txn with write_set_ := erase_write_record w rid txn.write_set_ }

end Transaction

namespace Database

/-- Append of a log record for a transaction: `add_log_to_buffer` followed
by `set_prev_lsn`. -/
def emit (db : Database) (txn : Transaction) (r : LogRecord) : Database × Transaction :=
  let res := db.log_mgr.add_log_to_buffer r
  ({ db with log_mgr := res.1 }, { txn with prev_lsn_ := res.2 })

/-- A call on the index, when the table has one. -/
def on_index (db : Database) (f : IxIndexHandle → Option (IxIndexHandle × Bool)) :
    Except Fault (Database × Bool) :=
  match db.ih with
  | none => Except.ok (db, false)
  | some ih =>
    match f ih with
    | none => Except.error Fault.crashed
    | some (ih1, flag) => Except.ok ({ db with ih := some ih1 }, flag)

/-- The lookup `get_value` of the uniqueness checks: whether the key is in
the index. -/
def key_found (db : Database) (key : Int) : Except Fault Bool :=
  match db.ih with
  | none => Except.ok false
  | some ih =>
    match ih.get_value key with
    | none => Except.error Fault.crashed
    | some r => Except.ok r.isSome

end Database

namespace TransactionManager

/-- The call `TransactionManager::begin` for a new transaction with the
given id; the new transaction holds no lock and ends in the state
DEFAULT. -/
def begin (db : Database) (txn_id : Int) (txn_mode : Bool) : Database × Transaction :=
  db.emit { txn_id_ := txn_id, prev_lsn_ := INVALID_LSN, txn_mode_ := txn_mode,
            write_set_ := [], index_write_set_ := [],
            state_ := TransactionState.DEFAULT, lock_set_ := [] }
    (LogRecord.control txn_id INVALID_LSN LogType.BEGIN)

/-- The call `TransactionManager::commit`. -/
def commit (db : Database) (txn : Transaction) : Database × Transaction :=
  let txn1 := if txn.txn_mode_ then { txn with write_set_ := [], index_write_set_ := [] } else txn
  let s := db.emit txn1 (LogRecord.control txn.txn_id_ txn.prev_lsn_ LogType.COMMIT)
  (s.1, { s.2 with state_ := TransactionState.COMMITTED })

/-- The first loop of `abort`, over the write set from its last entry to
its first. -/
def abort_heap : Database → Transaction → List WriteRecord →
    Except Fault (Database × Transaction)
  | db, txn, [] => Except.ok (db, txn)
  | db, txn, record :: rest =>
    match record.wtype_ with
    | WType.INSERT_TUPLE =>
      let s := db.emit txn
        (LogRecord.tuple txn.txn_id_ txn.prev_lsn_ LogType.DELETE record.rid_ record.record_)
      match s.1.fh.delete_record record.rid_ with
      | Except.error e => Except.error e
      | Except.ok fh1 => abort_heap { s.1 with fh := fh1 } s.2 rest
    | WType.DELETE_TUPLE =>
      let s := db.emit txn
        (LogRecord.tuple txn.txn_id_ txn.prev_lsn_ LogType.INSERT record.rid_ record.record_)
      match s.1.fh.insert_record_at record.rid_ record.record_ with
      | Except.error e => Except.error e
      | Except.ok fh1 => abort_heap { s.1 with fh := fh1 } s.2 rest
    | WType.UPDATE_TUPLE =>
      match db.fh.is_record record.rid_ with
      | Except.error e => Except.error e
      | Except.ok false => abort_heap db txn rest
      | Except.ok true =>
        let s := db.emit txn
          (LogRecord.update txn.txn_id_ txn.prev_lsn_ record.rid_ record.new_rec_ record.record_)
        match s.1.fh.update_record record.rid_ record.record_ with
        | Except.error e => Except.error e
        | Except.ok fh1 => abort_heap { s.1 with fh := fh1 } s.2 rest

/-- The second loop of `abort`, over the index write set from its last
entry to its first. -/
def abort_index : Database → Transaction → List IndexWriteRecord →
    Except Fault (Database × Transaction)
  | db, txn, [] => Except.ok (db, txn)
  | db, txn, item :: rest =>
    match item.wtype_ with
    | WType.DELETE_TUPLE =>
      let s := db.emit txn
        (LogRecord.index txn.txn_id_ txn.prev_lsn_ LogType.INSERT_ENTRY item.rid_ item.key_)
      match s.1.on_index (fun ih => ih.insert_entry item.key_ item.rid_) with
      | Except.error e => Except.error e
      | Except.ok (db1, _) => abort_index db1 s.2 rest
    | WType.INSERT_TUPLE =>
      let s := db.emit txn
        (LogRecord.index txn.txn_id_ txn.prev_lsn_ LogType.DELETE_ENTRY item.rid_ item.key_)
      match s.1.on_index (fun ih => ih.delete_entry item.key_) with
      | Except.error e => Except.error e
      | Except.ok (db1, _) => abort_index db1 s.2 rest
    | WType.UPDATE_TUPLE => abort_index db txn rest

/-- The call `TransactionManager::abort`. -/
def abort (db : Database) (txn : Transaction) : Except Fault (Database × Transaction) :=
  if !txn.txn_mode_ then Except.ok (db, txn)
  else
    match abort_heap db txn txn.write_set_.reverse with
    | Except.error e => Except.error e
    | Except.ok (db1, txn1) =>
      match abort_index db1 txn1 txn1.index_write_set_.reverse with
      | Except.error e => Except.error e
      | Except.ok (db2, txn2) =>
        let s := db2.emit { txn2 with write_set_ := [], index_write_set_ := [] }
          (LogRecord.control txn2.txn_id_ txn2.prev_lsn_ LogType.ABORT)
        Except.ok (s.1, { s.2 with state_ := TransactionState.ABORTED })

end TransactionManager

namespace InsertExecutor

/-- The run `InsertExecutor::Next` for the record `rec`; the lock on the
table is held. -/
def Next (db : Database) (txn : Transaction) (rec : RmRecord) :
    Except Fault (Database × Transaction) :=
  match db.key_found (extract_key rec) with
  | Except.error e => Except.error e
  | Except.ok true => Except.error Fault.thrown
  | Except.ok false =>
    match db.fh.insert_record rec with
    | Except.error e => Except.error e
    | Except.ok (fh1, rid) =>
      let txn1 := if txn.txn_mode_ then
        { txn with write_set_ := txn.write_set_ ++ [⟨WType.INSERT_TUPLE, rid, rec, []⟩] } else txn
      let s1 := Database.emit { db with fh := fh1 } txn1
        (LogRecord.tuple txn1.txn_id_ txn1.prev_lsn_ LogType.INSERT rid rec)
      match s1.1.ih with
      | none => Except.ok s1
      | some _ =>
        let s2 := s1.1.emit s1.2 (LogRecord.index s1.2.txn_id_ s1.2.prev_lsn_
          LogType.INSERT_ENTRY rid (extract_key rec))
        match s2.1.on_index (fun ih => ih.insert_entry (extract_key rec) rid) with
        | Except.error e => Except.error e
        | Except.ok (db3, flag) =>
          Except.ok (db3, if flag ∧ s2.2.txn_mode_ then
            { s2.2 with index_write_set_ := s2.2.index_write_set_ ++
                [⟨WType.INSERT_TUPLE, ⟨0, 0⟩, extract_key rec⟩] } else s2.2)

end InsertExecutor

namespace DeleteExecutor

/-- The index part of a deletion, `DeleteExecutor::delete_from`. -/
def delete_from (db : Database) (txn : Transaction) (rid : Rid) :
    Except Fault (Database × Transaction) :=
  match db.fh.get_record rid with
  | Except.error e => Except.error e
  | Except.ok rec =>
    match db.ih with
    | none => Except.ok (db, txn)
    | some _ =>
      let s := db.emit txn
        (LogRecord.index txn.txn_id_ txn.prev_lsn_ LogType.DELETE_ENTRY rid (extract_key rec))
      match s.1.on_index (fun ih => ih.delete_entry (extract_key rec)) with
      | Except.error e => Except.error e
      | Except.ok (db1, flag) =>
        Except.ok (db1, if flag ∧ s.2.txn_mode_ then
          { s.2 with index_write_set_ := s.2.index_write_set_ ++
              [⟨WType.DELETE_TUPLE, rid, extract_key rec⟩] } else s.2)

/-- The run `DeleteExecutor::Next` over the selected positions; the lock on
the table is held. -/
def Next : Database → Transaction → List Rid → Except Fault (Database × Transaction)
  | db, txn, [] => Except.ok (db, txn)
  | db, txn, rid :: rest =>
    match db.fh.get_record rid with
    | Except.error e => Except.error e
    | Except.ok rec =>
      let s := db.emit txn (LogRecord.tuple txn.txn_id_ txn.prev_lsn_ LogType.DELETE rid rec)
      match delete_from s.1 s.2 rid with
      | Except.error e => Except.error e
      | Except.ok (db1, txn1) =>
        match db1.fh.delete_record rid with
        | Except.error e => Except.error e
        | Except.ok fh2 =>
          let txn2 :=
            if txn1.txn_mode_ then
              if txn1.exists_in_write_set WType.INSERT_TUPLE rid then
                txn1.remove_from_write_set WType.INSERT_TUPLE rid
              else { txn1 with write_set_ := txn1.write_set_ ++
                      [⟨WType.DELETE_TUPLE, rid, rec, []⟩] }
            else txn1
          Next { db1 with fh := fh2 } txn2 rest

end DeleteExecutor

namespace UpdateExecutor

/-- The key that the first pass of `update_set` builds for a record, from
a buffer of zeros: the clauses on the column of the index are gone through
in order; a clause `col = col + rhs` or `col = col - rhs` changes the copy
of the record and puts the changed column into the key, a clause
`col = rhs` puts `rhs` into the key and leaves the copy of the record as it
is. -/
def check_key : List SetClause → RmRecord → Int → Int
  | [], _, key => key
  | c :: cs, rec, key =>
    if c.col ≠ 0 then check_key cs rec key
    else if c.exp then check_key cs (c.apply rec) (extract_key (c.apply rec))
    else check_key cs rec c.rhs

/-- The first pass of `update_set`: the key built for every selected record
is not in the index; the keys are returned. -/
def new_keys (db : Database) (cs : List SetClause) : List Rid → Except Fault (List Int)
  | [] => Except.ok []
  | rid :: rest =>
    match db.fh.get_record rid with
    | Except.error e => Except.error e
    | Except.ok rec =>
      match db.key_found (check_key cs rec 0) with
      | Except.error e => Except.error e
      | Except.ok true => Except.error Fault.thrown
      | Except.ok false =>
        match new_keys db cs rest with
        | Except.error e => Except.error e
        | Except.ok ks => Except.ok (check_key cs rec 0 :: ks)

/-- The string `std::string(key)` that the first pass keeps of a key buffer,
for the key of one INT column: the bytes of the key before its first zero
byte. -/
def key_string (key : Int) : LogCodec.Bytes :=
  (LogCodec.int32_bytes key).takeWhile (fun b => b ≠ 0)

/-- The test `memcmp(new_keys[i].c_str(), new_keys[j].c_str(), key_len) == 0`
for the key of one INT column, where `key_len` is 4.  Two strings that
differ, their ends included, differ at a byte that both hold, and the test
is false.  Two equal strings of three or four bytes agree on the four bytes
compared, and the test is true.  On two equal strings that are shorter
`memcmp` reads past the end of both: `none`. -/
def same_key_string (a b : Int) : Option Bool :=
  if key_string a ≠ key_string b then some false
  else if 3 ≤ (key_string a).length then some true
  else none

/-- The inner loop of the check of the new keys against each other: the key
`k` with every later key in turn. -/
def clash_after (k : Int) : List Int → Except Fault Unit
  | [] => Except.ok ()
  | k2 :: rest =>
    match same_key_string k k2 with
    | none => Except.error Fault.crashed
    | some true => Except.error Fault.thrown
    | some false => clash_after k rest

/-- The check of the new keys against each other: `InternalError` is thrown
at the first pair on which the test is true. -/
def unique_new_keys : List Int → Except Fault Unit
  | [] => Except.ok ()
  | k :: rest =>
    match clash_after k rest with
    | Except.error e => Except.error e
    | Except.ok _ => unique_new_keys rest

/-- The second pass of `update_set`, over the selected positions;
`indexed` tells whether a clause sets a column of the index. -/
def update_each (cs : List SetClause) (indexed : Bool) :
    Database → Transaction → List Rid → Except Fault (Database × Transaction)
  | db, txn, [] => Except.ok (db, txn)
  | db, txn, rid :: rest =>
    match db.fh.get_record rid with
    | Except.error e => Except.error e
    | Except.ok old_rec =>
      let new_rec := apply_set_clauses cs old_rec
      let s1 := if indexed then db.emit txn
          (LogRecord.index txn.txn_id_ txn.prev_lsn_ LogType.DELETE_ENTRY rid (extract_key old_rec))
        else (db, txn)
      let s2 := s1.1.emit s1.2 (LogRecord.update s1.2.txn_id_ s1.2.prev_lsn_ rid old_rec new_rec)
      let s3 := if indexed then s2.1.emit s2.2
          (LogRecord.index s2.2.txn_id_ s2.2.prev_lsn_ LogType.INSERT_ENTRY rid (extract_key new_rec))
        else s2
      match s3.1.fh.update_record rid new_rec with
      | Except.error e => Except.error e
      | Except.ok fh4 =>
        let db4 := { s3.1 with fh := fh4 }
        let txn4 := if s3.2.txn_mode_ then
          { s3.2 with write_set_ := s3.2.write_set_ ++
              [⟨WType.UPDATE_TUPLE, rid, old_rec, new_rec⟩] } else s3.2
        if indexed then
          match db4.on_index (fun ih => ih.delete_entry (extract_key old_rec)) with
          | Except.error e => Except.error e
          | Except.ok (db5, flag1) =>
            let txn5 := if flag1 ∧ txn4.txn_mode_ then
              { txn4 with index_write_set_ := txn4.index_write_set_ ++
                  [⟨WType.DELETE_TUPLE, rid, extract_key old_rec⟩] } else txn4
            match db5.on_index (fun ih => ih.insert_entry (extract_key new_rec) rid) with
            | Except.error e => Except.error e
            | Except.ok (db6, flag2) =>
              let txn6 := if flag2 ∧ txn5.txn_mode_ then
                { txn5 with index_write_set_ := txn5.index_write_set_ ++
                    [⟨WType.INSERT_TUPLE, ⟨0, 0⟩, extract_key new_rec⟩] } else txn5
              update_each cs indexed db6 txn6 rest
        else update_each cs indexed db4 txn4 rest

/-- The run `UpdateExecutor::Next` over the selected positions; the lock on
the table is held. -/
def Next (db : Database) (txn : Transaction) (cs : List SetClause) (rids : List Rid) :
    Except Fault (Database × Transaction) :=
  if rids.isEmpty then Except.ok (db, txn)
  else
    let indexed := db.ih.isSome ∧ cs.any (fun c => c.col = 0)
    if indexed then
      match new_keys db cs rids with
      | Except.error e => Except.error e
      | Except.ok ks =>
        match unique_new_keys ks with
        | Except.error e => Except.error e
        | Except.ok _ => update_each cs true db txn rids
    else update_each cs false db txn rids

end UpdateExecutor

end RMDB

/-! ## The order of the writes of the Insert executor -/

namespace RMDB

/-- A write of an executor run: a log record appended with
`add_log_to_buffer`, a row written into the table file, an entry written
into the index. -/
inductive Effect
  | log_append (t : LogType) (lsn : Int)
  | heap_insert (rid : Rid)
  | index_insert (key : Int)
  deriving DecidableEq, Repr

namespace InsertExecutor

/-- The run `InsertExecutor::Next` together with its writes in the order in
which the statements of `Next` make them. -/
def Next_traced (db : Database) (txn : Transaction) (rec : RmRecord) :
    Except Fault ((Database × Transaction) × List Effect) :=
  match db.key_found (extract_key rec) with
  | Except.error e => Except.error e
  | Except.ok true => Except.error Fault.thrown
  | Except.ok false =>
    match db.fh.insert_record rec with
    | Except.error e => Except.error e
    | Except.ok (fh1, rid) =>
      let tr1 := [Effect.heap_insert rid]
      let txn1 := if txn.txn_mode_ then
        { txn with write_set_ := txn.write_set_ ++ [⟨WType.INSERT_TUPLE, rid, rec, []⟩] } else txn
      let s1 := Database.emit { db with fh := fh1 } txn1
        (LogRecord.tuple txn1.txn_id_ txn1.prev_lsn_ LogType.INSERT rid rec)
      let tr2 := tr1 ++ [Effect.log_append LogType.INSERT s1.2.prev_lsn_]
      match s1.1.ih with
      | none => Except.ok (s1, tr2)
      | some _ =>
        let s2 := s1.1.emit s1.2 (LogRecord.index s1.2.txn_id_ s1.2.prev_lsn_
          LogType.INSERT_ENTRY rid (extract_key rec))
        let tr3 := tr2 ++ [Effect.log_append LogType.INSERT_ENTRY s2.2.prev_lsn_]
        match s2.1.on_index (fun ih => ih.insert_entry (extract_key rec) rid) with
        | Except.error e => Except.error e
        | Except.ok (db3, flag) =>
          Except.ok ((db3, if flag ∧ s2.2.txn_mode_ then
            { s2.2 with index_write_set_ := s2.2.index_write_set_ ++
                [⟨WType.INSERT_TUPLE, ⟨0, 0⟩, extract_key rec⟩] } else s2.2),
            tr3 ++ [Effect.index_insert (extract_key rec)])

end InsertExecutor

end RMDB

/-! ## Specification of the log claims -/

namespace RMDB

/-- The sequence number of the last record of transaction `t` in a log, and
`d` when the log holds no record of `t`. -/
def last_lsn_of (t : Int) : Int → List LogRecord → Int
  | d, [] => d
  | d, r :: rest => last_lsn_of t (if r.log_tid_ = t then r.lsn_ else d) rest

/-- Every record of transaction `t` in the log carries in `prev_lsn_` the
sequence number of the preceding record of `t`, and `prev` when there is
none. -/
def chain_ok (t : Int) : Int → List LogRecord → Prop
  | _, [] => True
  | prev, r :: rest =>
    if r.log_tid_ = t then r.prev_lsn_ = prev ∧ chain_ok t r.lsn_ rest
    else chain_ok t prev rest

/-- The `prev_lsn` chain of a transaction: its records are chained, the
first one to `INVALID_LSN`, and `prev_lsn_` of the transaction is the
sequence number of its last record. -/
def TxnLogOK (log : List LogRecord) (txn : Transaction) : Prop :=
  chain_ok txn.txn_id_ INVALID_LSN log ∧
  txn.prev_lsn_ = last_lsn_of txn.txn_id_ INVALID_LSN log

/-- The log grew by records of transaction `t` only, chained from `prev`,
the last of them with the sequence number `prev1`. -/
def LogExt (t prev : Int) (log log1 : List LogRecord) (prev1 : Int) : Prop :=
  ∃ recs, log1 = log ++ recs ∧ (∀ r ∈ recs, r.log_tid_ = t) ∧ chain_ok t prev recs ∧
    prev1 = last_lsn_of t prev recs

/-- What an operation of a transaction does to the log and to the
transaction: the id stays, the log grows by chained records of the
transaction, and `prev_lsn_` follows. -/
def LogStep (db : Database) (txn : Transaction) (db1 : Database) (txn1 : Transaction) : Prop :=
  txn1.txn_id_ = txn.txn_id_ ∧ txn1.txn_mode_ = txn.txn_mode_ ∧
  LogExt txn.txn_id_ txn.prev_lsn_ db.log_mgr.log db1.log_mgr.log txn1.prev_lsn_

/-- After an operation of a transaction the chain of the transaction holds,
and the chain of every other transaction is as before. -/
def LogKept (db : Database) (txn : Transaction) (db1 : Database) (txn1 : Transaction) : Prop :=
  TxnLogOK db1.log_mgr.log txn1 ∧
  ∀ u : Transaction, u.txn_id_ ≠ txn.txn_id_ → TxnLogOK db.log_mgr.log u →
    TxnLogOK db1.log_mgr.log u

end RMDB

/-! ## Lock manager: the lock set and the state of the transaction -/

namespace RMDB

namespace LockManager

open LockRequestQueue

/-- The call `txn->get_lock_set()->insert(tab_id)`. -/
def lock_set_insert (lock_set : List Int) (tab_fd : Int) : List Int :=
  if tab_fd ∈ lock_set then lock_set else lock_set ++ [tab_fd]

/-- The call `txn->get_lock_set()->erase(tab_id)`. -/
def lock_set_erase (lock_set : List Int) (tab_fd : Int) : List Int :=
  lock_set.filter (fun x => decide (x ≠ tab_fd))

/-- The check `LockManager::CanTxnTakeLock`. -/
def CanTxnTakeLock (txn : Transaction) : Bool :=
  decide (txn.state_ ≠ TransactionState.ABORTED)

/-- The part of `lock_on_table` from the test of `locked_requests_.empty()`
to the wait, with the transaction: a lock granted at once is put into the
lock set. -/
def grant_or_enqueue_txn (q : LockRequestQueue) (txn : Transaction) (tab_fd : Int)
    (new_request : LockRequest) : LockRequestQueue × Transaction × LockResult :=
  if q.locked_requests_.isEmpty ∧ (q.upgrading_ = txn.txn_id_ ∨ q.request_queue_.isEmpty) then
    ({ q with upgrading_ := if q.upgrading_ = txn.txn_id_ then INVALID_TXN_ID else q.upgrading_,
              locked_requests_ := q.locked_insert txn.txn_id_ new_request },
      { txn with lock_set_ := lock_set_insert txn.lock_set_ tab_fd }, LockResult.granted)
  else
    ({ q with request_queue_ :=
        if q.upgrading_ = txn.txn_id_ then new_request :: q.request_queue_
        else q.request_queue_ ++ [new_request] }, txn, LockResult.waiting)

/-- The first part of `lock_on_table(txn, tab_fd, lock_mode)`, up to the
wait on the condition variable, on the queue `q` of the table and the
transaction.  `UpgradeLockTable` either throws, after it has set the state
of the transaction to ABORTED, or takes the table out of the lock set.
`none` is the use of a null request. -/
def lock_on_table_start (q : LockRequestQueue) (txn : Transaction) (tab_fd : Int)
    (lock_mode : LockMode) : Option (LockRequestQueue × Transaction × LockResult) :=
  if !CanTxnTakeLock txn then some (q, txn, LockResult.refused)
  else
    match q.locked_lookup txn.txn_id_ with
    | some request =>
      if request.lock_mode_ = lock_mode ∨ request.lock_mode_ = LockMode.EXCLUSIVE then
        some (q, txn, LockResult.granted)
      else if q.upgrading_ ≠ INVALID_TXN_ID then
        some (q, { txn with state_ := TransactionState.ABORTED }, LockResult.thrown)
      else
        some (grant_or_enqueue_txn
          { q with upgrading_ := txn.txn_id_, locked_requests_ := q.locked_erase txn.txn_id_ }
          { txn with lock_set_ := lock_set_erase txn.lock_set_ tab_fd }
          tab_fd { request with lock_mode_ := lock_mode })
    | none =>
      if q.upgrading_ = txn.txn_id_ then none
      else some (grant_or_enqueue_txn q txn tab_fd ⟨txn.txn_id_, lock_mode⟩)

/-- The second part of `lock_on_table`: one evaluation of the predicate of
the wait by the transaction, whose request is pending, and what follows
it.  `none` is `front()` of an empty list. -/
def lock_on_table_resume (q : LockRequestQueue) (txn : Transaction) (tab_fd : Int)
    (lock_mode : LockMode) : Option (LockRequestQueue × Transaction × LockResult) :=
  if txn.state_ = TransactionState.ABORTED then
    some ({ q with request_queue_ := erase_request q.request_queue_ txn.txn_id_,
                   upgrading_ := if q.upgrading_ = txn.txn_id_ then INVALID_TXN_ID
                                 else q.upgrading_ }, txn, LockResult.refused)
  else
    match q.request_queue_ with
    | [] => none
    | front :: _ =>
      if !IsCompatible front.lock_mode_ q front.txn_id_ then some (q, txn, LockResult.waiting)
      else if !IsCompatible lock_mode q txn.txn_id_ then some (q, txn, LockResult.waiting)
      else
        some ({ q with
          upgrading_ := if q.upgrading_ = txn.txn_id_ then INVALID_TXN_ID else q.upgrading_,
          request_queue_ := if q.upgrading_ = txn.txn_id_ then q.request_queue_.tail
                            else erase_request q.request_queue_ txn.txn_id_,
          locked_requests_ := q.locked_insert txn.txn_id_ ⟨txn.txn_id_, lock_mode⟩ },
          { txn with lock_set_ := lock_set_insert txn.lock_set_ tab_fd }, LockResult.granted)

/-- What happens to the queue and to the transaction between two
evaluations of the predicate of the wait: the other transactions leave the
queue in the state `queue`, and the deadlock detection has set the state of
the transaction to ABORTED when `aborted` holds. -/
structure WakeUp where
  queue : LockRequestQueue
  aborted : Bool
  deriving DecidableEq, Repr

/-- The wait of `lock_on_table` over the evaluations of its predicate, up
to the first one at which the call returns; the result is `waiting` when
the call has not returned after the last of them. -/
def lock_on_table_wait (tab_fd : Int) (lock_mode : LockMode) :
    LockRequestQueue → Transaction → List WakeUp →
      Option (LockRequestQueue × Transaction × LockResult)
  | q, txn, [] => some (q, txn, LockResult.waiting)
  | _, txn, w :: rest =>
    match lock_on_table_resume w.queue
        (if w.aborted then { txn with state_ := TransactionState.ABORTED } else txn)
        tab_fd lock_mode with
    | none => none
    | some (q1, txn1, LockResult.waiting) => lock_on_table_wait tab_fd lock_mode q1 txn1 rest
    | some r => some r

/-- A whole call `lock_on_table(txn, tab_fd, lock_mode)`: the first part
and, when the request is pending, the wait.  The predicate of the wait is
evaluated a first time at once, under the latch of the queue, in the state
the first part has left (`aborted` tells whether the deadlock detection has
set the state of the transaction to ABORTED by then), and then at each of
the wake-ups. -/
def lock_on_table (q : LockRequestQueue) (txn : Transaction) (tab_fd : Int)
    (lock_mode : LockMode) (aborted : Bool) (wakes : List WakeUp) :
    Option (LockRequestQueue × Transaction × LockResult) :=
  match lock_on_table_start q txn tab_fd lock_mode with
  | none => none
  | some (q1, txn1, LockResult.waiting) =>
    lock_on_table_wait tab_fd lock_mode q1 txn1 (⟨q1, aborted⟩ :: wakes)
  | some r => some r

/-- The call `LockManager::unlock(txn, lock_data_id)` on the queue of the
table and the transaction: a table that is not in the lock set makes the
call set the state to ABORTED and throw; otherwise the granted request of
the transaction is taken out of the queue, and the lock set is left as it
is. -/
def unlock_txn (q : LockRequestQueue) (txn : Transaction) (tab_fd : Int) :
    LockRequestQueue × Transaction × LockResult :=
  if tab_fd ∉ txn.lock_set_ then
    (q, { txn with state_ := TransactionState.ABORTED }, LockResult.thrown)
  else ({ q with locked_requests_ := q.locked_erase txn.txn_id_ }, txn, LockResult.granted)

end LockManager

/-- A transaction in explicit mode that has done nothing yet. -/
def Transaction.fresh (txn_id : Int) : Transaction :=
  { txn_id_ := txn_id, prev_lsn_ := INVALID_LSN, txn_mode_ := true, write_set_ := [],
    index_write_set_ := [], state_ := TransactionState.DEFAULT, lock_set_ := [] }

/-- The state after the transaction `txn` has taken a SHARED lock on table
5, whose queue was empty. -/
def lock_once (txn : Transaction) : LockRequestQueue × Transaction × LockResult :=
  match LockManager.lock_on_table LockRequestQueue.empty txn 5 LockMode.SHARED false [] with
  | some r => r
  | none => (LockRequestQueue.empty, txn, LockResult.waiting)

/-- The state after transaction 1 has taken a SHARED lock on table 5 and
released it with `unlock`. -/
def lock_unlock_once : LockRequestQueue × Transaction × LockResult :=
  LockManager.unlock_txn (lock_once (Transaction.fresh 1)).1 (lock_once (Transaction.fresh 1)).2.1 5

/-- Transaction 2 and then transaction 1 have taken SHARED locks on table
5; the state of the queue and of transaction 1. -/
def shared_pair : LockRequestQueue × Transaction :=
  match LockManager.lock_on_table (lock_once (Transaction.fresh 2)).1 (Transaction.fresh 1) 5
      LockMode.SHARED false [] with
  | some r => (r.1, r.2.1)
  | none => (LockRequestQueue.empty, Transaction.fresh 1)

/-- The queue of table 5 after transaction 1 of `shared_pair` has asked for
an EXCLUSIVE lock and waits for transaction 2. -/
def upgrade_wait_queue : LockRequestQueue :=
  match LockManager.lock_on_table_start shared_pair.1 shared_pair.2 5 LockMode.EXCLUSIVE with
  | some r => r.1
  | none => shared_pair.1

/-- The state after transaction 1 of `shared_pair` has asked for an
EXCLUSIVE lock on table 5, has waited and has been aborted by the deadlock
detection. -/
def upgrade_aborted : LockRequestQueue × Transaction × LockResult :=
  match LockManager.lock_on_table shared_pair.1 shared_pair.2 5 LockMode.EXCLUSIVE false
      [⟨upgrade_wait_queue, true⟩] with
  | some r => r
  | none => (shared_pair.1, shared_pair.2, LockResult.waiting)

/-- Transaction 1 holds a SHARED lock on table 3, whose queue was empty, and
then takes a SHARED lock on table 5, on which transaction 2 holds one: the
queue of table 5 and transaction 1, whose lock set holds the tables 3 and
5. -/
def two_table_pair : LockRequestQueue × Transaction :=
  match LockManager.lock_on_table LockRequestQueue.empty (Transaction.fresh 1) 3
      LockMode.SHARED false [] with
  | some r3 =>
    (match LockManager.lock_on_table (lock_once (Transaction.fresh 2)).1 r3.2.1 5
        LockMode.SHARED false [] with
      | some r => (r.1, r.2.1)
      | none => (LockRequestQueue.empty, Transaction.fresh 1))
  | none => (LockRequestQueue.empty, Transaction.fresh 1)

/-- The queue of table 5 after transaction 1 of `two_table_pair` has asked
for an EXCLUSIVE lock and waits for transaction 2. -/
def two_table_wait_queue : LockRequestQueue :=
  match LockManager.lock_on_table_start two_table_pair.1 two_table_pair.2 5
      LockMode.EXCLUSIVE with
  | some r => r.1
  | none => two_table_pair.1

/-- The queue of table 5 after transaction 2 has released its lock with
`unlock` while transaction 1 waits. -/
def two_table_released_queue : LockRequestQueue :=
  (LockManager.unlock_txn two_table_wait_queue (lock_once (Transaction.fresh 2)).2.1 5).1

/-- The state after transaction 1 of `two_table_pair` has asked for an
EXCLUSIVE lock on table 5, has waited, and has been woken up after
transaction 2 has released its lock. -/
def upgrade_granted : LockRequestQueue × Transaction × LockResult :=
  match LockManager.lock_on_table two_table_pair.1 two_table_pair.2 5 LockMode.EXCLUSIVE false
      [⟨two_table_released_queue, false⟩] with
  | some r => r
  | none => (two_table_pair.1, two_table_pair.2, LockResult.waiting)

end RMDB
/-! ## Example runs -/

namespace RMDB

/-- A new table whose pages hold `n` records of one column, with an index of
order `m` on that column when `m` is given, and an empty log. -/
def Database.create (n : Nat) (m : Option Nat) : Database :=
  { fh := RmFileHandle.create 1 n ((n + 7) / 8), ih := m.map IxIndexHandle.empty,
    log_mgr := LogManager.new [] }

/-- A sequence of INSERT statements of one transaction. -/
def run_inserts : Database → Transaction → List RmRecord → Except Fault (Database × Transaction)
  | db, txn, [] => Except.ok (db, txn)
  | db, txn, rec :: rest =>
    match InsertExecutor.Next db txn rec with
    | Except.error e => Except.error e
    | Except.ok (db1, txn1) => run_inserts db1 txn1 rest

/-- Transaction 1 inserts the rows `recs` into a new table and commits;
transaction 2 begins and deletes the rows at the positions `rids`. -/
def insert_commit_delete (n : Nat) (m : Option Nat) (recs : List RmRecord) (rids : List Rid) :
    Except Fault (Database × Transaction) :=
  let s0 := TransactionManager.begin (Database.create n m) 1 true
  match run_inserts s0.1 s0.2 recs with
  | Except.error e => Except.error e
  | Except.ok (db1, txn1) =>
    let s1 := TransactionManager.commit db1 txn1
    let s2 := TransactionManager.begin s1.1 2 true
    DeleteExecutor.Next s2.1 s2.2 rids

/-- Ten rows with the keys 22, 14, 9, 24, 7, 8, 2, 4, 23, 29 in a table with
an index of order 3, of which transaction 2 deletes the rows with the keys
22, 23 and 29. -/
def order3_run : Except Fault (Database × Transaction) :=
  insert_commit_delete 16 (some 3)
    [[22], [14], [9], [24], [7], [8], [2], [4], [23], [29]] [⟨1, 0⟩, ⟨1, 8⟩, ⟨1, 9⟩]

/-- The state of a run that returned, the new table otherwise. -/
def state_of (n : Nat) (m : Option Nat) : Except Fault (Database × Transaction) →
    Database × Transaction
  | Except.ok s => s
  | Except.error _ => (Database.create n m, ⟨0, INVALID_LSN, false, [], [], TransactionState.DEFAULT, []⟩)

/-- The state after the run `order3_run`. -/
def order3_state : Database × Transaction := state_of 16 (some 3) order3_run

/-- The log of the spec's crash scenario on a table without index:
transaction 1 inserts 1, 2, 3 and commits, transaction 2 inserts 4. -/
def crash_scenario_log : List LogRecord :=
  [ { LogRecord.control 1 INVALID_LSN LogType.BEGIN with lsn_ := 0 },
    { LogRecord.tuple 1 0 LogType.INSERT ⟨1, 0⟩ [1] with lsn_ := 1 },
    { LogRecord.tuple 1 1 LogType.INSERT ⟨1, 1⟩ [2] with lsn_ := 2 },
    { LogRecord.tuple 1 2 LogType.INSERT ⟨1, 2⟩ [3] with lsn_ := 3 },
    { LogRecord.control 1 3 LogType.COMMIT with lsn_ := 4 },
    { LogRecord.control 2 INVALID_LSN LogType.BEGIN with lsn_ := 5 },
    { LogRecord.tuple 2 5 LogType.INSERT ⟨1, 3⟩ [4] with lsn_ := 6 } ]

/-- The log of one committed insertion. -/
def single_insert_log : List LogRecord :=
  [ { LogRecord.control 1 INVALID_LSN LogType.BEGIN with lsn_ := 0 },
    { LogRecord.tuple 1 0 LogType.INSERT ⟨1, 0⟩ [1] with lsn_ := 1 },
    { LogRecord.control 1 1 LogType.COMMIT with lsn_ := 2 } ]

/-- The table file and index after a first recovery over
`single_insert_log` from a new table. -/
def single_insert_recovered : RmFileHandle × IxIndexHandle :=
  match RecoveryManager.recover (RmFileHandle.create 1 8 1) (IxIndexHandle.empty 4)
      single_insert_log with
  | Except.ok s => s
  | Except.error _ => (RmFileHandle.create 1 8 1, IxIndexHandle.empty 4)

/-- The recovery manager after `redo` over the log of `order3_run` from a
new table and a new index. -/
def order3_redone : RecoveryManager :=
  match (RecoveryManager.new (RmFileHandle.create 1 16 2) (IxIndexHandle.empty 3)).redo
      order3_state.1.log_mgr.log with
  | Except.ok rm => rm
  | Except.error _ => RecoveryManager.new (RmFileHandle.create 1 16 2) (IxIndexHandle.empty 3)

/-- Transaction 1 has begun on a new table without index and inserted the
row `[7]`. -/
def chain_example : Database × Transaction :=
  state_of 4 none
    (InsertExecutor.Next (TransactionManager.begin (Database.create 4 none) 1 true).1
      (TransactionManager.begin (Database.create 4 none) 1 true).2 [7])

end RMDB

/-! ## Example states for `abort` -/

namespace RMDB

/-- Transaction 1 has begun on a new table without being in explicit
mode. -/
def implicit_example : Database × Transaction :=
  TransactionManager.begin (Database.create 4 none) 1 false

/-- The state of `chain_example` after `abort` of its transaction. -/
def chain_example_aborted : Database × Transaction :=
  state_of 4 none (TransactionManager.abort chain_example.1 chain_example.2)

/-- The state of `chain_example` after the record at page 1, slot 0 has
been removed from the table file; the write set of the transaction still
holds the entry of its insertion. -/
def vanished_insert : Database × Transaction :=
  match chain_example.1.fh.delete_record ⟨1, 0⟩ with
  | Except.ok fh => ({ chain_example.1 with fh := fh }, chain_example.2)
  | Except.error _ => chain_example

/-- The same table file, the write set holding the entry of an update of
the record at page 1, slot 0. -/
def vanished_update : Database × Transaction :=
  (vanished_insert.1,
    { vanished_insert.2 with write_set_ := [⟨WType.UPDATE_TUPLE, ⟨1, 0⟩, [7], [8]⟩] })

/-- The same table file, the write set holding the entry of a deletion of
the record at page 1, slot 0. -/
def vanished_delete : Database × Transaction :=
  (vanished_insert.1,
    { vanished_insert.2 with write_set_ := [⟨WType.DELETE_TUPLE, ⟨1, 0⟩, [7], []⟩] })

/-- The kinds of the records of a log. -/
def log_types (db : Database) : List LogType := db.log_mgr.log.map (fun r => r.log_type_)

/-- Whether the table file holds a record at the position after a run that
returned. -/
def record_after (r : Except Fault (Database × Transaction)) (rid : Rid) : Option Bool :=
  match r with
  | Except.ok s =>
    match s.1.fh.is_record rid with
    | Except.ok b => some b
    | Except.error _ => none
  | Except.error _ => none

end RMDB
/-! ## Example runs of the Update executor -/

namespace RMDB

/-- Transaction 1 has begun on a new table with an index of order 4 on the
first column and inserted the rows `a` and `b`, which lie at page 1, slots
0 and 1. -/
def two_rows (a b : RmRecord) : Database × Transaction :=
  state_of 4 (some 4)
    (run_inserts (TransactionManager.begin (Database.create 4 (some 4)) 1 true).1
      (TransactionManager.begin (Database.create 4 (some 4)) 1 true).2 [a, b])

/-- The clauses `SET c0 = 5, c0 = c0 + 1`. -/
def set_then_add : List SetClause := [⟨0, false, false, 5⟩, ⟨0, true, true, 1⟩]

/-- The rows at page 1, slots 0 and 1, and the position the index gives for
the key `k`, after a run that returned. -/
def rows_after (r : Except Fault (Database × Transaction)) (k : Int) :
    Option (Option RmRecord × Option RmRecord × Option (Option Rid)) :=
  match r with
  | Except.ok s =>
    some ((s.1.fh.get_record ⟨1, 0⟩).toOption, (s.1.fh.get_record ⟨1, 1⟩).toOption,
      match s.1.ih with
      | some ih => ih.get_value k
      | none => none)
  | Except.error _ => none

end RMDB
namespace RMDB

/-! ## Creation of an index on a table with rows: `SmManager::create_index` -/

namespace SmManager

/-- The scan loop of `create_index` over the positions the scan visits: the
key of each record is inserted into the new index `ih`; a record whose key
is in the index already is put on the list `rid_to_delete` and logged as
deleted, the others are logged as index insertions.  The key is the value
of the column `col`. -/
def create_index_scan (col : Nat) : List Rid → Database → Transaction → IxIndexHandle →
    List Rid → Except Fault (Database × Transaction × IxIndexHandle × List Rid)
  | [], db, txn, ih, rid_to_delete => Except.ok (db, txn, ih, rid_to_delete)
  | rid :: rest, db, txn, ih, rid_to_delete =>
    match db.fh.get_record rid with
    | Except.error e => Except.error e
    | Except.ok rec =>
      let key := rec.getD col 0
      match ih.insert_entry key rid with
      | none => Except.error Fault.crashed
      | some (ih1, unique) =>
        if !unique then
          let s := db.emit txn (LogRecord.tuple txn.txn_id_ txn.prev_lsn_ LogType.DELETE rid rec)
          create_index_scan col rest s.1 s.2 ih1 (rid_to_delete ++ [rid])
        else
          let s := db.emit txn
            (LogRecord.index txn.txn_id_ txn.prev_lsn_ LogType.INSERT_ENTRY rid key)
          create_index_scan col rest s.1 s.2 ih1 rid_to_delete

/-- The loop `for (auto &rid : rid_to_delete) delete_record(rid)`. -/
def delete_records : RmFileHandle → List Rid → Except Fault RmFileHandle
  | fh, [] => Except.ok fh
  | fh, rid :: rest =>
    match fh.delete_record rid with
    | Except.error e => Except.error e
    | Except.ok fh1 => delete_records fh1 rest

/-- The call `SmManager::create_index` for an index of order `order` on the
column `col` of the table; the index on the first column, when the table
has one, is its other index.  The result is the database, the transaction
and the new index. -/
def create_index (db : Database) (txn : Transaction) (col order : Nat) :
    Except Fault (Database × Transaction × IxIndexHandle) :=
  if col = 0 ∧ db.ih.isSome then Except.error Fault.thrown
  else
    match RmScan.visit_all db.fh
        (db.fh.file_hdr.num_pages.toNat * db.fh.file_hdr.num_records_per_page + 1) with
    | Except.error e => Except.error e
    | Except.ok rids =>
      match create_index_scan col rids db txn (IxIndexHandle.empty order) [] with
      | Except.error e => Except.error e
      | Except.ok (db1, txn1, ih, rid_to_delete) =>
        match delete_records db1.fh rid_to_delete with
        | Except.error e => Except.error e
        | Except.ok fh1 => Except.ok ({ db1 with fh := fh1 }, txn1, ih)

end SmManager

/-- The entries of an index match the heap: every position the index holds
for a key is the position of a live record. -/
def IndexMatchesHeap (ih : IxIndexHandle) (fh : RmFileHandle) : Prop :=
  ∀ key rid, ih.get_value key = some (some rid) → rid ∈ fh.live_rids

/-- A table of two columns with an index of order 4 on the first one and
the rows (1, 7) and (2, 7), which share the value of the second column. -/
def shared_value_table : Database × Transaction := two_rows [1, 7] [2, 7]

/-- The live positions of the table and what its index on the first column
gives for the key 2, after a call of `create_index` that returned. -/
def table_after (r : Except Fault (Database × Transaction × IxIndexHandle)) :
    Option (List Rid × Option (Option Rid)) :=
  match r with
  | Except.ok s => some (s.1.fh.live_rids, match s.1.ih with
      | some ih => ih.get_value 2
      | none => none)
  | Except.error _ => none

end RMDB
namespace RMDB

/-! ## Validation of DATETIME literals -/

namespace Value

/-- The call `std::replace(str_.begin(), str_.end(), old, new)`. -/
def replace (s : List Char) (old new : Char) : List Char :=
  s.map (fun c => if c = old then new else c)

/-- Modelled from the spec: the characters that formatted input skips,
those of `isspace` in the C locale; the standard library is not among the
sources. -/
def is_space (c : Char) : Bool :=
  decide (c.toNat = 32 ∨ (9 ≤ c.toNat ∧ c.toNat ≤ 13))

/-- The skip of leading whitespace by `operator>>`. -/
def skip_ws : List Char → List Char
  | [] => []
  | c :: cs => if is_space c then skip_ws cs else c :: cs

/-- The run of decimal digits read by `operator>>`, with the value read so
far. -/
def read_digits : List Char → Nat → Nat × List Char
  | [], acc => (acc, [])
  | c :: cs, acc =>
    if c.isDigit then read_digits cs (acc * 10 + (c.toNat - 48)) else (acc, c :: cs)

/-- Modelled from the spec: one extraction `ss >> x` of an `int`:
whitespace is skipped, a sign `+` is accepted (no `-` is left in the
string), the digits are read.  The result is the value stored, whether the
extraction succeeded, and the characters left; a failed extraction stores 0
when there is no digit and the largest `int` when the number is too
large. -/
def extract_int (s : List Char) : Int × Bool × List Char :=
  let s1 := skip_ws s
  let s2 := match s1 with
    | c :: cs => if c = '+' then cs else s1
    | [] => s1
  match s2 with
  | [] => (0, false, s2)
  | c :: cs =>
    if c.isDigit then
      let r := read_digits (c :: cs) 0
      if r.1 > 2147483647 then (2147483647, false, r.2) else ((r.1 : Int), true, r.2)
    else (0, false, s2)

/-- The chain `ss >> year >> month >> ...` of `n` extractions: once one has
failed the later variables are left as they are, which is without a value
(`none`). -/
def extract_ints : Nat → Bool → List Char → List (Option Int)
  | 0, _, _ => []
  | n + 1, failed, s =>
    if failed then none :: extract_ints n true s
    else
      let r := extract_int s
      some r.1 :: extract_ints n (!r.2.1) r.2.2

/-- The table `days_in_month` after the adjustment for a leap year. -/
def days_in_month (year : Int) : List Int :=
  let t : List Int := [0, 31, 28, 31, 30, 31, 30, 31, 31, 30, 31, 30, 31]
  if (year % 4 = 0 ∧ year % 100 ≠ 0) ∨ year % 400 = 0 then t.set 2 29 else t

/-- The checks of `isValidDateTime` on the six numbers; `none` is the read
of a variable without a value. -/
def check_fields (year month day hour minute second : Option Int) : Option Bool :=
  match year with
  | none => none
  | some year =>
    if year < 1000 ∨ year > 9999 then some false
    else match month with
    | none => none
    | some month =>
      if month < 1 ∨ month > 12 then some false
      else match day with
      | none => none
      | some day =>
        if day < 1 then some false
        else match hour with
        | none => none
        | some hour =>
          if hour < 0 ∨ hour > 23 then some false
          else match minute with
          | none => none
          | some minute =>
            if minute < 0 ∨ minute > 59 then some false
            else match second with
            | none => none
            | some second =>
              if second < 0 ∨ second > 59 then some false
              else if day > (days_in_month year).getD month.toNat 0 then some false
              else some true

/-- The function `Value::isValidDateTime`. -/
def isValidDateTime (str_ : List Char) : Option Bool :=
  if str_.length ≠ 19 then some false
  else
    match extract_ints 6 false (replace (replace str_ '-' ' ') ':' ' ') with
    | [year, month, day, hour, minute, second] =>
      check_fields year month day hour minute second
    | _ => none

end Value

/-- The value of a decimal digit. -/
def digit_value (c : Char) : Nat := c.toNat - 48

/-- The number written by two digits. -/
def two_digits (a b : Char) : Nat := digit_value a * 10 + digit_value b

/-- The number written by four digits. -/
def four_digits (a b c d : Char) : Nat :=
  digit_value a * 1000 + digit_value b * 100 + digit_value c * 10 + digit_value d

/-- The number of days of a month as the specification words it: February
has 29 days exactly when the year is divisible by 4 and not by 100, or
divisible by 400, and 28 otherwise. -/
def spec_days_of_month (year month : Nat) : Nat :=
  if month = 2 then
    (if (year % 4 = 0 ∧ year % 100 ≠ 0) ∨ year % 400 = 0 then 29 else 28)
  else if month = 4 ∨ month = 6 ∨ month = 9 ∨ month = 11 then 30
  else 31

/-- A valid date and time as the specification words it. -/
def SpecValidDateTime (year month day hour minute second : Nat) : Prop :=
  1000 ≤ year ∧ year ≤ 9999 ∧ 1 ≤ month ∧ month ≤ 12 ∧ 1 ≤ day ∧
    day ≤ spec_days_of_month year month ∧ hour ≤ 23 ∧ minute ≤ 59 ∧ second ≤ 59

instance (year month day hour minute second : Nat) :
    Decidable (SpecValidDateTime year month day hour minute second) := by
  unfold SpecValidDateTime; infer_instance

end RMDB
namespace RMDB

/-! ## The layout of DATETIME literals -/

/-- The layout `YYYY-MM-DD HH:MM:SS` of the specification: 19 characters,
`-` at the positions 4 and 7, a space at position 10, `:` at the positions
13 and 16, and decimal digits elsewhere. -/
def LaidOutAsDateTime (s : List Char) : Prop :=
  s.length = 19 ∧ ∀ i < 19,
    if i = 4 ∨ i = 7 then s.getD i 'x' = '-'
    else if i = 10 then s.getD i 'x' = ' '
    else if i = 13 ∨ i = 16 then s.getD i 'x' = ':'
    else (s.getD i 'x').isDigit = true

instance (s : List Char) : Decidable (LaidOutAsDateTime s) := by
  unfold LaidOutAsDateTime; infer_instance

/-- The text `2024 02 29 12 30 45`, with blanks for all separators. -/
def blank_separated : List Char :=
  ['2', '0', '2', '4', ' ', '0', '2', ' ', '2', '9', ' ', '1', '2', ' ', '3', '0', ' ',
    '4', '5']

/-- The text `2024-2-29 1:30:45` followed by two blanks. -/
def short_fields : List Char :=
  ['2', '0', '2', '4', '-', '2', '-', '2', '9', ' ', '1', ':', '3', '0', ':', '4', '5',
    ' ', ' ']

end RMDB
namespace RMDB

/-! ## Typed columns, values and predicates (`src/common/common.h`) -/

open LogCodec

/-- Modelled from the spec: the column types `ColType` of `defs.h`, which is
not among the sources. -/
inductive ColType
  | TYPE_INT
  | TYPE_FLOAT
  | TYPE_STRING
  | TYPE_BIGINT
  | TYPE_DATETIME
  deriving DecidableEq, Repr

/-- A column named in a statement, `TabCol`. -/
structure TabCol where
  tab_name : String
  col_name : String
  deriving DecidableEq, Repr

/-- Modelled from the spec: the fields of `ColMeta` that the executors use;
`sm_meta.h` is not among the sources. -/
structure ColMeta where
  tab_name : String
  name : String
  type : ColType
  len : Nat
  offset : Nat
  deriving DecidableEq, Repr

/-- The eight bytes of a `std::int64_t`. -/
def int64_bytes (x : Int) : Bytes := le_bytes 8 (x % 18446744073709551616).toNat

/-- The `std::int64_t` held by eight bytes. -/
def int64_value (bs : Bytes) : Int :=
  if le_value bs < 9223372036854775808 then (le_value bs : Int)
  else (le_value bs : Int) - 18446744073709551616

/-- Modelled from the spec: the place of a `float`, given by its 32 bits,
in the order of the numbers (IEEE 754 binary32): none for a NaN, which
compares neither smaller nor greater than anything; the two zeros take the
same place. -/
def float_key (bits : Nat) : Option Int :=
  if bits % 2147483648 > 2139095040 then none
  else if bits / 2147483648 % 2 = 1 then some (-((bits % 2147483648 : Nat) : Int))
  else some ((bits % 2147483648 : Nat) : Int)

/-- The comparison `fa < fb` of two `float`s given by their bits. -/
def float_lt (a b : Nat) : Bool :=
  match float_key a, float_key b with
  | some x, some y => decide (x < y)
  | _, _ => false

/-- Modelled from the spec: the sign of `memcmp` on two runs of the same
length: that of the difference of the first two bytes that differ. -/
def memcmp : Bytes → Bytes → Int
  | a :: as, b :: bs => if a < b then -1 else if a > b then 1 else memcmp as bs
  | _, _ => 0

/-- The function `ix_compare` of `ix_index_handle.h` on the bytes at two
pointers: `a` and `b` are the bytes from the pointer to the end of its
buffer, and `none` is a read past that end. -/
def ix_compare_raw (a b : Bytes) (type : ColType) (col_len : Nat) : Option Int :=
  match type with
  | ColType.TYPE_INT => do
    let ia ← read_at a 0 4
    let ib ← read_at b 0 4
    pure (ix_compare (int32_value ia) (int32_value ib))
  | ColType.TYPE_FLOAT => do
    let fa ← read_at a 0 4
    let fb ← read_at b 0 4
    pure (if float_lt (le_value fa) (le_value fb) then -1
      else if float_lt (le_value fb) (le_value fa) then 1 else 0)
  | ColType.TYPE_BIGINT => do
    let ba ← read_at a 0 8
    let bb ← read_at b 0 8
    pure (ix_compare (int64_value ba) (int64_value bb))
  | ColType.TYPE_DATETIME => do
    let x ← read_at a 0 col_len
    let y ← read_at b 0 col_len
    pure (memcmp x y)
  | ColType.TYPE_STRING => do
    let x ← read_at a 0 col_len
    let y ← read_at b 0 col_len
    pure (memcmp x y)

/-- A value, `Value`: its type, the members `int_val`, `float_val` (as its
32 bits) and `bigint_val` of the union, of which the one the type names is
read, the string, and the buffer `raw` once `init_raw` has made it. -/
structure Value where
  type : ColType
  int_val : Int
  float_val : Nat
  bigint_val : Int
  str_val : Bytes
  raw : Option Bytes
  deriving DecidableEq, Repr

namespace Value

/-- A value before any setter is called. -/
def blank : Value :=
  { type := ColType.TYPE_INT, int_val := 0, float_val := 0, bigint_val := 0, str_val := [],
    raw := none }

/-- The setter `set_real_int`. -/
def set_real_int (v : Value) (int_val_ : Int) : Value :=
  { v with type := ColType.TYPE_INT, int_val := int_val_ }

/-- The setter `set_real_bigint`. -/
def set_real_bigint (v : Value) (big_val_ : Int) : Value :=
  { v with type := ColType.TYPE_BIGINT, bigint_val := big_val_ }

/-- The setter `set_float`. -/
def set_float (v : Value) (float_val_ : Nat) : Value :=
  { v with type := ColType.TYPE_FLOAT, float_val := float_val_ }

/-- The setter `set_str`. -/
def set_str (v : Value) (str_val_ : Bytes) : Value :=
  { v with type := ColType.TYPE_STRING, str_val := str_val_ }

/-- The call `init_raw(len)`: a new buffer of `len` bytes, whose content is
not set (`junk`), receives the value: four or eight bytes at its start for
a number, the string after a `memset` to zero for a string or a date.
A string longer than `len` throws `StringOverflowError`; a write past the
end of the buffer ends the process. -/
def init_raw (v : Value) (len : Nat) (junk : Nat → Nat) : Except Fault Value :=
  let stored (r : Option Bytes) : Except Fault Value :=
    match r with
    | none => Except.error Fault.crashed
    | some bs => Except.ok { v with raw := some bs }
  match v.type with
  | ColType.TYPE_INT => stored (memcpy_at (new_buffer len junk) 0 (int32_bytes v.int_val))
  | ColType.TYPE_FLOAT => stored (memcpy_at (new_buffer len junk) 0 (le_bytes 4 v.float_val))
  | ColType.TYPE_STRING =>
    if len < v.str_val.length then Except.error Fault.thrown
    else stored (memcpy_at (List.replicate len 0) 0 v.str_val)
  | ColType.TYPE_DATETIME => stored (memcpy_at (List.replicate len 0) 0 v.str_val)
  | ColType.TYPE_BIGINT => stored (memcpy_at (new_buffer len junk) 0 (int64_bytes v.bigint_val))

end Value

/-- The comparison operators, `CompOp`. -/
inductive CompOp
  | OP_EQ
  | OP_NE
  | OP_LT
  | OP_GT
  | OP_LE
  | OP_GE
  deriving DecidableEq, Repr

/-- A predicate `lhs_col op rhs`, `Condition`. -/
structure Condition where
  lhs_col : TabCol
  op : CompOp
  is_rhs_val : Bool
  rhs_col : TabCol
  rhs_val : Value
  deriving DecidableEq, Repr

/-- The truth value that `eval_cond` returns for the result `cmp` of
`ix_compare`. -/
def CompOp.holds (op : CompOp) (cmp : Int) : Bool :=
  match op with
  | CompOp.OP_EQ => decide (cmp = 0)
  | CompOp.OP_NE => decide (cmp ≠ 0)
  | CompOp.OP_LT => decide (cmp < 0)
  | CompOp.OP_GT => decide (cmp > 0)
  | CompOp.OP_LE => decide (cmp ≤ 0)
  | CompOp.OP_GE => decide (cmp ≥ 0)

/-- The table `swap_op` of the executors. -/
def CompOp.swap_op : CompOp → CompOp
  | CompOp.OP_EQ => CompOp.OP_EQ
  | CompOp.OP_NE => CompOp.OP_NE
  | CompOp.OP_LT => CompOp.OP_GT
  | CompOp.OP_GT => CompOp.OP_LT
  | CompOp.OP_LE => CompOp.OP_GE
  | CompOp.OP_GE => CompOp.OP_LE

namespace SeqScanExecutor

/-- The lookup `SeqScanExecutor::get_col`: the first column with the table
and the name of the target; `ColumnNotFoundError` is thrown when there is
none. -/
def get_col (rec_cols : List ColMeta) (target : TabCol) : Except Fault ColMeta :=
  match rec_cols.find? (fun col => col.tab_name = target.tab_name ∧ col.name = target.col_name) with
  | none => Except.error Fault.thrown
  | some col => Except.ok col

/-- The function `SeqScanExecutor::eval_cond` on the bytes `rec` of a
record. -/
def eval_cond (rec_cols : List ColMeta) (cond : Condition) (rec : Bytes) :
    Except Fault Bool :=
  match get_col rec_cols cond.lhs_col with
  | Except.error e => Except.error e
  | Except.ok lhs_col =>
    let lhs := rec.drop lhs_col.offset
    let side : Except Fault (ColType × Option Bytes) :=
      if cond.is_rhs_val then Except.ok (cond.rhs_val.type, cond.rhs_val.raw)
      else
        match get_col rec_cols cond.rhs_col with
        | Except.error e => Except.error e
        | Except.ok rhs_col => Except.ok (rhs_col.type, some (rec.drop rhs_col.offset))
    match side with
    | Except.error e => Except.error e
    | Except.ok (rhs_type, rhs) =>
      if rhs_type ≠ lhs_col.type ∧
          ¬ (rhs_type = ColType.TYPE_DATETIME ∧ lhs_col.type = ColType.TYPE_STRING ∧
              lhs_col.len ≥ 19) ∧
          ¬ (rhs_type = ColType.TYPE_INT ∧ lhs_col.type = ColType.TYPE_BIGINT) then
        Except.error Fault.thrown
      else
        match rhs with
        | none => Except.error Fault.crashed
        | some rhs =>
          match ix_compare_raw lhs rhs rhs_type lhs_col.len with
          | none => Except.error Fault.crashed
          | some cmp => Except.ok (cond.op.holds cmp)

end SeqScanExecutor

/-- The table `t(id INT, big BIGINT)`. -/
def int_big_cols : List ColMeta :=
  [⟨"t", "id", ColType.TYPE_INT, 4, 0⟩, ⟨"t", "big", ColType.TYPE_BIGINT, 8, 4⟩]

/-- The predicate `t.big op c` for an INT literal `c`, whose buffer was made
by `init_raw(8)` for the column. -/
def big_vs_int (op : CompOp) (c : Int) (junk : Nat → Nat) : Condition :=
  { lhs_col := ⟨"t", "big"⟩, op := op, is_rhs_val := true, rhs_col := ⟨"", ""⟩,
    rhs_val := match (Value.blank.set_real_int c).init_raw 8 junk with
      | Except.ok v => v
      | Except.error _ => Value.blank }

/-- The truth value of `v op c` on the numbers themselves. -/
def CompOp.holds_on (op : CompOp) (v c : Int) : Bool := op.holds (ix_compare v c)

end RMDB
/-! ## The Sort executor -/

namespace RMDB

open LogCodec

/-- The directions of an ORDER BY column, `OrderByDir`. -/
inductive OrderByDir
  | OrderBy_DEFAULT
  | OrderBy_ASC
  | OrderBy_DESC
  deriving DecidableEq, Repr

/-- The state of a `SortExecutor`: the columns to sort by, each with its
direction, the limit, and the tuples gathered; a tuple is the run of the
bytes of its record. -/
structure SortExecutor where
  sort_cols_ : List (ColMeta × OrderByDir)
  limit_ : Int
  has_limit : Bool
  tuple_num : Nat
  all_tuples : List Bytes
  deriving DecidableEq, Repr

namespace SortExecutor

/-- The constructor: no tuple yet, `has_limit` false. -/
def new (sort_cols : List (ColMeta × OrderByDir)) (limit : Int) : SortExecutor :=
  { sort_cols_ := sort_cols, limit_ := limit, has_limit := false, tuple_num := 0,
    all_tuples := [] }

/-- The comparison that `beginTuple` hands to `std::sort`: `ix_compare` is
called on the bytes of the two tuples at the offset of each column in turn,
with the type and the length of the column; at the first column on which it
does not return 0, `a` goes before `b` when the result is positive, and for
a DESC column when it is negative.  `none` is a read past the end of a
tuple. -/
def sort_before : List (ColMeta × OrderByDir) → Bytes → Bytes → Option Bool
  | [], _, _ => some false
  | sort_col :: rest, a, b =>
    match ix_compare_raw (a.drop sort_col.1.offset) (b.drop sort_col.1.offset)
        sort_col.1.type sort_col.1.len with
    | none => none
    | some comparison =>
      if comparison ≠ 0 then
        some (if sort_col.2 = OrderByDir.OrderBy_DESC then decide (comparison < 0)
          else decide (comparison > 0))
      else sort_before rest a b

/-- Modelled from the spec: `std::sort` with the comparison `before`, which
leaves the range ordered by it; the standard library is not among the
sources.  The order it gives to tuples that compare equal is not fixed; here
they keep their order.  Which tuples it compares with which is not fixed
either: the result is `none` when the comparison of some two tuples of the
range reads past the end of a tuple.  For a comparison that is not a strict
weak ordering of the range, as with a NaN in a FLOAT column, `std::sort`
promises no order. -/
def std_sort (before : Bytes → Bytes → Option Bool) (l : List Bytes) : Option (List Bytes) :=
  if l.all (fun a => l.all (fun b => (before a b).isSome)) then
    some (l.insertionSort (fun a b => before b a = some false))
  else none

/-- The call `SortExecutor::beginTuple`; `child` holds the tuples the child
executor yields. -/
def beginTuple (e : SortExecutor) (child : List Bytes) : Option SortExecutor :=
  if e.limit_ = 0 then some e
  else
    let e1 := if e.limit_ > 0 then { e with has_limit := true } else e
    let e2 := { e1 with all_tuples := e1.all_tuples ++ child,
                        tuple_num := (e1.all_tuples ++ child).length }
    if e2.tuple_num = 0 then some e2
    else (std_sort (sort_before e2.sort_cols_) e2.all_tuples).map
      (fun sorted => { e2 with all_tuples := sorted })

/-- The call `SortExecutor::get_block`: the block returned and the executor
after it. -/
def get_block (e : SortExecutor) : List Bytes × SortExecutor :=
  let reversed := e.all_tuples.reverse
  let block := if e.has_limit ∧ (reversed.length : Int) > e.limit_ then
      reversed.take e.limit_.toNat else reversed
  (block, { e with all_tuples := [] })

end SortExecutor

/-- The order of the specification between two tuples: at the first ORDER BY
column on which `ix_compare` does not return 0 for them, the first tuple is
the smaller one, and for a DESC column the larger one. -/
def OrderedBy : List (ColMeta × OrderByDir) → Bytes → Bytes → Prop
  | [], _, _ => True
  | sort_col :: rest, a, b =>
    match ix_compare_raw (a.drop sort_col.1.offset) (b.drop sort_col.1.offset)
        sort_col.1.type sort_col.1.len with
    | none => False
    | some comparison =>
      if comparison = 0 then OrderedBy rest a b
      else if sort_col.2 = OrderByDir.OrderBy_DESC then comparison > 0
      else comparison < 0

/-- The number of bytes that `ix_compare` reads for a column: four for an
INT or a FLOAT, eight for a BIGINT, the length of the column for a STRING or
a DATETIME. -/
def compared_width (col : ColMeta) : Nat :=
  match col.type with
  | ColType.TYPE_INT => 4
  | ColType.TYPE_FLOAT => 4
  | ColType.TYPE_BIGINT => 8
  | ColType.TYPE_DATETIME => col.len
  | ColType.TYPE_STRING => col.len

/-- A tuple can be ordered by a column: the bytes that `ix_compare` reads
for the column lie within the tuple, and for a FLOAT column they are not
those of a NaN. -/
def sortable_by (col : ColMeta) (t : Bytes) : Bool :=
  decide (col.offset + compared_width col ≤ t.length) &&
    (decide (col.type ≠ ColType.TYPE_FLOAT) ||
      (float_key (le_value ((t.drop col.offset).take 4))).isSome)

/-- Three-way comparison of two runs of numbers of the same length by the
first place at which they differ. -/
def lexcmp : List Int → List Int → Int
  | a :: as, b :: bs => if a < b then -1 else if a > b then 1 else lexcmp as bs
  | _, _ => 0

/-- The value of a column in a tuple as a run of numbers, by which
`ix_compare` orders the tuples: the number itself for an INT, a BIGINT or a
FLOAT that is not a NaN, the bytes for a STRING or a DATETIME. -/
def sort_key (col : ColMeta) (t : Bytes) : List Int :=
  match col.type with
  | ColType.TYPE_INT => [int32_value ((t.drop col.offset).take 4)]
  | ColType.TYPE_FLOAT => [(float_key (le_value ((t.drop col.offset).take 4))).getD 0]
  | ColType.TYPE_BIGINT => [int64_value ((t.drop col.offset).take 8)]
  | ColType.TYPE_DATETIME => ((t.drop col.offset).take col.len).map Int.ofNat
  | ColType.TYPE_STRING => ((t.drop col.offset).take col.len).map Int.ofNat

/-- The values of the ORDER BY columns of a tuple in one run, those of a
DESC column negated. -/
def row_key : List (ColMeta × OrderByDir) → Bytes → List Int
  | [], _ => []
  | sort_col :: rest, t =>
    (if sort_col.2 = OrderByDir.OrderBy_DESC then (sort_key sort_col.1 t).map (fun x => -x)
      else sort_key sort_col.1 t) ++ row_key rest t

/-- The ORDER BY list `name DESC, score, id` over the table
`t(id INT, name CHAR(2), score FLOAT)`. -/
def name_score_id : List (ColMeta × OrderByDir) :=
  [(⟨"t", "name", ColType.TYPE_STRING, 2, 4⟩, OrderByDir.OrderBy_DESC),
   (⟨"t", "score", ColType.TYPE_FLOAT, 4, 6⟩, OrderByDir.OrderBy_DEFAULT),
   (⟨"t", "id", ColType.TYPE_INT, 4, 0⟩, OrderByDir.OrderBy_ASC)]

/-- A tuple of the table `t(id INT, name CHAR(2), score FLOAT)`; the score
is given by its 32 bits. -/
def t_tuple (id : Int) (name : Bytes) (score : Nat) : Bytes :=
  int32_bytes id ++ name ++ le_bytes 4 score

/-- Five tuples of `t`: the scores are 1.0 (bits 1065353216), -2.0 (bits
3221225472) and 0.5 (bits 1056964608). -/
def five_tuples : List Bytes :=
  [t_tuple 3 [97, 98] 1065353216, t_tuple (-1) [98, 97] 3221225472,
   t_tuple 2 [97, 98] 3221225472, t_tuple 1 [98, 97] 1056964608,
   t_tuple (-7) [97, 98] 3221225472]

/-- The first four of the five tuples in the order `name DESC, score, id`. -/
def first_four_sorted : List Bytes :=
  [t_tuple (-1) [98, 97] 3221225472, t_tuple 1 [98, 97] 1056964608,
   t_tuple (-7) [97, 98] 3221225472, t_tuple 2 [97, 98] 3221225472]

end RMDB
namespace RMDB

/-! ## The nested-loop join (`src/execution/executor_nestedloop_join.h`) -/

open LogCodec

/-- The state of a `NestedLoopJoinExecutor`: the columns and tuple lengths
of the two children, the name of the inner table, the predicates, the two
blocks and the positions in them, and the dictionary of the outer values. -/
structure NestedLoopJoinExecutor where
  left_cols : List ColMeta
  r_cols : List ColMeta
  l_len : Nat
  r_len : Nat
  tab_name_ : String
  fed_conds_ : List Condition
  endend : Bool
  lhs_block_ : List Bytes
  rhs_block_ : List Bytes
  l_size_ : Nat
  r_size_ : Nat
  l_cnt : Nat
  r_cnt : Nat
  all_dict_ : List (TabCol × List Value)
  deriving DecidableEq, Repr

namespace NestedLoopJoinExecutor

/-- The constructor, from the columns, the tuple length of the left child,
those of the right child, the table name of the right child, and the
predicates. -/
def new (left_cols : List ColMeta) (l_len : Nat) (right_cols : List ColMeta) (r_len : Nat)
    (right_tbl_name : String) (conds : List Condition) : NestedLoopJoinExecutor :=
  { left_cols := left_cols, r_cols := right_cols, l_len := l_len, r_len := r_len,
    tab_name_ := right_tbl_name, fed_conds_ := conds, endend := false, lhs_block_ := [],
    rhs_block_ := [], l_size_ := 0, r_size_ := 0, l_cnt := 0, r_cnt := 0, all_dict_ := [] }

/-- The lookup `AbstractExecutor::get_col`: a target without table name
matches on the column name alone. -/
def get_col (rec_cols : List ColMeta) (target : TabCol) : Except Fault ColMeta :=
  match rec_cols.find? (fun col =>
      if target.tab_name = "" then decide (col.name = target.col_name)
      else decide (col.tab_name = target.tab_name ∧ col.name = target.col_name)) with
  | none => Except.error Fault.thrown
  | some col => Except.ok col

/-- The string built by `std::string str_val(val_buf, len)` followed by
`resize(strlen(...))`: the bytes before the first zero. -/
def c_string (bs : Bytes) : Bytes := bs.takeWhile (fun b => b ≠ 0)

/-- The value that `setDict` builds for a column of an outer record, before
`init_raw`.  A read past the end of the record ends the process. -/
def dict_value (col : ColMeta) (rec : Bytes) : Except Fault Value :=
  let fetched (n : Nat) (f : Bytes → Value) : Except Fault Value :=
    match read_at rec col.offset n with
    | none => Except.error Fault.crashed
    | some bs => Except.ok (f bs)
  match col.type with
  | ColType.TYPE_INT => fetched 4 (fun bs => Value.blank.set_real_int (int32_value bs))
  | ColType.TYPE_FLOAT => fetched 4 (fun bs => Value.blank.set_float (le_value bs))
  | ColType.TYPE_STRING => fetched col.len (fun bs => Value.blank.set_str (c_string bs))
  | ColType.TYPE_BIGINT => fetched 8 (fun bs => Value.blank.set_real_bigint (int64_value bs))
  | ColType.TYPE_DATETIME => fetched col.len (fun bs => Value.blank.set_str (c_string bs))

/-- The statement `all_dict_[key].push_back(val)`. -/
def dict_push (key : TabCol) (val : Value) :
    List (TabCol × List Value) → List (TabCol × List Value)
  | [] => [(key, [val])]
  | (k, vs) :: rest =>
    if k = key then (k, vs ++ [val]) :: rest else (k, vs) :: dict_push key val rest

/-- The lookup `all_dict_.find(key)`. -/
def dict_find (key : TabCol) : List (TabCol × List Value) → Option (List Value)
  | [] => none
  | (k, vs) :: rest => if k = key then some vs else dict_find key rest

/-- The inner loop of `setDict` over the columns, for one outer record. -/
def setDict_cols (rec : Bytes) (junk : Nat → Nat) :
    List ColMeta → List (TabCol × List Value) → Except Fault (List (TabCol × List Value))
  | [], d => Except.ok d
  | col :: cols, d =>
    match dict_value col rec with
    | Except.error e => Except.error e
    | Except.ok val =>
      match val.init_raw col.len junk with
      | Except.error e => Except.error e
      | Except.ok val1 => setDict_cols rec junk cols (dict_push ⟨col.tab_name, col.name⟩ val1 d)

/-- The outer loop of `setDict` over the records of the outer block. -/
def setDict_recs (cols : List ColMeta) (junk : Nat → Nat) :
    List Bytes → List (TabCol × List Value) → Except Fault (List (TabCol × List Value))
  | [], d => Except.ok d
  | rec :: recs, d =>
    match setDict_cols rec junk cols d with
    | Except.error e => Except.error e
    | Except.ok d1 => setDict_recs cols junk recs d1

/-- The call `setDict`. -/
def setDict (e : NestedLoopJoinExecutor) (junk : Nat → Nat) :
    Except Fault NestedLoopJoinExecutor :=
  match setDict_recs e.left_cols junk e.lhs_block_ e.all_dict_ with
  | Except.error err => Except.error err
  | Except.ok d => Except.ok { e with all_dict_ := d }

/-- The function `NestedLoopJoinExecutor::eval_cond` on the bytes of an
inner record. -/
def eval_cond (rec_cols : List ColMeta) (cond : Condition) (rec : Bytes) :
    Except Fault Bool :=
  match get_col rec_cols cond.lhs_col with
  | Except.error e => Except.error e
  | Except.ok lhs_col =>
    let lhs := rec.drop lhs_col.offset
    let side : Except Fault (ColType × Option Bytes) :=
      if cond.is_rhs_val then Except.ok (cond.rhs_val.type, cond.rhs_val.raw)
      else
        match get_col rec_cols cond.rhs_col with
        | Except.error e => Except.error e
        | Except.ok rhs_col => Except.ok (rhs_col.type, some (rec.drop rhs_col.offset))
    match side with
    | Except.error e => Except.error e
    | Except.ok (rhs_type, rhs) =>
      if rhs_type ≠ lhs_col.type ∧
          ¬ (rhs_type = ColType.TYPE_DATETIME ∧ lhs_col.type = ColType.TYPE_STRING ∧
              lhs_col.len ≥ 19) then
        Except.error Fault.thrown
      else
        match rhs with
        | none => Except.error Fault.crashed
        | some rhs =>
          match ix_compare_raw lhs rhs rhs_type lhs_col.len with
          | none => Except.error Fault.crashed
          | some cmp => Except.ok (cond.op.holds cmp)

/-- The function `eval_conds`: `std::all_of` stops at the first predicate
that is false. -/
def eval_conds (rec_cols : List ColMeta) : List Condition → Bytes → Except Fault Bool
  | [], _ => Except.ok true
  | cond :: conds, rec =>
    match eval_cond rec_cols cond rec with
    | Except.error e => Except.error e
    | Except.ok false => Except.ok false
    | Except.ok true => eval_conds rec_cols conds rec

/-- The loop of `beginTuple` that turns every predicate whose left side is
not a column of the inner table around; the assertion fails when the other
side is not a column of the inner table. -/
def swap_conds (tab_name_ : String) : List Condition → Except Fault (List Condition)
  | [] => Except.ok []
  | cond :: conds =>
    match swap_conds tab_name_ conds with
    | Except.error e => Except.error e
    | Except.ok rest =>
      if cond.lhs_col.tab_name ≠ tab_name_ then
        if !cond.is_rhs_val ∧ cond.rhs_col.tab_name = tab_name_ then
          Except.ok ({ cond with lhs_col := cond.rhs_col, rhs_col := cond.lhs_col,
                                 op := cond.op.swap_op } :: rest)
        else Except.error Fault.crashed
      else Except.ok (cond :: rest)

/-- The value `all_dict_.at(key)[l_cnt]`: `at` throws for a key that is not
in the dictionary. -/
def dict_at (d : List (TabCol × List Value)) (key : TabCol) (l_cnt : Nat) :
    Except Fault Value :=
  match dict_find key d with
  | none => Except.error Fault.thrown
  | some vs =>
    match vs.get? l_cnt with
    | none => Except.error Fault.crashed
    | some v => Except.ok v

/-- The body of the loop over the predicates at an outer position: a
predicate against an outer column gets the value of that column in the
outer record `l_cnt`. -/
def feed_cond (tab_name_ : String) (d : List (TabCol × List Value)) (l_cnt : Nat)
    (cond : Condition) : Except Fault Condition :=
  let first : Except Fault Condition :=
    if !cond.is_rhs_val ∧ cond.rhs_col.tab_name ≠ tab_name_ then
      match dict_at d cond.rhs_col l_cnt with
      | Except.error e => Except.error e
      | Except.ok v => Except.ok { cond with is_rhs_val := true, rhs_val := v }
    else Except.ok cond
  match first with
  | Except.error e => Except.error e
  | Except.ok cond1 =>
    match dict_find cond1.rhs_col d with
    | none => Except.ok cond1
    | some _ =>
      match dict_at d cond1.rhs_col l_cnt with
      | Except.error e => Except.error e
      | Except.ok v => Except.ok { cond1 with rhs_val := v }

/-- The loop over the predicates at an outer position. -/
def feed_conds (tab_name_ : String) (d : List (TabCol × List Value)) (l_cnt : Nat) :
    List Condition → Except Fault (List Condition)
  | [] => Except.ok []
  | cond :: conds =>
    match feed_cond tab_name_ d l_cnt cond with
    | Except.error e => Except.error e
    | Except.ok cond1 =>
      match feed_conds tab_name_ d l_cnt conds with
      | Except.error e => Except.error e
      | Except.ok rest => Except.ok (cond1 :: rest)

/-- The inner loop `for (; r_cnt < r_size_; r_cnt++)` over the inner records
from `r_cnt` on: the position of the first record for which all predicates
hold. -/
def find_match (rec_cols : List ColMeta) (conds : List Condition) :
    List Bytes → Nat → Except Fault (Option Nat)
  | [], _ => Except.ok none
  | rec :: recs, r_cnt =>
    match eval_conds rec_cols conds rec with
    | Except.error e => Except.error e
    | Except.ok true => Except.ok (some r_cnt)
    | Except.ok false => find_match rec_cols conds recs (r_cnt + 1)

/-- The loop `for (; l_cnt < l_size_; l_cnt++)` of `beginTuple` and of
`nextTuple`, with one round of fuel for each outer position left. -/
def advance : Nat → NestedLoopJoinExecutor → Except Fault NestedLoopJoinExecutor
  | 0, e => Except.ok e
  | fuel + 1, e =>
    if e.l_cnt < e.l_size_ then
      match feed_conds e.tab_name_ e.all_dict_ e.l_cnt e.fed_conds_ with
      | Except.error err => Except.error err
      | Except.ok conds =>
        match find_match e.r_cols conds ((e.rhs_block_.take e.r_size_).drop e.r_cnt) e.r_cnt with
        | Except.error err => Except.error err
        | Except.ok (some r) => Except.ok { e with fed_conds_ := conds, r_cnt := r }
        | Except.ok none =>
          advance fuel { e with fed_conds_ := conds, r_cnt := 0, l_cnt := e.l_cnt + 1 }
    else Except.ok e

/-- The call `nextTuple`. -/
def nextTuple (e : NestedLoopJoinExecutor) : Except Fault NestedLoopJoinExecutor :=
  advance (e.l_size_ - e.l_cnt) e

/-- The call `beginTuple`; `left_block` and `right_block` are what
`get_block` of the two children returns. -/
def beginTuple (e : NestedLoopJoinExecutor) (left_block right_block : List Bytes)
    (junk : Nat → Nat) : Except Fault NestedLoopJoinExecutor :=
  let e1 := { e with lhs_block_ := left_block }
  if left_block.isEmpty then Except.ok { e1 with endend := true }
  else
    let e2 := { e1 with rhs_block_ := right_block, l_size_ := left_block.length,
                        r_size_ := right_block.length }
    match e2.setDict junk with
    | Except.error err => Except.error err
    | Except.ok e3 =>
      match swap_conds e3.tab_name_ e3.fed_conds_ with
      | Except.error err => Except.error err
      | Except.ok conds => advance (e3.l_size_ - e3.l_cnt) { e3 with fed_conds_ := conds }

/-- The test `is_end`. -/
def is_end (e : NestedLoopJoinExecutor) : Bool :=
  e.endend || decide (e.l_cnt = e.lhs_block_.length)

/-- The loop of `get_block`, cut after `fuel` rounds. -/
def get_block_loop : Nat → NestedLoopJoinExecutor →
    Except Fault (List Bytes × NestedLoopJoinExecutor)
  | 0, _ => Except.error Fault.crashed
  | fuel + 1, e =>
    if e.is_end then Except.ok ([], e)
    else
      match e.lhs_block_.get? e.l_cnt, e.rhs_block_.get? e.r_cnt with
      | some l, some r =>
        match read_at l 0 e.l_len, read_at r 0 e.r_len with
        | some lb, some rb =>
          match nextTuple { e with r_cnt := e.r_cnt + 1 } with
          | Except.error err => Except.error err
          | Except.ok e1 =>
            match get_block_loop fuel e1 with
            | Except.error err => Except.error err
            | Except.ok (block, e2) => Except.ok ((lb ++ rb) :: block, e2)
        | _, _ => Except.error Fault.crashed
      | _, _ => Except.error Fault.crashed

/-- The call `get_block`: the loop makes one round for each pair it emits,
so one round more than there are pairs of an outer and an inner record is
enough. -/
def get_block (e : NestedLoopJoinExecutor) :
    Except Fault (List Bytes × NestedLoopJoinExecutor) :=
  get_block_loop (e.lhs_block_.length * e.rhs_block_.length + 1) e

/-- The block that `beginTuple` followed by `get_block` returns. -/
def run (e : NestedLoopJoinExecutor) (left_block right_block : List Bytes)
    (junk : Nat → Nat) : Except Fault (List Bytes) :=
  match e.beginTuple left_block right_block junk with
  | Except.error err => Except.error err
  | Except.ok e1 => (get_block e1).map Prod.fst

end NestedLoopJoinExecutor

/-- The bytes of a text, one for each character. -/
def text_bytes (s : String) : Bytes := s.toList.map Char.toNat

/-- The join of `a(x INT)` and `b(y INT)` on `a.x = b.y`. -/
def int_join : NestedLoopJoinExecutor :=
  NestedLoopJoinExecutor.new [⟨"a", "x", ColType.TYPE_INT, 4, 0⟩] 4
    [⟨"b", "y", ColType.TYPE_INT, 4, 0⟩] 4 "b"
    [⟨⟨"a", "x"⟩, CompOp.OP_EQ, false, ⟨"b", "y"⟩, Value.blank⟩]

/-- The join of `a(d DATETIME)` and `b(e DATETIME)` on `a.d = b.e`. -/
def datetime_join : NestedLoopJoinExecutor :=
  NestedLoopJoinExecutor.new [⟨"a", "d", ColType.TYPE_DATETIME, 19, 0⟩] 19
    [⟨"b", "e", ColType.TYPE_DATETIME, 19, 0⟩] 19 "b"
    [⟨⟨"a", "d"⟩, CompOp.OP_EQ, false, ⟨"b", "e"⟩, Value.blank⟩]

/-- The text `2024-02-29 12:30:45` as the 19 bytes of a DATETIME column. -/
def leap_day : Bytes := text_bytes "2024-02-29 12:30:45"

end RMDB
namespace RMDB

/-! ## The Aggregate executor (`src/execution/executor_aggre.h`) -/

open LogCodec

/-- The kinds of aggregates, `ast::AggregationType`. -/
inductive AggregationType
  | SUM
  | MAX
  | MIN
  | COUNT
  deriving DecidableEq, Repr

/-- The call `NestedLoopJoinExecutor::Next`: the tuple at the current pair
of positions, after which `r_cnt` is advanced by one; a null pointer at the
end. -/
def NestedLoopJoinExecutor.Next (e : NestedLoopJoinExecutor) :
    Except Fault (Option Bytes × NestedLoopJoinExecutor) :=
  if e.is_end then Except.ok (none, e)
  else
    match e.lhs_block_.get? e.l_cnt, e.rhs_block_.get? e.r_cnt with
    | some l, some r =>
      match read_at l 0 e.l_len, read_at r 0 e.r_len with
      | some lb, some rb => Except.ok (some (lb ++ rb), { e with r_cnt := e.r_cnt + 1 })
      | _, _ => Except.error Fault.crashed
    | _, _ => Except.error Fault.crashed

/-- The child of an aggregate.  A scan is held as the records of its table
that satisfy its predicates, in the order of the scan, with the position of
the scan among them: `beginTuple` and `nextTuple` of a scan move to the
first and to the next such record, `Next` reads the record at the position
and leaves the position as it is, and `get_block` starts a new scan, which
it leaves at the end, and returns all of them.  A join is the executor of
the nested-loop join with the blocks its children return. -/
inductive AggreChild
  | scan (tuples : List Bytes) (position : Nat)
  | join (e : NestedLoopJoinExecutor) (left_block right_block : List Bytes)
  deriving DecidableEq, Repr

namespace AggreChild

/-- The call `prev_->beginTuple()`. -/
def beginTuple (c : AggreChild) (junk : Nat → Nat) : Except Fault AggreChild :=
  match c with
  | scan tuples _ => Except.ok (scan tuples 0)
  | join e left_block right_block =>
    (e.beginTuple left_block right_block junk).map (fun e1 => join e1 left_block right_block)

/-- The call `prev_->is_end()`. -/
def is_end (c : AggreChild) : Bool :=
  match c with
  | scan tuples position => decide (tuples.length ≤ position)
  | join e _ _ => e.is_end

/-- The call `prev_->Next()`; a scan at its end throws from `get_record`. -/
def Next (c : AggreChild) : Except Fault (Option Bytes × AggreChild) :=
  match c with
  | scan tuples position =>
    match tuples.get? position with
    | none => Except.error Fault.thrown
    | some t => Except.ok (some t, c)
  | join e left_block right_block =>
    e.Next.map (fun r => (r.1, join r.2 left_block right_block))

/-- The call `prev_->nextTuple()`. -/
def nextTuple (c : AggreChild) : Except Fault AggreChild :=
  match c with
  | scan tuples position =>
    Except.ok (if tuples.length ≤ position then c else scan tuples (position + 1))
  | join e left_block right_block =>
    e.nextTuple.map (fun e1 => join e1 left_block right_block)

/-- The call `prev_->get_block()`. -/
def get_block (c : AggreChild) : Except Fault (List Bytes × AggreChild) :=
  match c with
  | scan tuples _ => Except.ok (tuples, scan tuples tuples.length)
  | join e left_block right_block =>
    e.get_block.map (fun r => (r.1, join r.2 left_block right_block))

/-- The result of the child: what it yields when it is run on its own. -/
def result (c : AggreChild) (junk : Nat → Nat) : Except Fault (List Bytes) :=
  match c with
  | scan tuples _ => Except.ok tuples
  | join e left_block right_block => e.run left_block right_block junk

/-- A bound on the number of tuples the child yields. -/
def size_bound (c : AggreChild) : Nat :=
  match c with
  | scan tuples _ => tuples.length
  | join _ left_block right_block => left_block.length * right_block.length

end AggreChild

/-- The state of an `AggreExecutor`: the kind of aggregate, the column, the
record `prev_rec` (none is the null pointer), the bytes at the pointer
`prev_num`, the counter and the two sums (`float_sum` as its 32 bits), and
the flag. -/
structure AggreExecutor where
  aggregation_type_ : AggregationType
  col : ColMeta
  prev_rec : Option Bytes
  prev_num : Bytes
  cnt : Int
  int_sum : Int
  float_sum : Nat
  flag : Bool
  deriving DecidableEq, Repr

namespace AggreExecutor

/-- The constructor: `prev_rec` is a new record of 30 bytes, whose content
is not set. -/
def new (aggregation_type : AggregationType) (col : ColMeta) (junk : Nat → Nat) :
    AggreExecutor :=
  { aggregation_type_ := aggregation_type, col := col, prev_rec := some (new_buffer 30 junk),
    prev_num := [], cnt := 0, int_sum := 0, float_sum := 0, flag := false }

/-- The bytes at the pointer `rec->data + col.offset`; the null pointer
cannot be followed. -/
def at_col (a : AggreExecutor) (rec : Option Bytes) : Except Fault Bytes :=
  match rec with
  | none => Except.error Fault.crashed
  | some r => Except.ok (r.drop a.col.offset)

/-- One round of the loop of `beginTuple`, before `prev_->nextTuple()`.
The sum of the `int`s is kept in 32 bits; `fadd` is the sum of two
`float`s given by their bits. -/
def step (a : AggreExecutor) (child : AggreChild) (fadd : Nat → Nat → Nat) :
    Except Fault (AggreExecutor × AggreChild) :=
  match a.aggregation_type_ with
  | AggregationType.SUM =>
    match child.Next with
    | Except.error e => Except.error e
    | Except.ok (cur_rec, child1) =>
      match a.at_col cur_rec with
      | Except.error e => Except.error e
      | Except.ok cur_num =>
        match read_at cur_num 0 4 with
        | none => Except.error Fault.crashed
        | some bs =>
          let a1 := if a.col.type = ColType.TYPE_INT then
              { a with int_sum := wrap32 (a.int_sum + int32_value bs) }
            else { a with float_sum := fadd a.float_sum (le_value bs) }
          match child1.Next with
          | Except.error e => Except.error e
          | Except.ok (rec, child2) => Except.ok ({ a1 with prev_rec := rec }, child2)
  | AggregationType.MAX =>
    match child.Next with
    | Except.error e => Except.error e
    | Except.ok (cur_rec, child1) =>
      match a.at_col cur_rec with
      | Except.error e => Except.error e
      | Except.ok cur_num =>
        match ix_compare_raw cur_num a.prev_num a.col.type a.col.len with
        | none => Except.error Fault.crashed
        | some comparison =>
          if comparison > 0 then
            Except.ok ({ a with prev_num := cur_num, prev_rec := cur_rec }, child1)
          else Except.ok (a, child1)
  | AggregationType.MIN =>
    match child.Next with
    | Except.error e => Except.error e
    | Except.ok (cur_rec, child1) =>
      match a.at_col cur_rec with
      | Except.error e => Except.error e
      | Except.ok cur_num =>
        match ix_compare_raw cur_num a.prev_num a.col.type a.col.len with
        | none => Except.error Fault.crashed
        | some comparison =>
          if comparison < 0 then
            Except.ok ({ a with prev_num := cur_num, prev_rec := cur_rec }, child1)
          else Except.ok (a, child1)
  | AggregationType.COUNT => Except.error Fault.thrown

/-- The loop `while (!prev_->is_end())` of `beginTuple`, cut after `fuel`
rounds. -/
def loop (fadd : Nat → Nat → Nat) :
    Nat → AggreExecutor → AggreChild → Except Fault (AggreExecutor × AggreChild)
  | 0, _, _ => Except.error Fault.crashed
  | fuel + 1, a, child =>
    if child.is_end then Except.ok (a, child)
    else
      match a.step child fadd with
      | Except.error e => Except.error e
      | Except.ok (a1, child1) =>
        match child1.nextTuple with
        | Except.error e => Except.error e
        | Except.ok child2 => loop fadd fuel a1 child2

/-- The call `beginTuple`.  The loop makes one round for each tuple of the
child, so one round more than the child can yield is enough. -/
def beginTuple (a : AggreExecutor) (child : AggreChild) (junk : Nat → Nat)
    (fadd : Nat → Nat → Nat) : Except Fault (AggreExecutor × AggreChild) :=
  match child.beginTuple junk with
  | Except.error e => Except.error e
  | Except.ok child1 =>
    if child1.is_end then Except.ok (a, child1)
    else
      match child1.Next with
      | Except.error e => Except.error e
      | Except.ok (rec, child2) =>
        let a1 := { a with prev_rec := rec }
        if a1.aggregation_type_ = AggregationType.COUNT then
          match child2.get_block with
          | Except.error e => Except.error e
          | Except.ok (block, child3) =>
            Except.ok ({ a1 with cnt := wrap32 block.length }, child3)
        else
          match a1.at_col rec with
          | Except.error e => Except.error e
          | Except.ok prev_num =>
            loop fadd (child2.size_bound + 1) { a1 with prev_num := prev_num } child2

/-- The write `memcpy(prev_rec->data + offset, buffer, 4)` of `Next`,
after which the record is moved into the answer. -/
def write_result (a : AggreExecutor) (offset : Nat) (buffer : Bytes) :
    Except Fault (Option Bytes × AggreExecutor) :=
  match a.prev_rec with
  | none => Except.error Fault.crashed
  | some rec =>
    match memcpy_at rec offset buffer with
    | none => Except.error Fault.crashed
    | some ans => Except.ok (some ans, { a with prev_rec := none, flag := true })

/-- The call `Next`: the answer (none is the null pointer), the executor
and the child after it. -/
def Next (a : AggreExecutor) (child : AggreChild) :
    Except Fault (Option Bytes × AggreExecutor × AggreChild) :=
  match a.aggregation_type_ with
  | AggregationType.COUNT =>
    let fetched : Except Fault (AggreExecutor × AggreChild) :=
      if a.cnt = 0 ∧ !child.is_end then
        match child.Next with
        | Except.error e => Except.error e
        | Except.ok (rec, child1) => Except.ok ({ a with prev_rec := rec }, child1)
      else Except.ok (a, child)
    match fetched with
    | Except.error e => Except.error e
    | Except.ok (a1, child1) =>
      match a1.write_result 0 (int32_bytes a1.cnt) with
      | Except.error e => Except.error e
      | Except.ok (ans, a2) => Except.ok (ans, a2, child1)
  | AggregationType.MAX =>
    Except.ok (a.prev_rec, { a with prev_rec := none, flag := true }, child)
  | AggregationType.MIN =>
    Except.ok (a.prev_rec, { a with prev_rec := none, flag := true }, child)
  | AggregationType.SUM =>
    let buffer := if a.col.type = ColType.TYPE_INT then int32_bytes a.int_sum
      else le_bytes 4 a.float_sum
    match a.write_result a.col.offset buffer with
    | Except.error e => Except.error e
    | Except.ok (ans, a1) => Except.ok (ans, a1, child)

/-- The output tuple of the aggregate: `beginTuple` followed by `Next`. -/
def output (a : AggreExecutor) (child : AggreChild) (junk : Nat → Nat)
    (fadd : Nat → Nat → Nat) : Except Fault (Option Bytes) :=
  match a.beginTuple child junk fadd with
  | Except.error e => Except.error e
  | Except.ok (a1, child1) => (a1.Next child1).map Prod.fst

end AggreExecutor

/-- The join of `a(x INT)` with the row 7 and `b(y INT)` with the rows 7,
7, 5 on `a.x = b.y`, as the child of an aggregate. -/
def join_child : AggreChild :=
  AggreChild.join int_join [int32_bytes 7] [int32_bytes 7, int32_bytes 7, int32_bytes 5]

/-- A column of no table, for `COUNT(*)`, which has no column. -/
def no_col : ColMeta := ⟨"", "", ColType.TYPE_INT, 0, 0⟩

/-- Equality of two results of a call can be decided. -/
instance Except.decEqFault {α : Type} [DecidableEq α] : DecidableEq (Except Fault α)
  | Except.ok a, Except.ok b =>
    if h : a = b then isTrue (by rw [h]) else isFalse (fun h1 => h (Except.ok.inj h1))
  | Except.error a, Except.error b =>
    if h : a = b then isTrue (by rw [h]) else isFalse (fun h1 => h (Except.error.inj h1))
  | Except.ok _, Except.error _ => isFalse (fun h => by cases h)
  | Except.error _, Except.ok _ => isFalse (fun h => by cases h)

/-- The content of new buffers in the example runs: every byte that is not
set reads as zero. -/
def zero_junk : Nat → Nat := fun _ => 0

/-- A stand-in for the sum of two `float`s in the example runs, which add
none. -/
def no_float_sum : Nat → Nat → Nat := fun a _ => a

/-- A scan of a table `t(s CHAR(2))` with the rows `AB` and `CD`. -/
def narrow_child : AggreChild := AggreChild.scan [[65, 66], [67, 68]] 0

/-- The column `c INT` at offset 1 of a table `t(k CHAR(1), c INT)`. -/
def int_col_at_1 : ColMeta := ⟨"t", "c", ColType.TYPE_INT, 4, 1⟩

/-- A scan of `t(k CHAR(1), c INT)` with the rows (A, 7), (B, 2147483647),
(C, -9) and (D, 8). -/
def wide_child : AggreChild :=
  AggreChild.scan [[65] ++ int32_bytes 7, [66] ++ int32_bytes 2147483647,
    [67] ++ int32_bytes (-9), [68] ++ int32_bytes 8] 0

end RMDB
/-! ## The height labelling is kept by every index operation -/

namespace RMDB

open IxIndexHandle

theorem lookup_page_mem {p : Int} {n : IxNode} : ∀ {pages : List (Int × IxNode)},
    lookup_page p pages = some n → (p, n) ∈ pages
  | [], h => by simp [lookup_page] at h
  | (q, m) :: rest, h => by
    unfold lookup_page at h
    split at h
    · next hq => cases h; subst hq; exact List.mem_cons_self _ _
    · exact List.mem_cons_of_mem _ (lookup_page_mem h)

theorem fetch_mem {ih : IxIndexHandle} {p : Int} {n : IxNode} (h : ih.fetch_node p = some n) :
    (p, n) ∈ ih.pages := lookup_page_mem h

theorem mem_store_page {p q : Int} {n m : IxNode} : ∀ {pages : List (Int × IxNode)},
    (q, m) ∈ store_page p n pages → (q, m) ∈ pages ∨ (q = p ∧ m = n)
  | [], h => by simp [store_page] at h
  | (q', m') :: rest, h => by
    unfold store_page at h
    split at h
    · next hq =>
      rcases List.mem_cons.1 h with h1 | h1
      · right; cases h1; exact ⟨hq, rfl⟩
      · left; exact List.mem_cons_of_mem _ h1
    · rcases List.mem_cons.1 h with h1 | h1
      · left; rw [h1]; exact List.mem_cons_self _ _
      · rcases mem_store_page h1 with h2 | h2
        · left; exact List.mem_cons_of_mem _ h2
        · right; exact h2

theorem HInv.fetch {ih : IxIndexHandle} {ht : Int → Nat} (h : HInv ih ht) {p : Int} {n : IxNode}
    (hf : ih.fetch_node p = some n) : p < ih.next_page_no ∧ NodeOK ih.next_page_no ht p n :=
  h p n (fetch_mem hf)

theorem HInv.put {ih : IxIndexHandle} {ht : Int → Nat} (h : HInv ih ht) {p : Int} {n : IxNode}
    (hp : p < ih.next_page_no) (hn : NodeOK ih.next_page_no ht p n) : HInv (ih.put_node p n) ht := by
  intro q m hm
  rcases mem_store_page hm with h1 | ⟨rfl, rfl⟩
  · exact h q m h1
  · exact ⟨hp, hn⟩

theorem HInv.delete {ih : IxIndexHandle} {ht : Int → Nat} (h : HInv ih ht) (p : Int) :
    HInv (ih.delete_page p) ht := by
  intro q m hm
  exact h q m (List.mem_filter.1 hm).1

theorem HInv.after_create_node {ih : IxIndexHandle} {ht : Int → Nat} (h : HInv ih ht) (is_leaf : Bool)
    (k : Nat) (hk : (is_leaf = true → k = 0) ∧ (is_leaf = false → 0 < k)) :
    HInv (ih.create_node is_leaf) (Function.update ht ih.next_page_no k) := by
  intro q m hm
  simp only [create_node, List.mem_append, List.mem_singleton, Prod.mk.injEq] at hm
  rcases hm with h1 | ⟨rfl, rfl⟩
  · obtain ⟨hq, hl, hi⟩ := h q m h1
    have hne : q ≠ ih.next_page_no := by omega
    refine ⟨by simp only [create_node]; omega, ?_, ?_⟩
    · intro hleaf; rw [Function.update_noteq hne]; exact hl hleaf
    · intro hleaf
      obtain ⟨h0, hc⟩ := hi hleaf
      rw [Function.update_noteq hne]
      refine ⟨h0, fun c hcm => ?_⟩
      obtain ⟨h1, h2⟩ := hc c hcm
      have hne' : c ≠ ih.next_page_no := by omega
      rw [Function.update_noteq hne']
      exact ⟨by simp only [create_node]; omega, h2⟩
  · refine ⟨by simp only [create_node]; omega, ?_, ?_⟩
    · intro hleaf; simp only [IxNode.Init] at hleaf; rw [Function.update_same]; exact hk.1 hleaf
    · intro hleaf; simp only [IxNode.Init] at hleaf
      rw [Function.update_same]
      refine ⟨hk.2 hleaf, fun c hcm => ?_⟩
      simp [IxNode.Init, IxNode.children] at hcm

theorem LeafPath.depth_eq {ih : IxIndexHandle} {ht : Int → Nat} (h : HInv ih ht) {p : Int} {d : Nat}
    (hp : LeafPath ih p d) : d = ht p := by
  induction hp with
  | leaf p n hf hl => exact ((h.fetch hf).2.1 hl).symm
  | step p n c d hf hl hc _ ih' =>
    have := ((h.fetch hf).2.2 hl).2 c hc
    omega

theorem HInv.balanced {ih : IxIndexHandle} {ht : Int → Nat} (h : HInv ih ht) : Balanced ih := by
  intro d1 d2 h1 h2
  rw [LeafPath.depth_eq h h1, LeafPath.depth_eq h h2]


theorem NodeOK.mono {next : Int} {ht : Int → Nat} {p : Int} {n n' : IxNode}
    (h : NodeOK next ht p n) (hl : n'.is_leaf = n.is_leaf)
    (hc : n.is_leaf = false → ∀ c ∈ n'.children, c ∈ n.children ∨ (c < next ∧ ht p = ht c + 1)) :
    NodeOK next ht p n' := by
  refine ⟨fun h1 => h.1 (hl ▸ h1), fun h1 => ?_⟩
  have h2 : n.is_leaf = false := hl ▸ h1
  obtain ⟨h0, h3⟩ := h.2 h2
  refine ⟨h0, fun c hcm => ?_⟩
  rcases hc h2 c hcm with h4 | h4
  · exact h3 c h4
  · exact h4

theorem children_insert_pairs {o : Nat} {n : IxNode} {pos : Nat} {ps : List (Int × Rid)} {c : Int}
    (h : c ∈ (n.insert_pairs o pos ps).children) :
    c ∈ n.children ∨ c ∈ ps.map (fun e => e.2.page_no) := by
  unfold IxNode.insert_pairs at h
  split at h
  · exact Or.inl h
  · simp only [IxNode.children, List.map_append, List.mem_append, List.map_take, List.map_drop] at h ⊢
    rcases h with (h | h) | h
    · exact Or.inl (List.mem_of_mem_take h)
    · exact Or.inr h
    · exact Or.inl (List.mem_of_mem_drop h)

theorem children_insert_pair {o : Nat} {n : IxNode} {pos : Nat} {k : Int} {r : Rid} {c : Int}
    (h : c ∈ (n.insert_pair o pos k r).children) : c ∈ n.children ∨ c = r.page_no := by
  rcases children_insert_pairs h with h | h
  · exact Or.inl h
  · right; simpa using h

theorem children_erase_pair {n : IxNode} {pos : Nat} {c : Int}
    (h : c ∈ (n.erase_pair pos).children) : c ∈ n.children := by
  simp only [IxNode.children, IxNode.erase_pair] at h ⊢
  rw [List.mem_map] at h ⊢
  obtain ⟨e, he, rfl⟩ := h
  exact ⟨e, List.mem_of_mem_eraseIdx he, rfl⟩

theorem children_set_size {n : IxNode} {k : Nat} {c : Int}
    (h : c ∈ (n.set_size k).children) : c ∈ n.children := by
  simp only [IxNode.children, IxNode.set_size] at h ⊢
  rw [List.mem_map] at h ⊢
  obtain ⟨e, he, rfl⟩ := h
  exact ⟨e, List.mem_of_mem_take he, rfl⟩

theorem children_set_key (n : IxNode) (i : Nat) (k : Int) :
    (n.set_key i k).children = n.children := by
  simp only [IxNode.children, IxNode.set_key]
  generalize n.ents = l
  induction l generalizing i with
  | nil => simp
  | cons e es ih =>
    cases i with
    | zero => simp
    | succ j => simp [ih]

@[simp] theorem is_leaf_insert_pairs (o : Nat) (n : IxNode) (pos : Nat) (ps : List (Int × Rid)) :
    (n.insert_pairs o pos ps).is_leaf = n.is_leaf := by
  unfold IxNode.insert_pairs; split <;> rfl

@[simp] theorem is_leaf_insert_pair (o : Nat) (n : IxNode) (pos : Nat) (k : Int) (r : Rid) :
    (n.insert_pair o pos k r).is_leaf = n.is_leaf := is_leaf_insert_pairs _ _ _ _

@[simp] theorem is_leaf_erase_pair (n : IxNode) (pos : Nat) :
    (n.erase_pair pos).is_leaf = n.is_leaf := rfl

@[simp] theorem is_leaf_set_size (n : IxNode) (k : Nat) : (n.set_size k).is_leaf = n.is_leaf := rfl

@[simp] theorem is_leaf_set_key (n : IxNode) (i : Nat) (k : Int) :
    (n.set_key i k).is_leaf = n.is_leaf := rfl

theorem NodeOK.erase_pair {next : Int} {ht : Int → Nat} {p : Int} {n : IxNode}
    (h : NodeOK next ht p n) (pos : Nat) : NodeOK next ht p (n.erase_pair pos) :=
  h.mono rfl (fun _ _ hc => Or.inl (children_erase_pair hc))

theorem NodeOK.set_key {next : Int} {ht : Int → Nat} {p : Int} {n : IxNode}
    (h : NodeOK next ht p n) (i : Nat) (k : Int) : NodeOK next ht p (n.set_key i k) :=
  h.mono rfl (fun _ c hc => Or.inl (by rwa [children_set_key] at hc))

theorem NodeOK.set_size {next : Int} {ht : Int → Nat} {p : Int} {n : IxNode}
    (h : NodeOK next ht p n) (k : Nat) : NodeOK next ht p (n.set_size k) :=
  h.mono rfl (fun _ _ hc => Or.inl (children_set_size hc))

theorem NodeOK.leaf {next : Int} {ht : Int → Nat} {p : Int} {n n' : IxNode}
    (h : NodeOK next ht p n) (hl : n.is_leaf = true) (hl' : n'.is_leaf = true) :
    NodeOK next ht p n' :=
  ⟨fun _ => h.1 hl, fun h1 => by rw [hl'] at h1; cases h1⟩

theorem fetch_put_some {ih : IxIndexHandle} {p q : Int} {n m : IxNode}
    (h : (ih.put_node p n).fetch_node q = some m) :
    ih.fetch_node q = some m ∨ (q = p ∧ m = n) := by
  simp only [fetch_node, put_node] at h ⊢
  generalize ih.pages = pages at h ⊢
  induction pages with
  | nil => simp [store_page, lookup_page] at h
  | cons e es ihh =>
    obtain ⟨q', m'⟩ := e
    unfold store_page at h
    split at h
    · next hq =>
      unfold lookup_page at h ⊢
      split at h
      · next hq2 => right; cases h; exact ⟨hq2 ▸ hq, rfl⟩
      · next hq2 => left; rw [if_neg hq2]; exact h
    · next hq =>
      unfold lookup_page at h ⊢
      split at h
      · next hq2 => left; rw [if_pos hq2]; exact h
      · next hq2 => rw [if_neg hq2]; exact ihh h


@[simp] theorem put_node_next (ih : IxIndexHandle) (p : Int) (n : IxNode) :
    (ih.put_node p n).next_page_no = ih.next_page_no := rfl

@[simp] theorem delete_page_next (ih : IxIndexHandle) (p : Int) :
    (ih.delete_page p).next_page_no = ih.next_page_no := rfl

theorem get_rid_mem_children {n : IxNode} {i : Int} {r : Rid} (h : n.get_rid i = some r) :
    r.page_no ∈ n.children := by
  unfold IxNode.get_rid at h
  split at h
  · cases h
  · simp only [Option.map_eq_some'] at h
    obtain ⟨e, he, rfl⟩ := h
    exact List.mem_map.2 ⟨e, List.get?_mem he, rfl⟩

theorem value_at_mem_children {n : IxNode} {i : Int} {c : Int} (h : n.value_at i = some c) :
    c ∈ n.children := by
  simp only [IxNode.value_at, Option.map_eq_some'] at h
  obtain ⟨r, hr, rfl⟩ := h
  exact get_rid_mem_children hr

theorem find_child_loop_mem {child : Int} : ∀ {l : List (Int × Rid)} {i j : Nat},
    IxNode.find_child_loop child l i = some j → child ∈ l.map (fun e => e.2.page_no)
  | [], _, _, h => by simp [IxNode.find_child_loop] at h
  | e :: es, i, j, h => by
    unfold IxNode.find_child_loop at h
    split at h
    · next he => simp [he]
    · simp only [List.map_cons, List.mem_cons]; right; exact find_child_loop_mem h

theorem find_child_mem {n : IxNode} {child : Int} {j : Nat} (h : n.find_child child = some j) :
    child ∈ n.children := find_child_loop_mem h

/-- An internal page is exactly a page with a positive label. -/
theorem NodeOK.not_leaf {next : Int} {ht : Int → Nat} {p : Int} {n : IxNode}
    (h : NodeOK next ht p n) (h0 : 0 < ht p) : n.is_leaf = false := by
  cases hl : n.is_leaf
  · rfl
  · have := h.1 hl; omega

theorem NodeOK.is_leaf_of {next : Int} {ht : Int → Nat} {p : Int} {n : IxNode}
    (h : NodeOK next ht p n) (h0 : ht p = 0) : n.is_leaf = true := by
  cases hl : n.is_leaf
  · have := (h.2 hl).1; omega
  · rfl

theorem NodeOK.child {next : Int} {ht : Int → Nat} {p : Int} {n : IxNode}
    (h : NodeOK next ht p n) (h0 : 0 < ht p) {c : Int} (hc : c ∈ n.children) :
    c < next ∧ ht p = ht c + 1 :=
  (h.2 (h.not_leaf h0)).2 c hc

theorem leaf_borrow_left_inv {ih ih' : IxIndexHandle} {ctx ctx' : Ctx} {ht : Int → Nat}
    (h : HInv ih ht) (node_id : Int) (rest : List Int) (hw : ctx.write_ = node_id :: rest)
    (hleaf : ∀ n, ih.fetch_node node_id = some n → n.is_leaf = true)
    (hr : ih.leaf_borrow_left ctx = some (ih', ctx')) : HInv ih' ht := by
  unfold leaf_borrow_left at hr
  split at hr
  · next node_id' left_id parent_id rest' hw' =>
    rw [hw] at hw'
    obtain ⟨rfl, -⟩ := List.cons.inj hw'
    simp only [Option.bind_eq_bind, Option.bind_eq_some, Option.some.injEq, Prod.mk.injEq,
      Option.pure_def] at hr
    obtain ⟨node, hnode, left, hleft, k, hk, r, hrr, nk, hnk, parent, hparent, idx, hidx,
      rfl, -⟩ := hr
    have hnode_ok := h.fetch hnode
    have hleft_ok := h.fetch hleft
    have h2 : HInv ((ih.put_node node_id (node.insert_pair ih.get_max_size 0 k r)).put_node left_id
        (left.erase_pair ((left.get_size : Int) - 1).toNat)) ht := by
      refine HInv.put (HInv.put h hnode_ok.1 ?_) hleft_ok.1 (hleft_ok.2.erase_pair _)
      exact hnode_ok.2.leaf (hleaf _ hnode) (by simp [hleaf _ hnode])
    have hp := h2.fetch hparent
    exact HInv.put h2 hp.1 (hp.2.set_key _ _)
  · cases hr

theorem leaf_borrow_right_inv {ih ih' : IxIndexHandle} {ctx ctx' : Ctx} {ht : Int → Nat}
    (h : HInv ih ht) (node_id : Int) (rest : List Int) (hw : ctx.write_ = node_id :: rest)
    (hleaf : ∀ n, ih.fetch_node node_id = some n → n.is_leaf = true)
    (hr : ih.leaf_borrow_right ctx = some (ih', ctx')) : HInv ih' ht := by
  unfold leaf_borrow_right at hr
  split at hr
  · next node_id' right_id parent_id rest' hw' =>
    rw [hw] at hw'
    obtain ⟨rfl, -⟩ := List.cons.inj hw'
    simp only [Option.bind_eq_bind, Option.bind_eq_some, Option.some.injEq, Prod.mk.injEq,
      Option.pure_def] at hr
    obtain ⟨node, hnode, right, hright, k, hk, r, hrr, nk, hnk, nnk, hnnk, parent, hparent,
      idx, hidx, idx2, hidx2, rfl, -⟩ := hr
    have hnode_ok := h.fetch hnode
    have hright_ok := h.fetch hright
    have h2 : HInv ((ih.put_node node_id
        (node.insert_pair ih.get_max_size node.get_size k r)).put_node right_id
        (right.erase_pair 0)) ht := by
      refine HInv.put (HInv.put h hnode_ok.1 ?_) hright_ok.1 (hright_ok.2.erase_pair _)
      exact hnode_ok.2.leaf (hleaf _ hnode) (by simp [hleaf _ hnode])
    have hp := h2.fetch hparent
    exact HInv.put h2 hp.1 ((hp.2.set_key _ _).set_key _ _)
  · cases hr

theorem internal_borrow_left_inv {ih ih' : IxIndexHandle} {ctx ctx' : Ctx} {ht : Int → Nat}
    (h : HInv ih ht) (node_id left_id : Int) (rest : List Int)
    (hw : ctx.write_ = node_id :: left_id :: rest)
    (hsame : ht left_id = ht node_id) (hpos : 0 < ht node_id)
    (hr : ih.internal_borrow_left ctx = some (ih', ctx')) : HInv ih' ht := by
  unfold internal_borrow_left at hr
  split at hr
  · next node_id' left_id' parent_id rest' hw' =>
    rw [hw] at hw'
    obtain ⟨rfl, hw''⟩ := List.cons.inj hw'
    obtain ⟨rfl, -⟩ := List.cons.inj hw''
    simp only [Option.bind_eq_bind, Option.bind_eq_some, Option.some.injEq, Prod.mk.injEq,
      Option.pure_def] at hr
    obtain ⟨node, hnode, left, hleft, parent, hparent, k, hk, r, hrr, idx, hidx, pk, hpk,
      nk, hnk, rfl, -⟩ := hr
    have hnode_ok := h.fetch hnode
    have hleft_ok := h.fetch hleft
    have hparent_ok := h.fetch hparent
    have hrc := hleft_ok.2.child (by omega) (get_rid_mem_children hrr)
    refine HInv.put (HInv.put (HInv.put h hnode_ok.1 ?_) hleft_ok.1 (hleft_ok.2.erase_pair _))
      hparent_ok.1 (hparent_ok.2.set_key _ _)
    refine NodeOK.set_key (hnode_ok.2.mono (by simp) ?_) _ _
    intro _ c hc
    rcases children_insert_pair hc with h1 | rfl
    · exact Or.inl h1
    · right; exact ⟨hrc.1, by omega⟩
  · cases hr

theorem internal_borrow_right_inv {ih ih' : IxIndexHandle} {ctx ctx' : Ctx} {ht : Int → Nat}
    (h : HInv ih ht) (node_id right_id : Int) (rest : List Int)
    (hw : ctx.write_ = node_id :: right_id :: rest)
    (hsame : ht right_id = ht node_id) (hpos : 0 < ht node_id)
    (hr : ih.internal_borrow_right ctx = some (ih', ctx')) : HInv ih' ht := by
  unfold internal_borrow_right at hr
  split at hr
  · next node_id' right_id' parent_id rest' hw' =>
    rw [hw] at hw'
    obtain ⟨rfl, hw''⟩ := List.cons.inj hw'
    obtain ⟨rfl, -⟩ := List.cons.inj hw''
    simp only [Option.bind_eq_bind, Option.bind_eq_some, Option.some.injEq, Prod.mk.injEq,
      Option.pure_def] at hr
    obtain ⟨node, hnode, right, hright, parent, hparent, k, hk, r, hrr, idx, hidx, pk, hpk,
      rk, hrk, rfl, -⟩ := hr
    have hnode_ok := h.fetch hnode
    have hright_ok := h.fetch hright
    have hparent_ok := h.fetch hparent
    have hrc := hright_ok.2.child (by omega) (get_rid_mem_children hrr)
    refine HInv.put (HInv.put (HInv.put h hnode_ok.1 ?_) hright_ok.1 (hright_ok.2.erase_pair _))
      hparent_ok.1 (hparent_ok.2.set_key _ _)
    refine NodeOK.set_key (hnode_ok.2.mono (by simp) ?_) _ _
    intro _ c hc
    rcases children_insert_pair hc with h1 | rfl
    · exact Or.inl h1
    · right; exact ⟨hrc.1, by omega⟩
  · cases hr

theorem internal_merge_left_inv {ih ih' : IxIndexHandle} {ctx ctx' : Ctx} {ht : Int → Nat}
    {reduce : IxIndexHandle → Ctx → Option (IxIndexHandle × Ctx)}
    (h : HInv ih ht) (node_id left_id parent_id : Int) (rest : List Int)
    (hw : ctx.write_ = node_id :: left_id :: parent_id :: rest)
    (hsame : ht left_id = ht node_id) (hpos : 0 < ht node_id)
    (hred : ∀ ih1 ih2 ctx2, HInv ih1 ht →
      reduce ih1 { ctx with write_ := parent_id :: rest } = some (ih2, ctx2) → HInv ih2 ht)
    (hr : internal_merge_left reduce ih ctx = some (ih', ctx')) : HInv ih' ht := by
  unfold internal_merge_left at hr
  rw [hw] at hr
  simp only [Option.bind_eq_bind, Option.bind_eq_some, Option.some.injEq, Prod.mk.injEq,
    Option.pure_def] at hr
  obtain ⟨node, hnode, left, hleft, child_id, hchild_id, child, hchild, ih2, hih2,
    parent, hparent, idx, hidx, pk, hpk, hfin⟩ := hr
  have hnode_ok := h.fetch hnode
  have hleft_ok := h.fetch hleft
  have hleft' : NodeOK ih.next_page_no ht left_id
      (left.insert_pairs ih.get_max_size left.get_size node.ents) := by
    refine hleft_ok.2.mono (by simp) ?_
    intro _ c hc
    rcases children_insert_pairs hc with h1 | h1
    · exact Or.inl h1
    · right
      have := hnode_ok.2.child hpos h1
      exact ⟨this.1, by omega⟩
  have h1 : HInv (ih.put_node left_id
      (left.insert_pairs ih.get_max_size left.get_size node.ents)) ht :=
    HInv.put h hleft_ok.1 hleft'
  have h2 : HInv ih2 ht ∧ ih2.next_page_no = ih.next_page_no := by
    split at hih2
    · simp only [Option.map_eq_some'] at hih2
      obtain ⟨nx, -, rfl⟩ := hih2
      have hc := h1.fetch hchild
      exact ⟨HInv.put h1 hc.1 (hc.2.mono rfl (fun _ c hc => Or.inl hc)), rfl⟩
    · cases hih2; exact ⟨h1, rfl⟩
  have hp := h2.1.fetch hparent
  rw [h2.2] at hp
  have h3 : HInv (((ih2.put_node left_id ((left.insert_pairs ih.get_max_size left.get_size
      node.ents).set_key left.get_size pk)).put_node parent_id
      (parent.erase_pair idx)).delete_page node_id) ht := by
    refine HInv.delete (HInv.put (HInv.put h2.1 ?_ ?_) ?_ ?_) _
    · rw [h2.2]; exact hleft_ok.1
    · rw [h2.2]; exact hleft'.set_key _ _
    · simp only [put_node_next, h2.2]; exact hp.1
    · simp only [put_node_next, h2.2]; exact hp.2.erase_pair _
  split at hfin
  · exact hred _ _ _ h3 hfin
  · simp only [Option.some.injEq, Prod.mk.injEq] at hfin
    rw [← hfin.1]; exact h3

theorem sibling_some {ih : IxIndexHandle} {e : Bool} {parent : IxNode} {i : Int} {pid : Int}
    {n : IxNode} (h : ih.sibling e parent i = some (some (pid, n))) :
    pid ∈ parent.children ∧ ih.fetch_node pid = some n := by
  unfold sibling at h
  split at h
  · split at h
    · cases h
    · next page_id hv =>
      split at h
      · cases h
      · next node hf =>
        simp only [Option.some.injEq, Prod.mk.injEq] at h
        obtain ⟨rfl, rfl⟩ := h
        exact ⟨value_at_mem_children hv, hf⟩
  · cases h

theorem reduce_internal_node_inv {ht : Int → Nat} : ∀ (fuel : Nat) {ih ih' : IxIndexHandle}
    {ctx ctx' : Ctx}, HInv ih ht → List.Chain' (ChainR ht) ctx.write_ →
    (∀ p rest, ctx.write_ = p :: rest → 0 < ht p) →
    reduce_internal_node fuel ih ctx = some (ih', ctx') → HInv ih' ht
  | 0, _, _, _, _, _, _, _, hr => by simp [reduce_internal_node] at hr
  | fuel + 1, ih, ih', ctx, ctx', h, hch, hpos, hr => by
    unfold reduce_internal_node at hr
    split at hr
    · cases hr
    · next node_id rest hw =>
      have hpos' := hpos _ _ hw
      simp only [Option.bind_eq_bind, Option.bind_eq_some] at hr
      obtain ⟨node, hnode, hr⟩ := hr
      split at hr
      · split at hr
        · simp only [Option.bind_eq_some, Option.some.injEq, Prod.mk.injEq, Option.pure_def] at hr
          obtain ⟨rp, -, rfl, -⟩ := hr
          exact HInv.delete (by split <;> exact h) _
        · simp only [Option.some.injEq, Prod.mk.injEq, Option.pure_def] at hr
          rw [← hr.1]; exact h
      · split at hr
        · cases hr
        · next parent_id rest' =>
          rw [hw] at hch
          have hpn : ht parent_id = ht node_id + 1 := (List.chain'_cons.1 hch).1
          have hch' : List.Chain' (ChainR ht) (parent_id :: rest') := (List.chain'_cons.1 hch).2
          simp only [Option.bind_eq_bind, Option.bind_eq_some] at hr
          obtain ⟨parent, hparent, index, hindex, left, hleft, hr⟩ := hr
          have hparent_ok := h.fetch hparent
          have hnode_c := hparent_ok.2.child (by omega) (find_child_mem hindex)
          split at hr
          · next lp ln _ =>
            obtain ⟨hl1, hl2⟩ := sibling_some hleft
            have hlc := hparent_ok.2.child (by omega) hl1
            exact internal_borrow_left_inv h node_id lp _ rfl (by omega) hpos' hr
          · simp only [Option.bind_eq_bind, Option.bind_eq_some] at hr
            obtain ⟨right, hright, hr⟩ := hr
            split at hr
            · next rp rn _ =>
              obtain ⟨hr1, hr2⟩ := sibling_some hright
              have hrc := hparent_ok.2.child (by omega) hr1
              exact internal_borrow_right_inv h node_id rp _ rfl (by omega) hpos' hr
            · split at hr
              · next lp ln _ _ _ =>
                obtain ⟨hl1, hl2⟩ := sibling_some hleft
                have hlc := hparent_ok.2.child (by omega) hl1
                refine internal_merge_left_inv h node_id lp parent_id rest' rfl (by omega) hpos'
                  ?_ hr
                intro ih1 ih2 ctx2 h1 hr1
                exact reduce_internal_node_inv fuel h1 hch' (fun p r hp => by
                  simp only [List.cons.injEq] at hp; obtain ⟨rfl, -⟩ := hp; omega) hr1
              · rename_i rp rn _ _ _ _
                obtain ⟨hr1, hr2⟩ := sibling_some hright
                have hrc := hparent_ok.2.child (by omega) hr1
                refine internal_merge_left_inv h rp node_id parent_id rest' rfl (by omega) (by omega)
                  ?_ hr
                intro ih1 ih2 ctx2 h1 hr1
                exact reduce_internal_node_inv fuel h1 hch' (fun p r hp => by
                  simp only [List.cons.injEq] at hp; obtain ⟨rfl, -⟩ := hp; omega) hr1
              · simp only [Option.some.injEq, Prod.mk.injEq, Option.pure_def] at hr
                rw [← hr.1]; exact h

theorem leaf_merge_left_inv {ih ih' : IxIndexHandle} {ctx ctx' : Ctx} {ht : Int → Nat}
    (h : HInv ih ht) (node_id left_id parent_id : Int) (rest : List Int)
    (hw : ctx.write_ = node_id :: left_id :: parent_id :: rest)
    (hleaf : ∀ n, ih.fetch_node left_id = some n → n.is_leaf = true)
    (hpos : 0 < ht parent_id) (hch : List.Chain' (ChainR ht) (parent_id :: rest))
    (hr : ih.leaf_merge_left ctx = some (ih', ctx')) : HInv ih' ht := by
  unfold leaf_merge_left at hr
  rw [hw] at hr
  simp only [Option.bind_eq_bind, Option.bind_eq_some, Option.some.injEq, Prod.mk.injEq,
    Option.pure_def] at hr
  obtain ⟨node, hnode, left, hleft, parent, hparent, idx, hidx, hfin⟩ := hr
  have hleft_ok := h.fetch hleft
  have hparent_ok := h.fetch hparent
  have h3 : HInv (((ih.put_node parent_id (parent.erase_pair idx)).put_node left_id
      { left.insert_pairs ih.get_max_size left.get_size node.ents with
        next_leaf := node.next_leaf })) ht := by
    refine HInv.put (HInv.put h hparent_ok.1 (hparent_ok.2.erase_pair _)) hleft_ok.1 ?_
    exact hleft_ok.2.leaf (hleaf _ hleft) (by simp [hleaf _ hleft])
  have h4 : ∀ l, HInv (((ih.put_node parent_id (parent.erase_pair idx)).put_node left_id
      { left.insert_pairs ih.get_max_size left.get_size node.ents with
        next_leaf := node.next_leaf }).set_last_leaf l) ht := fun _ => h3
  have hp1 : ∀ p r, parent_id :: rest = p :: r → 0 < ht p := by
    intro p r hp
    simp only [List.cons.injEq] at hp; obtain ⟨rfl, -⟩ := hp; exact hpos
  split at hfin <;> split at hfin
  · exact reduce_internal_node_inv _ (HInv.delete (h4 _) _) hch hp1 hfin
  · simp only [Option.some.injEq, Prod.mk.injEq] at hfin
    rw [← hfin.1]
    exact HInv.delete (h4 _) _
  · exact reduce_internal_node_inv _ (HInv.delete h3 _) hch hp1 hfin
  · simp only [Option.some.injEq, Prod.mk.injEq] at hfin
    rw [← hfin.1]
    exact HInv.delete h3 _

theorem Release_write {ih : IxIndexHandle} {c c' : Ctx} (h : c.Release ih = some c') :
    (c'.write_ = c.write_ ∨ c'.write_ = c.write_.take 1) ∧ c'.opt = c.opt ∧
      c'.root_page_id_ = c.root_page_id_ := by
  unfold Ctx.Release at h
  split at h
  · cases h; exact ⟨Or.inl rfl, rfl, rfl⟩
  · simp only [Option.bind_eq_bind, Option.bind_eq_some] at h
    obtain ⟨back, -, h⟩ := h
    split at h
    · cases h; exact ⟨Or.inr rfl, rfl, rfl⟩
    · split at h
      · split at h <;> cases h
        · exact ⟨Or.inr rfl, rfl, rfl⟩
        · exact ⟨Or.inl rfl, rfl, rfl⟩
      · split at h <;> cases h
        · exact ⟨Or.inr rfl, rfl, rfl⟩
        · exact ⟨Or.inl rfl, rfl, rfl⟩
    · split at h <;> cases h
      · exact ⟨Or.inr rfl, rfl, rfl⟩
      · exact ⟨Or.inl rfl, rfl, rfl⟩

theorem CtxOK.take_one {ih : IxIndexHandle} {ht : Int → Nat} {l : List Int}
    (h : CtxOK ih ht l) : CtxOK ih ht (l.take 1) := by
  refine ⟨?_, fun p hp => h.2 p (List.mem_of_mem_take hp)⟩
  cases l with
  | nil => simp
  | cons a t => simp

theorem internal_lookup_mem {n : IxNode} {key : Int} {c : Int}
    (h : n.internal_lookup key = some c) : c ∈ n.children := by
  unfold IxNode.internal_lookup at h
  simp only [Option.bind_eq_bind, Option.bind_eq_some, Option.some.injEq, Option.pure_def] at h
  obtain ⟨k, -, r, hr, rfl⟩ := h
  exact get_rid_mem_children hr

theorem find_leaf_page_loop_ok {ih : IxIndexHandle} {ht : Int → Nat} (h : HInv ih ht)
    (key : Int) : ∀ (fuel : Nat) {ctx ctx' : Ctx}, CtxOK ih ht ctx.write_ →
    ih.find_leaf_page_loop key fuel ctx = some ctx' →
    CtxOK ih ht ctx'.write_ ∧ ctx'.root_page_id_ = ctx.root_page_id_ ∧
      ∃ p rest n, ctx'.write_ = p :: rest ∧ ih.fetch_node p = some n ∧ n.is_leaf = true
  | 0, _, _, _, hr => by simp [find_leaf_page_loop] at hr
  | fuel + 1, ctx, ctx', hc, hr => by
    unfold find_leaf_page_loop at hr
    split at hr
    · cases hr
    · next p rest hw =>
      simp only [Option.bind_eq_bind, Option.bind_eq_some] at hr
      obtain ⟨back, hback, hr⟩ := hr
      split at hr
      · next hl =>
        cases hr
        exact ⟨hc, rfl, p, rest, back, hw, hback, hl⟩
      · next hl =>
        simp only [Option.bind_eq_bind, Option.bind_eq_some] at hr
        obtain ⟨nx, hnx, nd, hnd, ctx1, hctx1, hr⟩ := hr
        obtain ⟨hrel, -, hroot⟩ := Release_write hctx1
        have hback_ok := h.fetch hback
        have hl' : back.is_leaf = false := by simpa using hl
        have hchild := (hback_ok.2.2 hl').2 nx (internal_lookup_mem hnx)
        have hc1 : CtxOK ih ht (ctx.push nx).write_ := by
          simp only [Ctx.push, hw]
          rw [hw] at hc
          refine ⟨List.Chain'.cons hchild.2 hc.1, fun q hq => ?_⟩
          rcases List.mem_cons.1 hq with rfl | hq
          · exact hchild.1
          · exact hc.2 q hq
        have hc2 : CtxOK ih ht ctx1.write_ := by
          rcases hrel with h1 | h1 <;> rw [h1]
          · exact hc1
          · exact hc1.take_one
        obtain ⟨a, b, c⟩ := find_leaf_page_loop_ok h key fuel hc2 hr
        exact ⟨a, b.trans hroot, c⟩

theorem find_leaf_page_ok {ih : IxIndexHandle} {ht : Int → Nat} (h : HInv ih ht)
    {key : Int} {ctx ctx' : Ctx} (hw : ctx.write_ = [])
    (hr : ih.find_leaf_page key ctx = some ctx') :
    CtxOK ih ht ctx'.write_ ∧ ctx'.root_page_id_ = ctx.root_page_id_ ∧
      ∃ p rest n, ctx'.write_ = p :: rest ∧ ih.fetch_node p = some n ∧ n.is_leaf = true := by
  unfold find_leaf_page at hr
  simp only [Option.bind_eq_bind, Option.bind_eq_some] at hr
  obtain ⟨root, hroot, ctx1, hctx1, hr⟩ := hr
  obtain ⟨hrel, -, hrt⟩ := Release_write hctx1
  have hc1 : CtxOK ih ht (ctx.push ctx.root_page_id_).write_ := by
    simp only [Ctx.push, hw]
    exact ⟨List.chain'_singleton _, fun q hq => by
      rw [List.mem_singleton] at hq; subst hq; exact (h.fetch hroot).1⟩
  have hc2 : CtxOK ih ht ctx1.write_ := by
    rcases hrel with h1 | h1 <;> rw [h1]
    · exact hc1
    · exact hc1.take_one
  obtain ⟨a, b, c⟩ := find_leaf_page_loop_ok h key _ hc2 hr
  exact ⟨a, b.trans hrt, c⟩

theorem delete_entry_inv {ih ih' : IxIndexHandle} {ht : Int → Nat} {key : Int} {b : Bool}
    (h : HInv ih ht) (hr : ih.delete_entry key = some (ih', b)) : HInv ih' ht := by
  unfold delete_entry at hr
  simp only [Option.bind_eq_bind, Option.bind_eq_some] at hr
  obtain ⟨ctx, hctx, hr⟩ := hr
  obtain ⟨hc, -, p, rest, n, hw, hn, hnl⟩ := find_leaf_page_ok h rfl hctx
  rw [hw] at hr hc
  simp only [Option.bind_eq_bind, Option.bind_eq_some] at hr
  obtain ⟨node, hnode, hr⟩ := hr
  rw [hn] at hnode
  cases hnode
  have hn_ok := h.fetch hn
  have hp0 : ht p = 0 := hn_ok.2.1 hnl
  split at hr
  · simp only [Option.some.injEq, Prod.mk.injEq, Option.pure_def] at hr
    rw [← hr.1]; exact h
  · have h1 : HInv (ih.put_node p (n.erase_pair (n.lower_bound key))) ht :=
      HInv.put h hn_ok.1 (hn_ok.2.erase_pair _)
    have hleaf1 : ∀ m, (ih.put_node p (n.erase_pair (n.lower_bound key))).fetch_node p = some m →
        m.is_leaf = true := by
      intro m hm
      rcases fetch_put_some hm with h2 | ⟨-, rfl⟩
      · rw [hn] at h2; cases h2; exact hnl
      · exact hnl
    split at hr
    · split at hr
      · simp only [Option.some.injEq, Prod.mk.injEq, Option.pure_def] at hr
        rw [← hr.1]; exact h1
      · simp only [Option.some.injEq, Prod.mk.injEq, Option.pure_def] at hr
        rw [← hr.1]; exact h1
    · split at hr
      · split at hr
        · cases hr
        · next parent_id rest' =>
          have hpn : ht parent_id = ht p + 1 := (List.chain'_cons.1 hc.1).1
          have hch' : List.Chain' (ChainR ht) (parent_id :: rest') := (List.chain'_cons.1 hc.1).2
          simp only [Option.bind_eq_bind, Option.bind_eq_some] at hr
          obtain ⟨parent, hparent, index, hindex, left, hleft, hr⟩ := hr
          have hparent_ok := h1.fetch hparent
          simp only [put_node_next] at hparent_ok
          split at hr
          · next lp ln _ =>
            simp only [Option.bind_eq_bind, Option.bind_eq_some, Option.some.injEq,
              Prod.mk.injEq, Option.pure_def] at hr
            obtain ⟨⟨ih2, ctx2⟩, hb, rfl, -⟩ := hr
            exact leaf_borrow_left_inv h1 p _ rfl hleaf1 hb
          · simp only [Option.bind_eq_bind, Option.bind_eq_some] at hr
            obtain ⟨right, hright, hr⟩ := hr
            split at hr
            · next rp rn _ =>
              simp only [Option.bind_eq_bind, Option.bind_eq_some, Option.some.injEq,
                Prod.mk.injEq, Option.pure_def] at hr
              obtain ⟨⟨ih2, ctx2⟩, hb, rfl, -⟩ := hr
              exact leaf_borrow_right_inv h1 p _ rfl hleaf1 hb
            · split at hr
              · next lp ln _ _ _ =>
                obtain ⟨hl1, hl2⟩ := sibling_some hleft
                have hlc := hparent_ok.2.child (by omega) hl1
                simp only [Option.bind_eq_bind, Option.bind_eq_some, Option.some.injEq,
                  Prod.mk.injEq, Option.pure_def] at hr
                obtain ⟨⟨ih2, ctx2⟩, hb, rfl, -⟩ := hr
                refine leaf_merge_left_inv h1 p lp parent_id rest' rfl ?_ (by omega) hch' hb
                intro m hm
                exact (h1.fetch hm).2.is_leaf_of (by omega)
              · rename_i rp rn _ _ _ _
                simp only [Option.bind_eq_bind, Option.bind_eq_some, Option.some.injEq,
                  Prod.mk.injEq, Option.pure_def] at hr
                obtain ⟨⟨ih2, ctx2⟩, hb, rfl, -⟩ := hr
                exact leaf_merge_left_inv h1 rp p parent_id rest' rfl hleaf1 (by omega) hch' hb
              · simp only [Option.some.injEq, Prod.mk.injEq, Option.pure_def] at hr
                rw [← hr.1]; exact h1
      · simp only [Option.some.injEq, Prod.mk.injEq, Option.pure_def] at hr
        rw [← hr.1]; exact h1

@[simp] theorem create_node_next (ih : IxIndexHandle) (l : Bool) :
    (ih.create_node l).next_page_no = ih.next_page_no + 1 := rfl

theorem update_of_lt (ht : Int → Nat) {next : Int} (k : Nat) {q : Int} (hq : q < next) :
    Function.update ht next k q = ht q :=
  Function.update_noteq (by omega) _ _

theorem CtxOK.after_create {ih : IxIndexHandle} {ht : Int → Nat} {l : List Int} (h : CtxOK ih ht l)
    (leaf : Bool) (k : Nat) :
    CtxOK (ih.create_node leaf) (Function.update ht ih.next_page_no k) l := by
  refine ⟨?_, fun p hp => ?_⟩
  · have h2 := h.2
    have h1 := h.1
    clear h
    induction l with
    | nil => exact List.chain'_nil
    | cons a t ih' =>
      cases t with
      | nil => exact List.chain'_singleton _
      | cons b t' =>
        have hab := (List.chain'_cons.1 h1).1
        refine List.chain'_cons.2 ⟨?_, ih' (fun p hp => h2 p (List.mem_cons_of_mem _ hp))
          (List.chain'_cons.1 h1).2⟩
        unfold ChainR at hab ⊢
        rw [update_of_lt ht k (h2 a (List.mem_cons_self _ _)),
          update_of_lt ht k (h2 b (List.mem_cons_of_mem _ (List.mem_cons_self _ _)))]
        exact hab
  · have := h.2 p hp
    simp only [create_node_next]; omega

theorem CtxOK.of_next_eq {ih ih2 : IxIndexHandle} {ht : Int → Nat} {l : List Int}
    (h : CtxOK ih ht l) (he : ih2.next_page_no = ih.next_page_no) : CtxOK ih2 ht l :=
  ⟨h.1, fun p hp => he ▸ h.2 p hp⟩

theorem children_drop_take {n : IxNode} {a b : Nat} {c : Int}
    (h : c ∈ List.map (fun e : Int × Rid => e.2.page_no) ((n.ents.drop a).take b)) :
    c ∈ n.children := by
  rw [List.mem_map] at h
  obtain ⟨e, he, rfl⟩ := h
  exact List.mem_map.2 ⟨e, List.mem_of_mem_drop (List.mem_of_mem_take he), rfl⟩

theorem children_Init (l : Bool) : (IxNode.Init l).children = [] := rfl

theorem split_internal_halves_leaf (o : Nat) (n : IxNode) (key right_id : Int) :
    (split_internal_halves o n key right_id).1.is_leaf = n.is_leaf ∧
      (split_internal_halves o n key right_id).2.is_leaf = false := by
  unfold split_internal_halves
  simp only
  split <;> simp [IxNode.Init]

theorem split_internal_halves_children {o : Nat} {n : IxNode} {key right_id : Int} {c : Int}
    (h : c ∈ (split_internal_halves o n key right_id).1.children ∨
      c ∈ (split_internal_halves o n key right_id).2.children) :
    c ∈ n.children ∨ c = right_id := by
  unfold split_internal_halves at h
  simp only at h
  split at h
  · rcases h with h | h
    · rcases children_insert_pair h with h1 | h1
      · exact Or.inl (children_set_size h1)
      · exact Or.inr h1
    · rcases children_insert_pairs h with h1 | h1
      · simp [children_Init] at h1
      · exact Or.inl (children_drop_take h1)
  · rcases h with h | h
    · exact Or.inl (children_set_size h)
    · rcases children_insert_pair h with h1 | h1
      · rcases children_insert_pairs h1 with h2 | h2
        · simp [children_Init] at h2
        · exact Or.inl (children_drop_take h2)
      · exact Or.inr h1

theorem split_leaf_halves_leaf (o : Nat) (n : IxNode) (right_id : Int) :
    (split_leaf_halves o n right_id).1.is_leaf = n.is_leaf ∧
      (split_leaf_halves o n right_id).2.is_leaf = true := by
  unfold split_leaf_halves
  simp [IxNode.Init]

theorem new_root_node_leaf (o : Nat) (k0 l k1 r : Int) :
    (new_root_node o k0 l k1 r).is_leaf = false := by
  simp [new_root_node, IxNode.Init]

theorem new_root_node_children {o : Nat} {k0 l k1 r : Int} {c : Int}
    (h : c ∈ (new_root_node o k0 l k1 r).children) : c = l ∨ c = r := by
  unfold new_root_node at h
  rcases children_insert_pair h with h1 | h1
  · rcases children_insert_pair h1 with h2 | h2
    · simp [children_Init] at h2
    · exact Or.inl h2
  · exact Or.inr h1

/-- A new root over two nodes of equal height keeps the labelling. -/
theorem HInv.new_root {ih : IxIndexHandle} {ht : Int → Nat} (h : HInv ih ht)
    (o : Nat) (k0 l k1 r : Int) (hl : l < ih.next_page_no) (hr : r < ih.next_page_no)
    (hlr : ht l = ht r) :
    HInv ((ih.create_node false).put_node ih.next_page_no (new_root_node o k0 l k1 r))
      (Function.update ht ih.next_page_no (ht l + 1)) := by
  refine HInv.put (h.after_create_node false (ht l + 1) ⟨fun hh => Bool.noConfusion hh, fun _ => Nat.succ_pos _⟩)
    (by simp) ⟨fun hh => ?_, fun _ => ⟨?_, fun c hc => ?_⟩⟩
  · rw [new_root_node_leaf] at hh; cases hh
  · rw [Function.update_same]; omega
  · rw [Function.update_same]
    simp only [create_node_next]
    rcases new_root_node_children hc with rfl | rfl
    · rw [update_of_lt ht _ hl]; exact ⟨by omega, rfl⟩
    · rw [update_of_lt ht _ hr]; exact ⟨by omega, by omega⟩

theorem HInv.hdr {ih : IxIndexHandle} {ht : Int → Nat} (h : HInv ih ht) (f : IxFileHdr) :
    HInv { ih with file_hdr := f } ht := h

theorem split_internal_node_inv : ∀ (fuel : Nat) {ih ih' : IxIndexHandle} {ctx ctx' : Ctx}
    (ht : Int → Nat), HInv ih ht → ∀ (right_id upd_id : Int) (rest : List Int),
    ctx.write_ = right_id :: upd_id :: rest → right_id < ih.next_page_no →
    ht upd_id = ht right_id + 1 → CtxOK ih ht (upd_id :: rest) →
    split_internal_node fuel ih ctx = some (ih', ctx') → ∃ ht', HInv ih' ht'
  | 0, _, _, _, _, _, _, _, _, _, _, _, _, _, hr => by simp [split_internal_node] at hr
  | fuel + 1, ih, ih', ctx, ctx', ht, h, right_id, upd_id, rest, hw, hrlt, hur, hc, hr => by
    unfold split_internal_node at hr
    rw [hw] at hr
    simp only [Option.bind_eq_bind, Option.bind_eq_some] at hr
    obtain ⟨right_node, hright, upd, hupd, key, hkey, hr⟩ := hr
    have hupd_ok := h.fetch hupd
    have hupos : 0 < ht upd_id := by omega
    have hul : upd.is_leaf = false := hupd_ok.2.not_leaf hupos
    -- the labelling after the creation of the new node
    have h1 := h.after_create_node false (ht upd_id) ⟨fun hh => Bool.noConfusion hh, fun _ => hupos⟩
    have hlt : ∀ q, q < ih.next_page_no →
        Function.update ht ih.next_page_no (ht upd_id) q = ht q := fun q hq => update_of_lt ht _ hq
    have hkids : ∀ c, (c ∈ (split_internal_halves ih.get_max_size upd key right_id).1.children ∨
        c ∈ (split_internal_halves ih.get_max_size upd key right_id).2.children) →
        c < ih.next_page_no ∧ ht upd_id = ht c + 1 := by
      intro c hcm
      rcases split_internal_halves_children hcm with h2 | rfl
      · exact hupd_ok.2.child hupos h2
      · exact ⟨hrlt, hur⟩
    have h2 : HInv (((ih.create_node false).put_node upd_id
        (split_internal_halves ih.get_max_size upd key right_id).1).put_node ih.next_page_no
        (split_internal_halves ih.get_max_size upd key right_id).2)
        (Function.update ht ih.next_page_no (ht upd_id)) := by
      refine HInv.put (HInv.put h1 (by simp; omega) ⟨fun hh => ?_, fun _ => ⟨?_, fun c hcm => ?_⟩⟩)
        (by simp) ⟨fun hh => ?_, fun _ => ⟨?_, fun c hcm => ?_⟩⟩
      · rw [(split_internal_halves_leaf _ _ _ _).1, hul] at hh; cases hh
      · rw [hlt _ hupd_ok.1]; exact hupos
      · obtain ⟨ha, hb⟩ := hkids c (Or.inl hcm)
        rw [hlt _ hupd_ok.1, hlt _ ha]
        exact ⟨by simp only [create_node_next]; omega, hb⟩
      · rw [(split_internal_halves_leaf _ _ _ _).2] at hh; cases hh
      · rw [Function.update_same]; exact hupos
      · obtain ⟨ha, hb⟩ := hkids c (Or.inr hcm)
        rw [Function.update_same, hlt _ ha]
        exact ⟨by simp only [put_node_next, create_node_next]; omega, hb⟩
    split at hr
    · split at hr
      · cases hr
      · next parent_id rest' =>
        simp only [Option.bind_eq_bind, Option.bind_eq_some] at hr
        obtain ⟨parent, hparent, hr⟩ := hr
        have hpu : ht parent_id = ht upd_id + 1 := (List.chain'_cons.1 hc.1).1
        have hplt : parent_id < ih.next_page_no :=
          hc.2 _ (List.mem_cons_of_mem _ (List.mem_cons_self _ _))
        split at hr
        · simp only [Option.bind_eq_bind, Option.bind_eq_some, Option.some.injEq,
            Prod.mk.injEq, Option.pure_def] at hr
          obtain ⟨⟨ih3, ctx3⟩, hrec, rfl, -⟩ := hr
          refine split_internal_node_inv fuel _ h2 ih.next_page_no parent_id rest' rfl
            (by simp) ?_ ?_ hrec
          · rw [Function.update_same, hlt _ hplt]; exact hpu
          · have hc' : CtxOK ih ht (parent_id :: rest') :=
              ⟨(List.chain'_cons.1 hc.1).2, fun p hp => hc.2 p (List.mem_cons_of_mem _ hp)⟩
            exact (hc'.after_create false (ht upd_id)).of_next_eq rfl
        · simp only [Option.bind_eq_bind, Option.bind_eq_some, Option.some.injEq,
            Prod.mk.injEq, Option.pure_def] at hr
          obtain ⟨k2, -, rfl, -⟩ := hr
          have hp_ok := h2.fetch hparent
          refine ⟨_, HInv.put h2 hp_ok.1 (hp_ok.2.mono (by simp) ?_)⟩
          intro _ c hcm
          rcases children_insert_pair hcm with h3 | rfl
          · exact Or.inl h3
          · right
            simp only [put_node_next, create_node_next]
            rw [Function.update_same, hlt _ hplt]
            exact ⟨by omega, hpu⟩
    · simp only [Option.bind_eq_bind, Option.bind_eq_some, Option.some.injEq,
        Prod.mk.injEq, Option.pure_def] at hr
      obtain ⟨k0, -, k1, -, rfl, -⟩ := hr
      refine ⟨_, HInv.hdr (HInv.new_root h2 ih.get_max_size k0 upd_id k1 ih.next_page_no
        (by simp; omega) (by simp) ?_) _⟩
      rw [Function.update_same, hlt _ hupd_ok.1]

theorem split_leaf_node_inv {ih ih' : IxIndexHandle} {ctx ctx' : Ctx} (ht : Int → Nat)
    (h : HInv ih ht) (left_id : Int) (rest : List Int) (hw : ctx.write_ = left_id :: rest)
    (hleaf : ∀ n, ih.fetch_node left_id = some n → n.is_leaf = true)
    (hc : CtxOK ih ht (left_id :: rest))
    (hr : ih.split_leaf_node ctx = some (ih', ctx')) : ∃ ht', HInv ih' ht' := by
  unfold split_leaf_node at hr
  rw [hw] at hr
  simp only [Option.bind_eq_bind, Option.bind_eq_some] at hr
  obtain ⟨left, hleft, hr⟩ := hr
  have hleft_ok := h.fetch hleft
  have hll := hleaf _ hleft
  have hl0 : ht left_id = 0 := hleft_ok.2.1 hll
  have h1 := h.after_create_node true 0 ⟨fun _ => rfl, fun hh => Bool.noConfusion hh⟩
  have hlt : ∀ q, q < ih.next_page_no →
      Function.update ht ih.next_page_no 0 q = ht q := fun q hq => update_of_lt ht _ hq
  have h1' : HInv (if (ih.create_node true).file_hdr.last_leaf = left_id then
      (ih.create_node true).set_last_leaf ih.next_page_no else ih.create_node true)
      (Function.update ht ih.next_page_no 0) := by
    split
    · exact h1
    · exact h1
  have hn1 : (if (ih.create_node true).file_hdr.last_leaf = left_id then
      (ih.create_node true).set_last_leaf ih.next_page_no else ih.create_node true).next_page_no
      = ih.next_page_no + 1 := by
    split <;> rfl
  generalize (if (ih.create_node true).file_hdr.last_leaf = left_id then
      (ih.create_node true).set_last_leaf ih.next_page_no else ih.create_node true) = X
      at hr h1' hn1
  have h2 : HInv ((X.put_node left_id
      (split_leaf_halves ih.get_max_size left ih.next_page_no).1).put_node
      ih.next_page_no (split_leaf_halves ih.get_max_size left ih.next_page_no).2)
      (Function.update ht ih.next_page_no 0) := by
    refine HInv.put (HInv.put h1' (by rw [hn1]; omega) ⟨fun _ => ?_, fun hh => ?_⟩)
      (by simp only [put_node_next, hn1]; omega) ⟨fun _ => ?_, fun hh => ?_⟩
    · rw [hlt _ hleft_ok.1]; exact hl0
    · rw [(split_leaf_halves_leaf _ _ _).1, hll] at hh; cases hh
    · exact Function.update_same _ _ _
    · rw [(split_leaf_halves_leaf _ _ _).2] at hh; cases hh
  have hn2 : ((X.put_node left_id
      (split_leaf_halves ih.get_max_size left ih.next_page_no).1).put_node
      ih.next_page_no (split_leaf_halves ih.get_max_size left ih.next_page_no).2).next_page_no
      = ih.next_page_no + 1 := by
    simp only [put_node_next, hn1]
  split at hr
  · simp only [Option.bind_eq_bind, Option.bind_eq_some, Option.some.injEq,
      Prod.mk.injEq, Option.pure_def] at hr
    obtain ⟨lk, -, rk, -, rfl, -⟩ := hr
    rw [hn2]
    have h3 := h2.after_create_node false (Function.update ht ih.next_page_no 0 left_id + 1)
      ⟨fun hh => Bool.noConfusion hh, fun _ => Nat.succ_pos _⟩
    rw [hn2] at h3
    refine ⟨_, HInv.put (HInv.hdr h3 _) (by simp only [create_node_next, put_node_next]; omega)
      ⟨fun hh => ?_, fun _ => ⟨?_, fun c hcm => ?_⟩⟩⟩
    · rw [new_root_node_leaf] at hh; cases hh
    · rw [Function.update_same]; omega
    · rw [Function.update_same]
      simp only [create_node_next, hn2]
      rcases new_root_node_children hcm with rfl | rfl
      · rw [update_of_lt _ _ (by omega : c < ih.next_page_no + 1)]
        exact ⟨by omega, rfl⟩
      · rw [update_of_lt _ _ (by omega : ih.next_page_no < ih.next_page_no + 1),
          Function.update_same, hlt _ hleft_ok.1, hl0]
        exact ⟨by omega, rfl⟩
  · split at hr
    · cases hr
    · next parent_id rest' =>
      simp only [Option.bind_eq_bind, Option.bind_eq_some] at hr
      obtain ⟨parent, hparent, hr⟩ := hr
      have hpu : ht parent_id = ht left_id + 1 := (List.chain'_cons.1 hc.1).1
      have hplt : parent_id < ih.next_page_no :=
        hc.2 _ (List.mem_cons_of_mem _ (List.mem_cons_self _ _))
      split at hr
      · refine split_internal_node_inv _ _ h2 ih.next_page_no parent_id rest' rfl
          (by rw [hn2]; omega) ?_ ?_ hr
        · rw [Function.update_same, hlt _ hplt, hpu, hl0]
        · have hc' : CtxOK ih ht (parent_id :: rest') :=
            ⟨(List.chain'_cons.1 hc.1).2, fun p hp => hc.2 p (List.mem_cons_of_mem _ hp)⟩
          exact (hc'.after_create true 0).of_next_eq hn2
      · simp only [Option.bind_eq_bind, Option.bind_eq_some, Option.some.injEq,
          Prod.mk.injEq, Option.pure_def] at hr
        obtain ⟨k2, -, rfl, -⟩ := hr
        have hp_ok := h2.fetch hparent
        refine ⟨_, HInv.put h2 hp_ok.1 (hp_ok.2.mono (by simp) ?_)⟩
        intro _ c hcm
        rcases children_insert_pair hcm with h3 | rfl
        · exact Or.inl h3
        · right
          dsimp only
          rw [hn2, Function.update_same, hlt _ hplt, hpu, hl0]
          exact ⟨by omega, rfl⟩

theorem insert_entry_inv {ih ih' : IxIndexHandle} {ht : Int → Nat} {key : Int} {value : Rid}
    {b : Bool} (h : HInv ih ht) (hr : ih.insert_entry key value = some (ih', b)) :
    ∃ ht', HInv ih' ht' := by
  unfold insert_entry at hr
  simp only [Option.bind_eq_bind, Option.bind_eq_some] at hr
  obtain ⟨ctx, hctx, hr⟩ := hr
  obtain ⟨hc, -, p, rest, n, hw, hn, hnl⟩ := find_leaf_page_ok h rfl hctx
  rw [hw] at hr
  simp only [Option.bind_eq_bind, Option.bind_eq_some] at hr
  obtain ⟨leaf, hleaf, hr⟩ := hr
  rw [hn] at hleaf
  cases hleaf
  have hn_ok := h.fetch hn
  split at hr
  · simp only [Option.some.injEq, Prod.mk.injEq, Option.pure_def] at hr
    rw [← hr.1]; exact ⟨ht, h⟩
  · have h1 : HInv (ih.put_node p (n.insert_pair ih.get_max_size (n.lower_bound key) key value))
        ht := HInv.put h hn_ok.1 (hn_ok.2.leaf hnl (by simp [hnl]))
    split at hr
    · simp only [Option.bind_eq_bind, Option.bind_eq_some, Option.some.injEq,
        Prod.mk.injEq, Option.pure_def] at hr
      obtain ⟨⟨ih2, ctx2⟩, hs, rfl, -⟩ := hr
      refine split_leaf_node_inv ht h1 p rest hw ?_ (by rw [← hw]; exact hc.of_next_eq rfl) hs
      intro m hm
      rcases fetch_put_some hm with h2 | ⟨-, rfl⟩
      · rw [hn] at h2; cases h2; exact hnl
      · simp [hnl]
    · simp only [Option.some.injEq, Prod.mk.injEq, Option.pure_def] at hr
      rw [← hr.1]; exact ⟨ht, h1⟩

end RMDB

namespace RMDB

/-! ## Page guards: every fetched node is unpinned dirty -/


open IxIndexHandle

theorem find_leaf_page_loop_traced_fst (ih : IxIndexHandle) (key : Int) :
    ∀ (fuel : Nat) (ctx : Ctx) (guards : List PageGuard) (unpins : List Unpin),
      (find_leaf_page_loop_traced ih key fuel ctx guards unpins).map Prod.fst =
        find_leaf_page_loop ih key fuel ctx
  | 0, _, _, _ => rfl
  | fuel + 1, ctx, guards, unpins => by
    unfold find_leaf_page_loop_traced find_leaf_page_loop
    cases hw : ctx.write_ with
    | nil => rfl
    | cons p rest =>
      simp only [Option.bind_eq_bind, Option.pure_def]
      cases ih.fetch_node p with
      | none => rfl
      | some back =>
        simp only [Option.some_bind]
        split
        · rfl
        · cases back.internal_lookup key with
          | none => rfl
          | some next_page_id =>
            simp only [Option.some_bind]
            cases ih.fetch_node next_page_id with
            | none => rfl
            | some n =>
              simp only [Option.some_bind]
              cases (ctx.push next_page_id).Release ih with
              | none => rfl
              | some ctx1 =>
                simp only [Option.some_bind]
                exact find_leaf_page_loop_traced_fst ih key fuel _ _ _

theorem find_leaf_page_traced_fst (ih : IxIndexHandle) (key : Int) (ctx : Ctx) :
    (find_leaf_page_traced ih key ctx).map Prod.fst = ih.find_leaf_page key ctx := by
  unfold find_leaf_page_traced find_leaf_page
  simp only [Option.bind_eq_bind, Option.pure_def]
  cases ih.fetch_node ctx.root_page_id_ with
  | none => rfl
  | some n =>
    simp only [Option.some_bind]
    cases (ctx.push ctx.root_page_id_).Release ih with
    | none => rfl
    | some ctx1 =>
      simp only [Option.some_bind]
      exact find_leaf_page_loop_traced_fst ih key _ _ _ _

theorem get_value_traced_fst (ih : IxIndexHandle) (key : Int) :
    (get_value_traced ih key).map Prod.fst = ih.get_value key := by
  unfold get_value_traced get_value
  rw [← find_leaf_page_traced_fst]
  cases find_leaf_page_traced ih key ⟨Operation.FIND, ih.file_hdr.root_page, []⟩ with
  | none => rfl
  | some s =>
    simp only [Option.bind_eq_bind, Option.some_bind, Option.map_some', Option.pure_def]
    cases s.1.write_ with
    | nil => rfl
    | cons p rest =>
      simp only []
      cases ih.fetch_node p with
      | none => rfl
      | some leaf => rfl

theorem leaf_begin_traced_fst (ih : IxIndexHandle) (key : Int) :
    (leaf_begin_traced ih key).map Prod.fst = ih.leaf_begin key := by
  unfold leaf_begin_traced leaf_begin
  rw [← find_leaf_page_traced_fst]
  cases find_leaf_page_traced ih key ⟨Operation.FIND, ih.file_hdr.root_page, []⟩ with
  | none => rfl
  | some s =>
    simp only [Option.bind_eq_bind, Option.some_bind, Option.map_some', Option.pure_def]
    cases s.1.write_ with
    | nil => rfl
    | cons p rest =>
      simp only []
      cases ih.fetch_node p with
      | none => rfl
      | some leaf =>
        simp only [Option.some_bind]
        split
        · cases ih.leaf_end with
          | none => rfl
          | some e => rfl
        · rfl

/-- C38, failing input: the guard of a node handle that `fetch_node`
returns is unpinned with dirty = true whatever is done with the node, and
`set_dirty(false)` does not change that.  On the tree with the root on page
4 over the leaves on the pages 2 and 3, `get_value(30)` returns the position
(1, 2) and `leaf_begin(30)` the slot 0 of page 3; each call only reads the
pages 4 and 3 and unpins both with dirty = true. -/
theorem read_only_nodes_unpinned_dirty :
    (∀ page_no d, ((fetch_node_guard page_no).set_dirty d).Drop = [⟨page_no, true⟩]) ∧
    two_leaf_tree.get_value 30 = some (some ⟨1, 2⟩) ∧
    get_value_traced two_leaf_tree 30 = some (some ⟨1, 2⟩, [⟨4, true⟩, ⟨3, true⟩]) ∧
    two_leaf_tree.leaf_begin 30 = some ⟨3, 0⟩ ∧
    leaf_begin_traced two_leaf_tree 30 = some (⟨3, 0⟩, [⟨4, true⟩, ⟨3, true⟩]) := by
  refine ⟨fun _ _ => rfl, by decide, by decide, by decide, by decide⟩

end RMDB
namespace RMDB

/-! ## Shape of the tree: separators, minimum sizes, leaf links -/

/-- C34: the separator invariant does not hold after every sequence of
calls: in a tree of order 4, after the insertion of 10, 20, 30, 40, 50 and
the deletion of 30 the calls have all returned, the root still stores the
key 30 for its second child, and the first key of that child is 40. -/
theorem separator_stale_after_delete :
    apply_ops (IxIndexHandle.empty 4) delete_first_key_run = some stale_tree ∧
      (stale_tree.fetch_node stale_tree.file_hdr.root_page).map (fun n => n.ents.get? 1)
        = some (some (30, ⟨3, 1⟩)) ∧
      (stale_tree.fetch_node 3).bind (fun c => c.get_key 0) = some 40 ∧
      ¬ SeparatorInvariant stale_tree := by
  refine ⟨by decide, by decide, by decide, ?_⟩
  intro h
  obtain ⟨c, hc, hk⟩ := h 4 ⟨false, -1, -1, [(10, ⟨2, 0⟩), (30, ⟨3, 1⟩)]⟩ (by decide)
    (by decide) 1 30 ⟨3, 1⟩ (by decide)
  have hc2 : some c = some (⟨true, -1, -1, [(40, ⟨1, 3⟩), (50, ⟨1, 4⟩)]⟩ : IxNode) := by
    rw [← hc]; decide
  cases hc2
  revert hk
  decide


theorem floor_half (m : Nat) : ⌊(m : ℚ) / 2⌋₊ = m / 2 := by
  have h : ⌊((m : ℕ) : ℚ) / ((2 : ℕ) : ℚ)⌋₊ = m / 2 := Nat.floor_div_eq_div m 2
  simpa using h

theorem ceil_half (m : Nat) : ⌈(m : ℚ) / 2⌉₊ = (m + 1) / 2 := by
  rcases Nat.even_or_odd' m with ⟨k, rfl | rfl⟩
  · have h1 : ((2 * k : ℕ) : ℚ) / 2 = (k : ℚ) := by push_cast; ring
    rw [h1, Nat.ceil_natCast]; omega
  · have h2 : (2 * k + 1 + 1) / 2 = k + 1 := by omega
    rw [h2, Nat.ceil_eq_iff (by omega)]
    push_cast
    constructor
    · have : (0 : ℚ) ≤ k := Nat.cast_nonneg k
      linarith
    · linarith [(Nat.cast_nonneg k : (0 : ℚ) ≤ (k : ℚ))]

/-- C35, the claim fails: for the order 4 an internal node has the minimum
size 2, and the ceiling of `(4 + 1) / 2` is 3. -/
theorem get_min_size_internal_even_order :
    IxNode.get_min_size 4 (IxNode.Init false) = 2 ∧ spec_min_size 4 false = 3 ∧
      ¬ (∀ (m : Nat) (n : IxNode), n.get_min_size m = spec_min_size m n.is_leaf) := by
  have h3 : spec_min_size 4 false = 3 := by
    have h : (((4 : ℕ) : ℚ) + 1) / 2 = ((5 : ℕ) : ℚ) / 2 := by norm_num
    have h5 := ceil_half 5
    simp only [spec_min_size, Bool.false_eq_true, if_false]
    rw [h, h5]
  refine ⟨by decide, h3, fun h => ?_⟩
  have h4 := h 4 (IxNode.Init false)
  have h5 : (IxNode.Init false).is_leaf = false := rfl
  rw [h5, h3] at h4
  revert h4
  decide

/-- C35, amended: for every order `m`, `get_min_size` returns the floor of
`m / 2` for a leaf node and the ceiling of `m / 2`, which is the floor of
`(m + 1) / 2`, for an internal node. -/
theorem get_min_size_floor_ceil (m : Nat) (n : IxNode) :
    n.get_min_size m = (if n.is_leaf then ⌊(m : ℚ) / 2⌋₊ else ⌈(m : ℚ) / 2⌉₊) ∧
      ⌈(m : ℚ) / 2⌉₊ = ⌊((m : ℚ) + 1) / 2⌋₊ := by
  have hf : ⌊((m : ℚ) + 1) / 2⌋₊ = (m + 1) / 2 := by
    have h := floor_half (m + 1)
    push_cast at h
    exact h
  refine ⟨?_, by rw [ceil_half, hf]⟩
  unfold IxNode.get_min_size
  cases hl : n.is_leaf
  · simp [ceil_half]
  · simp [floor_half]

/-! ## The field `prev_leaf` is never written -/

open IxIndexHandle

section prev_leaf

variable {Q : Int → Int → Prop}

theorem no_prev_fetch {ih : IxIndexHandle} (h : PrevLeafKept Q ih) {p : Int} {n : IxNode}
    (hf : ih.fetch_node p = some n) : n.prev_leaf = INVALID_PAGE_ID ∨ Q p n.prev_leaf :=
  h p n (fetch_mem hf)

theorem no_prev_put {ih : IxIndexHandle} (h : PrevLeafKept Q ih) (p : Int) {n : IxNode}
    (hn : n.prev_leaf = INVALID_PAGE_ID ∨ Q p n.prev_leaf) :
    PrevLeafKept Q (ih.put_node p n) := by
  intro q m hm
  rcases mem_store_page hm with h1 | ⟨rfl, rfl⟩
  · exact h q m h1
  · exact hn

theorem no_prev_put_fetch {X Y : IxIndexHandle} (hX : PrevLeafKept Q X) (hY : PrevLeafKept Q Y)
    {p : Int} {m : IxNode} (hf : Y.fetch_node p = some m) {g : IxNode}
    (hg : g.prev_leaf = m.prev_leaf) : PrevLeafKept Q (X.put_node p g) :=
  no_prev_put hX p (by rw [hg]; exact no_prev_fetch hY hf)

theorem no_prev_delete {ih : IxIndexHandle} (h : PrevLeafKept Q ih) (p : Int) :
    PrevLeafKept Q (ih.delete_page p) := by
  intro q m hm
  exact h q m (List.mem_filter.1 hm).1

theorem no_prev_create {ih : IxIndexHandle} (h : PrevLeafKept Q ih) (is_leaf : Bool) :
    PrevLeafKept Q (ih.create_node is_leaf) := by
  intro q m hm
  simp only [create_node, List.mem_append, List.mem_singleton, Prod.mk.injEq] at hm
  rcases hm with h1 | ⟨-, rfl⟩
  · exact h q m h1
  · exact Or.inl rfl

theorem no_prev_of_pages {ih ih2 : IxIndexHandle} (h : PrevLeafKept Q ih)
    (hp : ih2.pages = ih.pages) : PrevLeafKept Q ih2 := by
  intro q m hm
  rw [hp] at hm
  exact h q m hm

@[simp] theorem prev_leaf_insert_pairs (o : Nat) (n : IxNode) (pos : Nat)
    (ps : List (Int × Rid)) : (n.insert_pairs o pos ps).prev_leaf = n.prev_leaf := by
  unfold IxNode.insert_pairs
  split <;> rfl

@[simp] theorem prev_leaf_insert_pair (o : Nat) (n : IxNode) (pos : Nat) (k : Int) (r : Rid) :
    (n.insert_pair o pos k r).prev_leaf = n.prev_leaf :=
  prev_leaf_insert_pairs _ _ _ _

@[simp] theorem prev_leaf_erase_pair (n : IxNode) (pos : Nat) :
    (n.erase_pair pos).prev_leaf = n.prev_leaf := rfl

@[simp] theorem prev_leaf_set_size (n : IxNode) (k : Nat) :
    (n.set_size k).prev_leaf = n.prev_leaf := rfl

@[simp] theorem prev_leaf_set_key (n : IxNode) (i : Nat) (k : Int) :
    (n.set_key i k).prev_leaf = n.prev_leaf := rfl

@[simp] theorem prev_leaf_Init (l : Bool) : (IxNode.Init l).prev_leaf = INVALID_PAGE_ID := rfl

theorem prev_leaf_split_internal_halves (o : Nat) (n : IxNode) (key right_id : Int) :
    (split_internal_halves o n key right_id).1.prev_leaf = n.prev_leaf ∧
      (split_internal_halves o n key right_id).2.prev_leaf = INVALID_PAGE_ID := by
  unfold split_internal_halves
  dsimp only
  split <;> simp

theorem prev_leaf_split_leaf_halves (o : Nat) (n : IxNode) (right_id : Int) :
    (split_leaf_halves o n right_id).1.prev_leaf = n.prev_leaf ∧
      (split_leaf_halves o n right_id).2.prev_leaf = INVALID_PAGE_ID := by
  unfold split_leaf_halves
  simp

@[simp] theorem prev_leaf_new_root_node (o : Nat) (k0 l k1 r : Int) :
    (new_root_node o k0 l k1 r).prev_leaf = INVALID_PAGE_ID := by
  unfold new_root_node
  simp

theorem leaf_borrow_left_no_prev {ih ih' : IxIndexHandle} {ctx ctx' : Ctx}
    (h : PrevLeafKept Q ih) (hr : ih.leaf_borrow_left ctx = some (ih', ctx')) : PrevLeafKept Q ih' := by
  unfold leaf_borrow_left at hr
  split at hr
  · simp only [Option.bind_eq_bind, Option.bind_eq_some, Option.some.injEq, Prod.mk.injEq,
      Option.pure_def] at hr
    obtain ⟨node, hnode, left, hleft, k, hk, r, hrr, nk, hnk, parent, hparent, idx, hidx,
      rfl, -⟩ := hr
    refine no_prev_put_fetch ?H ?H hparent (by simp)
    exact no_prev_put_fetch (no_prev_put_fetch h h hnode (by simp)) h hleft (by simp)
  · cases hr

theorem leaf_borrow_right_no_prev {ih ih' : IxIndexHandle} {ctx ctx' : Ctx}
    (h : PrevLeafKept Q ih) (hr : ih.leaf_borrow_right ctx = some (ih', ctx')) : PrevLeafKept Q ih' := by
  unfold leaf_borrow_right at hr
  split at hr
  · simp only [Option.bind_eq_bind, Option.bind_eq_some, Option.some.injEq, Prod.mk.injEq,
      Option.pure_def] at hr
    obtain ⟨node, hnode, right, hright, k, hk, r, hrr, nk, hnk, nnk, hnnk, parent, hparent,
      idx, hidx, idx2, hidx2, rfl, -⟩ := hr
    refine no_prev_put_fetch ?H ?H hparent (by simp)
    exact no_prev_put_fetch (no_prev_put_fetch h h hnode (by simp)) h hright (by simp)
  · cases hr

theorem internal_borrow_left_no_prev {ih ih' : IxIndexHandle} {ctx ctx' : Ctx}
    (h : PrevLeafKept Q ih) (hr : ih.internal_borrow_left ctx = some (ih', ctx')) :
    PrevLeafKept Q ih' := by
  unfold internal_borrow_left at hr
  split at hr
  · simp only [Option.bind_eq_bind, Option.bind_eq_some, Option.some.injEq, Prod.mk.injEq,
      Option.pure_def] at hr
    obtain ⟨node, hnode, left, hleft, parent, hparent, k, hk, r, hrr, idx, hidx, pk, hpk,
      nk, hnk, rfl, -⟩ := hr
    exact no_prev_put_fetch (no_prev_put_fetch (no_prev_put_fetch h h hnode (by simp)) h hleft
      (by simp)) h hparent (by simp)
  · cases hr

theorem internal_borrow_right_no_prev {ih ih' : IxIndexHandle} {ctx ctx' : Ctx}
    (h : PrevLeafKept Q ih) (hr : ih.internal_borrow_right ctx = some (ih', ctx')) :
    PrevLeafKept Q ih' := by
  unfold internal_borrow_right at hr
  split at hr
  · simp only [Option.bind_eq_bind, Option.bind_eq_some, Option.some.injEq, Prod.mk.injEq,
      Option.pure_def] at hr
    obtain ⟨node, hnode, right, hright, parent, hparent, k, hk, r, hrr, idx, hidx, pk, hpk,
      rk, hrk, rfl, -⟩ := hr
    exact no_prev_put_fetch (no_prev_put_fetch (no_prev_put_fetch h h hnode (by simp)) h hright
      (by simp)) h hparent (by simp)
  · cases hr

theorem internal_merge_left_no_prev {ih ih' : IxIndexHandle} {ctx ctx' : Ctx}
    {reduce : IxIndexHandle → Ctx → Option (IxIndexHandle × Ctx)}
    (h : PrevLeafKept Q ih)
    (hred : ∀ ih1 ih2 ctx1 ctx2, PrevLeafKept Q ih1 → reduce ih1 ctx1 = some (ih2, ctx2) →
      PrevLeafKept Q ih2)
    (hr : internal_merge_left reduce ih ctx = some (ih', ctx')) : PrevLeafKept Q ih' := by
  unfold internal_merge_left at hr
  split at hr
  · next node_id left_id parent_id rest hw =>
    simp only [Option.bind_eq_bind, Option.bind_eq_some, Option.some.injEq, Prod.mk.injEq,
      Option.pure_def] at hr
    obtain ⟨node, hnode, left, hleft, child_id, hchild_id, child, hchild, ih2, hih2,
      parent, hparent, idx, hidx, pk, hpk, hfin⟩ := hr
    have h1 : PrevLeafKept Q (ih.put_node left_id
        (left.insert_pairs ih.get_max_size left.get_size node.ents)) :=
      no_prev_put_fetch h h hleft (by simp)
    have h2 : PrevLeafKept Q ih2 := by
      split at hih2
      · simp only [Option.map_eq_some'] at hih2
        obtain ⟨nx, -, rfl⟩ := hih2
        exact no_prev_put_fetch h1 h1 hchild rfl
      · cases hih2; exact h1
    have h3 : PrevLeafKept Q (((ih2.put_node left_id
        ((left.insert_pairs ih.get_max_size left.get_size node.ents).set_key left.get_size
          pk)).put_node parent_id (parent.erase_pair idx)).delete_page node_id) :=
      no_prev_delete (no_prev_put_fetch (no_prev_put_fetch h2 h hleft (by simp)) h2 hparent
        (by simp)) _
    split at hfin
    · exact hred _ _ _ _ h3 hfin
    · simp only [Option.some.injEq, Prod.mk.injEq] at hfin
      rw [← hfin.1]; exact h3
  · cases hr

theorem reduce_internal_node_no_prev : ∀ (fuel : Nat) {ih ih' : IxIndexHandle}
    {ctx ctx' : Ctx}, PrevLeafKept Q ih →
    reduce_internal_node fuel ih ctx = some (ih', ctx') → PrevLeafKept Q ih'
  | 0, _, _, _, _, _, hr => by simp [reduce_internal_node] at hr
  | fuel + 1, ih, ih', ctx, ctx', h, hr => by
    unfold reduce_internal_node at hr
    split at hr
    · cases hr
    · next node_id rest hw =>
      simp only [Option.bind_eq_bind, Option.bind_eq_some] at hr
      obtain ⟨node, hnode, hr⟩ := hr
      split at hr
      · split at hr
        · simp only [Option.bind_eq_some, Option.some.injEq, Prod.mk.injEq, Option.pure_def] at hr
          obtain ⟨rp, -, rfl, -⟩ := hr
          refine no_prev_delete (no_prev_of_pages h ?_) _
          split <;> rfl
        · simp only [Option.some.injEq, Prod.mk.injEq, Option.pure_def] at hr
          rw [← hr.1]; exact h
      · split at hr
        · cases hr
        · next parent_id rest' =>
          simp only [Option.bind_eq_bind, Option.bind_eq_some] at hr
          obtain ⟨parent, hparent, index, hindex, left, hleft, hr⟩ := hr
          split at hr
          · exact internal_borrow_left_no_prev h hr
          · simp only [Option.bind_eq_bind, Option.bind_eq_some] at hr
            obtain ⟨right, hright, hr⟩ := hr
            split at hr
            · exact internal_borrow_right_no_prev h hr
            · split at hr
              · exact internal_merge_left_no_prev h
                  (fun _ _ _ _ h1 hr1 => reduce_internal_node_no_prev fuel h1 hr1) hr
              · exact internal_merge_left_no_prev h
                  (fun _ _ _ _ h1 hr1 => reduce_internal_node_no_prev fuel h1 hr1) hr
              · simp only [Option.some.injEq, Prod.mk.injEq, Option.pure_def] at hr
                rw [← hr.1]; exact h

theorem leaf_merge_left_no_prev {ih ih' : IxIndexHandle} {ctx ctx' : Ctx}
    (h : PrevLeafKept Q ih) (hr : ih.leaf_merge_left ctx = some (ih', ctx')) : PrevLeafKept Q ih' := by
  unfold leaf_merge_left at hr
  split at hr
  · next node_id left_id parent_id rest hw =>
    simp only [Option.bind_eq_bind, Option.bind_eq_some, Option.some.injEq, Prod.mk.injEq,
      Option.pure_def] at hr
    obtain ⟨node, hnode, left, hleft, parent, hparent, idx, hidx, hfin⟩ := hr
    have h3 : PrevLeafKept Q (((ih.put_node parent_id (parent.erase_pair idx)).put_node left_id
        { left.insert_pairs ih.get_max_size left.get_size node.ents with
          next_leaf := node.next_leaf })) :=
      no_prev_put_fetch (no_prev_put_fetch h h hparent (by simp)) h hleft (by simp)
    have h4 : ∀ l : Int, PrevLeafKept Q (((ih.put_node parent_id
        (parent.erase_pair idx)).put_node left_id
        { left.insert_pairs ih.get_max_size left.get_size node.ents with
          next_leaf := node.next_leaf }).set_last_leaf l) := fun l =>
      no_prev_of_pages h3 rfl
    split at hfin <;> split at hfin
    · exact reduce_internal_node_no_prev _ (no_prev_delete (h4 _) _) hfin
    · simp only [Option.some.injEq, Prod.mk.injEq] at hfin
      rw [← hfin.1]
      exact no_prev_delete (h4 _) _
    · exact reduce_internal_node_no_prev _ (no_prev_delete h3 _) hfin
    · simp only [Option.some.injEq, Prod.mk.injEq] at hfin
      rw [← hfin.1]
      exact no_prev_delete h3 _
  · cases hr

theorem delete_entry_no_prev {ih ih' : IxIndexHandle} {key : Int} {b : Bool}
    (h : PrevLeafKept Q ih) (hr : ih.delete_entry key = some (ih', b)) : PrevLeafKept Q ih' := by
  unfold delete_entry at hr
  simp only [Option.bind_eq_bind, Option.bind_eq_some] at hr
  obtain ⟨ctx, hctx, hr⟩ := hr
  split at hr
  · cases hr
  · next p rest hw =>
    simp only [Option.bind_eq_bind, Option.bind_eq_some] at hr
    obtain ⟨n, hn, hr⟩ := hr
    split at hr
    · simp only [Option.some.injEq, Prod.mk.injEq, Option.pure_def] at hr
      rw [← hr.1]; exact h
    · have h1 : PrevLeafKept Q (ih.put_node p (n.erase_pair (n.lower_bound key))) :=
        no_prev_put h _ (by simpa using no_prev_fetch h hn)
      split at hr
      · split at hr
        · simp only [Option.some.injEq, Prod.mk.injEq, Option.pure_def] at hr
          rw [← hr.1]; exact no_prev_of_pages h1 rfl
        · simp only [Option.some.injEq, Prod.mk.injEq, Option.pure_def] at hr
          rw [← hr.1]; exact h1
      · split at hr
        · split at hr
          · cases hr
          · next parent_id rest' =>
            simp only [Option.bind_eq_bind, Option.bind_eq_some] at hr
            obtain ⟨parent, hparent, index, hindex, left, hleft, hr⟩ := hr
            split at hr
            · simp only [Option.bind_eq_bind, Option.bind_eq_some, Option.some.injEq,
                Prod.mk.injEq, Option.pure_def] at hr
              obtain ⟨⟨ih2, ctx2⟩, hb, rfl, -⟩ := hr
              exact leaf_borrow_left_no_prev h1 hb
            · simp only [Option.bind_eq_bind, Option.bind_eq_some] at hr
              obtain ⟨right, hright, hr⟩ := hr
              split at hr
              · simp only [Option.bind_eq_bind, Option.bind_eq_some, Option.some.injEq,
                  Prod.mk.injEq, Option.pure_def] at hr
                obtain ⟨⟨ih2, ctx2⟩, hb, rfl, -⟩ := hr
                exact leaf_borrow_right_no_prev h1 hb
              · split at hr
                · simp only [Option.bind_eq_bind, Option.bind_eq_some, Option.some.injEq,
                    Prod.mk.injEq, Option.pure_def] at hr
                  obtain ⟨⟨ih2, ctx2⟩, hb, rfl, -⟩ := hr
                  exact leaf_merge_left_no_prev h1 hb
                · simp only [Option.bind_eq_bind, Option.bind_eq_some, Option.some.injEq,
                    Prod.mk.injEq, Option.pure_def] at hr
                  obtain ⟨⟨ih2, ctx2⟩, hb, rfl, -⟩ := hr
                  exact leaf_merge_left_no_prev h1 hb
                · simp only [Option.some.injEq, Prod.mk.injEq, Option.pure_def] at hr
                  rw [← hr.1]; exact h1
        · simp only [Option.some.injEq, Prod.mk.injEq, Option.pure_def] at hr
          rw [← hr.1]; exact h1

theorem split_internal_node_no_prev : ∀ (fuel : Nat) {ih ih' : IxIndexHandle} {ctx ctx' : Ctx},
    PrevLeafKept Q ih → split_internal_node fuel ih ctx = some (ih', ctx') → PrevLeafKept Q ih'
  | 0, _, _, _, _, _, hr => by simp [split_internal_node] at hr
  | fuel + 1, ih, ih', ctx, ctx', h, hr => by
    unfold split_internal_node at hr
    split at hr
    · next right_id upd_id rest hw =>
      simp only [Option.bind_eq_bind, Option.bind_eq_some] at hr
      obtain ⟨right_node, hright, upd, hupd, key, hkey, hr⟩ := hr
      have hh := prev_leaf_split_internal_halves ih.get_max_size upd key right_id
      have h2 : PrevLeafKept Q (((ih.create_node false).put_node upd_id
          (split_internal_halves ih.get_max_size upd key right_id).1).put_node ih.next_page_no
          (split_internal_halves ih.get_max_size upd key right_id).2) :=
        no_prev_put (no_prev_put (no_prev_create h _) _
          (by rw [hh.1]; exact no_prev_fetch h hupd)) _ (Or.inl hh.2)
      split at hr
      · split at hr
        · cases hr
        · next parent_id rest' =>
          simp only [Option.bind_eq_bind, Option.bind_eq_some] at hr
          obtain ⟨parent, hparent, hr⟩ := hr
          split at hr
          · simp only [Option.bind_eq_bind, Option.bind_eq_some, Option.some.injEq,
              Prod.mk.injEq, Option.pure_def] at hr
            obtain ⟨⟨ih3, ctx3⟩, hrec, rfl, -⟩ := hr
            exact split_internal_node_no_prev fuel h2 hrec
          · simp only [Option.bind_eq_bind, Option.bind_eq_some, Option.some.injEq,
              Prod.mk.injEq, Option.pure_def] at hr
            obtain ⟨k2, -, rfl, -⟩ := hr
            exact no_prev_put h2 _ (by simpa using no_prev_fetch h2 hparent)
      · simp only [Option.bind_eq_bind, Option.bind_eq_some, Option.some.injEq,
          Prod.mk.injEq, Option.pure_def] at hr
        obtain ⟨k0, -, k1, -, rfl, -⟩ := hr
        exact no_prev_of_pages (no_prev_put (no_prev_create h2 false) _
          (Or.inl (prev_leaf_new_root_node _ _ _ _ _))) rfl
    · cases hr

theorem split_leaf_node_no_prev {ih ih' : IxIndexHandle} {ctx ctx' : Ctx}
    (h : PrevLeafKept Q ih) (hr : ih.split_leaf_node ctx = some (ih', ctx')) : PrevLeafKept Q ih' := by
  unfold split_leaf_node at hr
  split at hr
  · cases hr
  · next left_id rest hw =>
    simp only [Option.bind_eq_bind, Option.bind_eq_some] at hr
    obtain ⟨left, hleft, hr⟩ := hr
    have h1' : PrevLeafKept Q (if (ih.create_node true).file_hdr.last_leaf = left_id then
        (ih.create_node true).set_last_leaf ih.next_page_no else ih.create_node true) := by
      split
      · exact no_prev_of_pages (no_prev_create h true) rfl
      · exact no_prev_create h true
    generalize (if (ih.create_node true).file_hdr.last_leaf = left_id then
        (ih.create_node true).set_last_leaf ih.next_page_no else ih.create_node true) = X
        at hr h1'
    have hh := prev_leaf_split_leaf_halves ih.get_max_size left ih.next_page_no
    have h2 : PrevLeafKept Q ((X.put_node left_id
        (split_leaf_halves ih.get_max_size left ih.next_page_no).1).put_node
        ih.next_page_no (split_leaf_halves ih.get_max_size left ih.next_page_no).2) :=
      no_prev_put (no_prev_put h1' _ (by rw [hh.1]; exact no_prev_fetch h hleft)) _
        (Or.inl hh.2)
    split at hr
    · simp only [Option.bind_eq_bind, Option.bind_eq_some, Option.some.injEq,
        Prod.mk.injEq, Option.pure_def] at hr
      obtain ⟨lk, -, rk, -, rfl, -⟩ := hr
      exact no_prev_put (no_prev_of_pages (no_prev_create h2 false) rfl) _
        (Or.inl (prev_leaf_new_root_node _ _ _ _ _))
    · split at hr
      · cases hr
      · next parent_id rest' =>
        simp only [Option.bind_eq_bind, Option.bind_eq_some] at hr
        obtain ⟨parent, hparent, hr⟩ := hr
        split at hr
        · exact split_internal_node_no_prev _ h2 hr
        · simp only [Option.bind_eq_bind, Option.bind_eq_some, Option.some.injEq,
            Prod.mk.injEq, Option.pure_def] at hr
          obtain ⟨k2, -, rfl, -⟩ := hr
          exact no_prev_put h2 _ (by simpa using no_prev_fetch h2 hparent)

theorem insert_entry_no_prev {ih ih' : IxIndexHandle} {key : Int} {value : Rid}
    {b : Bool} (h : PrevLeafKept Q ih) (hr : ih.insert_entry key value = some (ih', b)) :
    PrevLeafKept Q ih' := by
  unfold insert_entry at hr
  simp only [Option.bind_eq_bind, Option.bind_eq_some] at hr
  obtain ⟨ctx, hctx, hr⟩ := hr
  split at hr
  · cases hr
  · next p rest hw =>
    simp only [Option.bind_eq_bind, Option.bind_eq_some] at hr
    obtain ⟨n, hn, hr⟩ := hr
    split at hr
    · simp only [Option.some.injEq, Prod.mk.injEq, Option.pure_def] at hr
      rw [← hr.1]; exact h
    · have h1 : PrevLeafKept Q (ih.put_node p
          (n.insert_pair ih.get_max_size (n.lower_bound key) key value)) :=
        no_prev_put h _ (by simpa using no_prev_fetch h hn)
      split at hr
      · simp only [Option.bind_eq_bind, Option.bind_eq_some, Option.some.injEq,
          Prod.mk.injEq, Option.pure_def] at hr
        obtain ⟨⟨ih2, ctx2⟩, hs, rfl, -⟩ := hr
        exact split_leaf_node_no_prev h1 hs
      · simp only [Option.some.injEq, Prod.mk.injEq, Option.pure_def] at hr
        rw [← hr.1]; exact h1

theorem apply_ops_no_prev : ∀ (ops : List IxOp) {ih ih' : IxIndexHandle},
    PrevLeafKept Q ih → apply_ops ih ops = some ih' → PrevLeafKept Q ih'
  | [], ih, ih', h, hr => by
    simp only [apply_ops, Option.some.injEq] at hr
    exact hr ▸ h
  | op :: ops, ih, ih', h, hr => by
    unfold apply_ops at hr
    split at hr
    · cases hr
    · next ih1 b hop =>
      refine apply_ops_no_prev ops ?_ hr
      cases op with
      | insert key rid => exact insert_entry_no_prev h hop
      | delete key => exact delete_entry_no_prev h hop

end prev_leaf

/-- C36, the claim fails: after the insertion of 10, 20, 30, 40 into an
index of order 4 the leaf on page 2 has the leaf on page 3 as its next leaf,
and the leaf on page 3, which the split has made with `Init`, has no
previous leaf recorded. -/
theorem leaves_not_doubly_linked :
    apply_ops (IxIndexHandle.empty 4) (insert_ops_from 0 [10, 20, 30, 40]) = some two_leaf_tree ∧
      (two_leaf_tree.fetch_node 2).map (fun n => (n.is_leaf, n.next_leaf)) = some (true, 3) ∧
      (two_leaf_tree.fetch_node 3).map (fun n => (n.is_leaf, n.prev_leaf))
        = some (true, INVALID_PAGE_ID) ∧
      ¬ DoublyLinked two_leaf_tree := by
  refine ⟨by decide, by decide, by decide, fun h => ?_⟩
  have h1 := h 2 3 ⟨true, 3, -1, [(10, ⟨1, 0⟩), (20, ⟨1, 1⟩)]⟩
    ⟨true, -1, -1, [(30, ⟨1, 2⟩), (40, ⟨1, 3⟩)]⟩ (by decide) (by decide) rfl rfl
  exact absurd (h1.1 rfl) (by decide)

/-- C36, amended: the leaves are linked through `next_leaf` only, and no
call writes `prev_leaf`: after any sequence of `insert_entry` and
`delete_entry` calls from any state of the index, each of which returns,
the `prev_leaf` of every node is `INVALID_PAGE_ID`, the value that `Init`
gives to a new node, or the `prev_leaf` that a node on the same page had
before the calls. -/
theorem prev_leaf_never_written (ih ih1 : IxIndexHandle) (ops : List IxOp)
    (h : apply_ops ih ops = some ih1) (p : Int) (n1 : IxNode)
    (hf : ih1.fetch_node p = some n1) :
    n1.prev_leaf = INVALID_PAGE_ID ∨ ∃ n, (p, n) ∈ ih.pages ∧ n.prev_leaf = n1.prev_leaf := by
  have h0 : PrevLeafKept (fun q v => ∃ n, (q, n) ∈ ih.pages ∧ n.prev_leaf = v) ih :=
    fun q n hm => Or.inr ⟨n, hm, rfl⟩
  exact no_prev_fetch (apply_ops_no_prev ops h0 h) hf

/-- Witness for C36, amended: four insertions into an index of order 4
whose root is linked with a leaf header on page 1.  The root keeps its
`prev_leaf`, and the leaf that the split makes has `INVALID_PAGE_ID`. -/
theorem prev_leaf_never_written_witness :
    apply_ops header_linked_root (insert_ops_from 0 [10, 20, 30, 40])
        = some header_linked_tree ∧
      (header_linked_tree.fetch_node 2).map (fun n => n.prev_leaf) = some 1 ∧
      (header_linked_tree.fetch_node 3).map (fun n => n.prev_leaf) = some INVALID_PAGE_ID ∧
      ((1 : Int) = INVALID_PAGE_ID ∨
        ∃ n, ((2 : Int), n) ∈ header_linked_root.pages ∧ n.prev_leaf = 1) :=
  ⟨by decide, by decide, by decide,
    prev_leaf_never_written header_linked_root header_linked_tree
      (insert_ops_from 0 [10, 20, 30, 40]) (by decide) 2
      ⟨true, 3, 1, [(10, ⟨1, 0⟩), (20, ⟨1, 1⟩)]⟩ (by decide)⟩

end RMDB
/-! ## Claims about the B+tree -/

namespace RMDB

open IxIndexHandle

theorem HInv_empty (m : Nat) : HInv (IxIndexHandle.empty m) (fun _ => 0) := by
  intro p n hm
  simp only [IxIndexHandle.empty, List.mem_singleton, Prod.mk.injEq] at hm
  obtain ⟨rfl, rfl⟩ := hm
  refine ⟨by simp [IxIndexHandle.empty, IX_INIT_ROOT_PAGE], fun _ => rfl, fun hh => ?_⟩
  simp [IxNode.Init] at hh

theorem apply_op_inv {ih ih' : IxIndexHandle} {b : Bool} {op : IxOp} {ht : Int → Nat}
    (h : HInv ih ht) (hr : apply_op ih op = some (ih', b)) : ∃ ht', HInv ih' ht' := by
  cases op with
  | insert key rid => exact insert_entry_inv h hr
  | delete key => exact ⟨ht, delete_entry_inv h hr⟩

theorem apply_ops_inv : ∀ (ops : List IxOp) {ih ih' : IxIndexHandle} {ht : Int → Nat},
    HInv ih ht → apply_ops ih ops = some ih' → ∃ ht', HInv ih' ht'
  | [], ih, ih', ht, h, hr => by
    simp only [apply_ops, Option.some.injEq] at hr
    exact ⟨ht, hr ▸ h⟩
  | op :: ops, ih, ih', ht, h, hr => by
    unfold apply_ops at hr
    split at hr
    · cases hr
    · next ih1 b hop =>
      obtain ⟨ht1, h1⟩ := apply_op_inv h hop
      exact apply_ops_inv ops h1 hr

/-- C10.  After any sequence of `insert_entry` and `delete_entry` calls on an
initially empty index of any order, each of which returns, every path from
the root down to a leaf has the same length. -/
theorem btree_paths_same_length (m : Nat) (ops : List IxOp) (ih : IxIndexHandle)
    (h : apply_ops (IxIndexHandle.empty m) ops = some ih) : Balanced ih := by
  obtain ⟨ht, hinv⟩ := apply_ops_inv ops (HInv_empty m) h
  exact hinv.balanced

/-- Witness for C10: twelve insertions and seven deletions on an index of
order 4, with leaf and internal splits, borrows and merges. -/
theorem btree_paths_same_length_witness :
    (apply_ops (IxIndexHandle.empty 4)
        [IxOp.insert 5 ⟨1, 0⟩, IxOp.insert 9 ⟨1, 1⟩, IxOp.insert 1 ⟨1, 2⟩, IxOp.insert 7 ⟨1, 3⟩,
         IxOp.insert 3 ⟨1, 4⟩, IxOp.insert 8 ⟨1, 5⟩, IxOp.insert 2 ⟨1, 6⟩, IxOp.insert 6 ⟨1, 7⟩,
         IxOp.insert 4 ⟨1, 8⟩, IxOp.insert 10 ⟨1, 9⟩, IxOp.insert 11 ⟨2, 0⟩,
         IxOp.insert 12 ⟨2, 1⟩, IxOp.delete 5, IxOp.delete 1, IxOp.delete 9, IxOp.delete 2,
         IxOp.delete 12, IxOp.delete 7, IxOp.delete 3]).isSome = true ∧
    ∀ ih, apply_ops (IxIndexHandle.empty 4)
        [IxOp.insert 5 ⟨1, 0⟩, IxOp.insert 9 ⟨1, 1⟩, IxOp.insert 1 ⟨1, 2⟩, IxOp.insert 7 ⟨1, 3⟩,
         IxOp.insert 3 ⟨1, 4⟩, IxOp.insert 8 ⟨1, 5⟩, IxOp.insert 2 ⟨1, 6⟩, IxOp.insert 6 ⟨1, 7⟩,
         IxOp.insert 4 ⟨1, 8⟩, IxOp.insert 10 ⟨1, 9⟩, IxOp.insert 11 ⟨2, 0⟩,
         IxOp.insert 12 ⟨2, 1⟩, IxOp.delete 5, IxOp.delete 1, IxOp.delete 9, IxOp.delete 2,
         IxOp.delete 12, IxOp.delete 7, IxOp.delete 3] = some ih → Balanced ih :=
  ⟨by decide, fun ih h => btree_paths_same_length 4 _ ih h⟩

/-- C1, failing input.  On an index of order 3 the calls insert 22, 14, 9,
24, 7, 8, 2, 4, 23, 29 and delete 22, 23, 29 all return; afterwards the
internal node on page 7 holds the single entry (24, page 3) although the
keys from 22 on are routed to it, so that `get_value(22)` makes
`internal_lookup` compute the index -1 and fails, where the reference map,
which does not hold 22, asks for the answer "absent". -/
theorem get_value_fails_order3 :
    ∃ ih, apply_ops (IxIndexHandle.empty 3)
        [IxOp.insert 22 ⟨1, 0⟩, IxOp.insert 14 ⟨1, 1⟩, IxOp.insert 9 ⟨1, 2⟩,
         IxOp.insert 24 ⟨1, 3⟩, IxOp.insert 7 ⟨1, 4⟩, IxOp.insert 8 ⟨1, 5⟩,
         IxOp.insert 2 ⟨1, 6⟩, IxOp.insert 4 ⟨1, 7⟩, IxOp.insert 23 ⟨1, 8⟩,
         IxOp.insert 29 ⟨1, 9⟩, IxOp.delete 22, IxOp.delete 23, IxOp.delete 29] = some ih ∧
      ih.file_hdr.root_page = 14 ∧
      ih.fetch_node 14 = some ⟨false, -1, -1, [(9, ⟨8, 0⟩), (22, ⟨13, 1⟩)]⟩ ∧
      ih.fetch_node 13 = some ⟨false, -1, -1, [(22, ⟨7, 1⟩)]⟩ ∧
      ih.fetch_node 7 = some ⟨false, -1, -1, [(24, ⟨3, 1⟩)]⟩ ∧
      (IxNode.mk false (-1) (-1) [(24, ⟨3, 1⟩)]).internal_lookup 22 = none ∧
      ih.get_value 22 = none ∧
      ih.get_value 24 = some (some ⟨1, 3⟩) := by
  refine ⟨(apply_ops (IxIndexHandle.empty 3)
        [IxOp.insert 22 ⟨1, 0⟩, IxOp.insert 14 ⟨1, 1⟩, IxOp.insert 9 ⟨1, 2⟩,
         IxOp.insert 24 ⟨1, 3⟩, IxOp.insert 7 ⟨1, 4⟩, IxOp.insert 8 ⟨1, 5⟩,
         IxOp.insert 2 ⟨1, 6⟩, IxOp.insert 4 ⟨1, 7⟩, IxOp.insert 23 ⟨1, 8⟩,
         IxOp.insert 29 ⟨1, 9⟩, IxOp.delete 22, IxOp.delete 23, IxOp.delete 29]).getD
        (IxIndexHandle.empty 3), ?_⟩
  decide

/-- C5, failing input.  On an index of order 4 holding the keys 10, 20, 30,
40 (leaf page 2 holds 10 and 20, leaf page 3 holds 30 and 40),
`leaf_begin(25)` returns `leaf_end()`, the position (3, 2), although the
stored key 30 is at least 25 and sits at position (3, 0). -/
theorem leaf_begin_skips_next_leaf :
    ∃ ih, apply_ops (IxIndexHandle.empty 4)
        [IxOp.insert 10 ⟨1, 0⟩, IxOp.insert 20 ⟨1, 1⟩, IxOp.insert 30 ⟨1, 2⟩,
         IxOp.insert 40 ⟨1, 3⟩] = some ih ∧
      ih.fetch_node 2 = some ⟨true, 3, -1, [(10, ⟨1, 0⟩), (20, ⟨1, 1⟩)]⟩ ∧
      ih.fetch_node 3 = some ⟨true, -1, -1, [(30, ⟨1, 2⟩), (40, ⟨1, 3⟩)]⟩ ∧
      ih.leaf_begin 25 = some ⟨3, 2⟩ ∧ ih.leaf_end = some ⟨3, 2⟩ ∧
      ih.leaf_begin 30 = some ⟨3, 0⟩ := by
  refine ⟨(apply_ops (IxIndexHandle.empty 4)
        [IxOp.insert 10 ⟨1, 0⟩, IxOp.insert 20 ⟨1, 1⟩, IxOp.insert 30 ⟨1, 2⟩,
         IxOp.insert 40 ⟨1, 3⟩]).getD (IxIndexHandle.empty 4), ?_⟩
  decide

/-- C11, failing input.  On an index of order 5 the thirteen calls
`insert_entry` of the keys 100, 99, ..., 88 all return.  The last one splits
the full root (page 4, five entries) in `split_internal_node`: the new right
node (page 9) receives `max_size - get_min_size() = 2` entries and the
pending entry goes to the left node.  Page 9 is then a child of the new root
(page 10), an internal node with 2 entries, fewer than `get_min_size() = 3`. -/
theorem internal_split_underfull_order5 :
    ∃ ih, apply_ops (IxIndexHandle.empty 5)
        (insert_ops_from 0 [100, 99, 98, 97, 96, 95, 94, 93, 92, 91, 90, 89, 88]) = some ih ∧
      ih.file_hdr.root_page = 10 ∧
      ih.fetch_node 10 = some ⟨false, -1, -1, [(96, ⟨4, 0⟩), (97, ⟨9, 1⟩)]⟩ ∧
      ih.fetch_node 9 = some ⟨false, -1, -1, [(97, ⟨5, 1⟩), (99, ⟨3, 1⟩)]⟩ ∧
      (IxNode.mk false (-1) (-1) [(97, ⟨5, 1⟩), (99, ⟨3, 1⟩)]).get_size = 2 ∧
      (IxNode.mk false (-1) (-1) [(97, ⟨5, 1⟩), (99, ⟨3, 1⟩)]).get_min_size ih.get_max_size = 3 ∧
      ih.non_root_sizes_ge 3 = false := by
  refine ⟨(apply_ops (IxIndexHandle.empty 5)
        (insert_ops_from 0 [100, 99, 98, 97, 96, 95, 94, 93, 92, 91, 90, 89, 88])).getD
        (IxIndexHandle.empty 5), ?_⟩
  decide

/-- Claim C13: on an index of order 4, after `insert_entry` of the keys
1, 2, ..., 20 in this order (with the Rids (1, 0), ..., (1, 19)), the scan
from `leaf_begin(10)` to `leaf_end()` is over after eleven advances and
yields the entries of the keys 10, 11, ..., 20 in this order; the root is
an internal node, so every path from the root to a leaf has at least two
nodes; every page besides the root holds at least 2 entries. -/
theorem split_and_scan_order4 :
    ∃ ih, apply_ops (IxIndexHandle.empty 4)
        (insert_ops_from 0
          [1, 2, 3, 4, 5, 6, 7, 8, 9, 10, 11, 12, 13, 14, 15, 16, 17, 18, 19, 20]) = some ih ∧
      ih.leaf_begin 10 = some ⟨7, 1⟩ ∧ ih.leaf_end = some ⟨16, 2⟩ ∧
      ih.scan_from 10 12 =
        some [(10, ⟨1, 9⟩), (11, ⟨1, 10⟩), (12, ⟨1, 11⟩), (13, ⟨1, 12⟩), (14, ⟨1, 13⟩),
              (15, ⟨1, 14⟩), (16, ⟨1, 15⟩), (17, ⟨1, 16⟩), (18, ⟨1, 17⟩), (19, ⟨1, 18⟩),
              (20, ⟨1, 19⟩)] ∧
      (ih.fetch_node ih.file_hdr.root_page).map IxNode.is_leaf = some false ∧
      ih.non_root_sizes_ge 2 = true := by
  refine ⟨(apply_ops (IxIndexHandle.empty 4)
        (insert_ops_from 0
          [1, 2, 3, 4, 5, 6, 7, 8, 9, 10, 11, 12, 13, 14, 15, 16, 17, 18, 19, 20])).getD
        (IxIndexHandle.empty 4), ?_⟩
  decide

/-- C14, failing inputs.  Order 2: after `insert_entry` of 1, 2, 0 and
`delete_entry` of 1 (all four return true) the key 0 is stored in leaf
page 2, below the internal node page 4, which has the single entry
(1, page 2); `insert_entry(0, r)` descends root 7 -> 4, where
`internal_lookup` computes `r = lower_bound = 1 = num_key`, `r-- = 0`,
`0 < key[0] = 1`, `r-- = -1` and reads `get_rid(-1)`: the call does not
return false.  Order 3: after fifteen calls that all return true the key 14
is stored in leaf page 3, below the one-entry internal node page 7 with
`key[0] = 16`, and `insert_entry(14, r)` fails in the same way. -/
theorem duplicate_insert_fails_small_order :
    (∃ ih, apply_ops (IxIndexHandle.empty 2)
        [IxOp.insert 1 ⟨1, 0⟩, IxOp.insert 2 ⟨1, 1⟩, IxOp.insert 0 ⟨1, 2⟩, IxOp.delete 1] =
          some ih ∧
      ih.file_hdr.root_page = 7 ∧
      ih.fetch_node 7 = some ⟨false, -1, -1, [(1, ⟨4, 0⟩), (2, ⟨6, 1⟩)]⟩ ∧
      ih.fetch_node 4 = some ⟨false, -1, -1, [(1, ⟨2, 0⟩)]⟩ ∧
      ih.fetch_node 2 = some ⟨true, 3, -1, [(0, ⟨1, 2⟩)]⟩ ∧
      (IxNode.mk false (-1) (-1) [(1, ⟨2, 0⟩)]).internal_lookup 0 = none ∧
      ih.insert_entry 0 ⟨9, 9⟩ = none) ∧
    (∃ ih, apply_ops (IxIndexHandle.empty 3)
        [IxOp.insert 13 ⟨1, 0⟩, IxOp.insert 11 ⟨1, 1⟩, IxOp.insert 6 ⟨1, 2⟩,
         IxOp.insert 16 ⟨1, 3⟩, IxOp.insert 1 ⟨1, 4⟩, IxOp.insert 19 ⟨1, 5⟩, IxOp.delete 19,
         IxOp.insert 10 ⟨1, 6⟩, IxOp.insert 19 ⟨1, 7⟩, IxOp.delete 13, IxOp.insert 14 ⟨1, 8⟩,
         IxOp.insert 8 ⟨1, 9⟩, IxOp.insert 2 ⟨1, 10⟩, IxOp.delete 19, IxOp.delete 16] =
          some ih ∧
      ih.file_hdr.root_page = 15 ∧
      ih.fetch_node 15 = some ⟨false, -1, -1, [(6, ⟨8, 0⟩), (13, ⟨14, 1⟩)]⟩ ∧
      ih.fetch_node 14 = some ⟨false, -1, -1, [(13, ⟨7, 1⟩)]⟩ ∧
      ih.fetch_node 7 = some ⟨false, -1, -1, [(16, ⟨3, 1⟩)]⟩ ∧
      ih.fetch_node 3 = some ⟨true, -1, -1, [(14, ⟨1, 8⟩)]⟩ ∧
      (IxNode.mk false (-1) (-1) [(16, ⟨3, 1⟩)]).internal_lookup 14 = none ∧
      ih.insert_entry 14 ⟨9, 9⟩ = none) := by
  refine ⟨⟨(apply_ops (IxIndexHandle.empty 2)
        [IxOp.insert 1 ⟨1, 0⟩, IxOp.insert 2 ⟨1, 1⟩, IxOp.insert 0 ⟨1, 2⟩, IxOp.delete 1]).getD
        (IxIndexHandle.empty 2), ?_⟩,
    ⟨(apply_ops (IxIndexHandle.empty 3)
        [IxOp.insert 13 ⟨1, 0⟩, IxOp.insert 11 ⟨1, 1⟩, IxOp.insert 6 ⟨1, 2⟩,
         IxOp.insert 16 ⟨1, 3⟩, IxOp.insert 1 ⟨1, 4⟩, IxOp.insert 19 ⟨1, 5⟩, IxOp.delete 19,
         IxOp.insert 10 ⟨1, 6⟩, IxOp.insert 19 ⟨1, 7⟩, IxOp.delete 13, IxOp.insert 14 ⟨1, 8⟩,
         IxOp.insert 8 ⟨1, 9⟩, IxOp.insert 2 ⟨1, 10⟩, IxOp.delete 19, IxOp.delete 16]).getD
        (IxIndexHandle.empty 3), ?_⟩⟩
  · decide
  · decide

end RMDB
namespace RMDB

open RmFileHandle

theorem count_set_true : ∀ (l : List Bool) (i : Nat), i < l.length → l.getD i false = false →
    (l.set i true).count true = l.count true + 1
  | [], i, h, _ => by simp at h
  | b :: l, 0, _, hb => by
    simp only [List.getD_cons_zero] at hb
    subst hb
    simp
  | b :: l, i + 1, h, hb => by
    simp only [List.getD_cons_succ] at hb
    simp only [List.length_cons, Nat.add_lt_add_iff_right] at h
    simp only [List.set_cons_succ, List.count_cons]
    rw [count_set_true l i h hb]
    omega

theorem count_set_false : ∀ (l : List Bool) (i : Nat), l.getD i false = true →
    ((l.set i false).count true : Int) = l.count true - 1
  | [], i, hb => by simp at hb
  | b :: l, 0, hb => by
    simp only [List.getD_cons_zero] at hb
    subst hb
    simp
  | b :: l, i + 1, hb => by
    simp only [List.getD_cons_succ] at hb
    simp only [List.set_cons_succ, List.count_cons]
    have := count_set_false l i hb
    push_cast
    omega

theorem getD_true_lt {l : List Bool} {i : Nat} (h : l.getD i false = true) : i < l.length := by
  by_contra hc
  rw [List.getD_eq_default _ _ (by omega)] at h
  cases h

theorem next_bit_loop_spec (bit : Bool) (bm : List Bool) (max_n : Nat) :
    ∀ (fuel i : Nat), Bitmap.next_bit_loop bit bm max_n fuel i < max_n →
      bm.getD (Bitmap.next_bit_loop bit bm max_n fuel i) false = bit ∧
      i ≤ Bitmap.next_bit_loop bit bm max_n fuel i
  | 0, i, h => by simp [Bitmap.next_bit_loop] at h
  | fuel + 1, i, h => by
    unfold Bitmap.next_bit_loop at h ⊢
    split
    · next hi =>
      rw [if_pos hi] at h
      split
      · next hb => exact ⟨hb, le_refl _⟩
      · next hb =>
        rw [if_neg hb] at h
        have := next_bit_loop_spec bit bm max_n fuel (i + 1) h
        exact ⟨this.1, by omega⟩
    · next hi => rw [if_neg hi] at h; omega


theorem rm_lookup_page_mem {p : Int} {pg : RmPage} : ∀ {pages : List (Int × RmPage)},
    RmFileHandle.lookup_page p pages = some pg → (p, pg) ∈ pages
  | [], h => by simp [RmFileHandle.lookup_page] at h
  | (q, m) :: rest, h => by
    unfold RmFileHandle.lookup_page at h
    split at h
    · next hq => cases h; subst hq; exact List.mem_cons_self _ _
    · exact List.mem_cons_of_mem _ (rm_lookup_page_mem h)

theorem rm_mem_store_page {p q : Int} {n m : RmPage} : ∀ {pages : List (Int × RmPage)},
    (q, m) ∈ RmFileHandle.store_page p n pages → (q, m) ∈ pages ∨ (q = p ∧ m = n)
  | [], h => by simp [RmFileHandle.store_page] at h
  | (q', m') :: rest, h => by
    unfold RmFileHandle.store_page at h
    split at h
    · next hq =>
      rcases List.mem_cons.1 h with h1 | h1
      · right; cases h1; exact ⟨hq, rfl⟩
      · left; exact List.mem_cons_of_mem _ h1
    · rcases List.mem_cons.1 h with h1 | h1
      · left; rw [h1]; exact List.mem_cons_self _ _
      · rcases rm_mem_store_page h1 with h2 | h2
        · left; exact List.mem_cons_of_mem _ h2
        · right; exact h2

theorem fetch_page_handle_mem {fh : RmFileHandle} {p : Int} {pg : RmPage}
    (h : fh.fetch_page_handle p = Except.ok pg) : (p, pg) ∈ fh.pages := by
  unfold fetch_page_handle at h
  split at h
  · cases h
  · split at h
    · cases h
    · next pg' hl => cases h; exact rm_lookup_page_mem hl

theorem Integrity.put_page {fh : RmFileHandle} (h : fh.Integrity) (p : Int) {pg : RmPage}
    (hpg : RmPage.Counted fh.file_hdr.num_records_per_page pg) : (fh.put_page p pg).Integrity := by
  refine ⟨h.1, fun q m hm => ?_⟩
  rcases rm_mem_store_page hm with h1 | ⟨-, rfl⟩
  · exact h.2 q m h1
  · exact hpg

theorem Integrity.set_first_free {fh : RmFileHandle} (h : fh.Integrity) (x : Int) :
    RmFileHandle.Integrity { fh with file_hdr := { fh.file_hdr with first_free_page_no := x } } :=
  h

theorem Integrity.create_new_page_handle {fh : RmFileHandle} (h : fh.Integrity) :
    fh.create_new_page_handle.1.Integrity := by
  refine ⟨h.1, fun q m hm => ?_⟩
  have hp : fh.create_new_page_handle.1.pages = fh.pages ++ [(fh.file_hdr.num_pages,
      RmPage.mk RM_NO_PAGE 0 (List.replicate (8 * fh.file_hdr.bitmap_size) false)
        (List.replicate fh.file_hdr.num_records_per_page []))] := rfl
  rw [hp] at hm
  simp only [List.mem_append, List.mem_singleton, Prod.mk.injEq] at hm
  rcases hm with h1 | ⟨-, rfl⟩
  · exact h.2 q m h1
  · refine ⟨?_, ?_⟩
    · simp [Bitmap.popcount, List.count_replicate]
    · simpa using h.1

theorem is_set_true {bm : List Bool} {pos : Int} (h : Bitmap.is_set bm pos = true) :
    0 ≤ pos ∧ bm.getD pos.toNat false = true := by
  unfold Bitmap.is_set at h
  split at h
  · cases h
  · exact ⟨by omega, h⟩

theorem Counted.set {n : Nat} {pg : RmPage} (h : pg.Counted n) {pos : Int} (h0 : 0 ≤ pos)
    (hn : pos < n) (hclear : Bitmap.is_set pg.bitmap pos = false) (x : Int) (sl : List RmRecord) :
    RmPage.Counted n (RmPage.mk x (pg.num_records + 1) (Bitmap.set pg.bitmap pos) sl) := by
  obtain ⟨h1, h2⟩ := h
  unfold Bitmap.is_set at hclear
  rw [if_neg (by omega)] at hclear
  have hlt : pos.toNat < pg.bitmap.length := by omega
  refine ⟨?_, ?_⟩
  · simp only [Bitmap.set, if_neg (by omega : ¬ pos < 0), Bitmap.popcount]
    rw [count_set_true _ _ hlt hclear, h1]
    simp [Bitmap.popcount]
  · simp only [Bitmap.set, if_neg (by omega : ¬ pos < 0), List.length_set]
    exact h2

theorem Counted.reset {n : Nat} {pg : RmPage} (h : pg.Counted n) {pos : Int}
    (hset : Bitmap.is_set pg.bitmap pos = true) (x : Int) (sl : List RmRecord) :
    RmPage.Counted n (RmPage.mk x (pg.num_records - 1) (Bitmap.reset pg.bitmap pos) sl) := by
  obtain ⟨h1, h2⟩ := h
  obtain ⟨h0, hb⟩ := is_set_true hset
  refine ⟨?_, ?_⟩
  · simp only [Bitmap.reset, if_neg (by omega : ¬ pos < 0), Bitmap.popcount]
    rw [count_set_false _ _ hb, h1]
    simp [Bitmap.popcount]
  · simp only [Bitmap.reset, if_neg (by omega : ¬ pos < 0), List.length_set]
    exact h2

theorem Counted.slots {n : Nat} {pg : RmPage} (h : pg.Counted n) (sl : List RmRecord) :
    RmPage.Counted n { pg with slots := sl } := h

theorem first_bit_clear {bm : List Bool} {n : Nat} (h : Bitmap.first_bit false bm n < (n : Int)) :
    0 ≤ Bitmap.first_bit false bm n ∧ Bitmap.is_set bm (Bitmap.first_bit false bm n) = false := by
  unfold Bitmap.first_bit Bitmap.next_bit at h ⊢
  simp only [Int.toNat_ofNat] at h ⊢
  have h' : Bitmap.next_bit_loop false bm n (n + 1) (-1 + 1 : Int).toNat < n := by exact_mod_cast h
  have := (next_bit_loop_spec false bm n _ _ h').1
  refine ⟨by positivity, ?_⟩
  unfold Bitmap.is_set
  rw [if_neg (by omega)]
  simpa using this

theorem create_page_handle_inv {fh fh1 : RmFileHandle} {p : Int} (h : fh.Integrity)
    (hr : fh.create_page_handle = Except.ok (fh1, p)) : fh1.Integrity := by
  unfold create_page_handle at hr
  split at hr
  · cases hr; exact Integrity.create_new_page_handle h
  · split at hr
    · cases hr
    · cases hr; exact h

theorem insert_record_inv {fh fh1 : RmFileHandle} {buf : RmRecord} {rid : Rid}
    (h : fh.Integrity) (hr : fh.insert_record buf = Except.ok (fh1, rid)) : fh1.Integrity := by
  unfold insert_record at hr
  split at hr
  · cases hr
  · next fh2 page_no hc =>
    have h2 := create_page_handle_inv h hc
    split at hr
    · cases hr
    · next ph hl =>
      have hph := h2.2 _ _ (rm_lookup_page_mem hl)
      dsimp only at hr
      split at hr
      · cases hr
      · next hlt =>
        have hlt' : Bitmap.first_bit false ph.bitmap fh2.file_hdr.num_records_per_page <
            (fh2.file_hdr.num_records_per_page : Int) := by
          simpa using hlt
        obtain ⟨h0, hclear⟩ := first_bit_clear hlt'
        simp only [Except.ok.injEq, Prod.mk.injEq] at hr
        rw [← hr.1]
        split
        · exact Integrity.put_page (Integrity.set_first_free h2 _) _
            (Counted.set hph h0 hlt' hclear _ _)
        · exact Integrity.put_page h2 _ (Counted.set hph h0 hlt' hclear _ _)

theorem insert_record_at_inv {fh fh1 : RmFileHandle} {buf : RmRecord} {rid : Rid}
    (h : fh.Integrity) (h0 : 0 ≤ rid.slot_no)
    (hn : rid.slot_no < (fh.file_hdr.num_records_per_page : Int))
    (hr : fh.insert_record_at rid buf = Except.ok fh1) : fh1.Integrity := by
  unfold insert_record_at at hr
  split at hr
  · cases hr
  · next ph hf =>
    have hph := h.2 _ _ (fetch_page_handle_mem hf)
    split at hr
    · cases hr
    · next hclear =>
      have hclear' : Bitmap.is_set ph.bitmap rid.slot_no = false := by simpa using hclear
      have h1 : (fh.put_page rid.page_no (RmPage.mk ph.next_free_page_no (ph.num_records + 1)
          (Bitmap.set ph.bitmap rid.slot_no) (ph.slots.set rid.slot_no.toNat buf))).Integrity :=
        Integrity.put_page h _ (Counted.set hph h0 hn hclear' _ _)
      dsimp only at hr
      split at hr
      · cases hr
        exact Integrity.set_first_free (Integrity.create_new_page_handle h1) _
      · cases hr; exact h1

theorem delete_record_inv {fh fh1 : RmFileHandle} {rid : Rid}
    (h : fh.Integrity) (hr : fh.delete_record rid = Except.ok fh1) : fh1.Integrity := by
  unfold delete_record at hr
  split at hr
  · cases hr
  · next ph hf =>
    have hph := h.2 _ _ (fetch_page_handle_mem hf)
    split at hr
    · cases hr
    · next hset =>
      have hset' : Bitmap.is_set ph.bitmap rid.slot_no = true := by simpa using hset
      cases hr
      simp only [release_page_handle]
      split <;>
        exact Integrity.put_page (Integrity.set_first_free h _) _ (Counted.reset hph hset' _ _)

theorem update_record_inv {fh fh1 : RmFileHandle} {rid : Rid} {buf : RmRecord}
    (h : fh.Integrity) (hr : fh.update_record rid buf = Except.ok fh1) : fh1.Integrity := by
  unfold update_record at hr
  split at hr
  · cases hr
  · next ph hf =>
    have hph := h.2 _ _ (fetch_page_handle_mem hf)
    split at hr
    · cases hr
    · cases hr
      exact Integrity.put_page h _ (Counted.slots hph _)

theorem Reachable.integrity {rs n bs : Nat} (hb : n ≤ 8 * bs) {fh : RmFileHandle}
    (h : Reachable rs n bs fh) : fh.Integrity := by
  induction h with
  | create => exact ⟨hb, fun p pg hm => by simp [RmFileHandle.create] at hm⟩
  | insert_record fh fh1 buf rid _ hr ih => exact insert_record_inv ih hr
  | insert_record_at fh fh1 rid buf _ h0 hn hr ih => exact insert_record_at_inv ih h0 hn hr
  | delete_record fh fh1 rid _ hr ih => exact delete_record_inv ih hr
  | update_record fh fh1 rid buf _ hr ih => exact update_record_inv ih hr

theorem mem_set_slots {bm : List Bool} {n : Nat} : ∀ {k : Nat} {s : Nat}, k ≤ n →
    (s ∈ Bitmap.set_slots bm n k ↔ n - k ≤ s ∧ s < n ∧ bm.getD s false = true)
  | 0, s, _ => by simp [Bitmap.set_slots]; omega
  | k + 1, s, hk => by
    unfold Bitmap.set_slots
    have ih := @mem_set_slots bm n k s (by omega)
    split
    · next hb =>
      rw [List.mem_cons, ih]
      constructor
      · rintro (rfl | h)
        · exact ⟨le_refl _, by omega, hb⟩
        · exact ⟨by omega, h.2⟩
      · rintro ⟨h1, h2, h3⟩
        by_cases hs : s = n - (k + 1)
        · exact Or.inl hs
        · exact Or.inr ⟨by omega, h2, h3⟩
    · next hb =>
      rw [ih]
      constructor
      · rintro h; exact ⟨by omega, h.2⟩
      · rintro ⟨h1, h2, h3⟩
        refine ⟨?_, h2, h3⟩
        by_contra hc
        have : s = n - (k + 1) := by omega
        rw [this] at h3; exact hb h3

theorem set_slots_sorted {bm : List Bool} {n : Nat} : ∀ {k : Nat}, k ≤ n →
    List.Pairwise (fun a b : Nat => a < b) (Bitmap.set_slots bm n k)
  | 0, _ => by simp [Bitmap.set_slots]
  | k + 1, hk => by
    unfold Bitmap.set_slots
    have ih := @set_slots_sorted bm n k (by omega)
    split
    · refine List.pairwise_cons.2 ⟨fun b hb => ?_, ih⟩
      have := (mem_set_slots (by omega)).1 hb
      omega
    · exact ih

/-- The loop `next_bit_loop` finds the head of the list of set slots. -/
theorem next_bit_loop_set_slots (bm : List Bool) (n : Nat) : ∀ (k fuel i : Nat),
    i + k = n → k < fuel →
    (Bitmap.set_slots bm n k = [] → Bitmap.next_bit_loop true bm n fuel i = n) ∧
    (∀ s rest, Bitmap.set_slots bm n k = s :: rest →
      Bitmap.next_bit_loop true bm n fuel i = s ∧ s < n ∧
        rest = Bitmap.set_slots bm n (n - (s + 1)))
  | 0, fuel, i, hik, hf => by
    obtain ⟨f, rfl⟩ : ∃ f, fuel = f + 1 := ⟨fuel - 1, by omega⟩
    refine ⟨fun _ => ?_, fun s rest h => by simp [Bitmap.set_slots] at h⟩
    unfold Bitmap.next_bit_loop
    rw [if_neg (by omega)]
  | k + 1, fuel, i, hik, hf => by
    obtain ⟨f, rfl⟩ : ∃ f, fuel = f + 1 := ⟨fuel - 1, by omega⟩
    have hi : n - (k + 1) = i := by omega
    have ih := next_bit_loop_set_slots bm n k f (i + 1) (by omega) (by omega)
    have hs : Bitmap.set_slots bm n (k + 1) =
        if bm.getD (n - (k + 1)) false = true then (n - (k + 1)) :: Bitmap.set_slots bm n k
        else Bitmap.set_slots bm n k := rfl
    have hl : Bitmap.next_bit_loop true bm n (f + 1) i =
        if i < n then
          if bm.getD i false = true then i else Bitmap.next_bit_loop true bm n f (i + 1)
        else n := rfl
    rw [hs, hl, if_pos (by omega : i < n), hi]
    by_cases hb : bm.getD i false = true
    · rw [if_pos hb, if_pos hb]
      refine ⟨fun h => (by cases h), fun s rest h => ?_⟩
      obtain ⟨rfl, rfl⟩ := List.cons.inj h
      refine ⟨rfl, by omega, ?_⟩
      congr 1; omega
    · rw [if_neg hb, if_neg hb]
      exact ih

theorem live_from_eq_after (fh : RmFileHandle) (c : Nat) (p : Int) :
    fh.live_from c p = fh.after c p (-1) := by
  cases c <;> rfl

theorem page_after_cons {fh : RmFileHandle} {p cur : Int} {x : Rid} {xs : List Rid}
    (hc : -1 ≤ cur) (hn : cur < fh.file_hdr.num_records_per_page)
    (h : fh.page_after p cur = x :: xs) :
    ∃ pg s, RmFileHandle.lookup_page p fh.pages = some pg ∧ x = ⟨p, (s : Int)⟩ ∧
      cur < s ∧ s < fh.file_hdr.num_records_per_page ∧
      Bitmap.next_bit true pg.bitmap fh.file_hdr.num_records_per_page cur = s ∧
      fh.page_after p s = xs := by
  unfold page_after at h
  split at h
  · cases h
  · next pg hl =>
    cases hs : Bitmap.set_slots pg.bitmap fh.file_hdr.num_records_per_page
        (fh.file_hdr.num_records_per_page - (cur + 1).toNat) with
    | nil => rw [hs] at h; cases h
    | cons s rest =>
      rw [hs] at h
      simp only [List.map_cons, List.cons.injEq] at h
      obtain ⟨rfl, rfl⟩ := h
      have hmem := (mem_set_slots (by omega)).1 (hs ▸ List.mem_cons_self s rest)
      obtain ⟨h1, h2, h3⟩ := next_bit_loop_set_slots pg.bitmap fh.file_hdr.num_records_per_page
        _ (fh.file_hdr.num_records_per_page + 1) (cur + 1).toNat (by omega) (by omega) |>.2 s rest hs
      refine ⟨pg, s, hl, rfl, by omega, by exact_mod_cast h2, ?_, ?_⟩
      · unfold Bitmap.next_bit
        simp only [Int.toNat_ofNat]
        rw [h1]
      · unfold page_after
        rw [hl]
        simp only
        have : ((s : Int) + 1).toNat = s + 1 := by omega
        rw [this, ← h3]

theorem page_after_nil {fh : RmFileHandle} {p cur : Int} {pg : RmPage}
    (hc : -1 ≤ cur) (hn : cur < fh.file_hdr.num_records_per_page)
    (hl : RmFileHandle.lookup_page p fh.pages = some pg) (h : fh.page_after p cur = []) :
    Bitmap.next_bit true pg.bitmap fh.file_hdr.num_records_per_page cur =
      fh.file_hdr.num_records_per_page := by
  unfold page_after at h
  rw [hl] at h
  simp only [List.map_eq_nil_iff] at h
  have := (next_bit_loop_set_slots pg.bitmap fh.file_hdr.num_records_per_page
        _ (fh.file_hdr.num_records_per_page + 1) (cur + 1).toNat (by omega) (by omega)).1 h
  unfold Bitmap.next_bit
  simp only [Int.toNat_ofNat]
  rw [this]

theorem fetch_page_handle_of_lookup {fh : RmFileHandle} {p : Int} {pg : RmPage}
    (h1 : RM_FIRST_RECORD_PAGE ≤ p) (h2 : p < fh.file_hdr.num_pages)
    (hl : RmFileHandle.lookup_page p fh.pages = some pg) :
    fh.fetch_page_handle p = Except.ok pg := by
  unfold fetch_page_handle
  have : ¬ (p = INVALID_PAGE_ID ∨ p > fh.file_hdr.num_pages) := by
    simp only [INVALID_PAGE_ID, RM_FIRST_RECORD_PAGE] at *
    omega
  rw [if_neg this, hl]

/-- The loop `next_loop` returns the first stored position after the current one,
or the end position when there is none. -/
theorem next_loop_spec {fh : RmFileHandle} (hp : fh.PagesPresent) : ∀ (c fuel : Nat) (p cur : Int),
    (fh.file_hdr.num_pages - p).toNat = c → c < fuel → RM_FIRST_RECORD_PAGE ≤ p →
    -1 ≤ cur → cur < fh.file_hdr.num_records_per_page →
    RmScan.next_loop fh fuel ⟨p, cur⟩ = Except.ok ((fh.after c p cur).headD ⟨RM_NO_PAGE, -1⟩)
  | 0, fuel, p, cur, hc, hf, _, _, _ => by
    obtain ⟨f, rfl⟩ : ∃ f, fuel = f + 1 := ⟨fuel - 1, by omega⟩
    unfold RmScan.next_loop
    rw [if_neg (by simp only; omega)]
    rfl
  | c + 1, fuel, p, cur, hc, hf, h1, hcur, hn => by
    obtain ⟨f, rfl⟩ : ∃ f, fuel = f + 1 := ⟨fuel - 1, by omega⟩
    have hlt : p < fh.file_hdr.num_pages := by omega
    obtain ⟨pg, hl⟩ := hp p h1 hlt
    unfold RmScan.next_loop
    rw [if_pos (by simpa using hlt)]
    simp only [fetch_page_handle_of_lookup h1 hlt hl]
    have ha : fh.after (c + 1) p cur = fh.page_after p cur ++ fh.live_from c (p + 1) := rfl
    cases hpa : fh.page_after p cur with
    | nil =>
      rw [page_after_nil hcur hn hl hpa, if_neg (by omega), ha, hpa, List.nil_append,
        live_from_eq_after]
      exact next_loop_spec hp c f (p + 1) (-1) (by omega) (by omega)
        (by simp only [RM_FIRST_RECORD_PAGE] at *; omega) (le_refl _) (by omega)
    | cons x xs =>
      obtain ⟨pg', s, hl', rfl, hs1, hs2, hs3, -⟩ := page_after_cons hcur hn hpa
      rw [hl] at hl'; cases hl'
      rw [hs3, if_pos (by exact_mod_cast hs2), ha, hpa]
      rfl

/-- The head of the positions still to come is a valid position, and the
positions after it are the tail. -/
theorem after_cons {fh : RmFileHandle} : ∀ (c : Nat) (p cur : Int) (x : Rid) (xs : List Rid),
    (fh.file_hdr.num_pages - p).toNat = c → RM_FIRST_RECORD_PAGE ≤ p →
    -1 ≤ cur → cur < fh.file_hdr.num_records_per_page →
    fh.after c p cur = x :: xs →
    RM_FIRST_RECORD_PAGE ≤ x.page_no ∧ x.page_no < fh.file_hdr.num_pages ∧
    0 ≤ x.slot_no ∧ x.slot_no < fh.file_hdr.num_records_per_page ∧
    fh.after (fh.file_hdr.num_pages - x.page_no).toNat x.page_no x.slot_no = xs
  | 0, p, cur, x, xs, _, _, _, _, h => by cases h
  | c + 1, p, cur, x, xs, hc, h1, hcur, hn, h => by
    have ha : fh.after (c + 1) p cur = fh.page_after p cur ++ fh.live_from c (p + 1) := rfl
    rw [ha] at h
    cases hpa : fh.page_after p cur with
    | nil =>
      rw [hpa, List.nil_append, live_from_eq_after] at h
      exact after_cons c (p + 1) (-1) x xs (by omega)
        (by simp only [RM_FIRST_RECORD_PAGE] at *; omega) (le_refl _) (by omega) h
    | cons y ys =>
      rw [hpa, List.cons_append, List.cons.injEq] at h
      obtain ⟨rfl, rfl⟩ := h
      obtain ⟨pg, s, hl, rfl, hs1, hs2, -, hs4⟩ := page_after_cons hcur hn hpa
      refine ⟨h1, by simp only; omega, by simp only; omega, hs2, ?_⟩
      simp only
      rw [hc]
      show fh.page_after p s ++ fh.live_from c (p + 1) = _
      rw [hs4]

theorem next_spec {fh : RmFileHandle} (hp : fh.PagesPresent) (r : Rid)
    (h1 : RM_FIRST_RECORD_PAGE ≤ r.page_no) (hcur : -1 ≤ r.slot_no)
    (hn : r.slot_no < fh.file_hdr.num_records_per_page) :
    RmScan.next fh ⟨r⟩ = Except.ok ⟨(fh.after (fh.file_hdr.num_pages - r.page_no).toNat
      r.page_no r.slot_no).headD ⟨RM_NO_PAGE, -1⟩⟩ := by
  unfold RmScan.next
  have he : RmScan.is_end ⟨r⟩ = false := by
    simp only [RmScan.is_end, RM_NO_PAGE, decide_eq_false_iff_not]
    simp only [RM_FIRST_RECORD_PAGE] at h1
    omega
  rw [he]
  have := next_loop_spec hp _ (fh.file_hdr.num_pages.toNat + 1) r.page_no r.slot_no rfl
    (by simp only [RM_FIRST_RECORD_PAGE] at h1; omega) h1 hcur hn
  simp only [Bool.false_eq_true, if_false]
  rw [show (⟨r.page_no, r.slot_no⟩ : Rid) = r from rfl] at this
  rw [this]

/-- A scan standing at a stored position visits it and then the positions
after it, in order, and reaches the end. -/
theorem visit_spec {fh : RmFileHandle} (hp : fh.PagesPresent) : ∀ (l : List Rid) (r : Rid),
    RM_FIRST_RECORD_PAGE ≤ r.page_no → -1 ≤ r.slot_no →
    r.slot_no < fh.file_hdr.num_records_per_page →
    fh.after (fh.file_hdr.num_pages - r.page_no).toNat r.page_no r.slot_no = l →
    RmScan.visit fh (l.length + 2) ⟨r⟩ = Except.ok (r :: l)
  | [], r, h1, hcur, hn, h => by
    have he : RmScan.is_end ⟨r⟩ = false := by
      simp only [RmScan.is_end, RM_NO_PAGE, decide_eq_false_iff_not]
      simp only [RM_FIRST_RECORD_PAGE] at h1
      omega
    show RmScan.visit fh (0 + 1 + 1) ⟨r⟩ = _
    unfold RmScan.visit
    rw [he]
    simp only [Bool.false_eq_true, if_false]
    rw [next_spec hp r h1 hcur hn, h]
    rfl
  | x :: xs, r, h1, hcur, hn, h => by
    have he : RmScan.is_end ⟨r⟩ = false := by
      simp only [RmScan.is_end, RM_NO_PAGE, decide_eq_false_iff_not]
      simp only [RM_FIRST_RECORD_PAGE] at h1
      omega
    obtain ⟨a1, a2, a3, a4, a5⟩ := after_cons _ r.page_no r.slot_no x xs rfl h1 hcur hn h
    have ih := visit_spec hp xs x a1 (by omega) a4 a5
    show RmScan.visit fh (xs.length + 2 + 1) ⟨r⟩ = _
    unfold RmScan.visit
    rw [he]
    simp only [Bool.false_eq_true, if_false]
    rw [next_spec hp r h1 hcur hn, h]
    simp only [List.headD_cons]
    rw [ih]

theorem live_rids_eq_after (fh : RmFileHandle) :
    fh.live_rids = fh.after (fh.file_hdr.num_pages - RM_FIRST_RECORD_PAGE).toNat
      RM_FIRST_RECORD_PAGE (-1) := by
  unfold live_rids
  rw [live_from_eq_after]
  rfl

/-- A scan from its construction on visits the stored positions of the
file in order and reaches the end. -/
theorem visit_all_spec {fh : RmFileHandle} (hp : fh.PagesPresent) :
    RmScan.visit_all fh (fh.live_rids.length + 1) = Except.ok fh.live_rids := by
  unfold RmScan.visit_all RmScan.new
  have hn := next_spec hp ⟨RM_FIRST_RECORD_PAGE, -1⟩ (le_refl _) (le_refl _)
    (by simp only; omega)
  simp only at hn
  rw [hn, ← live_rids_eq_after]
  cases hl : fh.live_rids with
  | nil => rfl
  | cons x xs =>
    rw [live_rids_eq_after] at hl
    obtain ⟨a1, a2, a3, a4, a5⟩ := after_cons _ _ _ x xs rfl (le_refl _) (le_refl _)
      (by omega) hl
    simp only [List.headD_cons, List.length_cons]
    exact visit_spec hp xs x a1 (by omega) a4 a5

theorem mem_page_after {fh : RmFileHandle} {p : Int} {r : Rid} :
    r ∈ fh.page_after p (-1) ↔ r.page_no = p ∧ 0 ≤ r.slot_no ∧
      r.slot_no < (fh.file_hdr.num_records_per_page : Int) ∧
      ∃ pg, RmFileHandle.lookup_page p fh.pages = some pg ∧
        Bitmap.is_set pg.bitmap r.slot_no = true := by
  unfold page_after
  cases hl : RmFileHandle.lookup_page p fh.pages with
  | none => simp
  | some pg =>
    simp only [List.mem_map, Option.some.injEq, exists_eq_left']
    constructor
    · rintro ⟨s, hs, rfl⟩
      have := (mem_set_slots (by omega)).1 hs
      refine ⟨rfl, by simp only; omega, by simp only; omega, ?_⟩
      simp only [Bitmap.is_set]
      rw [if_neg (by omega)]
      simpa using this.2.2
    · rintro ⟨h1, h2, h3, h4⟩
      obtain ⟨pn, sn⟩ := r
      simp only at h1 h2 h3 h4
      subst h1
      refine ⟨sn.toNat, (mem_set_slots (by omega)).2 ⟨by simp, by omega, ?_⟩, ?_⟩
      · simp only [Bitmap.is_set] at h4
        rw [if_neg (by omega)] at h4
        exact h4
      · simp only [Rid.mk.injEq, true_and]
        omega

theorem mem_live_from {fh : RmFileHandle} {r : Rid} : ∀ (c : Nat) (p : Int),
    (r ∈ fh.live_from c p ↔ p ≤ r.page_no ∧ r.page_no < p + c ∧ 0 ≤ r.slot_no ∧
      r.slot_no < (fh.file_hdr.num_records_per_page : Int) ∧
      ∃ pg, RmFileHandle.lookup_page r.page_no fh.pages = some pg ∧
        Bitmap.is_set pg.bitmap r.slot_no = true)
  | 0, p => by
    simp only [live_from, List.not_mem_nil, false_iff]
    rintro ⟨h1, h2, -⟩
    omega
  | c + 1, p => by
    have hs : fh.live_from (c + 1) p = fh.page_after p (-1) ++ fh.live_from c (p + 1) := rfl
    rw [hs, List.mem_append, mem_page_after, mem_live_from c (p + 1)]
    constructor
    · rintro (⟨h1, h2, h3, h4⟩ | ⟨h1, h2, h3⟩)
      · subst h1
        exact ⟨le_refl _, by omega, h2, h3, h4⟩
      · exact ⟨by omega, by push_cast; omega, h3⟩
    · rintro ⟨h1, h2, h3, h4, h5⟩
      by_cases he : r.page_no = p
      · left
        subst he
        exact ⟨rfl, h3, h4, h5⟩
      · right
        push_cast at h2
        exact ⟨by omega, by omega, h3, h4, h5⟩

theorem mem_live_rids {fh : RmFileHandle} (r : Rid) : r ∈ fh.live_rids ↔ fh.Live r := by
  unfold live_rids Live
  rw [mem_live_from]
  simp only [RM_FIRST_RECORD_PAGE]
  constructor
  · rintro ⟨h1, h2, h3⟩
    exact ⟨h1, by omega, h3⟩
  · rintro ⟨h1, h2, h3⟩
    exact ⟨h1, by omega, h3⟩

theorem page_after_sorted (fh : RmFileHandle) (p : Int) :
    List.Pairwise Rid.lt (fh.page_after p (-1)) := by
  unfold page_after
  split
  · exact List.Pairwise.nil
  · rw [List.pairwise_map]
    refine List.Pairwise.imp ?_ (set_slots_sorted (by omega))
    intro a b hab
    exact Or.inr ⟨rfl, by simp only; omega⟩

theorem live_from_sorted (fh : RmFileHandle) : ∀ (c : Nat) (p : Int),
    List.Pairwise Rid.lt (fh.live_from c p)
  | 0, _ => List.Pairwise.nil
  | c + 1, p => by
    have hs : fh.live_from (c + 1) p = fh.page_after p (-1) ++ fh.live_from c (p + 1) := rfl
    rw [hs, List.pairwise_append]
    refine ⟨page_after_sorted fh p, live_from_sorted fh c (p + 1), ?_⟩
    intro a ha b hb
    have h1 := (mem_page_after.1 ha).1
    have h2 := ((mem_live_from c (p + 1)).1 hb).1
    exact Or.inl (by omega)

end RMDB

/-! ## Heap file: `get_record`, `insert_record(buf)`, `insert_record(rid, buf)` -/

namespace RMDB

open RmFileHandle


theorem next_bit_loop_first (bit : Bool) (bm : List Bool) (max_n : Nat) :
    ∀ (fuel i : Nat), max_n < i + fuel →
      (∀ j, i ≤ j → j < Bitmap.next_bit_loop bit bm max_n fuel i → j < max_n →
        bm.getD j false ≠ bit) ∧
      Bitmap.next_bit_loop bit bm max_n fuel i ≤ max_n ∧
      (i ≤ max_n → i ≤ Bitmap.next_bit_loop bit bm max_n fuel i)
  | 0, i, h => by
    unfold Bitmap.next_bit_loop
    exact ⟨fun j h1 h2 h3 => by omega, le_refl _, fun h => h⟩
  | fuel + 1, i, h => by
    unfold Bitmap.next_bit_loop
    split
    · next hi =>
      split
      · next hb => exact ⟨fun j h1 h2 _ => by omega, by omega, fun _ => le_refl _⟩
      · next hb =>
        obtain ⟨a, b, c⟩ := next_bit_loop_first bit bm max_n fuel (i + 1) (by omega)
        refine ⟨fun j h1 h2 h3 => ?_, b, fun _ => by have := c (by omega); omega⟩
        by_cases hj : j = i
        · subst hj; exact hb
        · exact a j (by omega) h2 h3
    · next hi => exact ⟨fun j h1 h2 h3 => by omega, le_refl _, fun h => by omega⟩

/-- The value `first_bit(false, bm, n)` is the lowest clear position below `n` when
there is one. -/
theorem first_bit_lowest {bm : List Bool} {n : Nat} {s : Nat} (hs : s < n)
    (hc : bm.getD s false = false) :
    0 ≤ Bitmap.first_bit false bm n ∧ Bitmap.first_bit false bm n ≤ s ∧
    Bitmap.is_set bm (Bitmap.first_bit false bm n) = false ∧
    ∀ j : Int, 0 ≤ j → j < Bitmap.first_bit false bm n → Bitmap.is_set bm j = true := by
  obtain ⟨a, b, c⟩ := next_bit_loop_first false bm n (n + 1) 0 (by omega)
  have hr : Bitmap.first_bit false bm n = (Bitmap.next_bit_loop false bm n (n + 1) 0 : Nat) := by
    unfold Bitmap.first_bit Bitmap.next_bit
    simp
  have hle : Bitmap.next_bit_loop false bm n (n + 1) 0 ≤ s := by
    by_contra hcon
    exact a s (Nat.zero_le _) (by omega) hs hc
  have hlt : Bitmap.first_bit false bm n < (n : Int) := by rw [hr]; exact_mod_cast (by omega)
  obtain ⟨f0, fc⟩ := first_bit_clear hlt
  refine ⟨f0, by rw [hr]; exact_mod_cast hle, fc, fun j hj0 hj => ?_⟩
  have hj' : j.toNat < Bitmap.next_bit_loop false bm n (n + 1) 0 := by
    rw [hr] at hj; omega
  have := a j.toNat (Nat.zero_le _) hj' (by omega)
  unfold Bitmap.is_set
  rw [if_neg (by omega)]
  cases hb : bm.getD j.toNat false
  · exact absurd hb this
  · rfl

theorem rm_lookup_store_same {p : Int} {pg : RmPage} : ∀ {pages : List (Int × RmPage)} {old : RmPage},
    lookup_page p pages = some old → lookup_page p (store_page p pg pages) = some pg
  | [], _, h => by simp [lookup_page] at h
  | (q, m) :: rest, old, h => by
    unfold lookup_page at h
    unfold store_page
    split at h
    · next hq => rw [if_pos hq]; unfold lookup_page; rw [if_pos hq]
    · next hq =>
      rw [if_neg hq]; unfold lookup_page; rw [if_neg hq]
      exact rm_lookup_store_same h

theorem rm_lookup_store_other {p q : Int} {pg : RmPage} (hne : q ≠ p) :
    ∀ {pages : List (Int × RmPage)}, lookup_page q (store_page p pg pages) = lookup_page q pages
  | [] => rfl
  | (q', m) :: rest => by
    unfold store_page
    split
    · next hq =>
      unfold lookup_page
      rw [if_neg (by omega), if_neg (by omega)]
    · next hq =>
      unfold lookup_page
      split
      · rfl
      · exact rm_lookup_store_other hne

theorem rm_lookup_append {p : Int} : ∀ {pages more : List (Int × RmPage)},
    lookup_page p (pages ++ more) = (lookup_page p pages).orElse (fun _ => lookup_page p more)
  | [], more => by simp [lookup_page]
  | (q, m) :: rest, more => by
    have ih := @rm_lookup_append p rest more
    simp only [List.cons_append]
    by_cases hq : q = p
    · have e1 : lookup_page p ((q, m) :: (rest ++ more)) = some m := by
        unfold lookup_page; rw [if_pos hq]
      have e2 : lookup_page p ((q, m) :: rest) = some m := by
        unfold lookup_page; rw [if_pos hq]
      rw [e1, e2]; rfl
    · have e1 : lookup_page p ((q, m) :: (rest ++ more)) = lookup_page p (rest ++ more) := by
        conv => lhs; unfold lookup_page
        rw [if_neg hq]
      have e2 : lookup_page p ((q, m) :: rest) = lookup_page p rest := by
        conv => lhs; unfold lookup_page
        rw [if_neg hq]
      rw [e1, e2, ih]

theorem is_set_set_same {bm : List Bool} {pos : Int} (h0 : 0 ≤ pos) (hl : pos.toNat < bm.length) :
    Bitmap.is_set (Bitmap.set bm pos) pos = true := by
  unfold Bitmap.is_set Bitmap.set
  rw [if_neg (by omega), if_neg (by omega)]
  simp [List.getD_eq_getElem?_getD, List.getElem?_set, hl]

theorem is_set_set_other {bm : List Bool} {pos s : Int} (hne : s ≠ pos) (hs : 0 ≤ s) :
    Bitmap.is_set (Bitmap.set bm pos) s = Bitmap.is_set bm s := by
  unfold Bitmap.is_set Bitmap.set
  have hs0 : ¬ s < 0 := by omega
  simp only [if_neg hs0]
  by_cases hp : pos < 0
  · rw [if_pos hp]
  · rw [if_neg hp]
    have : pos.toNat ≠ s.toNat := by omega
    simp only [List.getD_eq_getElem?_getD, List.getElem?_set, this, if_false]


/-- Claim C15: for every position `rid` on a page that `fetch_page_handle`
delivers, `get_record(rid)` ends with the thrown `RecordNotFoundError`
exactly when the bit of the slot is clear, and returns the payload of the
slot when the bit is set.  `get_record` is a `const` member that unpins the
page as not dirty: it returns a record and no file, the file is the same
after the call. -/
theorem get_record_not_found_iff_bit_clear (fh : RmFileHandle) (rid : Rid) (ph : RmPage)
    (hf : fh.fetch_page_handle rid.page_no = Except.ok ph) :
    (fh.get_record rid = Except.error Fault.thrown ↔ Bitmap.is_set ph.bitmap rid.slot_no = false) ∧
    (Bitmap.is_set ph.bitmap rid.slot_no = true →
      fh.get_record rid = Except.ok (ph.slots.getD rid.slot_no.toNat [])) := by
  unfold get_record
  rw [hf]
  dsimp only
  cases hb : Bitmap.is_set ph.bitmap rid.slot_no
  · simp
  · simp


theorem insert_record_core {fh fh1 : RmFileHandle} {page_no : Int} {ph : RmPage} (buf : RmRecord)
    (hc : fh.create_page_handle = Except.ok (fh1, page_no))
    (hl : lookup_page page_no fh1.pages = some ph)
    {s : Nat} (hs : s < fh1.file_hdr.num_records_per_page) (hcl : ph.bitmap.getD s false = false)
    (hbl : fh1.file_hdr.num_records_per_page ≤ ph.bitmap.length)
    (hsl : fh1.file_hdr.num_records_per_page ≤ ph.slots.length)
    (hp1 : page_no ≠ INVALID_PAGE_ID) (hp2 : page_no ≤ fh1.file_hdr.num_pages) :
    ∃ fh2 slot pg1,
      fh.insert_record buf = Except.ok (fh2, ⟨page_no, slot⟩) ∧
      lookup_page page_no fh2.pages = some pg1 ∧
      0 ≤ slot ∧ slot < (fh1.file_hdr.num_records_per_page : Int) ∧
      Bitmap.is_set ph.bitmap slot = false ∧
      (∀ j : Int, 0 ≤ j → j < slot → Bitmap.is_set ph.bitmap j = true) ∧
      Bitmap.is_set pg1.bitmap slot = true ∧
      pg1.num_records = ph.num_records + 1 ∧
      (∀ t : Int, t ≠ slot → 0 ≤ t →
        Bitmap.is_set pg1.bitmap t = Bitmap.is_set ph.bitmap t ∧
        pg1.slots.getD t.toNat [] = ph.slots.getD t.toNat []) ∧
      (∀ q, q ≠ page_no → lookup_page q fh2.pages = lookup_page q fh1.pages) ∧
      fh2.get_record ⟨page_no, slot⟩ = Except.ok buf := by
  obtain ⟨f0, fle, fclear, flow⟩ := first_bit_lowest hs hcl
  generalize hslot : Bitmap.first_bit false ph.bitmap fh1.file_hdr.num_records_per_page = slot
    at f0 fle fclear flow
  have hlt : slot < (fh1.file_hdr.num_records_per_page : Int) := by omega
  have hnat : slot.toNat < fh1.file_hdr.num_records_per_page := by omega
  let pg1 : RmPage := { ph with bitmap := Bitmap.set ph.bitmap slot,
                                num_records := ph.num_records + 1,
                                slots := ph.slots.set slot.toNat buf }
  let fh2 : RmFileHandle :=
    if ph.num_records + 1 = (fh1.file_hdr.num_records_per_page : Int) then
      { fh1 with file_hdr := { fh1.file_hdr with first_free_page_no := ph.next_free_page_no } }
    else fh1
  have hpages : fh2.pages = fh1.pages := by
    show (if _ then _ else _ : RmFileHandle).pages = _
    split <;> rfl
  have hnp : fh2.file_hdr.num_pages = fh1.file_hdr.num_pages := by
    show (if _ then _ else _ : RmFileHandle).file_hdr.num_pages = _
    split <;> rfl
  have hins : fh.insert_record buf = Except.ok (fh2.put_page page_no pg1, ⟨page_no, slot⟩) := by
    unfold insert_record
    rw [hc]
    dsimp only
    rw [hl]
    dsimp only
    rw [hslot, if_neg (by omega)]
  have hlk : lookup_page page_no (fh2.put_page page_no pg1).pages = some pg1 := by
    show lookup_page page_no (store_page page_no pg1 fh2.pages) = some pg1
    rw [hpages]
    exact rm_lookup_store_same hl
  refine ⟨fh2.put_page page_no pg1, slot, pg1, hins, hlk, f0, hlt, fclear, flow, ?_, rfl, ?_, ?_, ?_⟩
  · exact is_set_set_same f0 (by omega)
  · intro t hne ht
    refine ⟨is_set_set_other hne ht, ?_⟩
    show (ph.slots.set slot.toNat buf).getD t.toNat [] = _
    have : slot.toNat ≠ t.toNat := by omega
    simp only [List.getD_eq_getElem?_getD, List.getElem?_set, this, if_false]
  · intro q hq
    show lookup_page q (store_page page_no pg1 fh2.pages) = _
    rw [hpages]
    exact rm_lookup_store_other hq
  · unfold get_record fetch_page_handle
    have hnp2 : (fh2.put_page page_no pg1).file_hdr.num_pages = fh1.file_hdr.num_pages := hnp
    dsimp only
    rw [hnp2, if_neg (by intro h; rcases h with h | h; exact hp1 h; omega), hlk]
    dsimp only
    have hb : Bitmap.is_set pg1.bitmap slot = true := is_set_set_same f0 (by omega)
    rw [hb]
    show Except.ok ((ph.slots.set slot.toNat buf).getD slot.toNat []) = _
    have hl2 : slot.toNat < ph.slots.length := by omega
    simp [List.getD_eq_getElem?_getD, List.getElem?_set, hl2]


theorem rm_lookup_none {p : Int} : ∀ {pages : List (Int × RmPage)},
    (∀ q pg, (q, pg) ∈ pages → q ≠ p) → lookup_page p pages = none
  | [], _ => rfl
  | (q, m) :: rest, h => by
    unfold lookup_page
    rw [if_neg (h q m (List.mem_cons_self _ _))]
    exact rm_lookup_none (fun q2 pg hm => h q2 pg (List.mem_cons_of_mem _ hm))

/-- Claim C16: in a file of the shape `Shaped`, when `first_free_page_no` is
`RM_NO_PAGE` or names a page with a clear slot, `insert_record(buf)`
returns a position `rid` on that page (on the new page `num_pages` in the
`RM_NO_PAGE` case); the slot is the lowest clear one of the page, its bit is
set afterwards, `num_records` of the page is one higher, the bits and the
payloads of the other slots of the page and all other pages are as before,
and `get_record(rid)` on the new file returns `buf`. -/
theorem insert_record_lowest_clear_slot (fh : RmFileHandle) (buf : RmRecord)
    (hsh : fh.Shaped)
    (hfree : fh.file_hdr.first_free_page_no = RM_NO_PAGE ∨
      ∃ pg s, lookup_page fh.file_hdr.first_free_page_no fh.pages = some pg ∧
        0 ≤ s ∧ s < (fh.file_hdr.num_records_per_page : Int) ∧ Bitmap.is_set pg.bitmap s = false) :
    ∃ fh1 rid pg0 pg1,
      fh.insert_record buf = Except.ok (fh1, rid) ∧
      (if fh.file_hdr.first_free_page_no = RM_NO_PAGE then
        rid.page_no = fh.file_hdr.num_pages ∧ lookup_page rid.page_no fh.pages = none ∧
        pg0 = { next_free_page_no := RM_NO_PAGE, num_records := 0,
                bitmap := List.replicate (8 * fh.file_hdr.bitmap_size) false,
                slots := List.replicate fh.file_hdr.num_records_per_page [] }
       else rid.page_no = fh.file_hdr.first_free_page_no ∧
        lookup_page rid.page_no fh.pages = some pg0) ∧
      lookup_page rid.page_no fh1.pages = some pg1 ∧
      0 ≤ rid.slot_no ∧ rid.slot_no < (fh.file_hdr.num_records_per_page : Int) ∧
      Bitmap.is_set pg0.bitmap rid.slot_no = false ∧
      (∀ j : Int, 0 ≤ j → j < rid.slot_no → Bitmap.is_set pg0.bitmap j = true) ∧
      Bitmap.is_set pg1.bitmap rid.slot_no = true ∧
      pg1.num_records = pg0.num_records + 1 ∧
      (∀ t : Int, t ≠ rid.slot_no → 0 ≤ t →
        Bitmap.is_set pg1.bitmap t = Bitmap.is_set pg0.bitmap t ∧
        pg1.slots.getD t.toNat [] = pg0.slots.getD t.toNat []) ∧
      (∀ q, q ≠ rid.page_no → lookup_page q fh1.pages = lookup_page q fh.pages) ∧
      fh1.get_record rid = Except.ok buf := by
  obtain ⟨hn0, hnb, hnp, hpg⟩ := hsh
  by_cases hff : fh.file_hdr.first_free_page_no = RM_NO_PAGE
  · have hc : fh.create_page_handle =
        Except.ok (fh.create_new_page_handle.1, fh.file_hdr.num_pages) := by
      unfold create_page_handle
      rw [if_pos hff]
      rfl
    have hnone : lookup_page fh.file_hdr.num_pages fh.pages = none :=
      rm_lookup_none (fun q pg hm => by have := (hpg q pg hm).1; omega)
    have hl : lookup_page fh.file_hdr.num_pages fh.create_new_page_handle.1.pages =
        some { next_free_page_no := RM_NO_PAGE, num_records := 0,
               bitmap := List.replicate (8 * fh.file_hdr.bitmap_size) false,
               slots := List.replicate fh.file_hdr.num_records_per_page [] } := by
      show lookup_page _ (fh.pages ++ [_]) = _
      rw [rm_lookup_append, hnone]
      simp only [Option.orElse]
      unfold lookup_page
      rw [if_pos rfl]
    obtain ⟨fh2, slot, pg1, h1, h2, h3, h4, h5, h6, h7, h8, h9, h10, h11⟩ :=
      @insert_record_core fh _ _ _ buf hc hl 0 hn0
        (by cases hb : 8 * fh.file_hdr.bitmap_size with
            | zero => rfl
            | succ k => rfl)
        (by simpa using hnb)
        (by rw [List.length_replicate]; exact le_refl _)
        (by show fh.file_hdr.num_pages ≠ -1; omega)
        (by show fh.file_hdr.num_pages ≤ fh.file_hdr.num_pages + 1; omega)
    refine ⟨fh2, ⟨fh.file_hdr.num_pages, slot⟩, _, pg1, h1, ?_, h2, h3, h4, h5, h6, h7, h8, h9,
      ?_, h11⟩
    · rw [if_pos hff]; exact ⟨rfl, hnone, rfl⟩
    · intro q hq
      rw [h10 q hq]
      show lookup_page q (fh.pages ++ [_]) = _
      rw [rm_lookup_append]
      cases hlq : lookup_page q fh.pages
      · simp only [Option.orElse]
        unfold lookup_page
        rw [if_neg (fun h => hq h.symm)]
        rfl
      · rfl
  · rcases hfree with h | ⟨pg, s, hl, hs0, hsn, hcl⟩
    · exact absurd h hff
    · have hc : fh.create_page_handle = Except.ok (fh, fh.file_hdr.first_free_page_no) := by
        unfold create_page_handle
        rw [if_neg hff, hl]
      have hmem := hpg _ _ (rm_lookup_page_mem hl)
      have hcl2 : pg.bitmap.getD s.toNat false = false := by
        unfold Bitmap.is_set at hcl
        rw [if_neg (by omega)] at hcl
        exact hcl
      obtain ⟨fh2, slot, pg1, h1, h2, h3, h4, h5, h6, h7, h8, h9, h10, h11⟩ :=
        @insert_record_core fh _ _ _ buf hc hl s.toNat (by omega) hcl2 hmem.2.1 hmem.2.2
          hff (by omega)
      refine ⟨fh2, ⟨fh.file_hdr.first_free_page_no, slot⟩, pg, pg1, h1, ?_, h2, h3, h4, h5, h6,
        h7, h8, h9, h10, h11⟩
      rw [if_neg hff]; exact ⟨rfl, hl⟩

/-- The example file after one insertion has the shape of a heap file. -/
theorem heap_step1_shaped : heap_step1.Shaped := by
  refine ⟨by decide, by decide, by decide, ?_⟩
  intro p pg h
  have hp : heap_step1.pages =
      [(1, ⟨-1, 1, [true, false, false, false, false, false, false, false], [[5], []]⟩)] := rfl
  rw [hp] at h
  simp only [List.mem_singleton] at h
  cases h
  exact ⟨by decide, by decide, by decide⟩

/-- Claim C15 at the example file after the deletion of (1, 0): the bit of
(1, 1) is set and `get_record` returns its payload. -/
theorem get_record_not_found_iff_bit_clear_witness :
    heap_step4.fetch_page_handle 1 =
      Except.ok ⟨2, 1, [false, true, false, false, false, false, false, false], [[5], [6]]⟩ ∧
    heap_step4.get_record ⟨1, 1⟩ = Except.ok [6] ∧
    heap_step4.get_record ⟨1, 0⟩ = Except.error Fault.thrown ∧
    (heap_step4.get_record ⟨1, 1⟩ = Except.error Fault.thrown ↔
      Bitmap.is_set [false, true, false, false, false, false, false, false] 1 = false) :=
  ⟨rfl, rfl, rfl,
    (get_record_not_found_iff_bit_clear heap_step4 ⟨1, 1⟩
      ⟨2, 1, [false, true, false, false, false, false, false, false], [[5], [6]]⟩ rfl).1⟩

/-- Claim C16 at the example file after one insertion: page 1 is the head of
the free list and its slot 1 is clear; the second insertion goes there. -/
theorem insert_record_lowest_clear_slot_witness :
    heap_step1.Shaped ∧
    (heap_step1.file_hdr.first_free_page_no = 1 ∧
      lookup_page 1 heap_step1.pages =
        some ⟨-1, 1, [true, false, false, false, false, false, false, false], [[5], []]⟩ ∧
      Bitmap.is_set [true, false, false, false, false, false, false, false] 1 = false) ∧
    heap_step1.insert_record [6] = Except.ok (heap_step2, ⟨1, 1⟩) ∧
    ∃ fh1 rid pg0 pg1,
      heap_step1.insert_record [6] = Except.ok (fh1, rid) ∧
      (if heap_step1.file_hdr.first_free_page_no = RM_NO_PAGE then
        rid.page_no = heap_step1.file_hdr.num_pages ∧
        lookup_page rid.page_no heap_step1.pages = none ∧
        pg0 = { next_free_page_no := RM_NO_PAGE, num_records := 0,
                bitmap := List.replicate (8 * heap_step1.file_hdr.bitmap_size) false,
                slots := List.replicate heap_step1.file_hdr.num_records_per_page [] }
       else rid.page_no = heap_step1.file_hdr.first_free_page_no ∧
        lookup_page rid.page_no heap_step1.pages = some pg0) ∧
      lookup_page rid.page_no fh1.pages = some pg1 ∧
      0 ≤ rid.slot_no ∧ rid.slot_no < (heap_step1.file_hdr.num_records_per_page : Int) ∧
      Bitmap.is_set pg0.bitmap rid.slot_no = false ∧
      (∀ j : Int, 0 ≤ j → j < rid.slot_no → Bitmap.is_set pg0.bitmap j = true) ∧
      Bitmap.is_set pg1.bitmap rid.slot_no = true ∧
      pg1.num_records = pg0.num_records + 1 ∧
      (∀ t : Int, t ≠ rid.slot_no → 0 ≤ t →
        Bitmap.is_set pg1.bitmap t = Bitmap.is_set pg0.bitmap t ∧
        pg1.slots.getD t.toNat [] = pg0.slots.getD t.toNat []) ∧
      (∀ q, q ≠ rid.page_no → lookup_page q fh1.pages = lookup_page q heap_step1.pages) ∧
      fh1.get_record rid = Except.ok [6] :=
  ⟨heap_step1_shaped, ⟨rfl, rfl, rfl⟩, rfl,
    insert_record_lowest_clear_slot heap_step1 [6] heap_step1_shaped
      (Or.inr ⟨_, 1, rfl, by decide, by decide, rfl⟩)⟩

/-- Claim C17, evaluation of the code: the file `heap_four3` has four slots
per page; page 1 is the head of the free list, holds three records and has
`next_free_page_no = RM_NO_PAGE`.  Filling the last slot with
`insert_record(buf)` pops the page: `first_free_page_no` becomes
`RM_NO_PAGE`, the `next_free_page_no` of the page, and the file keeps its
two pages.  Filling the same slot with `insert_record(rid, buf)` appends a
new page 2 and sets `first_free_page_no` to 3, the result of
`Bitmap::first_bit(false, bitmap, num_pages)` on the bitmap of the full
page, which is not the `next_free_page_no` of the page and is not the
number of a page of the file. -/
theorem insert_record_at_full_page_free_list :
    heap_four3.file_hdr.first_free_page_no = 1 ∧
    heap_four3.fetch_page_handle 1 =
      Except.ok ⟨RM_NO_PAGE, 3, [true, true, true, false, false, false, false, false],
        [[5], [6], [7], []]⟩ ∧
    (heap_four3.insert_record [9]).map
        (fun r => (r.2, r.1.file_hdr.first_free_page_no, r.1.file_hdr.num_pages)) =
      Except.ok (⟨1, 3⟩, RM_NO_PAGE, 2) ∧
    (heap_four3.insert_record_at ⟨1, 3⟩ [9]).map
        (fun fh => (fh.file_hdr.first_free_page_no, fh.file_hdr.num_pages,
          fh.pages.map Prod.fst, lookup_page 3 fh.pages)) =
      Except.ok (3, 3, [1, 2], none) := by
  refine ⟨rfl, rfl, rfl, rfl⟩

end RMDB

namespace RMDB

open RmFileHandle

/-! ## Heap file: the free list after `insert_record(rid, buf)` -/


/-- C39, failing input: a file with two slots per page after four
`insert_record(buf)` calls, `delete_record` of the live slot (1, 0) and
`insert_record(rid, buf)` at that free slot is reachable, and its
`first_free_page_no` is 2, the number of a page both of whose slots are
taken; the free list is not valid, and the next `insert_record(buf)` takes
page 2, finds `first_bit = 2 = num_records_per_page` and fails the
assertion. -/
theorem free_list_points_to_full_page :
    RmFileHandle.Reachable 1 2 1 heap_two6 ∧
    heap_two6.file_hdr.first_free_page_no = 2 ∧
    lookup_page 2 heap_two6.pages =
      some ⟨RM_NO_PAGE, 2, [true, true, false, false, false, false, false, false],
        [[3], [4]]⟩ ∧
    ¬ heap_two6.FreeListValid ∧
    heap_two6.create_page_handle.map Prod.snd = Except.ok 2 ∧
    Bitmap.first_bit false [true, true, false, false, false, false, false, false]
      heap_two6.file_hdr.num_records_per_page = 2 ∧
    heap_two6.insert_record [10] = Except.error Fault.crashed := by
  refine ⟨?_, rfl, rfl, by decide, rfl, rfl, rfl⟩
  have h1 : RmFileHandle.Reachable 1 2 1 heap_two1 :=
    .insert_record _ _ [1] ⟨1, 0⟩ .create rfl
  have h2 : RmFileHandle.Reachable 1 2 1 heap_two2 := .insert_record _ _ [2] ⟨1, 1⟩ h1 rfl
  have h3 : RmFileHandle.Reachable 1 2 1 heap_two3 := .insert_record _ _ [3] ⟨2, 0⟩ h2 rfl
  have h4 : RmFileHandle.Reachable 1 2 1 heap_two4 := .insert_record _ _ [4] ⟨2, 1⟩ h3 rfl
  have h5 : RmFileHandle.Reachable 1 2 1 heap_two5 := .delete_record _ _ ⟨1, 0⟩ h4 rfl
  exact .insert_record_at _ _ ⟨1, 0⟩ [9] h5 (by decide) (by decide) rfl

end RMDB
/-! ## Heap file: counters and scan -/

namespace RMDB

open RmFileHandle

/-- The example run is a run of the heap file operations. -/
theorem heap_step7_reachable : Reachable 1 2 1 heap_step7 := by
  have h1 : Reachable 1 2 1 heap_step1 :=
    Reachable.insert_record _ _ [5] ⟨1, 0⟩ Reachable.create rfl
  have h2 : Reachable 1 2 1 heap_step2 := Reachable.insert_record _ _ [6] ⟨1, 1⟩ h1 rfl
  have h3 : Reachable 1 2 1 heap_step3 := Reachable.insert_record _ _ [7] ⟨2, 0⟩ h2 rfl
  have h4 : Reachable 1 2 1 heap_step4 := Reachable.delete_record _ _ ⟨1, 0⟩ h3 rfl
  have h5 : Reachable 1 2 1 heap_step5 := Reachable.update_record _ _ ⟨1, 1⟩ [8] h4 rfl
  have h6 : Reachable 1 2 1 heap_step6 :=
    Reachable.insert_record_at _ _ ⟨1, 0⟩ [9] h5 (by decide) (by decide) rfl
  exact Reachable.delete_record _ _ ⟨2, 0⟩ h6 rfl

/-- Claim C7: in every state reachable from a newly created heap file
through `insert_record(buf)`, `insert_record(rid, buf)` on a free slot,
`delete_record` on a live slot and `update_record`, the counter
`num_records` of every data page equals the number of set bits of the
bitmap of that page.  The bitmap of a page has `8 * bitmap_size` bits, which
are enough for the slots of a page. -/
theorem heap_num_records_eq_popcount (rs n bs : Nat) (hb : n ≤ 8 * bs) (fh : RmFileHandle)
    (h : Reachable rs n bs fh) :
    ∀ p pg, RmFileHandle.lookup_page p fh.pages = some pg →
      pg.num_records = (Bitmap.popcount pg.bitmap : Int) :=
  fun _ _ hl => ((Reachable.integrity hb h).2 _ _ (rm_lookup_page_mem hl)).1

/-- Claim C7 at the example run: three insertions, a deletion, an update, an
insertion at the freed position and a deletion. -/
theorem heap_num_records_eq_popcount_witness :
    2 ≤ 8 * 1 ∧ Reachable 1 2 1 heap_step7 ∧
    ∀ p pg, RmFileHandle.lookup_page p heap_step7.pages = some pg →
      pg.num_records = (Bitmap.popcount pg.bitmap : Int) :=
  ⟨by decide, heap_step7_reachable,
    heap_num_records_eq_popcount 1 2 1 (by decide) heap_step7 heap_step7_reachable⟩

/-- Every data page of the example file is present. -/
theorem heap_step6_pages : heap_step6.PagesPresent := by
  intro p h1 h2
  have h3 : p < 4 := h2
  simp only [RM_FIRST_RECORD_PAGE] at h1
  have : p = 1 ∨ p = 2 ∨ p = 3 := by omega
  rcases this with rfl | rfl | rfl
  · exact ⟨_, rfl⟩
  · exact ⟨_, rfl⟩
  · exact ⟨_, rfl⟩

/-- Claim C8: for every heap file whose data pages are all present, a scan
advanced from its construction until `is_end` terminates after visiting a
list `l` of positions, which holds exactly the positions whose bitmap bit is
set, in strictly increasing (page_no, slot_no) order, each one once. -/
theorem scan_visits_set_slots_in_order (fh : RmFileHandle) (hp : fh.PagesPresent) :
    ∃ l, RmScan.visit_all fh (l.length + 1) = Except.ok l ∧
      (∀ r, r ∈ l ↔ fh.Live r) ∧ List.Pairwise Rid.lt l ∧ l.Nodup :=
  ⟨fh.live_rids, visit_all_spec hp, mem_live_rids, live_from_sorted fh _ _,
    (live_from_sorted fh _ _).imp (fun {a b} hab hne => by
      subst hne
      rcases hab with h | ⟨_, h⟩ <;> exact lt_irrefl _ h)⟩

/-- Claim C8 at the example file, which holds records at (1, 0), (1, 1) and
(2, 0) and has an empty third page. -/
theorem scan_visits_set_slots_in_order_witness :
    heap_step6.PagesPresent ∧
    RmScan.visit_all heap_step6 4 = Except.ok [⟨1, 0⟩, ⟨1, 1⟩, ⟨2, 0⟩] ∧
    ∃ l, RmScan.visit_all heap_step6 (l.length + 1) = Except.ok l ∧
      (∀ r, r ∈ l ↔ heap_step6.Live r) ∧ List.Pairwise Rid.lt l ∧ l.Nodup :=
  ⟨heap_step6_pages, rfl, scan_visits_set_slots_in_order heap_step6 heap_step6_pages⟩

end RMDB

/-! ## Lock manager: granted locks are compatible -/

namespace RMDB

open LockRequestQueue LockManager

theorem Exclusion.erase {q : LockRequestQueue} (h : q.Exclusion) (t : Int) (rq : List LockRequest)
    (u : Int) : Exclusion ⟨rq, u, q.locked_erase t⟩ := by
  rcases h with h | h
  · exact Or.inl fun e he => h e (List.mem_filter.1 he).1
  · exact Or.inr (le_trans (List.length_filter_le _ _) h)

theorem Exclusion.queue {q : LockRequestQueue} (h : q.Exclusion) (rq : List LockRequest)
    (u : Int) : Exclusion ⟨rq, u, q.locked_requests_⟩ := h

theorem Exclusion.insert_empty {q : LockRequestQueue} (he : q.locked_requests_ = [])
    (t : Int) (r : LockRequest) (rq : List LockRequest) (u : Int) :
    Exclusion ⟨rq, u, q.locked_insert t r⟩ := by
  refine Or.inr ?_
  simp [locked_insert, he]

theorem Exclusion.insert_compatible {q : LockRequestQueue} {m : LockMode} {c : Int}
    (hc : IsCompatible m q c = true) (t : Int) (rq : List LockRequest) (u : Int) :
    Exclusion ⟨rq, u, q.locked_insert t ⟨t, m⟩⟩ := by
  cases hl : q.locked_requests_ with
  | nil => exact Exclusion.insert_empty hl _ _ _ _
  | cons e es =>
    refine Or.inl ?_
    simp only [IsCompatible, Bool.and_eq_true, List.all_eq_true, decide_eq_true_eq] at hc
    have hm : m = LockMode.SHARED := (hc.1 e (by rw [hl]; exact List.mem_cons_self _ _)).1
    intro x hx
    simp only [locked_insert] at hx
    split at hx
    · exact (hc.1 x hx).2
    · rcases List.mem_append.1 hx with hx | hx
      · exact (hc.1 x hx).2
      · rw [List.mem_singleton] at hx
        subst hx
        exact hm

theorem grant_or_enqueue_exclusion {q : LockRequestQueue} (h : q.Exclusion) (t : Int)
    (r : LockRequest) : (grant_or_enqueue q t r).1.Exclusion := by
  unfold grant_or_enqueue
  split
  · next hc => exact Exclusion.insert_empty (List.isEmpty_iff.1 hc.1) _ _ _ _
  · exact h

theorem lock_on_table_request_exclusion {q q1 : LockRequestQueue} (h : q.Exclusion) {t : Int}
    {m : LockMode} {ab : Bool} {res : LockResult}
    (hr : lock_on_table_request q t m ab = some (q1, res)) : q1.Exclusion := by
  unfold lock_on_table_request at hr
  split at hr
  · cases hr; exact h
  · split at hr
    · rename_i request _
      split at hr
      · cases hr; exact h
      · split at hr
        · cases hr; exact h
        · simp only [Option.some.injEq] at hr
          have h1 := grant_or_enqueue_exclusion (Exclusion.erase h t q.request_queue_ t) t
            { request with lock_mode_ := m }
          rw [hr] at h1
          exact h1
    · split at hr
      · cases hr
      · simp only [Option.some.injEq] at hr
        have h1 := grant_or_enqueue_exclusion h t ⟨t, m⟩
        rw [hr] at h1
        exact h1

theorem lock_on_table_wake_exclusion {q q1 : LockRequestQueue} (h : q.Exclusion) {t : Int}
    {m : LockMode} {ab : Bool} {res : LockResult}
    (hr : lock_on_table_wake q t m ab = some (q1, res)) : q1.Exclusion := by
  unfold lock_on_table_wake at hr
  split at hr
  · cases hr; exact h
  · split at hr
    · cases hr
    · split at hr
      · cases hr; exact h
      · split at hr
        · cases hr; exact h
        · next hc =>
          cases hr
          simp only [Bool.not_eq_true, Bool.not_eq_false_eq_eq_true] at hc
          have hc1 : IsCompatible m q t = true := by
            cases hx : IsCompatible m q t
            · simp [hx] at hc
            · rfl
          exact Exclusion.insert_compatible hc1 _ _ _

theorem Reachable.exclusion {q : LockRequestQueue} (h : q.Reachable) : q.Exclusion := by
  induction h with
  | init => exact Or.inr (by simp [LockRequestQueue.empty])
  | request q q1 t m ab res _ hr ih => exact lock_on_table_request_exclusion ih hr
  | wake q q1 t m ab res _ hr ih => exact lock_on_table_wake_exclusion ih hr
  | unlock q t b _ ih =>
    unfold LockManager.unlock
    split
    · exact ih
    · exact Exclusion.erase ih _ _ _

/-- The example state is reached by a run in which transactions 1 and 2
take SHARED locks, transaction 3 waits for an EXCLUSIVE lock and gets it
after both have unlocked, and transaction 4 asks for a SHARED lock. -/
theorem lock_example_reachable : lock_example.Reachable := by
  have h1 : Reachable ⟨[], INVALID_TXN_ID, [(1, ⟨1, LockMode.SHARED⟩)]⟩ :=
    Reachable.request _ _ 1 LockMode.SHARED false LockResult.granted Reachable.init rfl
  have h2 : Reachable ⟨[⟨2, LockMode.SHARED⟩], INVALID_TXN_ID, [(1, ⟨1, LockMode.SHARED⟩)]⟩ :=
    Reachable.request _ _ 2 LockMode.SHARED false LockResult.waiting h1 rfl
  have h3 : Reachable ⟨[], INVALID_TXN_ID,
      [(1, ⟨1, LockMode.SHARED⟩), (2, ⟨2, LockMode.SHARED⟩)]⟩ :=
    Reachable.wake _ _ 2 LockMode.SHARED false LockResult.granted h2 rfl
  have h4 : Reachable ⟨[⟨3, LockMode.EXCLUSIVE⟩], INVALID_TXN_ID,
      [(1, ⟨1, LockMode.SHARED⟩), (2, ⟨2, LockMode.SHARED⟩)]⟩ :=
    Reachable.request _ _ 3 LockMode.EXCLUSIVE false LockResult.waiting h3 rfl
  have h5 : Reachable ⟨[⟨3, LockMode.EXCLUSIVE⟩], INVALID_TXN_ID,
      [(1, ⟨1, LockMode.SHARED⟩), (2, ⟨2, LockMode.SHARED⟩)]⟩ :=
    Reachable.wake _ _ 3 LockMode.EXCLUSIVE false LockResult.waiting h4 rfl
  have h6 : Reachable ⟨[⟨3, LockMode.EXCLUSIVE⟩], INVALID_TXN_ID,
      [(2, ⟨2, LockMode.SHARED⟩)]⟩ := Reachable.unlock _ 1 true h5
  have h7 : Reachable ⟨[⟨3, LockMode.EXCLUSIVE⟩], INVALID_TXN_ID, []⟩ :=
    Reachable.unlock _ 2 true h6
  have h8 : Reachable ⟨[], INVALID_TXN_ID, [(3, ⟨3, LockMode.EXCLUSIVE⟩)]⟩ :=
    Reachable.wake _ _ 3 LockMode.EXCLUSIVE false LockResult.granted h7 rfl
  exact Reachable.request _ _ 4 LockMode.SHARED false LockResult.waiting h8 rfl

/-- Claim C3: in every state of the lock queue of a table reachable through
`lock_on_table` (immediate grant, grant after waiting, upgrade), `unlock`
and deadlock-abort steps, a transaction that holds a granted EXCLUSIVE lock
is the only one that holds a granted lock, and granted locks of distinct
transactions are all SHARED. -/
theorem lock_mutual_exclusion (q : LockRequestQueue) (h : q.Reachable) :
    (∀ e1 ∈ q.locked_requests_, ∀ e2 ∈ q.locked_requests_,
      e1.2.lock_mode_ = LockMode.EXCLUSIVE → e2.1 = e1.1) ∧
    (∀ e1 ∈ q.locked_requests_, ∀ e2 ∈ q.locked_requests_, e1.1 ≠ e2.1 →
      e1.2.lock_mode_ = LockMode.SHARED ∧ e2.2.lock_mode_ = LockMode.SHARED) := by
  have key : ∀ e1 ∈ q.locked_requests_, ∀ e2 ∈ q.locked_requests_,
      (e1.2.lock_mode_ = LockMode.SHARED ∧ e2.2.lock_mode_ = LockMode.SHARED) ∨ e2 = e1 := by
    intro e1 h1 e2 h2
    rcases Reachable.exclusion h with hs | hl
    · exact Or.inl ⟨hs e1 h1, hs e2 h2⟩
    · right
      cases hq : q.locked_requests_ with
      | nil => rw [hq] at h1; cases h1
      | cons x xs =>
        rw [hq] at h1 h2 hl
        cases xs with
        | nil =>
          rw [List.mem_singleton] at h1 h2
          rw [h1, h2]
        | cons y ys => simp at hl
  constructor
  · intro e1 h1 e2 h2 hx
    rcases key e1 h1 e2 h2 with hs | he
    · rw [hs.1] at hx; cases hx
    · rw [he]
  · intro e1 h1 e2 h2 hne
    rcases key e1 h1 e2 h2 with hs | he
    · exact hs
    · exact absurd (by rw [he]) hne

/-- Claim C3 at the example state, in which transaction 3 holds an
EXCLUSIVE lock. -/
theorem lock_mutual_exclusion_witness :
    lock_example.Reachable ∧
    (∀ e1 ∈ lock_example.locked_requests_, ∀ e2 ∈ lock_example.locked_requests_,
      e1.2.lock_mode_ = LockMode.EXCLUSIVE → e2.1 = e1.1) ∧
    (∀ e1 ∈ lock_example.locked_requests_, ∀ e2 ∈ lock_example.locked_requests_, e1.1 ≠ e2.1 →
      e1.2.lock_mode_ = LockMode.SHARED ∧ e2.2.lock_mode_ = LockMode.SHARED) :=
  ⟨lock_example_reachable, lock_mutual_exclusion lock_example lock_example_reachable⟩

end RMDB

/-! ## Deadlock detection: the search finds exactly the cycles -/

namespace RMDB

namespace LockManager

theorem Hit.iff (g : WaitsFor) (P : List Int) (v : Int) :
    Hit g P v ↔ ∃ l, waits_for_lookup g v = some l ∧ ∃ w ∈ l, w ∈ P ∨ Hit g (w :: P) w := by
  constructor
  · intro h
    cases h with
    | back _ _ w he hw =>
      obtain ⟨l, hl, hwl⟩ := he
      exact ⟨l, hl, w, hwl, Or.inl hw⟩
    | deeper _ _ w he hw =>
      obtain ⟨l, hl, hwl⟩ := he
      exact ⟨l, hl, w, hwl, Or.inr hw⟩
  · rintro ⟨l, hl, w, hwl, hw | hw⟩
    · exact Hit.back P v w ⟨l, hl, hwl⟩ hw
    · exact Hit.deeper P v w ⟨l, hl, hwl⟩ hw

/-- A hit gives a cycle, or a walk back to the path. -/
theorem Hit.walk {g : WaitsFor} {P : List Int} {v : Int} (h : Hit g P v) :
    HasDirectedCycle g ∨ ∃ p ∈ P, Relation.TransGen (Edge g) v p := by
  induction h with
  | back P v w he hw => exact Or.inr ⟨w, hw, Relation.TransGen.single he⟩
  | deeper P v w he _ ih =>
    rcases ih with hc | ⟨p, hp, hwp⟩
    · exact Or.inl hc
    · rcases List.mem_cons.mp hp with rfl | hp
      · exact Or.inl ⟨p, hwp⟩
      · exact Or.inr ⟨p, hp, Relation.TransGen.head he hwp⟩

/-- A walk back to the path is a hit. -/
theorem Hit.of_trans_gen {g : WaitsFor} {v p : Int} (h : Relation.TransGen (Edge g) v p) :
    ∀ P : List Int, p ∈ P → Hit g P v := by
  induction h using Relation.TransGen.head_induction_on with
  | base he => exact fun P hp => Hit.back P _ _ he hp
  | ih he _ ih =>
    intro P hp
    exact Hit.deeper P _ _ he (ih _ (List.mem_cons_of_mem _ hp))

theorem off_path_cons_le (g : WaitsFor) (P : List Int) (w : Int) :
    off_path g (w :: P) ≤ off_path g P := by
  unfold off_path
  induction g with
  | nil => simp
  | cons e g ih =>
    simp only [List.filter_cons]
    by_cases h1 : e.1 ∉ w :: P
    · have h2 : e.1 ∉ P := fun h => h1 (List.mem_cons_of_mem _ h)
      simp only [h1, h2, not_false_eq_true, decide_True, if_true, List.length_cons]
      omega
    · by_cases h2 : e.1 ∉ P
      · simp only [h1, h2, not_false_eq_true, decide_True, decide_False, if_true, if_false,
          List.length_cons, Bool.false_eq_true]
        omega
      · simp only [h1, h2, decide_False, if_false, Bool.false_eq_true]
        exact ih

theorem off_path_cons_lt (g : WaitsFor) (P : List Int) (w : Int) (hw : w ∉ P)
    (hk : waits_for_lookup g w ≠ none) : off_path g (w :: P) < off_path g P := by
  unfold off_path
  induction g with
  | nil => exact absurd rfl hk
  | cons e g ih =>
    simp only [List.filter_cons]
    by_cases he : e.1 = w
    · have h1 : ¬ e.1 ∉ w :: P := by simp [he]
      have h2 : e.1 ∉ P := he ▸ hw
      simp only [h1, h2, not_false_eq_true, decide_True, decide_False, if_true, if_false,
        List.length_cons, Bool.false_eq_true]
      have := off_path_cons_le g P w
      unfold off_path at this
      omega
    · have hk' : waits_for_lookup g w ≠ none := by
        unfold waits_for_lookup at hk ⊢
        rw [List.find?_cons] at hk
        simpa [he] using hk
      have := ih hk'
      by_cases h2 : e.1 ∉ P
      · have h1 : e.1 ∉ w :: P := by
          simp only [List.mem_cons, not_or]; exact ⟨he, h2⟩
        simp only [h1, h2, not_false_eq_true, decide_True, if_true, List.length_cons]
        omega
      · have h1 : ¬ e.1 ∉ w :: P := by
          simp only [not_not] at h2 ⊢; exact List.mem_cons_of_mem _ h2
        simp only [h1, h2, decide_False, if_false, Bool.false_eq_true]
        exact this

/-- The loop of the search, given that the recursive calls return what they
should. -/
theorem find_cycle_loop_spec (g : WaitsFor)
    (call : Int → List Int → Option (Bool × List Int)) (P : List Int)
    (hcall : ∀ w, w ∉ P → ∃ b P', call w (w :: P) = some (b, P') ∧
      (b = true ↔ Hit g (w :: P) w) ∧ (b = false → P' = w :: P)) :
    ∀ to_txns : List Int, ∃ b P', find_cycle_loop call to_txns P = some (b, P') ∧
      (b = true ↔ ∃ w ∈ to_txns, w ∈ P ∨ Hit g (w :: P) w) ∧ (b = false → P' = P) := by
  intro to_txns
  induction to_txns with
  | nil => exact ⟨false, P, rfl, by simp, fun _ => rfl⟩
  | cons w rest ih =>
    by_cases hw : w ∈ P
    · refine ⟨true, P, by simp only [find_cycle_loop, if_pos hw], ?_, fun h => by cases h⟩
      exact ⟨fun _ => ⟨w, List.mem_cons_self _ _, Or.inl hw⟩, fun _ => rfl⟩
    · obtain ⟨b1, P1, hc, hb1, hP1⟩ := hcall w hw
      cases b1 with
      | true =>
        refine ⟨true, P1, by simp only [find_cycle_loop, if_neg hw, hc], ?_, fun h => by cases h⟩
        exact ⟨fun _ => ⟨w, List.mem_cons_self _ _, Or.inr (hb1.mp rfl)⟩, fun _ => rfl⟩
      | false =>
        obtain ⟨b, P', hl, hb, hP'⟩ := ih
        have hP1' := hP1 rfl
        subst hP1'
        refine ⟨b, P', ?_, ?_, hP'⟩
        · simp only [find_cycle_loop, if_neg hw, hc, List.erase_cons_head]
          exact hl
        · rw [hb]
          constructor
          · rintro ⟨x, hx, h⟩
            exact ⟨x, List.mem_cons_of_mem _ hx, h⟩
          · rintro ⟨x, hx, h⟩
            rcases List.mem_cons.mp hx with rfl | hx
            · rcases h with h | h
              · exact absurd h hw
              · have := hb1.mpr h
                cases this
            · exact ⟨x, hx, h⟩

/-- The search returns, and it returns true exactly at a hit; when it
returns false the path is as before. -/
theorem FindCycle_spec (g : WaitsFor) :
    ∀ (fuel : Nat) (v : Int) (P : List Int), 1 ≤ fuel →
      (waits_for_lookup g v ≠ none → off_path g P + 2 ≤ fuel) →
      ∃ b P', FindCycle g fuel v P = some (b, P') ∧ (b = true ↔ Hit g P v) ∧
        (b = false → P' = P) := by
  intro fuel
  induction fuel with
  | zero => intro v P h; omega
  | succ f ih =>
    intro v P _ hf
    cases hl : waits_for_lookup g v with
    | none =>
      refine ⟨false, P, by simp only [FindCycle, hl], ?_, fun _ => rfl⟩
      rw [Hit.iff, hl]
      simp
    | some l =>
      have hf' := hf (by rw [hl]; simp)
      have hcall : ∀ w, w ∉ P → ∃ b P', FindCycle g f w (w :: P) = some (b, P') ∧
          (b = true ↔ Hit g (w :: P) w) ∧ (b = false → P' = w :: P) := by
        intro w hw
        refine ih w (w :: P) (by omega) (fun hk => ?_)
        have := off_path_cons_lt g P w hw hk
        omega
      obtain ⟨b, P', h1, h2, h3⟩ := find_cycle_loop_spec g (FindCycle g f) P hcall l
      refine ⟨b, P', by simp only [FindCycle, hl]; exact h1, ?_, h3⟩
      rw [h2, Hit.iff, hl]
      simp

theorem off_path_le_length (g : WaitsFor) (P : List Int) : off_path g P ≤ g.length :=
  List.length_filter_le _ _

/-- The loop over the sources returns, and finds a cycle exactly when the
search from one of the sources hits. -/
theorem has_cycle_loop_spec (g : WaitsFor) (fuel : Nat) (hf : g.length + 2 ≤ fuel) :
    ∀ srcs : List Int, ∃ r, has_cycle_loop g fuel srcs = some r ∧
      (r.isSome = true ↔ ∃ s ∈ srcs, Hit g [s] s) := by
  intro srcs
  induction srcs with
  | nil => exact ⟨none, rfl, by simp⟩
  | cons s rest ih =>
    obtain ⟨b, P', h1, h2, -⟩ := FindCycle_spec g fuel s [s] (by omega)
      (fun _ => by have := off_path_le_length g [s]; omega)
    cases b with
    | true =>
      refine ⟨some (P'.foldl (fun m id => max id m) INVALID_TXN_ID),
        by simp only [has_cycle_loop, h1], ?_⟩
      simp only [Option.isSome_some, true_iff]
      exact ⟨s, List.mem_cons_self _ _, h2.mp rfl⟩
    | false =>
      obtain ⟨r, hr, hiff⟩ := ih
      refine ⟨r, by simp only [has_cycle_loop, h1]; exact hr, ?_⟩
      rw [hiff]
      constructor
      · rintro ⟨x, hx, h⟩
        exact ⟨x, List.mem_cons_of_mem _ hx, h⟩
      · rintro ⟨x, hx, h⟩
        rcases List.mem_cons.mp hx with rfl | hx
        · have := h2.mpr h
          cases this
        · exact ⟨x, hx, h⟩

theorem mem_source_txns (g : WaitsFor) (a : Int) (h : waits_for_lookup g a ≠ none) :
    a ∈ source_txns g := by
  unfold source_txns
  rw [(List.perm_insertionSort _ _).mem_iff]
  unfold waits_for_lookup at h
  cases hf : g.find? (fun e => decide (e.1 = a)) with
  | none => rw [hf] at h; exact absurd rfl h
  | some e =>
    have h1 := List.mem_of_find?_eq_some hf
    have h2 := List.find?_some hf
    simp only [decide_eq_true_eq] at h2
    exact List.mem_map.mpr ⟨e, h1, h2⟩

theorem lookup_of_walk {g : WaitsFor} {a b : Int} (h : Relation.TransGen (Edge g) a b) :
    waits_for_lookup g a ≠ none := by
  induction h using Relation.TransGen.head_induction_on with
  | base he => obtain ⟨l, hl, -⟩ := he; rw [hl]; simp
  | ih he _ _ => obtain ⟨l, hl, -⟩ := he; rw [hl]; simp

/-- C24: on every finite wait-for graph `HasCycle` returns (a recursion
depth of the number of entries plus two, or more, is never used up), and it
returns true exactly when the graph has a directed cycle. -/
theorem HasCycle_iff_directed_cycle (g : WaitsFor) (k : Nat) :
    ∃ r, HasCycle g (g.length + 2 + k) = some r ∧ (r.isSome = true ↔ HasDirectedCycle g) := by
  obtain ⟨r, hr, hiff⟩ := has_cycle_loop_spec g (g.length + 2 + k) (by omega) (source_txns g)
  refine ⟨r, hr, hiff.trans ⟨?_, ?_⟩⟩
  · rintro ⟨s, -, hs⟩
    rcases hs.walk with hc | ⟨p, hp, hw⟩
    · exact hc
    · rw [List.mem_singleton] at hp
      subst hp
      exact ⟨p, hw⟩
  · rintro ⟨a, ha⟩
    exact ⟨a, mem_source_txns g a (lookup_of_walk ha), Hit.of_trans_gen ha [a] (List.mem_singleton_self a)⟩

theorem waits_tail_from_3 (x : Int) (h : Relation.TransGen (Edge waits_tail) 3 x) :
    x = 1 ∨ x = 2 := by
  induction h with
  | single he =>
    obtain ⟨l, hl, hx⟩ := he
    have : l = [1] := by
      have h3 : waits_for_lookup waits_tail 3 = some [1] := by decide
      rw [h3] at hl; exact (Option.some.inj hl).symm
    subst this
    left; simpa using hx
  | tail _ he ih =>
    obtain ⟨l, hl, hx⟩ := he
    rcases ih with rfl | rfl
    · have : l = [2] := by
        have h3 : waits_for_lookup waits_tail 1 = some [2] := by decide
        rw [h3] at hl; exact (Option.some.inj hl).symm
      subst this
      right; simpa using hx
    · have : l = [1] := by
        have h3 : waits_for_lookup waits_tail 2 = some [1] := by decide
        rw [h3] at hl; exact (Option.some.inj hl).symm
      subst this
      left; simpa using hx

/-- C25: in the graph 0 → 3 → 1 ⇄ 2 `HasCycle` returns true and stores
transaction 3, which lies on no cycle: the largest id is taken over the
whole path of the search from transaction 0, not over the cycle of 1 and 2.
For two transactions that wait for each other the larger id is stored. -/
theorem has_cycle_victim_off_cycle :
    HasCycle waits_tail 6 = some (some 3) ∧ ¬ OnCycle waits_tail 3 ∧
      OnCycle waits_tail 1 ∧ OnCycle waits_tail 2 ∧
      HasCycle waits_pair 4 = some (some 2) := by
  have e12 : Edge waits_tail 1 2 := ⟨[2], by decide, by simp⟩
  have e21 : Edge waits_tail 2 1 := ⟨[1], by decide, by simp⟩
  refine ⟨by decide, fun h => ?_, ?_, ?_, by decide⟩
  · rcases waits_tail_from_3 3 h with h | h <;> omega
  · exact Relation.TransGen.head e12 (Relation.TransGen.single e21)
  · exact Relation.TransGen.head e21 (Relation.TransGen.single e12)

end LockManager

end RMDB
/-! ## Recovery and roll-back at concrete runs -/

namespace RMDB

/-- Claim C9, evaluated: on a new table, recovery over the log "BEGIN 1,
INSERT [1] at (1, 0), COMMIT 1" returns and leaves the record at (1, 0); a
second recovery over the same log from that state does not return: the
assertion of `insert_record(rid, buf)` that the slot is free fails in
`redo`. -/
theorem recovery_second_run_fails :
    RecoveryManager.recover (RmFileHandle.create 1 8 1) (IxIndexHandle.empty 4)
        single_insert_log = Except.ok single_insert_recovered ∧
    single_insert_recovered.1.live_records 2 = some [(⟨1, 0⟩, [1])] ∧
    RecoveryManager.recover single_insert_recovered.1 single_insert_recovered.2
        single_insert_log = Except.error Fault.crashed := by
  refine ⟨rfl, rfl, rfl⟩

/-- Claim C4, evaluated: for the log of the spec's scenario the table holds
exactly the records 1, 2, 3 after recovery; for the log of `order3_run`,
in which transaction 1 is committed and transaction 2 is not, `redo`
returns and `undo` does not return: the second re-insertion into the index
of order 3 reads the entry at position -1 of an inner node. -/
theorem recovery_undo_fails_order3 :
    ((RecoveryManager.recover (RmFileHandle.create 1 8 1) (IxIndexHandle.empty 4)
        crash_scenario_log).toOption.bind (fun s => s.1.live_records 4)) =
      some [(⟨1, 0⟩, [1]), (⟨1, 1⟩, [2]), (⟨1, 2⟩, [3])] ∧
    order3_run = Except.ok order3_state ∧
    (RecoveryManager.new (RmFileHandle.create 1 16 2) (IxIndexHandle.empty 3)).redo
        order3_state.1.log_mgr.log = Except.ok order3_redone ∧
    order3_redone.active_txn_list_ = [2] ∧
    order3_redone.undo order3_state.1.log_mgr.log = Except.error Fault.crashed := by
  refine ⟨rfl, rfl, rfl, rfl, rfl⟩

/-- Claim C2, evaluated: after `order3_run` the roll-back of transaction 2
with `TransactionManager::abort` does not return: the second re-insertion
into the index of order 3 reads the entry at position -1 of an inner
node. -/
theorem abort_fails_order3 :
    order3_run = Except.ok order3_state ∧
    order3_state.2.index_write_set_.map (fun w => w.key_) = [22, 23, 29] ∧
    TransactionManager.abort order3_state.1 order3_state.2 = Except.error Fault.crashed := by
  refine ⟨rfl, rfl, rfl⟩

end RMDB

/-! ## Log records as bytes: the round trip -/

namespace RMDB

namespace LogCodec

theorem length_le_bytes : ∀ (k n : Nat), (le_bytes k n).length = k
  | 0, _ => rfl
  | k + 1, n => by simp [le_bytes, length_le_bytes k]

theorem le_value_le_bytes : ∀ (k n : Nat), n < 256 ^ k → le_value (le_bytes k n) = n
  | 0, n, h => by
    simp only [pow_zero, Nat.lt_one_iff] at h
    subst h
    rfl
  | k + 1, n, h => by
    have h1 : n / 256 < 256 ^ k := by
      rw [Nat.div_lt_iff_lt_mul (by norm_num)]
      rw [pow_succ] at h
      exact h
    simp only [le_bytes, le_value, le_value_le_bytes k _ h1]
    omega

theorem length_int32_bytes (x : Int) : (int32_bytes x).length = 4 := length_le_bytes _ _

theorem length_uint32_bytes (n : Nat) : (uint32_bytes n).length = 4 := length_le_bytes _ _

theorem length_size_bytes (n : Nat) : (size_bytes n).length = 8 := length_le_bytes _ _

theorem length_rid_bytes (rid : Rid) : (rid_bytes rid).length = 8 := by
  simp [rid_bytes, length_int32_bytes]

theorem int32_value_bytes (x : Int) (h : IsInt32 x) : int32_value (int32_bytes x) = x := by
  obtain ⟨h1, h2⟩ := h
  unfold int32_value int32_bytes
  have hm : (x % 4294967296).toNat < 256 ^ 4 := by
    have : x % 4294967296 < 4294967296 := Int.emod_lt_of_pos _ (by norm_num)
    have h0 : 0 ≤ x % 4294967296 := Int.emod_nonneg _ (by norm_num)
    have : (256 : Nat) ^ 4 = 4294967296 := by norm_num
    omega
  rw [le_value_le_bytes 4 _ hm]
  have h0 : 0 ≤ x % 4294967296 := Int.emod_nonneg _ (by norm_num)
  have hc : (((x % 4294967296).toNat : Nat) : Int) = x % 4294967296 := Int.toNat_of_nonneg h0
  by_cases hx : 0 ≤ x
  · have : x % 4294967296 = x := Int.emod_eq_of_lt hx (by omega)
    rw [if_pos (by omega)]
    omega
  · have : x % 4294967296 = x + 4294967296 := by omega
    rw [if_neg (by omega)]
    omega

theorem le_value_uint32_bytes (n : Nat) (h : n < 4294967296) :
    le_value (uint32_bytes n) = n := by
  unfold uint32_bytes
  rw [Nat.mod_eq_of_lt h]
  exact le_value_le_bytes 4 n (by norm_num; exact h)

theorem le_value_size_bytes (n : Nat) (h : n < 18446744073709551616) :
    le_value (size_bytes n) = n := by
  unfold size_bytes
  rw [Nat.mod_eq_of_lt h]
  exact le_value_le_bytes 8 n (by norm_num; exact h)

theorem rid_value_bytes (rid : Rid) (h1 : IsInt32 rid.page_no) (h2 : IsInt32 rid.slot_no) :
    rid_value (rid_bytes rid) = rid := by
  unfold rid_value rid_bytes
  have e1 : (int32_bytes rid.page_no ++ int32_bytes rid.slot_no).take 4 =
      int32_bytes rid.page_no := by
    rw [List.take_append_of_le_length (by rw [length_int32_bytes])]
    exact List.take_of_length_le (by rw [length_int32_bytes])
  have e2 : (int32_bytes rid.page_no ++ int32_bytes rid.slot_no).drop 4 =
      int32_bytes rid.slot_no := by
    have := List.drop_left (int32_bytes rid.page_no) (int32_bytes rid.slot_no)
    rw [length_int32_bytes] at this
    exact this
  rw [e1, e2, int32_value_bytes _ h1, int32_value_bytes _ h2]

theorem length_new_buffer (n : Nat) (junk : Nat → Nat) : (new_buffer n junk).length = n := by
  simp [new_buffer]

/-- A write right behind the part `p` of the buffer that has been
written. -/
theorem memcpy_at_after (p dest src : Bytes) (off : Nat) (hoff : off = p.length)
    (hle : off + src.length ≤ dest.length) (hi : off ≤ 2147483647) :
    memcpy_at (p ++ dest.drop p.length) off src =
      some ((p ++ src) ++ dest.drop (p ++ src).length) := by
  subst hoff
  unfold memcpy_at
  have hlen : (p ++ dest.drop p.length).length = dest.length := by
    rw [List.length_append, List.length_drop]
    omega
  rw [if_pos ⟨hi, by rw [hlen]; exact hle⟩]
  congr 1
  rw [List.take_left, List.drop_append, List.drop_drop, List.length_append]

/-- A read of the run `f` that lies behind `p`. -/
theorem read_at_mid (p f rest : Bytes) (off n : Nat) (hoff : off = p.length)
    (hn : n = f.length) (hi : off ≤ 2147483647) :
    read_at (p ++ f ++ rest) off n = some f := by
  subst hoff hn
  unfold read_at
  rw [if_pos ⟨hi, by simp only [List.length_append]; omega⟩]
  congr 1
  rw [List.append_assoc, List.drop_left, List.take_left]

theorem length_header_bytes (r : LogRecord) : (header_bytes r).length = 20 := by
  simp [header_bytes, length_int32_bytes, length_uint32_bytes]

theorem length_tuple_payload (r : LogRecord) :
    (tuple_payload r).length = 4 + r.value_.length + 8 + 8 + r.table_name_.length := by
  simp only [tuple_payload, List.length_append, length_int32_bytes, length_rid_bytes,
    length_size_bytes]

theorem length_update_payload (r : LogRecord) :
    (update_payload r).length =
      4 + r.old_value_.length + 4 + r.new_value_.length + 8 + 8 + r.table_name_.length := by
  simp only [update_payload, List.length_append, length_int32_bytes, length_rid_bytes,
    length_size_bytes]

theorem length_index_payload (r : LogRecord) :
    (index_payload r).length = 8 + 8 + r.table_name_.length + 8 + r.key_.length := by
  simp only [index_payload, List.length_append, length_int32_bytes, length_rid_bytes,
    length_size_bytes]

/-- The header routine writes the header of the specification into the
first 20 bytes. -/
theorem serialize_header (r : LogRecord) (dest : Bytes) (h : 20 ≤ dest.length) :
    r.serialize dest = some (header_bytes r ++ dest.drop (header_bytes r).length) := by
  have e1 : memcpy_at dest OFFSET_LOG_TYPE (int32_bytes r.log_type_) =
      some (([] ++ int32_bytes r.log_type_) ++
        dest.drop ([] ++ int32_bytes r.log_type_).length) :=
    memcpy_at_after [] dest _ 0 rfl (by rw [length_int32_bytes]; omega) (by omega)
  have e2 := memcpy_at_after ([] ++ int32_bytes r.log_type_) dest (int32_bytes r.lsn_)
    OFFSET_LSN (by simp [length_int32_bytes, OFFSET_LSN])
    (by rw [length_int32_bytes]; unfold OFFSET_LSN; omega) (by unfold OFFSET_LSN; omega)
  have e3 := memcpy_at_after (([] ++ int32_bytes r.log_type_) ++ int32_bytes r.lsn_) dest
    (uint32_bytes r.log_tot_len_) OFFSET_LOG_TOT_LEN
    (by simp [length_int32_bytes, OFFSET_LOG_TOT_LEN])
    (by rw [length_uint32_bytes]; unfold OFFSET_LOG_TOT_LEN; omega)
    (by unfold OFFSET_LOG_TOT_LEN; omega)
  have e4 := memcpy_at_after ((([] ++ int32_bytes r.log_type_) ++ int32_bytes r.lsn_) ++
      uint32_bytes r.log_tot_len_) dest (int32_bytes r.log_tid_) OFFSET_LOG_TID
    (by simp [length_int32_bytes, length_uint32_bytes, OFFSET_LOG_TID])
    (by rw [length_int32_bytes]; unfold OFFSET_LOG_TID; omega)
    (by unfold OFFSET_LOG_TID; omega)
  have e5 := memcpy_at_after (((([] ++ int32_bytes r.log_type_) ++ int32_bytes r.lsn_) ++
      uint32_bytes r.log_tot_len_) ++ int32_bytes r.log_tid_) dest (int32_bytes r.prev_lsn_)
    OFFSET_PREV_LSN
    (by simp [length_int32_bytes, length_uint32_bytes, OFFSET_PREV_LSN])
    (by rw [length_int32_bytes]; unfold OFFSET_PREV_LSN; omega)
    (by unfold OFFSET_PREV_LSN; omega)
  unfold LogRecord.serialize
  rw [e1, Option.some_bind, e2, Option.some_bind, e3, Option.some_bind, e4, Option.some_bind, e5]
  simp only [List.nil_append, header_bytes]

/-- The payload routine of INSERT and DELETE records writes the payload of
the specification behind the header. -/
theorem serialize_i_and_d_layout (r : LogRecord) (p dest : Bytes) (hp : p.length = 20)
    (h : 20 + (tuple_payload r).length ≤ dest.length)
    (hi : 20 + (tuple_payload r).length ≤ 2147483647) :
    r.serialize_i_and_d (p ++ dest.drop p.length) =
      some ((p ++ tuple_payload r) ++ dest.drop (p ++ tuple_payload r).length) := by
  rw [length_tuple_payload] at h hi
  have e1 := memcpy_at_after p dest (int32_bytes r.value_.length) OFFSET_LOG_DATA
    (by rw [hp]; rfl) (by rw [length_int32_bytes]; unfold OFFSET_LOG_DATA; omega)
    (by unfold OFFSET_LOG_DATA; omega)
  have e2 := memcpy_at_after (p ++ int32_bytes r.value_.length) dest r.value_
    (OFFSET_LOG_DATA + 4)
    (by simp only [List.length_append, length_int32_bytes, hp, OFFSET_LOG_DATA])
    (by unfold OFFSET_LOG_DATA; omega) (by unfold OFFSET_LOG_DATA; omega)
  have e3 := memcpy_at_after (p ++ int32_bytes r.value_.length ++ r.value_) dest
    (rid_bytes r.rid_) (OFFSET_LOG_DATA + 4 + r.value_.length)
    (by simp only [List.length_append, length_int32_bytes, hp, OFFSET_LOG_DATA])
    (by rw [length_rid_bytes]; unfold OFFSET_LOG_DATA; omega)
    (by unfold OFFSET_LOG_DATA; omega)
  have e4 := memcpy_at_after (p ++ int32_bytes r.value_.length ++ r.value_ ++ rid_bytes r.rid_)
    dest (size_bytes r.table_name_.length) (OFFSET_LOG_DATA + 4 + r.value_.length + 8)
    (by simp only [List.length_append, length_int32_bytes, length_rid_bytes, hp, OFFSET_LOG_DATA])
    (by rw [length_size_bytes]; unfold OFFSET_LOG_DATA; omega)
    (by unfold OFFSET_LOG_DATA; omega)
  have e5 := memcpy_at_after (p ++ int32_bytes r.value_.length ++ r.value_ ++
      rid_bytes r.rid_ ++ size_bytes r.table_name_.length) dest r.table_name_
    (OFFSET_LOG_DATA + 4 + r.value_.length + 8 + 8)
    (by simp only [List.length_append, length_int32_bytes, length_rid_bytes, length_size_bytes, hp, OFFSET_LOG_DATA])
    (by unfold OFFSET_LOG_DATA; omega) (by unfold OFFSET_LOG_DATA; omega)
  unfold LogRecord.serialize_i_and_d
  rw [e1, Option.some_bind, e2, Option.some_bind, e3, Option.some_bind, e4, Option.some_bind, e5]
  simp only [tuple_payload, List.append_assoc]

/-- The payload routine of UPDATE records writes the payload of the
specification behind the header. -/
theorem serialize_upd_layout (r : LogRecord) (p dest : Bytes) (hp : p.length = 20)
    (h : 20 + (update_payload r).length ≤ dest.length)
    (hi : 20 + (update_payload r).length ≤ 2147483647) :
    r.serialize_upd (p ++ dest.drop p.length) =
      some ((p ++ update_payload r) ++ dest.drop (p ++ update_payload r).length) := by
  rw [length_update_payload] at h hi
  have e1 := memcpy_at_after p dest (int32_bytes r.old_value_.length) OFFSET_LOG_DATA
    (by rw [hp]; rfl) (by rw [length_int32_bytes]; unfold OFFSET_LOG_DATA; omega)
    (by unfold OFFSET_LOG_DATA; omega)
  have e2 := memcpy_at_after (p ++ int32_bytes r.old_value_.length) dest r.old_value_
    (OFFSET_LOG_DATA + 4)
    (by simp only [List.length_append, length_int32_bytes, hp, OFFSET_LOG_DATA])
    (by unfold OFFSET_LOG_DATA; omega) (by unfold OFFSET_LOG_DATA; omega)
  have e3 := memcpy_at_after (p ++ int32_bytes r.old_value_.length ++ r.old_value_) dest
    (int32_bytes r.new_value_.length) (OFFSET_LOG_DATA + 4 + r.old_value_.length)
    (by simp only [List.length_append, length_int32_bytes, hp, OFFSET_LOG_DATA])
    (by rw [length_int32_bytes]; unfold OFFSET_LOG_DATA; omega)
    (by unfold OFFSET_LOG_DATA; omega)
  have e4 := memcpy_at_after (p ++ int32_bytes r.old_value_.length ++ r.old_value_ ++
      int32_bytes r.new_value_.length) dest r.new_value_
    (OFFSET_LOG_DATA + 4 + r.old_value_.length + 4)
    (by simp only [List.length_append, length_int32_bytes, hp, OFFSET_LOG_DATA])
    (by unfold OFFSET_LOG_DATA; omega) (by unfold OFFSET_LOG_DATA; omega)
  have e5 := memcpy_at_after (p ++ int32_bytes r.old_value_.length ++ r.old_value_ ++
      int32_bytes r.new_value_.length ++ r.new_value_) dest (rid_bytes r.rid_)
    (OFFSET_LOG_DATA + 4 + r.old_value_.length + 4 + r.new_value_.length)
    (by simp only [List.length_append, length_int32_bytes, hp, OFFSET_LOG_DATA])
    (by rw [length_rid_bytes]; unfold OFFSET_LOG_DATA; omega)
    (by unfold OFFSET_LOG_DATA; omega)
  have e6 := memcpy_at_after (p ++ int32_bytes r.old_value_.length ++ r.old_value_ ++
      int32_bytes r.new_value_.length ++ r.new_value_ ++ rid_bytes r.rid_) dest
    (size_bytes r.table_name_.length)
    (OFFSET_LOG_DATA + 4 + r.old_value_.length + 4 + r.new_value_.length + 8)
    (by simp only [List.length_append, length_int32_bytes, length_rid_bytes, hp, OFFSET_LOG_DATA])
    (by rw [length_size_bytes]; unfold OFFSET_LOG_DATA; omega)
    (by unfold OFFSET_LOG_DATA; omega)
  have e7 := memcpy_at_after (p ++ int32_bytes r.old_value_.length ++ r.old_value_ ++
      int32_bytes r.new_value_.length ++ r.new_value_ ++ rid_bytes r.rid_ ++
      size_bytes r.table_name_.length) dest r.table_name_
    (OFFSET_LOG_DATA + 4 + r.old_value_.length + 4 + r.new_value_.length + 8 + 8)
    (by simp only [List.length_append, length_int32_bytes, length_rid_bytes, length_size_bytes, hp, OFFSET_LOG_DATA])
    (by unfold OFFSET_LOG_DATA; omega) (by unfold OFFSET_LOG_DATA; omega)
  unfold LogRecord.serialize_upd
  rw [e1, Option.some_bind, e2, Option.some_bind, e3, Option.some_bind, e4, Option.some_bind, e5,
    Option.some_bind, e6, Option.some_bind, e7]
  simp only [update_payload, List.append_assoc]

/-- The payload routine of INSERT_ENTRY and DELETE_ENTRY records writes the
payload of the specification behind the header. -/
theorem serialize_index_layout (r : LogRecord) (p dest : Bytes) (hp : p.length = 20)
    (h : 20 + (index_payload r).length ≤ dest.length)
    (hi : 20 + (index_payload r).length ≤ 2147483647) :
    r.serialize_index (p ++ dest.drop p.length) =
      some ((p ++ index_payload r) ++ dest.drop (p ++ index_payload r).length) := by
  rw [length_index_payload] at h hi
  have e1 := memcpy_at_after p dest (rid_bytes r.rid_) OFFSET_LOG_DATA
    (by rw [hp]; rfl) (by rw [length_rid_bytes]; unfold OFFSET_LOG_DATA; omega)
    (by unfold OFFSET_LOG_DATA; omega)
  have e2 := memcpy_at_after (p ++ rid_bytes r.rid_) dest (size_bytes r.table_name_.length)
    (OFFSET_LOG_DATA + 8)
    (by simp only [List.length_append, length_rid_bytes, hp, OFFSET_LOG_DATA])
    (by rw [length_size_bytes]; unfold OFFSET_LOG_DATA; omega)
    (by unfold OFFSET_LOG_DATA; omega)
  have e3 := memcpy_at_after (p ++ rid_bytes r.rid_ ++ size_bytes r.table_name_.length) dest
    r.table_name_ (OFFSET_LOG_DATA + 8 + 8)
    (by simp only [List.length_append, length_rid_bytes, length_size_bytes, hp, OFFSET_LOG_DATA])
    (by unfold OFFSET_LOG_DATA; omega) (by unfold OFFSET_LOG_DATA; omega)
  have e4 := memcpy_at_after (p ++ rid_bytes r.rid_ ++ size_bytes r.table_name_.length ++
      r.table_name_) dest (size_bytes r.key_.length)
    (OFFSET_LOG_DATA + 8 + 8 + r.table_name_.length)
    (by simp only [List.length_append, length_rid_bytes, length_size_bytes, hp, OFFSET_LOG_DATA])
    (by rw [length_size_bytes]; unfold OFFSET_LOG_DATA; omega)
    (by unfold OFFSET_LOG_DATA; omega)
  have e5 := memcpy_at_after (p ++ rid_bytes r.rid_ ++ size_bytes r.table_name_.length ++
      r.table_name_ ++ size_bytes r.key_.length) dest r.key_
    (OFFSET_LOG_DATA + 8 + 8 + r.table_name_.length + 8)
    (by simp only [List.length_append, length_rid_bytes, length_size_bytes, hp, OFFSET_LOG_DATA])
    (by unfold OFFSET_LOG_DATA; omega) (by unfold OFFSET_LOG_DATA; omega)
  unfold LogRecord.serialize_index
  rw [e1, Option.some_bind, e2, Option.some_bind, e3, Option.some_bind, e4, Option.some_bind, e5]
  simp only [index_payload, List.append_assoc]

/-- A read of the run `f` from a buffer that is `p`, `f` and a rest. -/
theorem read_at_of_eq (B p f rest : Bytes) (hB : B = p ++ f ++ rest) (off n : Nat)
    (hoff : off = p.length) (hn : n = f.length) (hi : off ≤ 2147483647) :
    read_at B off n = some f := by
  rw [hB]
  exact read_at_mid p f rest off n hoff hn hi

/-- The header routine reads the header back. -/
theorem deserialize_header (r r0 : LogRecord) (P : Bytes) (h1 : IsInt32 r.log_type_)
    (h2 : IsInt32 r.lsn_) (h3 : r.log_tot_len_ < 4294967296) (h4 : IsInt32 r.log_tid_)
    (h5 : IsInt32 r.prev_lsn_) :
    r0.deserialize (header_bytes r ++ P) =
      some { r0 with log_type_ := r.log_type_, lsn_ := r.lsn_, log_tot_len_ := r.log_tot_len_,
                     log_tid_ := r.log_tid_, prev_lsn_ := r.prev_lsn_ } := by
  have e1 := read_at_of_eq (header_bytes r ++ P) [] (int32_bytes r.log_type_)
    (int32_bytes r.lsn_ ++ uint32_bytes r.log_tot_len_ ++ int32_bytes r.log_tid_ ++
      int32_bytes r.prev_lsn_ ++ P)
    (by simp only [header_bytes, List.append_assoc, List.nil_append])
    OFFSET_LOG_TYPE 4 rfl (length_int32_bytes _).symm (by unfold OFFSET_LOG_TYPE; omega)
  have e2 := read_at_of_eq (header_bytes r ++ P) (int32_bytes r.log_type_) (int32_bytes r.lsn_)
    (uint32_bytes r.log_tot_len_ ++ int32_bytes r.log_tid_ ++ int32_bytes r.prev_lsn_ ++ P)
    (by simp only [header_bytes, List.append_assoc])
    OFFSET_LSN 4 (length_int32_bytes _).symm (length_int32_bytes _).symm
    (by unfold OFFSET_LSN; omega)
  have e3 := read_at_of_eq (header_bytes r ++ P) (int32_bytes r.log_type_ ++ int32_bytes r.lsn_)
    (uint32_bytes r.log_tot_len_) (int32_bytes r.log_tid_ ++ int32_bytes r.prev_lsn_ ++ P)
    (by simp only [header_bytes, List.append_assoc])
    OFFSET_LOG_TOT_LEN 4 (by simp only [List.length_append, length_int32_bytes]; rfl)
    (length_uint32_bytes _).symm (by unfold OFFSET_LOG_TOT_LEN; omega)
  have e4 := read_at_of_eq (header_bytes r ++ P)
    (int32_bytes r.log_type_ ++ int32_bytes r.lsn_ ++ uint32_bytes r.log_tot_len_)
    (int32_bytes r.log_tid_) (int32_bytes r.prev_lsn_ ++ P)
    (by simp only [header_bytes, List.append_assoc])
    OFFSET_LOG_TID 4
    (by simp only [List.length_append, length_int32_bytes, length_uint32_bytes]; rfl)
    (length_int32_bytes _).symm (by unfold OFFSET_LOG_TID; omega)
  have e5 := read_at_of_eq (header_bytes r ++ P)
    (int32_bytes r.log_type_ ++ int32_bytes r.lsn_ ++ uint32_bytes r.log_tot_len_ ++
      int32_bytes r.log_tid_)
    (int32_bytes r.prev_lsn_) P
    (by simp only [header_bytes, List.append_assoc])
    OFFSET_PREV_LSN 4
    (by simp only [List.length_append, length_int32_bytes, length_uint32_bytes]; rfl)
    (length_int32_bytes _).symm (by unfold OFFSET_PREV_LSN; omega)
  unfold LogRecord.deserialize
  rw [e1, Option.some_bind, e2, Option.some_bind, e3, Option.some_bind, e4, Option.some_bind, e5,
    Option.some_bind, int32_value_bytes _ h1, int32_value_bytes _ h2,
    le_value_uint32_bytes _ h3, int32_value_bytes _ h4, int32_value_bytes _ h5]

/-- The value read by `Deserialize` at a size and a run of that size. -/
theorem Deserialize_at (B p v rest : Bytes)
    (hB : B = p ++ int32_bytes v.length ++ v ++ rest) (off : Nat) (hoff : off = p.length)
    (hv : off + 4 + v.length ≤ 2147483647) :
    LogRecord.Deserialize B off = some v := by
  have hvi : IsInt32 (v.length : Int) := ⟨by omega, by omega⟩
  have e1 := read_at_of_eq B p (int32_bytes v.length) (v ++ rest)
    (by rw [hB]; simp only [List.append_assoc]) off 4 hoff (length_int32_bytes _).symm
    (by omega)
  have e2 := read_at_of_eq B (p ++ int32_bytes v.length) v rest hB (off + 4) v.length
    (by simp only [List.length_append, length_int32_bytes, hoff]) rfl (by omega)
  unfold LogRecord.Deserialize
  rw [e1, Option.some_bind, int32_value_bytes _ hvi, if_neg (by omega), Int.toNat_ofNat, e2]

/-- The payload routine of INSERT and DELETE records reads the payload
back. -/
theorem deserialize_i_and_d_layout (r r0 : LogRecord) (H : Bytes) (hH : H.length = 20)
    (h1 : IsInt32 r.rid_.page_no) (h2 : IsInt32 r.rid_.slot_no)
    (hi : 20 + (tuple_payload r).length ≤ 2147483647) :
    r0.deserialize_i_and_d (H ++ tuple_payload r) =
      some { r0 with value_ := r.value_, rid_ := r.rid_, table_name_ := r.table_name_ } := by
  rw [length_tuple_payload] at hi
  have e1 := Deserialize_at (H ++ tuple_payload r) H r.value_
    (rid_bytes r.rid_ ++ size_bytes r.table_name_.length ++ r.table_name_)
    (by simp only [tuple_payload, List.append_assoc]) OFFSET_LOG_DATA
    (by rw [hH]; rfl) (by unfold OFFSET_LOG_DATA; omega)
  have e2 := read_at_of_eq (H ++ tuple_payload r) (H ++ int32_bytes r.value_.length ++ r.value_)
    (rid_bytes r.rid_) (size_bytes r.table_name_.length ++ r.table_name_)
    (by simp only [tuple_payload, List.append_assoc])
    (OFFSET_LOG_DATA + r.value_.length + 4) 8
    (by simp only [List.length_append, length_int32_bytes, hH, OFFSET_LOG_DATA]; omega)
    (length_rid_bytes _).symm (by unfold OFFSET_LOG_DATA; omega)
  have e3 := read_at_of_eq (H ++ tuple_payload r)
    (H ++ int32_bytes r.value_.length ++ r.value_ ++ rid_bytes r.rid_)
    (size_bytes r.table_name_.length) r.table_name_
    (by simp only [tuple_payload, List.append_assoc])
    (OFFSET_LOG_DATA + r.value_.length + 4 + 8) 8
    (by simp only [List.length_append, length_int32_bytes, length_rid_bytes, hH,
      OFFSET_LOG_DATA]; omega)
    (length_size_bytes _).symm (by unfold OFFSET_LOG_DATA; omega)
  have e4 := read_at_of_eq (H ++ tuple_payload r)
    (H ++ int32_bytes r.value_.length ++ r.value_ ++ rid_bytes r.rid_ ++
      size_bytes r.table_name_.length)
    r.table_name_ []
    (by simp only [tuple_payload, List.append_assoc, List.append_nil])
    (OFFSET_LOG_DATA + r.value_.length + 4 + 8 + 8) r.table_name_.length
    (by simp only [List.length_append, length_int32_bytes, length_rid_bytes, length_size_bytes,
      hH, OFFSET_LOG_DATA]; omega)
    rfl (by unfold OFFSET_LOG_DATA; omega)
  unfold LogRecord.deserialize_i_and_d
  rw [e1, Option.some_bind, e2, Option.some_bind, e3, Option.some_bind,
    le_value_size_bytes _ (by omega), e4, Option.some_bind, rid_value_bytes _ h1 h2]

/-- The payload routine of UPDATE records reads the payload back. -/
theorem deserialize_upd_layout (r r0 : LogRecord) (H : Bytes) (hH : H.length = 20)
    (h1 : IsInt32 r.rid_.page_no) (h2 : IsInt32 r.rid_.slot_no)
    (hi : 20 + (update_payload r).length ≤ 2147483647) :
    r0.deserialize_upd (H ++ update_payload r) =
      some { r0 with old_value_ := r.old_value_, new_value_ := r.new_value_, rid_ := r.rid_,
                     table_name_ := r.table_name_ } := by
  rw [length_update_payload] at hi
  have e1 := Deserialize_at (H ++ update_payload r) H r.old_value_
    (int32_bytes r.new_value_.length ++ r.new_value_ ++ rid_bytes r.rid_ ++
      size_bytes r.table_name_.length ++ r.table_name_)
    (by simp only [update_payload, List.append_assoc]) OFFSET_LOG_DATA
    (by rw [hH]; rfl) (by unfold OFFSET_LOG_DATA; omega)
  have e2 := Deserialize_at (H ++ update_payload r)
    (H ++ int32_bytes r.old_value_.length ++ r.old_value_) r.new_value_
    (rid_bytes r.rid_ ++ size_bytes r.table_name_.length ++ r.table_name_)
    (by simp only [update_payload, List.append_assoc])
    (OFFSET_LOG_DATA + r.old_value_.length + 4)
    (by simp only [List.length_append, length_int32_bytes, hH, OFFSET_LOG_DATA]; omega)
    (by unfold OFFSET_LOG_DATA; omega)
  have e3 := read_at_of_eq (H ++ update_payload r)
    (H ++ int32_bytes r.old_value_.length ++ r.old_value_ ++
      int32_bytes r.new_value_.length ++ r.new_value_)
    (rid_bytes r.rid_) (size_bytes r.table_name_.length ++ r.table_name_)
    (by simp only [update_payload, List.append_assoc])
    (OFFSET_LOG_DATA + r.old_value_.length + 4 + (r.new_value_.length + 4)) 8
    (by simp only [List.length_append, length_int32_bytes, hH, OFFSET_LOG_DATA]; omega)
    (length_rid_bytes _).symm (by unfold OFFSET_LOG_DATA; omega)
  have e4 := read_at_of_eq (H ++ update_payload r)
    (H ++ int32_bytes r.old_value_.length ++ r.old_value_ ++
      int32_bytes r.new_value_.length ++ r.new_value_ ++ rid_bytes r.rid_)
    (size_bytes r.table_name_.length) r.table_name_
    (by simp only [update_payload, List.append_assoc])
    (OFFSET_LOG_DATA + r.old_value_.length + 4 + (r.new_value_.length + 4) + 8) 8
    (by simp only [List.length_append, length_int32_bytes, length_rid_bytes, hH,
      OFFSET_LOG_DATA]; omega)
    (length_size_bytes _).symm (by unfold OFFSET_LOG_DATA; omega)
  have e5 := read_at_of_eq (H ++ update_payload r)
    (H ++ int32_bytes r.old_value_.length ++ r.old_value_ ++
      int32_bytes r.new_value_.length ++ r.new_value_ ++ rid_bytes r.rid_ ++
      size_bytes r.table_name_.length)
    r.table_name_ []
    (by simp only [update_payload, List.append_assoc, List.append_nil])
    (OFFSET_LOG_DATA + r.old_value_.length + 4 + (r.new_value_.length + 4) + 8 + 8)
    r.table_name_.length
    (by simp only [List.length_append, length_int32_bytes, length_rid_bytes, length_size_bytes,
      hH, OFFSET_LOG_DATA]; omega)
    rfl (by unfold OFFSET_LOG_DATA; omega)
  unfold LogRecord.deserialize_upd
  rw [e1, Option.some_bind, e2, Option.some_bind, e3, Option.some_bind, e4, Option.some_bind,
    le_value_size_bytes _ (by omega), e5, Option.some_bind, rid_value_bytes _ h1 h2]

/-- The payload routine of INSERT_ENTRY and DELETE_ENTRY records reads the
payload back. -/
theorem deserialize_index_layout (r r0 : LogRecord) (H : Bytes) (hH : H.length = 20)
    (h1 : IsInt32 r.rid_.page_no) (h2 : IsInt32 r.rid_.slot_no)
    (hi : 20 + (index_payload r).length ≤ 2147483647) :
    r0.deserialize_index (H ++ index_payload r) =
      some { r0 with rid_ := r.rid_, table_name_ := r.table_name_, key_ := r.key_ } := by
  rw [length_index_payload] at hi
  have e1 := read_at_of_eq (H ++ index_payload r) H (rid_bytes r.rid_)
    (size_bytes r.table_name_.length ++ r.table_name_ ++ size_bytes r.key_.length ++ r.key_)
    (by simp only [index_payload, List.append_assoc])
    OFFSET_LOG_DATA 8 (by rw [hH]; rfl) (length_rid_bytes _).symm
    (by unfold OFFSET_LOG_DATA; omega)
  have e2 := read_at_of_eq (H ++ index_payload r) (H ++ rid_bytes r.rid_)
    (size_bytes r.table_name_.length) (r.table_name_ ++ size_bytes r.key_.length ++ r.key_)
    (by simp only [index_payload, List.append_assoc])
    (OFFSET_LOG_DATA + 8) 8
    (by simp only [List.length_append, length_rid_bytes, hH, OFFSET_LOG_DATA])
    (length_size_bytes _).symm (by unfold OFFSET_LOG_DATA; omega)
  have e3 := read_at_of_eq (H ++ index_payload r)
    (H ++ rid_bytes r.rid_ ++ size_bytes r.table_name_.length) r.table_name_
    (size_bytes r.key_.length ++ r.key_)
    (by simp only [index_payload, List.append_assoc])
    (OFFSET_LOG_DATA + 8 + 8) r.table_name_.length
    (by simp only [List.length_append, length_rid_bytes, length_size_bytes, hH,
      OFFSET_LOG_DATA])
    rfl (by unfold OFFSET_LOG_DATA; omega)
  have e4 := read_at_of_eq (H ++ index_payload r)
    (H ++ rid_bytes r.rid_ ++ size_bytes r.table_name_.length ++ r.table_name_)
    (size_bytes r.key_.length) r.key_
    (by simp only [index_payload, List.append_assoc])
    (OFFSET_LOG_DATA + 8 + 8 + r.table_name_.length) 8
    (by simp only [List.length_append, length_rid_bytes, length_size_bytes, hH,
      OFFSET_LOG_DATA])
    (length_size_bytes _).symm (by unfold OFFSET_LOG_DATA; omega)
  have e5 := read_at_of_eq (H ++ index_payload r)
    (H ++ rid_bytes r.rid_ ++ size_bytes r.table_name_.length ++ r.table_name_ ++
      size_bytes r.key_.length)
    r.key_ []
    (by simp only [index_payload, List.append_assoc, List.append_nil])
    (OFFSET_LOG_DATA + 8 + 8 + r.table_name_.length + 8) r.key_.length
    (by simp only [List.length_append, length_rid_bytes, length_size_bytes, hH,
      OFFSET_LOG_DATA])
    rfl (by unfold OFFSET_LOG_DATA; omega)
  unfold LogRecord.deserialize_index
  rw [e1, Option.some_bind, e2, Option.some_bind, le_value_size_bytes _ (by omega), e3,
    Option.some_bind, e4, Option.some_bind, le_value_size_bytes _ (by omega), e5,
    Option.some_bind, rid_value_bytes _ h1 h2]

theorem drop_all (p dest : Bytes) (h : p.length = dest.length) :
    p ++ dest.drop p.length = p := by
  rw [h, List.drop_length, List.append_nil]

theorem isInt32_type_code (t : LogType) : IsInt32 (type_code t) := by
  cases t <;> exact ⟨by decide, by decide⟩

/-- The bytes of a BEGIN, COMMIT or ABORT record are the header. -/
theorem to_bytes_control (r : LogRecord) (junk : Nat → Nat)
    (ht : r.log_type_ = 4 ∨ r.log_type_ = 5 ∨ r.log_type_ = 6) (hlen : r.log_tot_len_ = 20) :
    to_bytes r junk = some (header_bytes r) := by
  unfold to_bytes
  rw [serialize_header _ _ (by rw [length_new_buffer, hlen]),
    drop_all _ _ (by rw [length_header_bytes, length_new_buffer, hlen]), Option.some_bind]
  simp only [type_code]
  rcases ht with h | h | h <;> rw [h] <;> rfl

/-- The bytes of an INSERT or DELETE record are the header and the payload
of the specification. -/
theorem to_bytes_tuple (r : LogRecord) (junk : Nat → Nat)
    (ht : r.log_type_ = 2 ∨ r.log_type_ = 3)
    (hlen : r.log_tot_len_ = 20 + (tuple_payload r).length)
    (hi : 20 + (tuple_payload r).length ≤ 2147483647) :
    to_bytes r junk = some (header_bytes r ++ tuple_payload r) := by
  unfold to_bytes
  rw [serialize_header _ _ (by rw [length_new_buffer, hlen]; omega), Option.some_bind]
  have hs := serialize_i_and_d_layout r (header_bytes r) (new_buffer r.log_tot_len_ junk)
    (length_header_bytes _) (by rw [length_new_buffer, hlen]) hi
  rw [drop_all (header_bytes r ++ tuple_payload r) _
    (by rw [List.length_append, length_header_bytes, length_new_buffer, hlen])] at hs
  simp only [type_code]
  rcases ht with h | h <;> rw [h] <;> simp only [] <;> exact hs

/-- The bytes of an UPDATE record are the header and the payload of the
specification. -/
theorem to_bytes_update (r : LogRecord) (junk : Nat → Nat) (ht : r.log_type_ = 1)
    (hlen : r.log_tot_len_ = 20 + (update_payload r).length)
    (hi : 20 + (update_payload r).length ≤ 2147483647) :
    to_bytes r junk = some (header_bytes r ++ update_payload r) := by
  unfold to_bytes
  rw [serialize_header _ _ (by rw [length_new_buffer, hlen]; omega), Option.some_bind]
  have hs := serialize_upd_layout r (header_bytes r) (new_buffer r.log_tot_len_ junk)
    (length_header_bytes _) (by rw [length_new_buffer, hlen]) hi
  rw [drop_all (header_bytes r ++ update_payload r) _
    (by rw [List.length_append, length_header_bytes, length_new_buffer, hlen])] at hs
  simp only [type_code]
  rw [ht]
  simp only [if_true]
  exact hs

/-- The bytes of an INSERT_ENTRY or DELETE_ENTRY record are the header and
the payload of the specification. -/
theorem to_bytes_index (r : LogRecord) (junk : Nat → Nat)
    (ht : r.log_type_ = 7 ∨ r.log_type_ = 8)
    (hlen : r.log_tot_len_ = 20 + (index_payload r).length)
    (hi : 20 + (index_payload r).length ≤ 2147483647) :
    to_bytes r junk = some (header_bytes r ++ index_payload r) := by
  unfold to_bytes
  rw [serialize_header _ _ (by rw [length_new_buffer, hlen]; omega), Option.some_bind]
  have hs := serialize_index_layout r (header_bytes r) (new_buffer r.log_tot_len_ junk)
    (length_header_bytes _) (by rw [length_new_buffer, hlen]) hi
  rw [drop_all (header_bytes r ++ index_payload r) _
    (by rw [List.length_append, length_header_bytes, length_new_buffer, hlen])] at hs
  simp only [type_code]
  rcases ht with h | h <;> rw [h] <;> simp only [] <;> exact hs

/-- The header of a record whose fields are of their types, read back. -/
theorem read_header (r : LogRecord) (P : Bytes) (h1 : IsInt32 r.log_type_)
    (h2 : IsInt32 r.lsn_) (h3 : r.log_tot_len_ ≤ 2147483647) (h4 : IsInt32 r.log_tid_)
    (h5 : IsInt32 r.prev_lsn_) :
    LogRecord.blank.deserialize (header_bytes r ++ P) =
      some { LogRecord.blank with log_type_ := r.log_type_, lsn_ := r.lsn_,
                                  log_tot_len_ := r.log_tot_len_, log_tid_ := r.log_tid_,
                                  prev_lsn_ := r.prev_lsn_ } :=
  deserialize_header r LogRecord.blank P h1 h2 (by omega) h4 h5

/-- The bytes of a BEGIN, COMMIT or ABORT record, read back. -/
theorem read_record_control (r : LogRecord)
    (ht : r.log_type_ = 4 ∨ r.log_type_ = 5 ∨ r.log_type_ = 6)
    (h2 : IsInt32 r.lsn_) (h3 : r.log_tot_len_ ≤ 2147483647) (h4 : IsInt32 r.log_tid_)
    (h5 : IsInt32 r.prev_lsn_) :
    read_record (header_bytes r) =
      some { LogRecord.blank with log_type_ := r.log_type_, lsn_ := r.lsn_,
                                  log_tot_len_ := r.log_tot_len_, log_tid_ := r.log_tid_,
                                  prev_lsn_ := r.prev_lsn_ } := by
  have h1 : IsInt32 r.log_type_ := by
    unfold IsInt32; omega
  have hd := read_header r [] h1 h2 h3 h4 h5
  rw [List.append_nil] at hd
  unfold read_record
  rw [hd, Option.some_bind]
  simp only [type_code]
  rcases ht with h | h | h <;> rw [h] <;> rfl

/-- The bytes of an INSERT or DELETE record, read back. -/
theorem read_record_tuple (r : LogRecord) (ht : r.log_type_ = 2 ∨ r.log_type_ = 3)
    (h2 : IsInt32 r.lsn_) (h3 : r.log_tot_len_ ≤ 2147483647) (h4 : IsInt32 r.log_tid_)
    (h5 : IsInt32 r.prev_lsn_) (h6 : IsInt32 r.rid_.page_no) (h7 : IsInt32 r.rid_.slot_no)
    (hi : 20 + (tuple_payload r).length ≤ 2147483647) :
    read_record (header_bytes r ++ tuple_payload r) =
      some { LogRecord.blank with log_type_ := r.log_type_, lsn_ := r.lsn_,
                                  log_tot_len_ := r.log_tot_len_, log_tid_ := r.log_tid_,
                                  prev_lsn_ := r.prev_lsn_, value_ := r.value_, rid_ := r.rid_,
                                  table_name_ := r.table_name_ } := by
  have h1 : IsInt32 r.log_type_ := by
    unfold IsInt32; omega
  unfold read_record
  rw [read_header r _ h1 h2 h3 h4 h5, Option.some_bind]
  simp only [type_code]
  rcases ht with h | h <;> rw [h] <;>
    rw [if_neg (by decide), if_neg (by decide), if_pos (by decide),
      deserialize_i_and_d_layout r _ (header_bytes r) (length_header_bytes _) h6 h7 hi]

/-- The bytes of an UPDATE record, read back. -/
theorem read_record_update (r : LogRecord) (ht : r.log_type_ = 1)
    (h2 : IsInt32 r.lsn_) (h3 : r.log_tot_len_ ≤ 2147483647) (h4 : IsInt32 r.log_tid_)
    (h5 : IsInt32 r.prev_lsn_) (h6 : IsInt32 r.rid_.page_no) (h7 : IsInt32 r.rid_.slot_no)
    (hi : 20 + (update_payload r).length ≤ 2147483647) :
    read_record (header_bytes r ++ update_payload r) =
      some { LogRecord.blank with log_type_ := r.log_type_, lsn_ := r.lsn_,
                                  log_tot_len_ := r.log_tot_len_, log_tid_ := r.log_tid_,
                                  prev_lsn_ := r.prev_lsn_, old_value_ := r.old_value_,
                                  new_value_ := r.new_value_, rid_ := r.rid_,
                                  table_name_ := r.table_name_ } := by
  have h1 : IsInt32 r.log_type_ := by
    unfold IsInt32; omega
  unfold read_record
  rw [read_header r _ h1 h2 h3 h4 h5, Option.some_bind]
  simp only [type_code]
  rw [ht, if_neg (by decide), if_pos (by decide),
    deserialize_upd_layout r _ (header_bytes r) (length_header_bytes _) h6 h7 hi]

/-- The bytes of an INSERT_ENTRY or DELETE_ENTRY record, read back. -/
theorem read_record_index (r : LogRecord) (ht : r.log_type_ = 7 ∨ r.log_type_ = 8)
    (h2 : IsInt32 r.lsn_) (h3 : r.log_tot_len_ ≤ 2147483647) (h4 : IsInt32 r.log_tid_)
    (h5 : IsInt32 r.prev_lsn_) (h6 : IsInt32 r.rid_.page_no) (h7 : IsInt32 r.rid_.slot_no)
    (hi : 20 + (index_payload r).length ≤ 2147483647) :
    read_record (header_bytes r ++ index_payload r) =
      some { LogRecord.blank with log_type_ := r.log_type_, lsn_ := r.lsn_,
                                  log_tot_len_ := r.log_tot_len_, log_tid_ := r.log_tid_,
                                  prev_lsn_ := r.prev_lsn_, rid_ := r.rid_,
                                  table_name_ := r.table_name_, key_ := r.key_ } := by
  have h1 : IsInt32 r.log_type_ := by
    unfold IsInt32; omega
  unfold read_record
  rw [read_header r _ h1 h2 h3 h4 h5, Option.some_bind]
  simp only [type_code]
  rcases ht with h | h <;> rw [h] <;>
    rw [if_neg (by decide), if_neg (by decide), if_neg (by decide), if_pos (by decide),
      deserialize_index_layout r _ (header_bytes r) (length_header_bytes _) h6 h7 hi]

/-- The round trip of a record with the fields of an INSERT or DELETE
record. -/
theorem round_trip_tuple (r : LogRecord) (junk : Nat → Nat)
    (ht : r.log_type_ = 2 ∨ r.log_type_ = 3) (h0 : IsInt32 r.lsn_) (h1 : IsInt32 r.log_tid_)
    (h2 : IsInt32 r.prev_lsn_) (h3 : IsInt32 r.rid_.page_no) (h4 : IsInt32 r.rid_.slot_no)
    (hlen : r.log_tot_len_ =
      (LOG_HEADER_SIZE + 4 + 8 + r.value_.length + r.table_name_.length + 8) % 4294967296)
    (h5 : LOG_HEADER_SIZE + 4 + 8 + r.value_.length + r.table_name_.length + 8 ≤ 2147483647) :
    ∃ bytes, to_bytes r junk = some bytes ∧ bytes.length = r.log_tot_len_ ∧
      read_record bytes =
        some { LogRecord.blank with log_type_ := r.log_type_, lsn_ := r.lsn_,
                                    log_tot_len_ := r.log_tot_len_, log_tid_ := r.log_tid_,
                                    prev_lsn_ := r.prev_lsn_, value_ := r.value_,
                                    rid_ := r.rid_, table_name_ := r.table_name_ } := by
  unfold LOG_HEADER_SIZE at hlen h5
  rw [Nat.mod_eq_of_lt (by omega)] at hlen
  have hpl := length_tuple_payload r
  refine ⟨header_bytes r ++ tuple_payload r, to_bytes_tuple r junk ht (by omega) (by omega), ?_,
    read_record_tuple r ht h0 (by omega) h1 h2 h3 h4 (by omega)⟩
  rw [List.length_append, length_header_bytes]
  omega

/-- The round trip of a record with the fields of an UPDATE record. -/
theorem round_trip_update (r : LogRecord) (junk : Nat → Nat)
    (ht : r.log_type_ = 1) (h0 : IsInt32 r.lsn_) (h1 : IsInt32 r.log_tid_)
    (h2 : IsInt32 r.prev_lsn_) (h3 : IsInt32 r.rid_.page_no) (h4 : IsInt32 r.rid_.slot_no)
    (hlen : r.log_tot_len_ =
      (LOG_HEADER_SIZE + 4 * 2 + 8 + r.old_value_.length + r.new_value_.length +
        r.table_name_.length + 8) % 4294967296)
    (h5 : LOG_HEADER_SIZE + 4 * 2 + 8 + r.old_value_.length + r.new_value_.length +
        r.table_name_.length + 8 ≤ 2147483647) :
    ∃ bytes, to_bytes r junk = some bytes ∧ bytes.length = r.log_tot_len_ ∧
      read_record bytes =
        some { LogRecord.blank with log_type_ := r.log_type_, lsn_ := r.lsn_,
                                    log_tot_len_ := r.log_tot_len_, log_tid_ := r.log_tid_,
                                    prev_lsn_ := r.prev_lsn_, old_value_ := r.old_value_,
                                    new_value_ := r.new_value_, rid_ := r.rid_,
                                    table_name_ := r.table_name_ } := by
  unfold LOG_HEADER_SIZE at hlen h5
  rw [Nat.mod_eq_of_lt (by omega)] at hlen
  have hpl := length_update_payload r
  refine ⟨header_bytes r ++ update_payload r, to_bytes_update r junk ht (by omega) (by omega), ?_,
    read_record_update r ht h0 (by omega) h1 h2 h3 h4 (by omega)⟩
  rw [List.length_append, length_header_bytes]
  omega

/-- The round trip of a record with the fields of an INSERT_ENTRY or
DELETE_ENTRY record. -/
theorem round_trip_index (r : LogRecord) (junk : Nat → Nat)
    (ht : r.log_type_ = 7 ∨ r.log_type_ = 8) (h0 : IsInt32 r.lsn_) (h1 : IsInt32 r.log_tid_)
    (h2 : IsInt32 r.prev_lsn_) (h3 : IsInt32 r.rid_.page_no) (h4 : IsInt32 r.rid_.slot_no)
    (hlen : r.log_tot_len_ =
      (LOG_HEADER_SIZE + 8 + 2 * 8 + r.key_.length + r.table_name_.length) % 4294967296)
    (h5 : LOG_HEADER_SIZE + 8 + 2 * 8 + r.key_.length + r.table_name_.length ≤ 2147483647) :
    ∃ bytes, to_bytes r junk = some bytes ∧ bytes.length = r.log_tot_len_ ∧
      read_record bytes =
        some { LogRecord.blank with log_type_ := r.log_type_, lsn_ := r.lsn_,
                                    log_tot_len_ := r.log_tot_len_, log_tid_ := r.log_tid_,
                                    prev_lsn_ := r.prev_lsn_, rid_ := r.rid_,
                                    table_name_ := r.table_name_, key_ := r.key_ } := by
  unfold LOG_HEADER_SIZE at hlen h5
  rw [Nat.mod_eq_of_lt (by omega)] at hlen
  have hpl := length_index_payload r
  refine ⟨header_bytes r ++ index_payload r, to_bytes_index r junk ht (by omega) (by omega), ?_,
    read_record_index r ht h0 (by omega) h1 h2 h3 h4 (by omega)⟩
  rw [List.length_append, length_header_bytes]
  omega

/-- The round trip of a record with the fields of a BEGIN, COMMIT or ABORT
record. -/
theorem round_trip_control (r : LogRecord) (junk : Nat → Nat)
    (ht : r.log_type_ = 4 ∨ r.log_type_ = 5 ∨ r.log_type_ = 6) (h0 : IsInt32 r.lsn_)
    (h1 : IsInt32 r.log_tid_) (h2 : IsInt32 r.prev_lsn_)
    (hlen : r.log_tot_len_ = LOG_HEADER_SIZE % 4294967296) :
    ∃ bytes, to_bytes r junk = some bytes ∧ bytes.length = r.log_tot_len_ ∧
      read_record bytes =
        some { LogRecord.blank with log_type_ := r.log_type_, lsn_ := r.lsn_,
                                    log_tot_len_ := r.log_tot_len_, log_tid_ := r.log_tid_,
                                    prev_lsn_ := r.prev_lsn_ } := by
  have hlen' : r.log_tot_len_ = 20 := hlen
  refine ⟨header_bytes r, to_bytes_control r junk ht hlen', ?_,
    read_record_control r ht h0 (by omega) h1 h2⟩
  rw [length_header_bytes, hlen']

/-- C21: for every log record of each kind (made by one of the four
constructors from values of their types, with a total length that an `int`
holds) and every sequence number, `add_log_to_buffer` writes exactly
`log_tot_len_` bytes, and the header routine followed by the payload routine
of the kind reads from these bytes a record with the same type, lsn, total
length, transaction id, previous lsn, rid, value or values, table or index
name and key. -/
theorem log_record_round_trip (r : LogRecord) (hr : Built r) (lsn : Int) (hl : IsInt32 lsn)
    (junk : Nat → Nat) :
    ∃ bytes, add_log_to_buffer lsn r junk = some ({ r with lsn_ := lsn }, bytes) ∧
      bytes.length = r.log_tot_len_ ∧ read_record bytes = some { r with lsn_ := lsn } := by
  cases hr with
  | control txn_id prev_lsn t ht h1 h2 =>
    have htc : type_code t = 4 ∨ type_code t = 5 ∨ type_code t = 6 := by
      rcases ht with rfl | rfl | rfl
      · exact Or.inl rfl
      · exact Or.inr (Or.inl rfl)
      · exact Or.inr (Or.inr rfl)
    obtain ⟨bytes, e1, e2, e3⟩ := round_trip_control
      { LogRecord.control txn_id prev_lsn t with lsn_ := lsn } junk htc hl h1 h2 rfl
    refine ⟨bytes, ?_, e2, e3⟩
    unfold add_log_to_buffer
    rw [e1]
    rfl
  | tuple txn_id prev_lsn t rid value table_name ht h1 h2 h3 h4 h5 =>
    have htc : type_code t = 2 ∨ type_code t = 3 := by
      rcases ht with rfl | rfl
      · exact Or.inl rfl
      · exact Or.inr rfl
    obtain ⟨bytes, e1, e2, e3⟩ := round_trip_tuple
      { LogRecord.tuple txn_id prev_lsn t rid value table_name with lsn_ := lsn } junk htc hl
      h1 h2 h3 h4 rfl h5
    refine ⟨bytes, ?_, e2, e3⟩
    unfold add_log_to_buffer
    rw [e1]
    rfl
  | update txn_id prev_lsn rid old_value new_value table_name h1 h2 h3 h4 h5 =>
    obtain ⟨bytes, e1, e2, e3⟩ := round_trip_update
      { LogRecord.update txn_id prev_lsn LogType.UPDATE rid old_value new_value table_name with
        lsn_ := lsn } junk rfl hl h1 h2 h3 h4 rfl h5
    refine ⟨bytes, ?_, e2, e3⟩
    unfold add_log_to_buffer
    rw [e1]
    rfl
  | index txn_id prev_lsn t rid key index_name ht h1 h2 h3 h4 h5 =>
    have htc : type_code t = 7 ∨ type_code t = 8 := by
      rcases ht with rfl | rfl
      · exact Or.inl rfl
      · exact Or.inr rfl
    obtain ⟨bytes, e1, e2, e3⟩ := round_trip_index
      { LogRecord.index txn_id prev_lsn t rid key index_name with lsn_ := lsn } junk htc hl
      h1 h2 h3 h4 rfl h5
    refine ⟨bytes, ?_, e2, e3⟩
    unfold add_log_to_buffer
    rw [e1]
    rfl

/-- C21 at the INSERT record `insert_example` with the sequence number 1:
the 45 bytes written, and the record read back from them. -/
theorem log_record_round_trip_witness :
    Built insert_example ∧ IsInt32 1 ∧
    (add_log_to_buffer 1 insert_example (fun _ => 0)).map Prod.snd =
      some [2, 0, 0, 0, 1, 0, 0, 0, 45, 0, 0, 0, 1, 0, 0, 0, 0, 0, 0, 0,
        4, 0, 0, 0, 7, 0, 0, 0, 1, 0, 0, 0, 0, 0, 0, 0, 1, 0, 0, 0, 0, 0, 0, 0, 116] ∧
    ∃ bytes, add_log_to_buffer 1 insert_example (fun _ => 0) =
        some ({ insert_example with lsn_ := 1 }, bytes) ∧
      bytes.length = insert_example.log_tot_len_ ∧
      read_record bytes = some { insert_example with lsn_ := 1 } :=
  have hb : Built insert_example :=
    Built.tuple 1 0 LogType.INSERT ⟨1, 0⟩ [7, 0, 0, 0] [116] (Or.inl rfl)
      ⟨by decide, by decide⟩ ⟨by decide, by decide⟩ ⟨by decide, by decide⟩
      ⟨by decide, by decide⟩ (by decide)
  have hl : IsInt32 1 := ⟨by decide, by decide⟩
  ⟨hb, hl, by decide, log_record_round_trip insert_example hb 1 hl (fun _ => 0)⟩

end LogCodec

end RMDB
/-! ## Log manager: sequence numbers -/

namespace RMDB

open LogManager

theorem wrap_lsn_of_range {x : Int} (h0 : -2147483648 ≤ x) (h1 : x ≤ 2147483647) :
    wrap_lsn x = x := by
  unfold wrap_lsn
  omega

theorem add_logs_cons (lm : LogManager) (r : LogRecord) (rest : List LogRecord) :
    add_logs lm (r :: rest) =
      ((add_logs (lm.add_log_to_buffer r).1 rest).1,
        lm.global_lsn_ :: (add_logs (lm.add_log_to_buffer r).1 rest).2) := rfl

theorem range_shift (g : Int) (n : Nat) :
    g :: List.map (fun i : Nat => g + 1 + (i : Int)) (List.range n) =
      List.map (fun i : Nat => g + (i : Int)) (List.range (n + 1)) := by
  rw [List.range_succ_eq_map, List.map_cons, List.map_map]
  simp only [Nat.cast_zero, add_zero, List.cons.injEq, true_and]
  apply List.map_congr_left
  intro i _
  simp only [Function.comp_apply, Nat.cast_succ]
  omega

/-- The sequence numbers returned by successive calls that stay inside the
range of `lsn_t`, and the log after them. -/
theorem add_logs_spec : ∀ (rs : List LogRecord) (lm : LogManager),
    -2147483648 ≤ lm.global_lsn_ → lm.global_lsn_ + rs.length ≤ 2147483648 →
    (add_logs lm rs).2 = List.map (fun i : Nat => lm.global_lsn_ + (i : Int)) (List.range rs.length) ∧
    (add_logs lm rs).1.log =
      lm.log ++ List.zipWith (fun r l => { r with lsn_ := l }) rs (add_logs lm rs).2
  | [], lm, _, _ => by simp [add_logs]
  | [r], lm, _, _ => by
    simp [add_logs, LogManager.add_log_to_buffer, List.range_succ]
  | r :: r2 :: rest, lm, h0, h1 => by
    have hlen : ((r :: r2 :: rest).length : Int) = (r2 :: rest).length + 1 := by simp
    have hlen2 : ((r2 :: rest).length : Int) = rest.length + 1 := by simp
    have hw : (lm.add_log_to_buffer r).1.global_lsn_ = lm.global_lsn_ + 1 := by
      show wrap_lsn (lm.global_lsn_ + 1) = _
      exact wrap_lsn_of_range (by omega) (by omega)
    have hl : (lm.add_log_to_buffer r).1.log = lm.log ++ [{ r with lsn_ := lm.global_lsn_ }] :=
      rfl
    obtain ⟨ih1, ih2⟩ := add_logs_spec (r2 :: rest) (lm.add_log_to_buffer r).1
      (by omega) (by omega)
    rw [add_logs_cons]
    constructor
    · rw [ih1, hw]
      exact range_shift _ _
    · simp only [ih2, hl, List.zipWith_cons_cons, List.append_assoc, List.singleton_append]

theorem pairwise_lt_map_add (g : Int) : ∀ (n k : Nat),
    List.Pairwise (fun a b : Int => a < b)
      (List.map (fun i : Nat => g + (i : Int)) (List.range' k n))
  | 0, _ => by simp
  | n + 1, k => by
    rw [List.range'_succ, List.map_cons, List.pairwise_cons]
    refine ⟨?_, pairwise_lt_map_add g n (k + 1)⟩
    intro b hb
    rw [List.mem_map] at hb
    obtain ⟨i, hi, rfl⟩ := hb
    rw [List.mem_range'_1] at hi
    omega

/-- Claim C20, the case the claim misses: at the counter value 2147483647
two successive calls of `add_log_to_buffer` return 2147483647 and then
-2147483648, so the returned sequence numbers are not increasing. -/
theorem lsn_not_increasing_at_wrap :
    (add_logs ⟨2147483647, []⟩ [LogRecord.control 1 INVALID_LSN LogType.BEGIN,
      LogRecord.control 1 2147483647 LogType.COMMIT]).2 = [2147483647, -2147483648] ∧
    ¬ List.Pairwise (fun a b : Int => a < b)
      (add_logs ⟨2147483647, []⟩ [LogRecord.control 1 INVALID_LSN LogType.BEGIN,
        LogRecord.control 1 2147483647 LogType.COMMIT]).2 := by
  decide

/-- Claim C20, amended: successive calls of `add_log_to_buffer` that do not
take the counter past the largest value of `lsn_t` return the counter
values `g, g + 1, ...`, which are strictly increasing; each call stores the
returned value in the `lsn_` field of its record, and the records are
appended to the log in the order of the calls, that is in the order of their
sequence numbers. -/
theorem lsn_increasing_below_wrap (lm : LogManager) (rs : List LogRecord)
    (h0 : -2147483648 ≤ lm.global_lsn_) (h1 : lm.global_lsn_ + rs.length ≤ 2147483648) :
    (add_logs lm rs).2 = List.map (fun i : Nat => lm.global_lsn_ + (i : Int)) (List.range rs.length) ∧
    List.Pairwise (fun a b : Int => a < b) (add_logs lm rs).2 ∧
    (add_logs lm rs).1.log =
      lm.log ++ List.zipWith (fun r l => { r with lsn_ := l }) rs (add_logs lm rs).2 ∧
    List.Pairwise (fun a b : LogRecord => a.lsn_ < b.lsn_)
      (List.zipWith (fun r l => { r with lsn_ := l }) rs (add_logs lm rs).2) := by
  obtain ⟨e1, e2⟩ := add_logs_spec rs lm h0 h1
  have hp : List.Pairwise (fun a b : Int => a < b) (add_logs lm rs).2 := by
    rw [e1, List.range_eq_range']
    exact pairwise_lt_map_add _ _ _
  refine ⟨e1, hp, e2, ?_⟩
  have hlen : (add_logs lm rs).2.length = rs.length := by rw [e1]; simp
  have hz : (List.zipWith (fun r l => { r with lsn_ := l }) rs (add_logs lm rs).2).map
      (fun a : LogRecord => a.lsn_) = (add_logs lm rs).2 := by
    generalize (add_logs lm rs).2 = ls at hlen
    clear e1 e2 hp h1
    induction rs generalizing ls with
    | nil => cases ls with
      | nil => rfl
      | cons _ _ => simp at hlen
    | cons r rest ih =>
      cases ls with
      | nil => simp at hlen
      | cons l ls =>
        simp only [List.zipWith_cons_cons, List.map_cons, List.cons.injEq, true_and]
        exact ih ls (by simpa using hlen)
  rw [← hz] at hp
  exact (List.pairwise_map.1 hp)

/-- Claim C20 at a new log manager and three records. -/
theorem lsn_increasing_below_wrap_witness :
    -2147483648 ≤ (LogManager.new []).global_lsn_ ∧
    (LogManager.new []).global_lsn_ + (3 : Nat) ≤ 2147483648 ∧
    (add_logs (LogManager.new []) [LogRecord.control 1 INVALID_LSN LogType.BEGIN,
      LogRecord.tuple 1 0 LogType.INSERT ⟨1, 0⟩ [7],
      LogRecord.control 1 1 LogType.COMMIT]).2 = [0, 1, 2] ∧
    List.Pairwise (fun a b : Int => a < b)
      (add_logs (LogManager.new []) [LogRecord.control 1 INVALID_LSN LogType.BEGIN,
        LogRecord.tuple 1 0 LogType.INSERT ⟨1, 0⟩ [7],
        LogRecord.control 1 1 LogType.COMMIT]).2 :=
  ⟨by decide, by decide, rfl,
    (lsn_increasing_below_wrap (LogManager.new []) _ (by decide) (by decide)).2.1⟩

end RMDB

/-! ## The `prev_lsn` chain of a transaction -/

namespace RMDB

theorem chain_ok_append (t : Int) : ∀ (a b : List LogRecord) (prev : Int),
    chain_ok t prev (a ++ b) ↔ chain_ok t prev a ∧ chain_ok t (last_lsn_of t prev a) b
  | [], b, prev => by simp [chain_ok, last_lsn_of]
  | r :: a, b, prev => by
    have ih := fun p => chain_ok_append t a b p
    by_cases h : r.log_tid_ = t
    · show (if r.log_tid_ = t then r.prev_lsn_ = prev ∧ chain_ok t r.lsn_ (a ++ b)
          else chain_ok t prev (a ++ b)) ↔
        (if r.log_tid_ = t then r.prev_lsn_ = prev ∧ chain_ok t r.lsn_ a
          else chain_ok t prev a) ∧
        chain_ok t (last_lsn_of t (if r.log_tid_ = t then r.lsn_ else prev) a) b
      rw [if_pos h, if_pos h, if_pos h, ih, and_assoc]
    · show (if r.log_tid_ = t then r.prev_lsn_ = prev ∧ chain_ok t r.lsn_ (a ++ b)
          else chain_ok t prev (a ++ b)) ↔
        (if r.log_tid_ = t then r.prev_lsn_ = prev ∧ chain_ok t r.lsn_ a
          else chain_ok t prev a) ∧
        chain_ok t (last_lsn_of t (if r.log_tid_ = t then r.lsn_ else prev) a) b
      rw [if_neg h, if_neg h, if_neg h, ih]

theorem last_lsn_of_append (t : Int) : ∀ (a b : List LogRecord) (d : Int),
    last_lsn_of t d (a ++ b) = last_lsn_of t (last_lsn_of t d a) b
  | [], _, _ => rfl
  | r :: a, b, d => by
    show last_lsn_of t (if r.log_tid_ = t then r.lsn_ else d) (a ++ b) = _
    exact last_lsn_of_append t a b _

theorem chain_ok_other (t : Int) : ∀ (a : List LogRecord) (prev : Int),
    (∀ r ∈ a, r.log_tid_ ≠ t) → chain_ok t prev a
  | [], _, _ => trivial
  | r :: a, prev, h => by
    simp only [chain_ok]
    rw [if_neg (h r (List.mem_cons_self _ _))]
    exact chain_ok_other t a prev (fun x hx => h x (List.mem_cons_of_mem _ hx))

theorem last_lsn_of_other (t : Int) : ∀ (a : List LogRecord) (d : Int),
    (∀ r ∈ a, r.log_tid_ ≠ t) → last_lsn_of t d a = d
  | [], _, _ => rfl
  | r :: a, d, h => by
    simp only [last_lsn_of]
    rw [if_neg (h r (List.mem_cons_self _ _))]
    exact last_lsn_of_other t a d (fun x hx => h x (List.mem_cons_of_mem _ hx))

theorem LogExt.ext_refl (t prev : Int) (log : List LogRecord) : LogExt t prev log log prev :=
  ⟨[], by simp, by simp, trivial, rfl⟩

theorem LogExt.ext_trans {t p0 p1 p2 : Int} {l0 l1 l2 : List LogRecord}
    (h1 : LogExt t p0 l0 l1 p1) (h2 : LogExt t p1 l1 l2 p2) : LogExt t p0 l0 l2 p2 := by
  obtain ⟨r1, e1, m1, c1, q1⟩ := h1
  obtain ⟨r2, e2, m2, c2, q2⟩ := h2
  refine ⟨r1 ++ r2, by rw [e2, e1, List.append_assoc], ?_, ?_, ?_⟩
  · intro r hr
    rcases List.mem_append.1 hr with h | h
    · exact m1 r h
    · exact m2 r h
  · rw [chain_ok_append]
    exact ⟨c1, q1 ▸ c2⟩
  · rw [last_lsn_of_append, ← q1]
    exact q2

theorem LogStep.step_refl (db : Database) (txn : Transaction) : LogStep db txn db txn :=
  ⟨rfl, rfl, LogExt.ext_refl _ _ _⟩

theorem LogStep.step_trans {db0 db1 db2 : Database} {t0 t1 t2 : Transaction}
    (h1 : LogStep db0 t0 db1 t1) (h2 : LogStep db1 t1 db2 t2) : LogStep db0 t0 db2 t2 := by
  obtain ⟨a1, b1, c1⟩ := h1
  obtain ⟨a2, b2, c2⟩ := h2
  refine ⟨a2.trans a1, b2.trans b1, ?_⟩
  rw [a1] at c2
  exact c1.ext_trans c2

/-- A step that leaves log manager and transaction header untouched. -/
theorem LogStep.of_eq {db db1 : Database} {txn txn1 : Transaction}
    (h1 : db1.log_mgr = db.log_mgr) (h2 : txn1.txn_id_ = txn.txn_id_)
    (h3 : txn1.txn_mode_ = txn.txn_mode_) (h4 : txn1.prev_lsn_ = txn.prev_lsn_) :
    LogStep db txn db1 txn1 := by
  refine ⟨h2, h3, ?_⟩
  rw [h1, h4]
  exact LogExt.ext_refl _ _ _

theorem LogStep.emit (db : Database) (txn : Transaction) (r : LogRecord)
    (h1 : r.log_tid_ = txn.txn_id_) (h2 : r.prev_lsn_ = txn.prev_lsn_) :
    LogStep db txn (db.emit txn r).1 (db.emit txn r).2 := by
  refine ⟨rfl, rfl, [{ r with lsn_ := db.log_mgr.global_lsn_ }], rfl, ?_, ?_, ?_⟩
  · intro x hx
    rw [List.mem_singleton] at hx
    rw [hx]
    exact h1
  · simp only [chain_ok, h1, if_true, h2, and_self]
  · simp only [last_lsn_of, h1, if_true]
    rfl

theorem TxnLogOK.step {db db1 : Database} {txn txn1 : Transaction}
    (h : TxnLogOK db.log_mgr.log txn) (hs : LogStep db txn db1 txn1) :
    TxnLogOK db1.log_mgr.log txn1 := by
  obtain ⟨hid, -, recs, e, -, c, q⟩ := hs
  obtain ⟨hc, hp⟩ := h
  unfold TxnLogOK
  rw [hid, e, chain_ok_append, last_lsn_of_append, ← hp]
  exact ⟨⟨hc, c⟩, q⟩

theorem TxnLogOK.frame {db db1 : Database} {txn txn1 u : Transaction}
    (h : TxnLogOK db.log_mgr.log u) (hne : u.txn_id_ ≠ txn.txn_id_)
    (hs : LogStep db txn db1 txn1) : TxnLogOK db1.log_mgr.log u := by
  obtain ⟨-, -, recs, e, m, -, -⟩ := hs
  obtain ⟨hc, hp⟩ := h
  have hm : ∀ r ∈ recs, r.log_tid_ ≠ u.txn_id_ := fun r hr => by
    rw [m r hr]; exact fun hh => hne hh.symm
  unfold TxnLogOK
  rw [e, chain_ok_append, last_lsn_of_append, last_lsn_of_other _ _ _ hm]
  exact ⟨⟨hc, chain_ok_other _ _ _ hm⟩, hp⟩


theorem on_index_log {db db1 : Database} {f : IxIndexHandle → Option (IxIndexHandle × Bool)}
    {flag : Bool} (h : db.on_index f = Except.ok (db1, flag)) : db1.log_mgr = db.log_mgr := by
  unfold Database.on_index at h
  split at h
  · cases h; rfl
  · split at h
    · cases h
    · cases h; rfl

theorem begin_logok (db : Database) (txn_id : Int) (txn_mode : Bool)
    (hfresh : ∀ r ∈ db.log_mgr.log, r.log_tid_ ≠ txn_id) :
    TxnLogOK (TransactionManager.begin db txn_id txn_mode).1.log_mgr.log
      (TransactionManager.begin db txn_id txn_mode).2 := by
  have h0 : TxnLogOK db.log_mgr.log ⟨txn_id, INVALID_LSN, txn_mode, [], [], TransactionState.DEFAULT, []⟩ :=
    ⟨chain_ok_other _ _ _ hfresh, (last_lsn_of_other _ _ _ hfresh).symm⟩
  exact h0.step (LogStep.emit db _ _ rfl rfl)

theorem commit_step (db : Database) (txn : Transaction) :
    LogStep db txn (TransactionManager.commit db txn).1 (TransactionManager.commit db txn).2 := by
  unfold TransactionManager.commit
  dsimp only
  generalize htx : (if txn.txn_mode_ = true then
    ({ txn with write_set_ := [], index_write_set_ := [] } : Transaction) else txn) = tx1
  have h01 : LogStep db txn db tx1 := by
    subst htx
    split <;> exact LogStep.of_eq rfl rfl rfl rfl
  exact (h01.step_trans (LogStep.emit db tx1 _ h01.1.symm
    (by subst htx; split <;> rfl))).step_trans (LogStep.of_eq rfl rfl rfl rfl)

theorem insert_next_step {db db1 : Database} {txn txn1 : Transaction} {rec : RmRecord}
    (h : InsertExecutor.Next db txn rec = Except.ok (db1, txn1)) : LogStep db txn db1 txn1 := by
  unfold InsertExecutor.Next at h
  split at h
  · cases h
  · cases h
  · split at h
    · cases h
    · next fh1 rid hins =>
      dsimp only at h
      generalize htx : (if txn.txn_mode_ = true then
        ({ txn with write_set_ := txn.write_set_ ++ [⟨WType.INSERT_TUPLE, rid, rec, []⟩] } :
          Transaction) else txn) = tx1 at h
      have h01 : LogStep db txn { db with fh := fh1 } tx1 := by
        subst htx
        split <;> exact LogStep.of_eq rfl rfl rfl rfl
      have h12 := LogStep.emit { db with fh := fh1 } tx1
        (LogRecord.tuple tx1.txn_id_ tx1.prev_lsn_ LogType.INSERT rid rec) rfl rfl
      generalize hs1 : Database.emit { db with fh := fh1 } tx1
        (LogRecord.tuple tx1.txn_id_ tx1.prev_lsn_ LogType.INSERT rid rec) = s1 at h h12
      split at h
      · cases h
        exact h01.step_trans h12
      · have h23 := LogStep.emit s1.1 s1.2
          (LogRecord.index s1.2.txn_id_ s1.2.prev_lsn_ LogType.INSERT_ENTRY rid (extract_key rec))
          rfl rfl
        generalize hs2 : s1.1.emit s1.2
          (LogRecord.index s1.2.txn_id_ s1.2.prev_lsn_ LogType.INSERT_ENTRY rid (extract_key rec))
          = s2 at h h23
        split at h
        · cases h
        · rename_i db3 flag hix
          cases h
          have h34 : LogStep s2.1 s2.2 db1 (if flag = true ∧ s2.2.txn_mode_ = true then
              { s2.2 with index_write_set_ := s2.2.index_write_set_ ++
                [⟨WType.INSERT_TUPLE, ⟨0, 0⟩, extract_key rec⟩] } else s2.2) := by
            split <;> exact LogStep.of_eq (on_index_log hix) rfl rfl rfl
          exact ((h01.step_trans h12).step_trans h23).step_trans h34


theorem delete_from_step {db db1 : Database} {txn txn1 : Transaction} {rid : Rid}
    (h : DeleteExecutor.delete_from db txn rid = Except.ok (db1, txn1)) :
    LogStep db txn db1 txn1 := by
  unfold DeleteExecutor.delete_from at h
  split at h
  · cases h
  · rename_i rec hrec
    split at h
    · cases h
      exact LogStep.step_refl _ _
    · dsimp only at h
      have h1 := LogStep.emit db txn
        (LogRecord.index txn.txn_id_ txn.prev_lsn_ LogType.DELETE_ENTRY rid (extract_key rec))
        rfl rfl
      generalize db.emit txn
        (LogRecord.index txn.txn_id_ txn.prev_lsn_ LogType.DELETE_ENTRY rid (extract_key rec))
        = s at h h1
      split at h
      · cases h
      · rename_i db2 flag hix
        cases h
        have h2 : LogStep s.1 s.2 db1 (if flag = true ∧ s.2.txn_mode_ = true then
            { s.2 with index_write_set_ := s.2.index_write_set_ ++
              [⟨WType.DELETE_TUPLE, rid, extract_key rec⟩] } else s.2) := by
          split <;> exact LogStep.of_eq (on_index_log hix) rfl rfl rfl
        exact h1.step_trans h2

theorem delete_next_step : ∀ (rids : List Rid) {db db1 : Database} {txn txn1 : Transaction},
    DeleteExecutor.Next db txn rids = Except.ok (db1, txn1) → LogStep db txn db1 txn1
  | [], db, db1, txn, txn1, h => by
    unfold DeleteExecutor.Next at h
    cases h
    exact LogStep.step_refl _ _
  | rid :: rest, db, db1, txn, txn1, h => by
    unfold DeleteExecutor.Next at h
    split at h
    · cases h
    · rename_i rec hrec
      dsimp only at h
      have h1 := LogStep.emit db txn
        (LogRecord.tuple txn.txn_id_ txn.prev_lsn_ LogType.DELETE rid rec) rfl rfl
      generalize db.emit txn
        (LogRecord.tuple txn.txn_id_ txn.prev_lsn_ LogType.DELETE rid rec) = s at h h1
      split at h
      · cases h
      · rename_i db2 txn2 hdf
        have h2 := delete_from_step hdf
        split at h
        · cases h
        · rename_i fh2 hdel
          generalize htx : (if txn2.txn_mode_ = true then
              if txn2.exists_in_write_set WType.INSERT_TUPLE rid = true then
                txn2.remove_from_write_set WType.INSERT_TUPLE rid
              else { txn2 with write_set_ := txn2.write_set_ ++
                      [⟨WType.DELETE_TUPLE, rid, rec, []⟩] }
            else txn2) = tx3 at h
          have h3 : LogStep db2 txn2 { db2 with fh := fh2 } tx3 := by
            subst htx
            split
            · split <;> exact LogStep.of_eq rfl rfl rfl rfl
            · exact LogStep.of_eq rfl rfl rfl rfl
          exact ((h1.step_trans h2).step_trans h3).step_trans (delete_next_step rest h)

theorem update_each_step (cs : List SetClause) (indexed : Bool) :
    ∀ (rids : List Rid) {db db1 : Database} {txn txn1 : Transaction},
    UpdateExecutor.update_each cs indexed db txn rids = Except.ok (db1, txn1) →
    LogStep db txn db1 txn1
  | [], db, db1, txn, txn1, h => by
    unfold UpdateExecutor.update_each at h
    cases h
    exact LogStep.step_refl _ _
  | rid :: rest, db, db1, txn, txn1, h => by
    unfold UpdateExecutor.update_each at h
    split at h
    · cases h
    · rename_i old_rec hrec
      dsimp only at h
      generalize hs1 : (if indexed = true then db.emit txn
          (LogRecord.index txn.txn_id_ txn.prev_lsn_ LogType.DELETE_ENTRY rid
            (extract_key old_rec)) else (db, txn)) = s1 at h
      have h1 : LogStep db txn s1.1 s1.2 := by
        subst hs1
        split
        · exact LogStep.emit db txn _ rfl rfl
        · exact LogStep.step_refl _ _
      have h2 := LogStep.emit s1.1 s1.2 (LogRecord.update s1.2.txn_id_ s1.2.prev_lsn_ rid
        old_rec (apply_set_clauses cs old_rec)) rfl rfl
      generalize s1.1.emit s1.2 (LogRecord.update s1.2.txn_id_ s1.2.prev_lsn_ rid
        old_rec (apply_set_clauses cs old_rec)) = s2 at h h2
      generalize hs3 : (if indexed = true then s2.1.emit s2.2
          (LogRecord.index s2.2.txn_id_ s2.2.prev_lsn_ LogType.INSERT_ENTRY rid
            (extract_key (apply_set_clauses cs old_rec))) else s2) = s3 at h
      have h3 : LogStep s2.1 s2.2 s3.1 s3.2 := by
        subst hs3
        split
        · exact LogStep.emit _ _ _ rfl rfl
        · exact LogStep.step_refl _ _
      split at h
      · cases h
      · rename_i fh4 hupd
        generalize htx4 : (if s3.2.txn_mode_ = true then
          ({ s3.2 with write_set_ := s3.2.write_set_ ++
              [⟨WType.UPDATE_TUPLE, rid, old_rec, apply_set_clauses cs old_rec⟩] } : Transaction)
          else s3.2) = txn4 at h
        have h4 : LogStep s3.1 s3.2 { s3.1 with fh := fh4 } txn4 := by
          subst htx4
          split <;> exact LogStep.of_eq rfl rfl rfl rfl
        have h04 := ((h1.step_trans h2).step_trans h3).step_trans h4
        split at h
        · split at h
          · cases h
          · rename_i db5 flag1 hix1
            generalize htx5 : (if flag1 = true ∧ txn4.txn_mode_ = true then
              ({ txn4 with index_write_set_ := txn4.index_write_set_ ++
                  [⟨WType.DELETE_TUPLE, rid, extract_key old_rec⟩] } : Transaction)
              else txn4) = txn5 at h
            have h5 : LogStep { s3.1 with fh := fh4 } txn4 db5 txn5 := by
              subst htx5
              split <;> exact LogStep.of_eq (on_index_log hix1) rfl rfl rfl
            split at h
            · cases h
            · rename_i db6 flag2 hix2
              generalize htx6 : (if flag2 = true ∧ txn5.txn_mode_ = true then
                ({ txn5 with index_write_set_ := txn5.index_write_set_ ++
                    [⟨WType.INSERT_TUPLE, ⟨0, 0⟩,
                      extract_key (apply_set_clauses cs old_rec)⟩] } : Transaction)
                else txn5) = txn6 at h
              have h6 : LogStep db5 txn5 db6 txn6 := by
                subst htx6
                split <;> exact LogStep.of_eq (on_index_log hix2) rfl rfl rfl
              exact ((h04.step_trans h5).step_trans h6).step_trans (update_each_step cs indexed rest h)
        · exact h04.step_trans (update_each_step cs indexed rest h)

theorem update_next_step {db db1 : Database} {txn txn1 : Transaction} {cs : List SetClause}
    {rids : List Rid} (h : UpdateExecutor.Next db txn cs rids = Except.ok (db1, txn1)) :
    LogStep db txn db1 txn1 := by
  unfold UpdateExecutor.Next at h
  split at h
  · cases h
    exact LogStep.step_refl _ _
  · dsimp only at h
    split at h
    · split at h
      · cases h
      · split at h
        · cases h
        · exact update_each_step _ _ _ h
    · exact update_each_step _ _ _ h


theorem abort_heap_step : ∀ (ws : List WriteRecord) {db db1 : Database} {txn txn1 : Transaction},
    TransactionManager.abort_heap db txn ws = Except.ok (db1, txn1) → LogStep db txn db1 txn1
  | [], db, db1, txn, txn1, h => by
    unfold TransactionManager.abort_heap at h
    cases h
    exact LogStep.step_refl _ _
  | record :: rest, db, db1, txn, txn1, h => by
    unfold TransactionManager.abort_heap at h
    split at h
    · dsimp only at h
      have h1 := LogStep.emit db txn (LogRecord.tuple txn.txn_id_ txn.prev_lsn_ LogType.DELETE
        record.rid_ record.record_) rfl rfl
      generalize db.emit txn (LogRecord.tuple txn.txn_id_ txn.prev_lsn_ LogType.DELETE
        record.rid_ record.record_) = s at h h1
      split at h
      · cases h
      · rename_i fh1 hf
        exact (h1.step_trans (@LogStep.of_eq _ { s.1 with fh := fh1 } _ _ rfl rfl rfl rfl)).step_trans
          (abort_heap_step rest h)
    · dsimp only at h
      have h1 := LogStep.emit db txn (LogRecord.tuple txn.txn_id_ txn.prev_lsn_ LogType.INSERT
        record.rid_ record.record_) rfl rfl
      generalize db.emit txn (LogRecord.tuple txn.txn_id_ txn.prev_lsn_ LogType.INSERT
        record.rid_ record.record_) = s at h h1
      split at h
      · cases h
      · rename_i fh1 hf
        exact (h1.step_trans (@LogStep.of_eq _ { s.1 with fh := fh1 } _ _ rfl rfl rfl rfl)).step_trans
          (abort_heap_step rest h)
    · split at h
      · cases h
      · exact abort_heap_step rest h
      · dsimp only at h
        have h1 := LogStep.emit db txn (LogRecord.update txn.txn_id_ txn.prev_lsn_
          record.rid_ record.new_rec_ record.record_) rfl rfl
        generalize db.emit txn (LogRecord.update txn.txn_id_ txn.prev_lsn_
          record.rid_ record.new_rec_ record.record_) = s at h h1
        split at h
        · cases h
        · rename_i fh1 hf
          exact (h1.step_trans (@LogStep.of_eq _ { s.1 with fh := fh1 } _ _ rfl rfl rfl rfl)).step_trans
            (abort_heap_step rest h)

theorem abort_index_step : ∀ (ws : List IndexWriteRecord) {db db1 : Database}
    {txn txn1 : Transaction},
    TransactionManager.abort_index db txn ws = Except.ok (db1, txn1) → LogStep db txn db1 txn1
  | [], db, db1, txn, txn1, h => by
    unfold TransactionManager.abort_index at h
    cases h
    exact LogStep.step_refl _ _
  | item :: rest, db, db1, txn, txn1, h => by
    unfold TransactionManager.abort_index at h
    split at h
    · dsimp only at h
      have h1 := LogStep.emit db txn (LogRecord.index txn.txn_id_ txn.prev_lsn_
        LogType.INSERT_ENTRY item.rid_ item.key_) rfl rfl
      generalize db.emit txn (LogRecord.index txn.txn_id_ txn.prev_lsn_
        LogType.INSERT_ENTRY item.rid_ item.key_) = s at h h1
      split at h
      · cases h
      · rename_i db2 flag hix
        exact (h1.step_trans (LogStep.of_eq (on_index_log hix) rfl rfl rfl)).step_trans
          (abort_index_step rest h)
    · dsimp only at h
      have h1 := LogStep.emit db txn (LogRecord.index txn.txn_id_ txn.prev_lsn_
        LogType.DELETE_ENTRY item.rid_ item.key_) rfl rfl
      generalize db.emit txn (LogRecord.index txn.txn_id_ txn.prev_lsn_
        LogType.DELETE_ENTRY item.rid_ item.key_) = s at h h1
      split at h
      · cases h
      · rename_i db2 flag hix
        exact (h1.step_trans (LogStep.of_eq (on_index_log hix) rfl rfl rfl)).step_trans
          (abort_index_step rest h)
    · exact abort_index_step rest h

theorem abort_step {db db1 : Database} {txn txn1 : Transaction}
    (h : TransactionManager.abort db txn = Except.ok (db1, txn1)) : LogStep db txn db1 txn1 := by
  unfold TransactionManager.abort at h
  split at h
  · cases h
    exact LogStep.step_refl _ _
  · split at h
    · cases h
    · rename_i db2 txn2 hh
      have h1 := abort_heap_step _ hh
      split at h
      · cases h
      · rename_i db3 txn3 hi
        have h2 := abort_index_step _ hi
        cases h
        exact ((h1.step_trans h2).step_trans
          ((@LogStep.of_eq _ _ _ { txn3 with write_set_ := [], index_write_set_ := [] }
            rfl rfl rfl rfl).step_trans (LogStep.emit db3 _ _ rfl rfl))).step_trans
          (LogStep.of_eq rfl rfl rfl rfl)


/-- Claim C19: the `prev_lsn` chain holds after `begin` of a transaction
whose id is new to the log, and is kept by `commit`, by `abort` and by every
run of the Insert, Delete and Update executors that returns: `prev_lsn_` of
the transaction is the sequence number of the last log record with its id,
every record of the transaction carries the sequence number of the
preceding one, and the chains of the other transactions are untouched. -/
theorem prev_lsn_chain (db : Database) (txn : Transaction)
    (h : TxnLogOK db.log_mgr.log txn) :
    (∀ txn_id txn_mode, (∀ r ∈ db.log_mgr.log, r.log_tid_ ≠ txn_id) →
      LogKept db ⟨txn_id, INVALID_LSN, txn_mode, [], [], TransactionState.DEFAULT, []⟩
        (TransactionManager.begin db txn_id txn_mode).1
        (TransactionManager.begin db txn_id txn_mode).2) ∧
    LogKept db txn (TransactionManager.commit db txn).1 (TransactionManager.commit db txn).2 ∧
    (∀ db1 txn1, TransactionManager.abort db txn = Except.ok (db1, txn1) →
      LogKept db txn db1 txn1) ∧
    (∀ rec db1 txn1, InsertExecutor.Next db txn rec = Except.ok (db1, txn1) →
      LogKept db txn db1 txn1) ∧
    (∀ rids db1 txn1, DeleteExecutor.Next db txn rids = Except.ok (db1, txn1) →
      LogKept db txn db1 txn1) ∧
    (∀ cs rids db1 txn1, UpdateExecutor.Next db txn cs rids = Except.ok (db1, txn1) →
      LogKept db txn db1 txn1) := by
  have key : ∀ {db1 txn1}, LogStep db txn db1 txn1 → LogKept db txn db1 txn1 :=
    fun hs => ⟨h.step hs, fun u hne hu => hu.frame hne hs⟩
  exact ⟨fun txn_id txn_mode hfresh => ⟨begin_logok db txn_id txn_mode hfresh,
      fun u hne hu => hu.frame hne (LogStep.emit db ⟨txn_id, INVALID_LSN, txn_mode, [], [], TransactionState.DEFAULT, []⟩
        (LogRecord.control txn_id INVALID_LSN LogType.BEGIN) rfl rfl)⟩,
    key (commit_step db txn), fun _ _ hr => key (abort_step hr),
    fun _ _ _ hr => key (insert_next_step hr), fun _ _ _ hr => key (delete_next_step _ hr),
    fun _ _ _ _ hr => key (update_next_step hr)⟩

/-- Claim C19 at a transaction that has begun on a new table, inserted a row
and committed. -/
theorem prev_lsn_chain_witness :
    TxnLogOK chain_example.1.log_mgr.log chain_example.2 ∧
    chain_example.1.log_mgr.log.map (fun r => (r.lsn_, r.prev_lsn_)) = [(0, -1), (1, 0)] ∧
    LogKept chain_example.1 chain_example.2
      (TransactionManager.commit chain_example.1 chain_example.2).1
      (TransactionManager.commit chain_example.1 chain_example.2).2 :=
  have h0 : TxnLogOK chain_example.1.log_mgr.log chain_example.2 :=
    ⟨⟨rfl, rfl, trivial⟩, rfl⟩
  ⟨h0, rfl, (prev_lsn_chain chain_example.1 chain_example.2 h0).2.1⟩

end RMDB

/-! ## The order of the writes of the Insert executor -/

namespace RMDB

/-- The traced run is the run `InsertExecutor.Next` with its writes
listed. -/
theorem Next_traced_state (db : Database) (txn : Transaction) (rec : RmRecord) :
    (InsertExecutor.Next_traced db txn rec).map Prod.fst = InsertExecutor.Next db txn rec := by
  unfold InsertExecutor.Next_traced InsertExecutor.Next
  split
  · rfl
  · rfl
  · split
    · rfl
    · dsimp only
      split
      · rfl
      · split
        · rfl
        · rfl

/-- Claim C18, evaluated: the first INSERT statement of a transaction on a
new table with an index writes the row into the table file at (1, 0) first
and appends the INSERT log record (sequence number 1) after that; the
INSERT_ENTRY record (sequence number 2) is appended before the entry is
written into the index. -/
theorem insert_writes_heap_before_log :
    (InsertExecutor.Next_traced (TransactionManager.begin (Database.create 4 (some 4)) 1 true).1
      (TransactionManager.begin (Database.create 4 (some 4)) 1 true).2 [7]).map Prod.snd =
    Except.ok [Effect.heap_insert ⟨1, 0⟩, Effect.log_append LogType.INSERT 1,
      Effect.log_append LogType.INSERT_ENTRY 2, Effect.index_insert 7] := by
  rfl

end RMDB

/-! ## The end of `abort`, and `abort` on records that are gone -/

namespace RMDB

/-- C22 (counterexample): `abort` of a transaction that is not in explicit
mode returns at once; the last record of the log is still the BEGIN record
and the state of the transaction is still DEFAULT. -/
theorem abort_implicit_appends_nothing :
    implicit_example.2.txn_mode_ = false ∧
    TransactionManager.abort implicit_example.1 implicit_example.2 =
      Except.ok implicit_example ∧
    log_types implicit_example.1 = [LogType.BEGIN] ∧
    implicit_example.2.state_ = TransactionState.DEFAULT := by
  refine ⟨rfl, rfl, rfl, rfl⟩

/-- C22 (amended): when `abort` of a transaction in explicit mode returns,
the last record of the log is an ABORT record with the id of the
transaction, and the state of the transaction is ABORTED. -/
theorem abort_explicit_appends_abort (db db1 : Database) (txn txn1 : Transaction)
    (hm : txn.txn_mode_ = true)
    (h : TransactionManager.abort db txn = Except.ok (db1, txn1)) :
    (∃ r, db1.log_mgr.log.getLast? = some r ∧ r.log_type_ = LogType.ABORT ∧
      r.log_tid_ = txn.txn_id_) ∧
    txn1.state_ = TransactionState.ABORTED := by
  unfold TransactionManager.abort at h
  rw [hm] at h
  simp only [Bool.not_true, Bool.false_eq_true, if_false] at h
  split at h
  · cases h
  · rename_i db2 txn2 hh
    have h1 := abort_heap_step _ hh
    split at h
    · cases h
    · rename_i db3 txn3 hi
      have h2 := abort_index_step _ hi
      cases h
      refine ⟨⟨_, List.getLast?_concat _, rfl, ?_⟩, rfl⟩
      exact h2.1.trans h1.1

/-- C22 (amended) at the transaction of `chain_example`, which is in
explicit mode and has inserted one row. -/
theorem abort_explicit_appends_abort_witness :
    chain_example.2.txn_mode_ = true ∧
    TransactionManager.abort chain_example.1 chain_example.2 =
      Except.ok chain_example_aborted ∧
    (∃ r, chain_example_aborted.1.log_mgr.log.getLast? = some r ∧
      r.log_type_ = LogType.ABORT ∧ r.log_tid_ = chain_example.2.txn_id_) ∧
    chain_example_aborted.2.state_ = TransactionState.ABORTED :=
  ⟨rfl, rfl, abort_explicit_appends_abort chain_example.1 chain_example_aborted.1
    chain_example.2 chain_example_aborted.2 rfl rfl⟩

/-- C23: the table file holds no record at page 1, slot 0.  `abort` with
the write-set entry of an insertion at that position fails the assertion of
`delete_record`; only the entry of an update is skipped (no log record is
written for it, then ABORT is appended); the entry of a deletion is not
skipped but applied: the record is inserted again. -/
theorem abort_fails_on_vanished_insert :
    vanished_insert.2.write_set_.map (fun w => (w.wtype_, w.rid_)) =
      [(WType.INSERT_TUPLE, ⟨1, 0⟩)] ∧
    vanished_insert.1.fh.is_record ⟨1, 0⟩ = Except.ok false ∧
    TransactionManager.abort vanished_insert.1 vanished_insert.2 =
      Except.error Fault.crashed ∧
    (TransactionManager.abort vanished_update.1 vanished_update.2).toOption.map
        (fun s => log_types s.1) =
      some [LogType.BEGIN, LogType.INSERT, LogType.ABORT] ∧
    (TransactionManager.abort vanished_delete.1 vanished_delete.2).toOption.map
        (fun s => log_types s.1) =
      some [LogType.BEGIN, LogType.INSERT, LogType.INSERT, LogType.ABORT] ∧
    record_after (TransactionManager.abort vanished_delete.1 vanished_delete.2) ⟨1, 0⟩ =
      some true := by
  refine ⟨rfl, rfl, rfl, rfl, rfl, rfl⟩

end RMDB
/-! ## The uniqueness check of the Update executor -/

namespace RMDB

/-- The check of the new keys against each other on three lists: two keys
whose strings differ pass; two equal keys without a zero byte throw; on two
equal keys with a zero byte among their first three bytes `memcmp` reads
past the end of the strings. -/
theorem unique_new_keys_runs :
    UpdateExecutor.unique_new_keys [1, 2] = Except.ok () ∧
    UpdateExecutor.unique_new_keys [16909060, 16909060] = Except.error Fault.thrown ∧
    UpdateExecutor.unique_new_keys [5, 5] = Except.error Fault.crashed := by
  decide

/-- C28: with the rows (1, 10) and (2, 20) and the index on the first
column, `UPDATE SET c0 = 2` on the row (1, 10) raises the uniqueness
violation in the first pass, which writes nothing.  With the rows (1, 10)
and (6, 20), `UPDATE SET c0 = 5, c0 = c0 + 1` on the row (1, 10) gives the
row the new key 6, which is in the index, yet no violation is raised: the
first pass looks up the key 2, which it builds from the unchanged record.
The run returns with the rows (6, 10) and (6, 20) in the table file and
with the key 6 of the index still at the second row. -/
theorem update_misses_duplicate_key :
    UpdateExecutor.new_keys (two_rows [1, 10] [2, 20]).1 [⟨0, false, false, 2⟩] [⟨1, 0⟩] =
      Except.error Fault.thrown ∧
    UpdateExecutor.Next (two_rows [1, 10] [2, 20]).1 (two_rows [1, 10] [2, 20]).2
      [⟨0, false, false, 2⟩] [⟨1, 0⟩] = Except.error Fault.thrown ∧
    (two_rows [1, 10] [6, 20]).1.fh.get_record ⟨1, 0⟩ = Except.ok [1, 10] ∧
    extract_key (apply_set_clauses set_then_add [1, 10]) = 6 ∧
    (two_rows [1, 10] [6, 20]).1.key_found 6 = Except.ok true ∧
    UpdateExecutor.check_key set_then_add [1, 10] 0 = 2 ∧
    rows_after (UpdateExecutor.Next (two_rows [1, 10] [6, 20]).1 (two_rows [1, 10] [6, 20]).2
      set_then_add [⟨1, 0⟩]) 6 =
      some (some [6, 10], some [6, 20], some (some ⟨1, 1⟩)) := by
  refine ⟨rfl, rfl, rfl, rfl, rfl, rfl, rfl⟩

end RMDB
namespace RMDB

/-! ## `create_index` on a table with rows -/


/-- C40, failing input: the table holds the rows (1, 7) and (2, 7) at the
positions (1, 0) and (1, 1), and its index on the first column holds both.
`create_index` on the second column returns; afterwards the only live
record is the one at (1, 0), the row (2, 7) is gone from the heap, and the
index on the first column still gives the position (1, 1) for the key 2. -/
theorem create_index_deletes_duplicate_rows :
    shared_value_table.1.fh.live_rids = [⟨1, 0⟩, ⟨1, 1⟩] ∧
    shared_value_table.1.fh.get_record ⟨1, 1⟩ = Except.ok [2, 7] ∧
    table_after (SmManager.create_index shared_value_table.1 shared_value_table.2 1 4) =
      some ([⟨1, 0⟩], some (some ⟨1, 1⟩)) ∧
    ∀ db txn ih, SmManager.create_index shared_value_table.1 shared_value_table.2 1 4 =
        Except.ok (db, txn, ih) →
      db.fh.live_rids ≠ shared_value_table.1.fh.live_rids ∧
      ∃ other, db.ih = some other ∧ ¬ IndexMatchesHeap other db.fh := by
  refine ⟨by decide, rfl, by decide, ?_⟩
  intro db txn ih h
  have h1 : table_after (SmManager.create_index shared_value_table.1 shared_value_table.2 1 4) =
      some ([⟨1, 0⟩], some (some ⟨1, 1⟩)) := by decide
  rw [h] at h1
  simp only [table_after, Option.some.injEq, Prod.mk.injEq] at h1
  obtain ⟨hl, hv⟩ := h1
  refine ⟨by rw [hl]; decide, ?_⟩
  cases hih : db.ih with
  | none => rw [hih] at hv; cases hv
  | some other =>
    rw [hih] at hv
    refine ⟨other, rfl, fun hm => ?_⟩
    have := hm 2 ⟨1, 1⟩ hv
    rw [hl] at this
    revert this
    decide

end RMDB
/-! ## Lock manager: the lock set across `lock_on_table` and `unlock` -/

namespace RMDB

namespace LockManager

theorem mem_lock_set_insert {ls : List Int} {t x : Int} (h : x ∈ ls) :
    x ∈ lock_set_insert ls t := by
  unfold lock_set_insert
  split
  · exact h
  · exact List.mem_append_left _ h

theorem mem_lock_set_insert_self (ls : List Int) (t : Int) : t ∈ lock_set_insert ls t := by
  unfold lock_set_insert
  split
  · assumption
  · simp

theorem mem_lock_set_erase {ls : List Int} {t x : Int} (h : x ∈ ls) (hx : x ≠ t) :
    x ∈ lock_set_erase ls t := by
  unfold lock_set_erase
  simp only [List.mem_filter, decide_eq_true_eq]
  exact ⟨h, hx⟩

/-- The first part of the call, when it meets no pending upgrade of the
transaction itself, keeps the lock set or adds the table to it. -/
theorem grant_or_enqueue_txn_lock_set (q : LockRequestQueue) (txn : Transaction) (tab_fd : Int)
    (r : LockRequest) :
    (∀ x ∈ txn.lock_set_, x ∈ (grant_or_enqueue_txn q txn tab_fd r).2.1.lock_set_) ∧
    ((grant_or_enqueue_txn q txn tab_fd r).2.2 = LockResult.granted →
      tab_fd ∈ (grant_or_enqueue_txn q txn tab_fd r).2.1.lock_set_) ∧
    ((grant_or_enqueue_txn q txn tab_fd r).2.2 = LockResult.granted ∨
      (grant_or_enqueue_txn q txn tab_fd r).2.2 = LockResult.waiting) := by
  unfold grant_or_enqueue_txn
  split
  · exact ⟨fun x hx => mem_lock_set_insert hx, fun _ => mem_lock_set_insert_self _ _,
      Or.inl rfl⟩
  · refine ⟨fun x hx => hx, ?_, Or.inr rfl⟩
    intro h
    have h' : LockResult.waiting = LockResult.granted := h
    exact absurd h' (by decide)

/-- One evaluation of the predicate of the wait keeps the lock set or adds
the table to it. -/
theorem lock_on_table_resume_lock_set {q q1 : LockRequestQueue} {txn txn1 : Transaction}
    {tab_fd : Int} {lock_mode : LockMode} {res : LockResult}
    (h : lock_on_table_resume q txn tab_fd lock_mode = some (q1, txn1, res)) :
    (∀ x ∈ txn.lock_set_, x ∈ txn1.lock_set_) ∧
    (res = LockResult.granted → tab_fd ∈ txn1.lock_set_) ∧ res ≠ LockResult.thrown := by
  unfold lock_on_table_resume at h
  have triv : ∀ r : LockResult, r = LockResult.refused ∨ r = LockResult.waiting →
      (∀ x ∈ txn.lock_set_, x ∈ txn.lock_set_) ∧
      (r = LockResult.granted → tab_fd ∈ txn.lock_set_) ∧ r ≠ LockResult.thrown := by
    intro r hr
    refine ⟨fun x hx => hx, ?_, ?_⟩
    · intro hg
      rcases hr with hr | hr <;> rw [hr] at hg <;> exact absurd hg (by decide)
    · intro hg
      rcases hr with hr | hr <;> rw [hr] at hg <;> exact absurd hg (by decide)
  split at h
  · cases h
    exact triv _ (Or.inl rfl)
  · split at h
    · cases h
    · split at h
      · cases h
        exact triv _ (Or.inr rfl)
      · split at h
        · cases h
          exact triv _ (Or.inr rfl)
        · cases h
          refine ⟨fun x hx => mem_lock_set_insert hx, fun _ => mem_lock_set_insert_self _ _, ?_⟩
          decide

/-- The wait keeps the lock set or adds the table to it. -/
theorem lock_on_table_wait_lock_set (tab_fd : Int) (lock_mode : LockMode) :
    ∀ (wakes : List WakeUp) (q q1 : LockRequestQueue) (txn txn1 : Transaction)
      (res : LockResult),
      lock_on_table_wait tab_fd lock_mode q txn wakes = some (q1, txn1, res) →
      (∀ x ∈ txn.lock_set_, x ∈ txn1.lock_set_) ∧
      (res = LockResult.granted → tab_fd ∈ txn1.lock_set_) ∧ res ≠ LockResult.thrown := by
  intro wakes
  induction wakes with
  | nil =>
    intro q q1 txn txn1 res h
    simp only [lock_on_table_wait] at h
    cases h
    refine ⟨fun x hx => hx, ?_, ?_⟩
    · intro hg
      exact absurd hg (by decide)
    · decide
  | cons w rest ih =>
    intro q q1 txn txn1 res h
    simp only [lock_on_table_wait] at h
    have hls : (if w.aborted = true then { txn with state_ := TransactionState.ABORTED }
        else txn).lock_set_ = txn.lock_set_ := by split <;> rfl
    split at h
    · cases h
    · rename_i q2 txn2 hr
      have h1 := lock_on_table_resume_lock_set hr
      have h2 := ih _ _ _ _ _ h
      rw [hls] at h1
      exact ⟨fun x hx => h2.1 x (h1.1 x hx), h2.2.1, h2.2.2⟩
    · rename_i r hne hr
      cases h
      have h1 := lock_on_table_resume_lock_set hr
      rw [hls] at h1
      exact h1

/-- C27 (amended): after a call of `lock_on_table` every table of the lock
set other than the one asked for is still in the lock set, and when the
call returns true or throws the lock set holds all it held before. -/
theorem lock_set_kept_by_lock_on_table (q q1 : LockRequestQueue) (txn txn1 : Transaction)
    (tab_fd : Int) (lock_mode : LockMode) (aborted : Bool) (wakes : List WakeUp)
    (res : LockResult)
    (h : lock_on_table q txn tab_fd lock_mode aborted wakes = some (q1, txn1, res)) :
    (∀ x ∈ txn.lock_set_, x ≠ tab_fd → x ∈ txn1.lock_set_) ∧
    (res = LockResult.granted ∨ res = LockResult.thrown →
      ∀ x ∈ txn.lock_set_, x ∈ txn1.lock_set_) := by
  -- the first part
  have hstart : ∀ q2 txn2 res2,
      lock_on_table_start q txn tab_fd lock_mode = some (q2, txn2, res2) →
      (∀ x ∈ txn.lock_set_, x ≠ tab_fd → x ∈ txn2.lock_set_) ∧
      (res2 = LockResult.granted ∨ res2 = LockResult.thrown →
        ∀ x ∈ txn.lock_set_, x ∈ txn2.lock_set_) ∧
      (res2 = LockResult.granted ∨ res2 = LockResult.thrown ∨ res2 = LockResult.refused ∨
        res2 = LockResult.waiting) := by
    intro q2 txn2 res2 hs
    unfold lock_on_table_start at hs
    split at hs
    · cases hs
      exact ⟨fun x hx _ => hx, fun _ x hx => hx, Or.inr (Or.inr (Or.inl rfl))⟩
    · split at hs
      · rename_i request hreq
        split at hs
        · cases hs
          exact ⟨fun x hx _ => hx, fun _ x hx => hx, Or.inl rfl⟩
        · split at hs
          · cases hs
            exact ⟨fun x hx _ => hx, fun _ x hx => hx, Or.inr (Or.inl rfl)⟩
          · have hg := grant_or_enqueue_txn_lock_set
              { q with upgrading_ := txn.txn_id_, locked_requests_ := q.locked_erase txn.txn_id_ }
              { txn with lock_set_ := lock_set_erase txn.lock_set_ tab_fd }
              tab_fd { request with lock_mode_ := lock_mode }
            have hs' := Option.some.inj hs
            rw [hs'] at hg
            obtain ⟨g1, g2, g3⟩ := hg
            refine ⟨fun x hx hne => g1 x (mem_lock_set_erase hx hne), ?_, ?_⟩
            · rintro (hres | hres) x hx
              · by_cases hxt : x = tab_fd
                · rw [hxt]; exact g2 hres
                · exact g1 x (mem_lock_set_erase hx hxt)
              · rcases g3 with g3 | g3
                · have g3' : LockResult.thrown = LockResult.granted := by rw [← hres]; exact g3
                  exact absurd g3' (by decide)
                · have g3' : LockResult.thrown = LockResult.waiting := by rw [← hres]; exact g3
                  exact absurd g3' (by decide)
            · rcases g3 with g3 | g3
              · exact Or.inl g3
              · exact Or.inr (Or.inr (Or.inr g3))
      · split at hs
        · cases hs
        · have hg := grant_or_enqueue_txn_lock_set q txn tab_fd ⟨txn.txn_id_, lock_mode⟩
          have hs' := Option.some.inj hs
          rw [hs'] at hg
          obtain ⟨g1, g2, g3⟩ := hg
          refine ⟨fun x hx _ => g1 x hx, fun _ x hx => g1 x hx, ?_⟩
          rcases g3 with g3 | g3
          · exact Or.inl g3
          · exact Or.inr (Or.inr (Or.inr g3))
  unfold lock_on_table at h
  split at h
  · cases h
  · rename_i q2 txn2 hs
    obtain ⟨s1, -, -⟩ := hstart _ _ _ hs
    obtain ⟨w1, w2, w3⟩ := lock_on_table_wait_lock_set tab_fd lock_mode _ _ _ _ _ _ h
    refine ⟨fun x hx hne => w1 x (s1 x hx hne), ?_⟩
    rintro (hres | hres) x hx
    · by_cases hxt : x = tab_fd
      · rw [hxt]; exact w2 hres
      · exact w1 x (s1 x hx hxt)
    · exact absurd hres w3
  · rename_i r hne hs
    cases h
    obtain ⟨s1, s2, -⟩ := hstart _ _ _ hs
    exact ⟨s1, s2⟩

/-- C27 (amended) at an upgrade that waits and is granted: transaction 1
holds SHARED locks on the tables 3 and 5 and asks for an EXCLUSIVE lock on
table 5, on which transaction 2 holds a SHARED lock.  The first part of the
call takes table 5 out of the lock set and waits; after transaction 2 has
released its lock the call returns true, and the lock set holds the tables 3
and 5 again. -/
theorem lock_set_kept_by_lock_on_table_witness :
    two_table_pair.2.lock_set_ = [3, 5] ∧
    (LockManager.lock_on_table_start two_table_pair.1 two_table_pair.2 5
      LockMode.EXCLUSIVE).map (fun r => (r.2.1.lock_set_, r.2.2)) =
        some ([3], LockResult.waiting) ∧
    lock_on_table two_table_pair.1 two_table_pair.2 5 LockMode.EXCLUSIVE false
        [⟨two_table_released_queue, false⟩] =
      some (upgrade_granted.1, upgrade_granted.2.1, LockResult.granted) ∧
    upgrade_granted.2.1.lock_set_ = [3, 5] ∧
    (∀ x ∈ two_table_pair.2.lock_set_, x ≠ 5 → x ∈ upgrade_granted.2.1.lock_set_) ∧
    (∀ x ∈ two_table_pair.2.lock_set_, x ∈ upgrade_granted.2.1.lock_set_) :=
  ⟨by decide, by decide, by decide, by decide,
    (lock_set_kept_by_lock_on_table two_table_pair.1 upgrade_granted.1 two_table_pair.2
      upgrade_granted.2.1 5 LockMode.EXCLUSIVE false
      [⟨two_table_released_queue, false⟩] LockResult.granted (by decide)).1,
    (lock_set_kept_by_lock_on_table two_table_pair.1 upgrade_granted.1 two_table_pair.2
      upgrade_granted.2.1 5 LockMode.EXCLUSIVE false
      [⟨two_table_released_queue, false⟩] LockResult.granted (by decide)).2 (Or.inl rfl)⟩

/-- C27 (counterexample): transaction 1 holds a SHARED lock on table 5, as
does transaction 2.  It asks for an EXCLUSIVE lock, waits, and is aborted by
the deadlock detection: `lock_on_table` returns false and the lock set,
which held table 5 before the call, is empty. -/
theorem lock_set_shrinks_on_aborted_upgrade :
    shared_pair.2.lock_set_ = [5] ∧
    (lock_on_table shared_pair.1 shared_pair.2 5 LockMode.EXCLUSIVE false
      [⟨upgrade_wait_queue, true⟩]).map (fun r => (r.2.1.lock_set_, r.2.2)) =
      some ([], LockResult.refused) := by
  decide

/-- C26: transaction 1 takes a SHARED lock on table 5 and releases it with
`unlock`; the queue then holds no lock of the transaction.  A second
`unlock` of the table returns true and leaves the state of the transaction
as it is, because the first one has left the table in the lock set.  Only
for a table that never was in the lock set does `unlock` set the state to
ABORTED and throw. -/
theorem unlock_released_lock_returns_true :
    (lock_once (Transaction.fresh 1)).2.2 = LockResult.granted ∧
    lock_unlock_once.2.2 = LockResult.granted ∧
    lock_unlock_once.1.locked_lookup 1 = none ∧
    lock_unlock_once.2.1.lock_set_ = [5] ∧
    unlock_txn lock_unlock_once.1 lock_unlock_once.2.1 5 =
      (lock_unlock_once.1, lock_unlock_once.2.1, LockResult.granted) ∧
    lock_unlock_once.2.1.state_ = TransactionState.DEFAULT ∧
    unlock_txn LockRequestQueue.empty (Transaction.fresh 1) 5 =
      (LockRequestQueue.empty,
        { Transaction.fresh 1 with state_ := TransactionState.ABORTED }, LockResult.thrown) := by
  decide

end LockManager

end RMDB
/-! ## Validation of DATETIME literals: the checks agree with the specification -/

namespace RMDB

theorem digit_char_ne (c : Char) (h : c.isDigit = true) :
    c ≠ '-' ∧ c ≠ ':' ∧ c ≠ '+' := by
  refine ⟨?_, ?_, ?_⟩ <;> (rintro rfl; revert h; decide)

theorem digit_char_bounds (c : Char) (h : c.isDigit = true) : 48 ≤ c.toNat ∧ c.toNat ≤ 57 := by
  unfold Char.isDigit at h
  simp only [Bool.and_eq_true, decide_eq_true_eq, ge_iff_le] at h
  obtain ⟨h1, h2⟩ := h
  rw [UInt32.le_def] at h1 h2
  exact ⟨h1, h2⟩

theorem digit_not_space (c : Char) (h : c.isDigit = true) : Value.is_space c = false := by
  have := digit_char_bounds c h
  unfold Value.is_space
  simp only [decide_eq_false_iff_not]
  omega

theorem digit_value_lt (c : Char) (h : c.isDigit = true) : digit_value c < 10 := by
  have := digit_char_bounds c h
  unfold digit_value
  omega

theorem replace_digit (c : Char) (h : c.isDigit = true) :
    (if (if c = '-' then ' ' else c) = ':' then ' ' else (if c = '-' then ' ' else c)) = c := by
  obtain ⟨h1, h2, -⟩ := digit_char_ne c h
  rw [if_neg h1, if_neg h2]

theorem read_digits_digit (c : Char) (cs : List Char) (acc : Nat) (h : c.isDigit = true) :
    Value.read_digits (c :: cs) acc = Value.read_digits cs (acc * 10 + digit_value c) := by
  simp only [Value.read_digits, h, if_true, digit_value]

theorem read_digits_blank (cs : List Char) (acc : Nat) :
    Value.read_digits (' ' :: cs) acc = (acc, ' ' :: cs) := by
  have : Char.isDigit ' ' = false := by decide
  simp only [Value.read_digits, this, Bool.false_eq_true, if_false]

theorem extract_int_blank (s : List Char) :
    Value.extract_int (' ' :: s) = Value.extract_int s := by
  have : Value.is_space ' ' = true := by decide
  simp only [Value.extract_int, Value.skip_ws, this, if_true]

theorem extract_int_digit (c : Char) (cs : List Char) (h : c.isDigit = true) :
    Value.extract_int (c :: cs) =
      if (Value.read_digits (c :: cs) 0).1 > 2147483647 then
        ((2147483647 : Int), false, (Value.read_digits (c :: cs) 0).2)
      else (((Value.read_digits (c :: cs) 0).1 : Int), true, (Value.read_digits (c :: cs) 0).2) := by
  simp only [Value.extract_int, Value.skip_ws, digit_not_space c h, (digit_char_ne c h).2.2, h,
    if_false, if_true, Bool.false_eq_true]

/-- One extraction at two digits followed by a blank. -/
theorem extract_two_blank (a b : Char) (rest : List Char) (ha : a.isDigit = true)
    (hb : b.isDigit = true) :
    Value.extract_int (a :: b :: ' ' :: rest) = (((two_digits a b : Nat) : Int), true, ' ' :: rest) := by
  have hA := digit_value_lt a ha
  have hB := digit_value_lt b hb
  rw [extract_int_digit a _ ha, read_digits_digit a _ _ ha, read_digits_digit b _ _ hb,
    read_digits_blank]
  have h3 : ¬ (digit_value a * 10 + digit_value b > 2147483647) := by omega
  simp only [two_digits, Nat.zero_mul, Nat.zero_add, if_neg h3]

/-- One extraction at two digits that end the string. -/
theorem extract_two_end (a b : Char) (ha : a.isDigit = true) (hb : b.isDigit = true) :
    Value.extract_int [a, b] = (((two_digits a b : Nat) : Int), true, []) := by
  have hA := digit_value_lt a ha
  have hB := digit_value_lt b hb
  rw [extract_int_digit a _ ha, read_digits_digit a _ _ ha, read_digits_digit b _ _ hb]
  have h3 : ¬ (digit_value a * 10 + digit_value b > 2147483647) := by omega
  simp only [Value.read_digits, two_digits, Nat.zero_mul, Nat.zero_add, if_neg h3]

/-- One extraction at four digits followed by a blank. -/
theorem extract_four_blank (a b c d : Char) (rest : List Char) (ha : a.isDigit = true)
    (hb : b.isDigit = true) (hc : c.isDigit = true) (hd : d.isDigit = true) :
    Value.extract_int (a :: b :: c :: d :: ' ' :: rest) =
      (((four_digits a b c d : Nat) : Int), true, ' ' :: rest) := by
  have hA := digit_value_lt a ha
  have hB := digit_value_lt b hb
  have hC := digit_value_lt c hc
  have hD := digit_value_lt d hd
  rw [extract_int_digit a _ ha, read_digits_digit a _ _ ha, read_digits_digit b _ _ hb,
    read_digits_digit c _ _ hc, read_digits_digit d _ _ hd, read_digits_blank]
  have h3 : ¬ (four_digits a b c d > 2147483647) := by unfold four_digits; omega
  have h4 : (((0 * 10 + digit_value a) * 10 + digit_value b) * 10 + digit_value c) * 10 +
      digit_value d = four_digits a b c d := by
    unfold four_digits; ring
  simp only [h4, if_neg h3]

/-- The checks of the code on six numbers agree with the specification. -/
theorem check_fields_spec (year month day hour minute second : Nat) :
    Value.check_fields (some (year : Int)) (some (month : Int)) (some (day : Int))
      (some (hour : Int)) (some (minute : Int)) (some (second : Int)) =
      some (decide (SpecValidDateTime year month day hour minute second)) := by
  unfold Value.check_fields SpecValidDateTime
  simp only []
  by_cases h1 : (year : Int) < 1000 ∨ (year : Int) > 9999
  · rw [if_pos h1]; congr 1; symm; rw [decide_eq_false_iff_not]; omega
  rw [if_neg h1]
  by_cases h2 : (month : Int) < 1 ∨ (month : Int) > 12
  · rw [if_pos h2]; congr 1; symm; rw [decide_eq_false_iff_not]; omega
  rw [if_neg h2]
  by_cases h3 : (day : Int) < 1
  · rw [if_pos h3]; congr 1; symm; rw [decide_eq_false_iff_not]; omega
  rw [if_neg h3]
  by_cases h4 : (hour : Int) < 0 ∨ (hour : Int) > 23
  · rw [if_pos h4]; congr 1; symm; rw [decide_eq_false_iff_not]; omega
  rw [if_neg h4]
  by_cases h5 : (minute : Int) < 0 ∨ (minute : Int) > 59
  · rw [if_pos h5]; congr 1; symm; rw [decide_eq_false_iff_not]; omega
  rw [if_neg h5]
  by_cases h6 : (second : Int) < 0 ∨ (second : Int) > 59
  · rw [if_pos h6]; congr 1; symm; rw [decide_eq_false_iff_not]; omega
  rw [if_neg h6]
  have hm : 1 ≤ month ∧ month ≤ 12 := by omega
  have hday : (Value.days_in_month (year : Int)).getD (month : Int).toNat 0 =
      ((spec_days_of_month year month : Nat) : Int) := by
    have hl : ((year : Int) % 4 = 0 ∧ (year : Int) % 100 ≠ 0 ∨ (year : Int) % 400 = 0) ↔
        ((year % 4 = 0 ∧ year % 100 ≠ 0) ∨ year % 400 = 0) := by omega
    simp only [Int.toNat_ofNat]
    unfold Value.days_in_month spec_days_of_month
    obtain ⟨hm1, hm2⟩ := hm
    by_cases hleap : (year % 4 = 0 ∧ year % 100 ≠ 0) ∨ year % 400 = 0
    · simp only [if_pos (hl.mpr hleap), if_pos hleap]
      interval_cases month <;> rfl
    · simp only [if_neg (fun h => hleap (hl.mp h)), if_neg hleap]
      interval_cases month <;> rfl
  rw [hday]
  by_cases h7 : (day : Int) > ((spec_days_of_month year month : Nat) : Int)
  · rw [if_pos h7]; congr 1; symm; rw [decide_eq_false_iff_not]; omega
  · rw [if_neg h7]; congr 1; symm; rw [decide_eq_true_iff]; omega

/-- C29: on a string `YYYY-MM-DD HH:MM:SS` with decimal digits in the digit
positions `isValidDateTime` returns, and it returns true exactly when the
year is between 1000 and 9999, the month between 1 and 12, the day between 1
and the number of days of the month (29 for February exactly in a year
divisible by 4 and not by 100, or divisible by 400), the hour at most 23, and
minute and second at most 59. -/
theorem isValidDateTime_iff_spec (y1 y2 y3 y4 m1 m2 d1 d2 h1 h2 n1 n2 s1 s2 : Char)
    (hd : ∀ c ∈ [y1, y2, y3, y4, m1, m2, d1, d2, h1, h2, n1, n2, s1, s2], c.isDigit = true) :
    Value.isValidDateTime
      [y1, y2, y3, y4, '-', m1, m2, '-', d1, d2, ' ', h1, h2, ':', n1, n2, ':', s1, s2] =
      some (decide (SpecValidDateTime (four_digits y1 y2 y3 y4) (two_digits m1 m2)
        (two_digits d1 d2) (two_digits h1 h2) (two_digits n1 n2) (two_digits s1 s2))) := by
  have e1 := hd y1 (by simp)
  have e2 := hd y2 (by simp)
  have e3 := hd y3 (by simp)
  have e4 := hd y4 (by simp)
  have e5 := hd m1 (by simp)
  have e6 := hd m2 (by simp)
  have e7 := hd d1 (by simp)
  have e8 := hd d2 (by simp)
  have e9 := hd h1 (by simp)
  have e10 := hd h2 (by simp)
  have e11 := hd n1 (by simp)
  have e12 := hd n2 (by simp)
  have e13 := hd s1 (by simp)
  have e14 := hd s2 (by simp)
  have hrep : Value.replace (Value.replace
      [y1, y2, y3, y4, '-', m1, m2, '-', d1, d2, ' ', h1, h2, ':', n1, n2, ':', s1, s2]
        '-' ' ') ':' ' ' =
      [y1, y2, y3, y4, ' ', m1, m2, ' ', d1, d2, ' ', h1, h2, ' ', n1, n2, ' ', s1, s2] := by
    simp only [Value.replace, List.map_cons, List.map_nil, replace_digit _ e1,
      replace_digit _ e2, replace_digit _ e3, replace_digit _ e4, replace_digit _ e5,
      replace_digit _ e6, replace_digit _ e7, replace_digit _ e8, replace_digit _ e9,
      replace_digit _ e10, replace_digit _ e11, replace_digit _ e12, replace_digit _ e13,
      replace_digit _ e14]
    rfl
  unfold Value.isValidDateTime
  rw [if_neg (by simp), hrep]
  simp only [Value.extract_ints, Bool.false_eq_true, if_false, extract_four_blank _ _ _ _ _ e1 e2 e3 e4,
    extract_int_blank, extract_two_blank _ _ _ e5 e6, extract_two_blank _ _ _ e7 e8,
    extract_two_blank _ _ _ e9 e10, extract_two_blank _ _ _ e11 e12, extract_two_end _ _ e13 e14,
    Bool.not_true]
  exact check_fields_spec _ _ _ _ _ _

/-- The date 2024-02-29 12:30:45 is valid. -/
theorem isValidDateTime_iff_spec_witness :
    (∀ c ∈ ['2', '0', '2', '4', '0', '2', '2', '9', '1', '2', '3', '0', '4', '5'],
      c.isDigit = true) ∧
    Value.isValidDateTime
      ['2', '0', '2', '4', '-', '0', '2', '-', '2', '9', ' ', '1', '2', ':', '3', '0', ':',
        '4', '5'] = some true :=
  ⟨by decide, (isValidDateTime_iff_spec '2' '0' '2' '4' '0' '2' '2' '9' '1' '2' '3' '0' '4' '5'
    (by decide)).trans (by decide)⟩

end RMDB
namespace RMDB

/-! ## The layout of DATETIME literals is not checked -/

/-- C37, failing input: `isValidDateTime` returns true on the 19 characters
`2024 02 29 12 30 45`, which have blanks where the layout has `-` and `:`,
and on `2024-2-29 1:30:45` followed by two blanks, which has fields of one
digit; neither is laid out as `YYYY-MM-DD HH:MM:SS`. -/
theorem isValidDateTime_accepts_other_layouts :
    Value.isValidDateTime blank_separated = some true ∧ ¬ LaidOutAsDateTime blank_separated ∧
      Value.isValidDateTime short_fields = some true ∧ ¬ LaidOutAsDateTime short_fields := by
  refine ⟨by decide, by decide, by decide, by decide⟩

end RMDB
namespace RMDB

open LogCodec

/-! ## Predicates between a BIGINT column and an INT literal -/

/-- C33, failing input: in the table `t(id INT, big BIGINT)`, on the row
whose `big` is 4294967301 (2^32 + 5) the scan returns true for `big = 5` and
for `big < 10`, and on the row whose `big` is 2147483648 (2^31) it returns
false for `big > 0`; the truth values of the three comparisons on the 64-bit
values are false, false and true.  The literal has the type INT, which
`eval_cond` lets pass against a BIGINT column and hands to `ix_compare`,
so that the first four bytes of the column are compared as an `int`. -/
theorem bigint_column_compared_as_int (junk : Nat → Nat) :
    SeqScanExecutor.eval_cond int_big_cols (big_vs_int CompOp.OP_EQ 5 junk)
        (int32_bytes 1 ++ int64_bytes 4294967301) = Except.ok true ∧
      CompOp.OP_EQ.holds_on 4294967301 5 = false ∧
    SeqScanExecutor.eval_cond int_big_cols (big_vs_int CompOp.OP_LT 10 junk)
        (int32_bytes 1 ++ int64_bytes 4294967301) = Except.ok true ∧
      CompOp.OP_LT.holds_on 4294967301 10 = false ∧
    SeqScanExecutor.eval_cond int_big_cols (big_vs_int CompOp.OP_GT 0 junk)
        (int32_bytes 2 ++ int64_bytes 2147483648) = Except.ok false ∧
      CompOp.OP_GT.holds_on 2147483648 0 = true := by
  refine ⟨rfl, by decide, rfl, by decide, rfl, by decide⟩

end RMDB
/-! ## The Sort executor: the block is ordered -/

namespace RMDB

open LogCodec

namespace SortExecutor

theorem lexcmp_swap : ∀ x y : List Int, lexcmp y x = - lexcmp x y
  | [], [] => by simp [lexcmp]
  | [], _ :: _ => by simp [lexcmp]
  | _ :: _, [] => by simp [lexcmp]
  | a :: as, b :: bs => by
    have ih := lexcmp_swap as bs
    simp only [lexcmp]
    split_ifs <;> omega

theorem lexcmp_neg : ∀ x y : List Int,
    lexcmp (x.map (fun v => -v)) (y.map (fun v => -v)) = - lexcmp x y
  | [], [] => by simp [lexcmp]
  | [], _ :: _ => by simp [lexcmp]
  | _ :: _, [] => by simp [lexcmp]
  | a :: as, b :: bs => by
    have ih := lexcmp_neg as bs
    simp only [List.map_cons, lexcmp]
    split_ifs <;> omega

theorem lexcmp_append : ∀ (x1 y1 x2 y2 : List Int), x1.length = y1.length →
    lexcmp (x1 ++ x2) (y1 ++ y2) = if lexcmp x1 y1 ≠ 0 then lexcmp x1 y1 else lexcmp x2 y2
  | [], [], x2, y2, _ => by simp [lexcmp]
  | [], _ :: _, _, _, h => by simp at h
  | _ :: _, [], _, _, h => by simp at h
  | a :: as, b :: bs, x2, y2, h => by
    have ih := lexcmp_append as bs x2 y2 (by simpa using h)
    simp only [List.cons_append, lexcmp]
    split_ifs <;> simp_all

theorem lexcmp_le_trans : ∀ (x y z : List Int), x.length = y.length → y.length = z.length →
    lexcmp x y ≤ 0 → lexcmp y z ≤ 0 → lexcmp x z ≤ 0
  | [], _, _, _, _, _, _ => by simp [lexcmp]
  | _ :: _, [], _, h, _, _, _ => by simp at h
  | _ :: _, _ :: _, [], _, h, _, _ => by simp at h
  | a :: as, b :: bs, c :: cs, h1, h2, h3, h4 => by
    have ih := lexcmp_le_trans as bs cs (by simpa using h1) (by simpa using h2)
    simp only [lexcmp] at h3 h4 ⊢
    split_ifs at h3 h4 ⊢ <;> omega

theorem memcmp_eq_lexcmp : ∀ x y : Bytes,
    memcmp x y = lexcmp (x.map Int.ofNat) (y.map Int.ofNat)
  | [], [] => by simp [memcmp, lexcmp]
  | [], _ :: _ => by simp [memcmp, lexcmp]
  | _ :: _, [] => by simp [memcmp, lexcmp]
  | a :: as, b :: bs => by
    have ih := memcmp_eq_lexcmp as bs
    simp only [memcmp, List.map_cons, lexcmp, Int.ofNat_eq_coe, Nat.cast_lt, gt_iff_lt]
    split_ifs <;> first | rfl | simpa using ih

theorem ix_compare_eq_lexcmp (x y : Int) : ix_compare x y = lexcmp [x] [y] := by
  simp [ix_compare, lexcmp]

theorem read_at_drop (t : Bytes) (off n : Nat) (h : off + n ≤ t.length) :
    read_at (t.drop off) 0 n = some ((t.drop off).take n) := by
  unfold read_at
  rw [if_pos]
  · simp
  · refine ⟨by omega, ?_⟩
    rw [List.length_drop]
    omega

/-- On two tuples that can be ordered by a column, `ix_compare` at the
column is the comparison of their values. -/
theorem ix_compare_raw_sort_key (col : ColMeta) (a b : Bytes) (ha : sortable_by col a = true)
    (hb : sortable_by col b = true) :
    ix_compare_raw (a.drop col.offset) (b.drop col.offset) col.type col.len
      = some (lexcmp (sort_key col a) (sort_key col b)) ∧
    (sort_key col a).length = (sort_key col b).length := by
  unfold sortable_by compared_width at ha hb
  simp only [Bool.and_eq_true, Bool.or_eq_true, decide_eq_true_eq] at ha hb
  obtain ⟨ha1, ha2⟩ := ha
  obtain ⟨hb1, hb2⟩ := hb
  unfold ix_compare_raw sort_key
  cases hty : col.type <;> simp only [hty] at ha1 hb1 ha2 hb2 ⊢
  · rw [read_at_drop a _ _ ha1, read_at_drop b _ _ hb1]
    exact ⟨by simp [ix_compare_eq_lexcmp], by simp⟩
  · rw [read_at_drop a _ _ ha1, read_at_drop b _ _ hb1]
    refine ⟨?_, by simp⟩
    simp only [ne_eq, not_true_eq_false, false_or] at ha2 hb2
    obtain ⟨x, hx⟩ := Option.isSome_iff_exists.mp ha2
    obtain ⟨y, hy⟩ := Option.isSome_iff_exists.mp hb2
    simp only [Option.bind_eq_bind, Option.some_bind, Option.pure_def, float_lt, hx, hy,
      Option.getD_some, lexcmp, decide_eq_true_eq, gt_iff_lt]
  · rw [read_at_drop a _ _ ha1, read_at_drop b _ _ hb1]
    exact ⟨by simp [memcmp_eq_lexcmp], by
      simp only [List.length_map, List.length_take, List.length_drop]; omega⟩
  · rw [read_at_drop a _ _ ha1, read_at_drop b _ _ hb1]
    exact ⟨by simp [ix_compare_eq_lexcmp], by simp⟩
  · rw [read_at_drop a _ _ ha1, read_at_drop b _ _ hb1]
    exact ⟨by simp [memcmp_eq_lexcmp], by
      simp only [List.length_map, List.length_take, List.length_drop]; omega⟩

theorem row_key_length (cols : List (ColMeta × OrderByDir)) (a b : Bytes)
    (ha : ∀ c ∈ cols, sortable_by c.1 a = true) (hb : ∀ c ∈ cols, sortable_by c.1 b = true) :
    (row_key cols a).length = (row_key cols b).length := by
  induction cols with
  | nil => rfl
  | cons c rest ih =>
    have hc := (ix_compare_raw_sort_key c.1 a b (ha c (List.mem_cons_self _ _))
      (hb c (List.mem_cons_self _ _))).2
    have ih1 := ih (fun c hc => ha c (List.mem_cons_of_mem _ hc))
      (fun c hc => hb c (List.mem_cons_of_mem _ hc))
    unfold row_key
    split_ifs <;> simp [hc, ih1]

/-- The comparison of the code on two tuples that can be ordered by the
columns: the first goes before the second when its run of values is the
greater one. -/
theorem sort_before_row_key (cols : List (ColMeta × OrderByDir)) (a b : Bytes)
    (ha : ∀ c ∈ cols, sortable_by c.1 a = true) (hb : ∀ c ∈ cols, sortable_by c.1 b = true) :
    sort_before cols a b = some (decide (lexcmp (row_key cols a) (row_key cols b) > 0)) := by
  induction cols with
  | nil => simp [sort_before, row_key, lexcmp]
  | cons c rest ih =>
    obtain ⟨hc, hlen⟩ := ix_compare_raw_sort_key c.1 a b (ha c (List.mem_cons_self _ _))
      (hb c (List.mem_cons_self _ _))
    have ih1 := ih (fun c hc => ha c (List.mem_cons_of_mem _ hc))
      (fun c hc => hb c (List.mem_cons_of_mem _ hc))
    unfold sort_before row_key
    rw [hc]
    simp only []
    by_cases hd : c.2 = OrderByDir.OrderBy_DESC
    · simp only [hd, if_true]
      rw [lexcmp_append _ _ _ _ (by simpa using hlen), lexcmp_neg]
      by_cases h0 : lexcmp (sort_key c.1 a) (sort_key c.1 b) = 0
      · simp [h0, ih1]
      · simp [h0]
    · simp only [hd, if_false]
      rw [lexcmp_append _ _ _ _ hlen]
      by_cases h0 : lexcmp (sort_key c.1 a) (sort_key c.1 b) = 0
      · simp [h0, ih1]
      · simp [h0]

/-- The order of the specification on two tuples that can be ordered by the
columns: the run of values of the first is not the greater one. -/
theorem OrderedBy_row_key (cols : List (ColMeta × OrderByDir)) (a b : Bytes)
    (ha : ∀ c ∈ cols, sortable_by c.1 a = true) (hb : ∀ c ∈ cols, sortable_by c.1 b = true) :
    OrderedBy cols a b ↔ lexcmp (row_key cols a) (row_key cols b) ≤ 0 := by
  induction cols with
  | nil => simp [OrderedBy, row_key, lexcmp]
  | cons c rest ih =>
    obtain ⟨hc, hlen⟩ := ix_compare_raw_sort_key c.1 a b (ha c (List.mem_cons_self _ _))
      (hb c (List.mem_cons_self _ _))
    have ih1 := ih (fun c hc => ha c (List.mem_cons_of_mem _ hc))
      (fun c hc => hb c (List.mem_cons_of_mem _ hc))
    unfold OrderedBy row_key
    rw [hc]
    simp only []
    by_cases hd : c.2 = OrderByDir.OrderBy_DESC
    · simp only [hd, if_true]
      rw [lexcmp_append _ _ _ _ (by simpa using hlen), lexcmp_neg]
      by_cases h0 : lexcmp (sort_key c.1 a) (sort_key c.1 b) = 0
      · simp [h0, ih1]
      · simp [h0]
        omega
    · simp only [hd, if_false]
      rw [lexcmp_append _ _ _ _ hlen]
      by_cases h0 : lexcmp (sort_key c.1 a) (sort_key c.1 b) = 0
      · simp [h0, ih1]
      · simp [h0]
        omega

theorem sorted_orderedInsert_on {α : Type} (r : α → α → Prop) [DecidableRel r] (P : α → Prop)
    (htot : ∀ a b, P a → P b → r a b ∨ r b a)
    (htr : ∀ a b c, P a → P b → P c → r a b → r b c → r a c) (a : α) (ha : P a) :
    ∀ l : List α, (∀ x ∈ l, P x) → l.Sorted r → (l.orderedInsert r a).Sorted r
  | [], _, _ => by simp
  | b :: l, hl, hs => by
    have hb : P b := hl b (List.mem_cons_self _ _)
    have hl1 : ∀ x ∈ l, P x := fun x hx => hl x (List.mem_cons_of_mem _ hx)
    rw [List.orderedInsert]
    split_ifs with h
    · refine List.sorted_cons.mpr ⟨fun x hx => ?_, hs⟩
      rcases List.mem_cons.mp hx with rfl | hx
      · exact h
      · exact htr a b x ha hb (hl1 x hx) h (List.rel_of_sorted_cons hs x hx)
    · refine List.sorted_cons.mpr ⟨fun x hx => ?_,
        sorted_orderedInsert_on r P htot htr a ha l hl1 (List.sorted_cons.mp hs).2⟩
      rcases (List.mem_orderedInsert r).mp hx with rfl | hx
      · exact (htot _ _ ha hb).resolve_left h
      · exact List.rel_of_sorted_cons hs x hx

theorem sorted_insertionSort_on {α : Type} (r : α → α → Prop) [DecidableRel r] (P : α → Prop)
    (htot : ∀ a b, P a → P b → r a b ∨ r b a)
    (htr : ∀ a b c, P a → P b → P c → r a b → r b c → r a c) :
    ∀ l : List α, (∀ x ∈ l, P x) → (l.insertionSort r).Sorted r
  | [], _ => by simp
  | a :: l, hl => by
    rw [List.insertionSort_cons_eq_take_drop]
    rw [← List.orderedInsert_eq_take_drop]
    refine sorted_orderedInsert_on r P htot htr a (hl a (List.mem_cons_self _ _)) _ ?_
      (sorted_insertionSort_on r P htot htr l (fun x hx => hl x (List.mem_cons_of_mem _ hx)))
    intro x hx
    exact hl x (List.mem_cons_of_mem _ ((List.perm_insertionSort r l).mem_iff.mp hx))

/-- On tuples that can be ordered by the columns `std::sort` returns: the
range holds the same tuples after it, and read from the back it is in the
order of the specification. -/
theorem std_sort_spec (cols : List (ColMeta × OrderByDir)) (l : List Bytes)
    (hl : ∀ t ∈ l, ∀ c ∈ cols, sortable_by c.1 t = true) :
    ∃ s, std_sort (sort_before cols) l = some s ∧ s.reverse.Perm l ∧
      s.reverse.Pairwise (OrderedBy cols) := by
  have hdef : l.all (fun a => l.all (fun b => (sort_before cols a b).isSome)) = true := by
    simp only [List.all_eq_true]
    intro a ha b hb
    rw [sort_before_row_key cols a b (hl a ha) (hl b hb)]
    rfl
  refine ⟨l.insertionSort (fun a b => sort_before cols b a = some false), ?_, ?_, ?_⟩
  · unfold std_sort
    rw [if_pos hdef]
  · exact (List.reverse_perm _).trans (List.perm_insertionSort _ _)
  · have hrel : ∀ a b, (∀ c ∈ cols, sortable_by c.1 a = true) →
        (∀ c ∈ cols, sortable_by c.1 b = true) →
        (sort_before cols b a = some false ↔ lexcmp (row_key cols b) (row_key cols a) ≤ 0) := by
      intro a b ha hb
      rw [sort_before_row_key cols b a hb ha]
      simp
    have hs := sorted_insertionSort_on (fun a b => sort_before cols b a = some false)
      (fun t => ∀ c ∈ cols, sortable_by c.1 t = true)
      (fun a b ha hb => by
        show sort_before cols b a = some false ∨ sort_before cols a b = some false
        rw [hrel a b ha hb, hrel b a hb ha, lexcmp_swap (row_key cols b) (row_key cols a)]
        omega)
      (fun a b c ha hb hc h1 h2 => by
        show sort_before cols c a = some false
        change sort_before cols b a = some false at h1
        change sort_before cols c b = some false at h2
        rw [hrel a b ha hb] at h1
        rw [hrel b c hb hc] at h2
        rw [hrel a c ha hc]
        exact lexcmp_le_trans _ _ _ (row_key_length cols c b hc hb)
          (row_key_length cols b a hb ha) h2 h1)
      l hl
    rw [List.pairwise_reverse]
    refine List.Pairwise.imp_of_mem ?_ hs
    intro a b ha hb h
    have ha1 := hl a ((List.perm_insertionSort _ l).mem_iff.mp ha)
    have hb1 := hl b ((List.perm_insertionSort _ l).mem_iff.mp hb)
    rw [OrderedBy_row_key cols b a hb1 ha1]
    exact (hrel a b ha1 hb1).mp h

/-- C30 (amended): when every tuple of the child holds the bytes of every
ORDER BY column and no FLOAT column of the ORDER BY list holds a NaN in any
tuple, `beginTuple` over the tuples of the child returns, and `get_block`
then returns a permutation of the tuples of the child that is in the order
of the ORDER BY list (earliest column most significant, ascending under
`ix_compare` for an ASC or default column, descending for a DESC column),
cut to its first `limit` tuples when the limit is not negative: to nothing
when the limit is 0. -/
theorem sort_get_block_sorted (sort_cols : List (ColMeta × OrderByDir)) (limit : Int)
    (child : List Bytes)
    (hchild : ∀ t ∈ child, ∀ c ∈ sort_cols, sortable_by c.1 t = true) :
    ∃ (e : SortExecutor) (sorted : List Bytes),
      beginTuple (new sort_cols limit) child = some e ∧ sorted.Perm child ∧
      sorted.Pairwise (OrderedBy sort_cols) ∧
      (get_block e).1 = if limit < 0 then sorted else sorted.take limit.toNat := by
  obtain ⟨s, hsort, hp, hs⟩ := std_sort_spec sort_cols child hchild
  by_cases h : limit = 0
  · subst h
    exact ⟨new sort_cols 0, s.reverse, rfl, hp, hs, rfl⟩
  · have hb : beginTuple (new sort_cols limit) child =
        some { sort_cols_ := sort_cols, limit_ := limit, has_limit := decide (limit > 0),
               tuple_num := child.length, all_tuples := s } := by
      unfold beginTuple new
      rw [if_neg h]
      cases child with
      | nil =>
        have : s = [] := by
          simpa [std_sort] using hsort.symm
        subst this
        by_cases hl : limit > 0 <;> simp [hl]
      | cons x xs =>
        by_cases hl : limit > 0 <;> simp [hl, hsort]
    refine ⟨_, s.reverse, hb, hp, hs, ?_⟩
    unfold get_block
    simp only [decide_eq_true_eq]
    by_cases hl : limit > 0
    · have hn : ¬ limit < 0 := by omega
      simp only [hl, true_and, if_neg hn]
      split
      · rfl
      · rename_i hlen
        symm
        apply List.take_of_length_le
        have : ((s.reverse.length : Nat) : Int) ≤ limit := by omega
        omega
    · have hn : limit < 0 := by omega
      simp only [hl, false_and, if_false, if_pos hn]

/-- Witness for C30 (amended): five tuples of `t(id INT, name CHAR(2),
score FLOAT)` ordered by `name DESC, score, id` with the limit 4. -/
theorem sort_get_block_sorted_witness :
    (∀ t ∈ five_tuples, ∀ c ∈ name_score_id, sortable_by c.1 t = true) ∧
    (beginTuple (new name_score_id 4) five_tuples).map (fun e => (get_block e).1)
      = some first_four_sorted ∧
    ∃ (e : SortExecutor) (sorted : List Bytes),
      beginTuple (new name_score_id 4) five_tuples = some e ∧ sorted.Perm five_tuples ∧
      sorted.Pairwise (OrderedBy name_score_id) ∧
      (get_block e).1 = if (4 : Int) < 0 then sorted else sorted.take (4 : Int).toNat :=
  ⟨by decide, by decide, sort_get_block_sorted name_score_id 4 five_tuples (by decide)⟩

/-- C30 (counterexample): the limit 0 is not positive, yet `get_block`
returns nothing; here the child yields one tuple, and the block is not a
permutation of it. -/
theorem sort_limit_zero_returns_nothing :
    (beginTuple (new [(⟨"t", "id", ColType.TYPE_INT, 4, 0⟩, OrderByDir.OrderBy_ASC)] 0)
        [int32_bytes 1]).map (fun e => (get_block e).1) = some [] ∧
    ¬ ([] : List Bytes).Perm [int32_bytes 1] := by
  refine ⟨rfl, ?_⟩
  intro h
  have := h.length_eq
  simp at this

end SortExecutor

end RMDB
namespace RMDB

open LogCodec

/-! ## The nested-loop join on DATETIME columns -/

/-- C31, failing input: the join of `a(d DATETIME)` and `b(e DATETIME)` on
`a.d = b.e`, with one row in each table that holds 2024-02-29 12:30:45.  The
two column values compare equal under `ix_compare`, so the pair qualifies,
and `beginTuple` throws instead: `setDict` stores the outer value with
`set_str`, which gives it the type STRING, and `eval_cond` throws
`IncompatibleTypeError` for a STRING value against a DATETIME column.  The
same loops on `a(x INT)`, `b(y INT)` and `a.x = b.y` return the qualifying
pairs in the order of the outer and then of the inner position. -/
theorem join_on_datetime_columns_throws (junk : Nat → Nat) :
    ix_compare_raw leap_day leap_day ColType.TYPE_DATETIME 19 = some 0 ∧
    datetime_join.run [leap_day] [leap_day] junk = Except.error Fault.thrown ∧
    int_join.run [int32_bytes 1, int32_bytes 2, int32_bytes 3]
        [int32_bytes 2, int32_bytes 3, int32_bytes 2, int32_bytes 7] junk =
      Except.ok [int32_bytes 2 ++ int32_bytes 2, int32_bytes 2 ++ int32_bytes 2,
        int32_bytes 3 ++ int32_bytes 3] := by
  refine ⟨by decide, rfl, rfl⟩

end RMDB
namespace RMDB

open LogCodec

/-! ## The Aggregate executor over a join and over narrow tuples -/

/-- C32, failing inputs.  (a) The child is the join of `a(x INT)` with the
row 7 and `b(y INT)` with the rows 7, 7, 5 on `a.x = b.y`; its result has two
tuples, and the output of COUNT carries 1: `beginTuple` calls `Next` of the
join, which moves the join past its first pair, before `get_block` counts
what is left.  (b) The child is a scan of `t(s CHAR(2))` with two rows; the
`memcpy` of the four bytes of the count into the record of two bytes writes
past its end.  On a scan of `t(k CHAR(1), c INT)` with the rows (A, 7),
(B, 2147483647), (C, -9), (D, 8) the outputs are as claimed: the count 4 at
the start of the first tuple, the sum 2147483653 in 32 bits, which is
-2147483643, in the column of the last tuple, the tuple (B, 2147483647) for
MAX and the tuple (C, -9) for MIN. -/
theorem aggregate_count_over_join_and_narrow_tuples :
    join_child.result zero_junk =
        Except.ok [int32_bytes 7 ++ int32_bytes 7, int32_bytes 7 ++ int32_bytes 7] ∧
      (AggreExecutor.new AggregationType.COUNT no_col zero_junk).output join_child zero_junk
          no_float_sum = Except.ok (some (int32_bytes 1 ++ int32_bytes 7)) ∧
    (AggreExecutor.new AggregationType.COUNT no_col zero_junk).output narrow_child zero_junk
        no_float_sum = Except.error Fault.crashed ∧
    (AggreExecutor.new AggregationType.COUNT no_col zero_junk).output wide_child zero_junk
        no_float_sum = Except.ok (some (int32_bytes 4 ++ [0])) ∧
    (AggreExecutor.new AggregationType.SUM int_col_at_1 zero_junk).output wide_child zero_junk
        no_float_sum = Except.ok (some ([68] ++ int32_bytes (-2147483643))) ∧
    (AggreExecutor.new AggregationType.MAX int_col_at_1 zero_junk).output wide_child zero_junk
        no_float_sum = Except.ok (some ([66] ++ int32_bytes 2147483647)) ∧
    (AggreExecutor.new AggregationType.MIN int_col_at_1 zero_junk).output wide_child zero_junk
        no_float_sum = Except.ok (some ([67] ++ int32_bytes (-9))) := by
  refine ⟨by decide, by decide, by decide, by decide, by decide, by decide, by decide⟩

end RMDB
